import Mathlib

/-!
# mini-os: thread kernel, keyboard and timer

A shallow embedding of the thread management and scheduling code of
`src/day99_completed/src/kernel.c`, of the keyboard code of
`src/day99_completed/src/keyboard.c`, and, in the namespaces `Day10` and
`Day12`, of the time slice of `src/day10_completed/kernel.c` and of the
interrupt table and the blocking keyboard read of `src/day12_completed/src`.

* A `thread_t*` always points into the static array `threads[MAX_THREADS]`
  of `create_thread`, so a non-null pointer is a slot index `Fin MAX_THREADS`
  and a pointer is an `Option` of it (`none` is `NULL`).
* `uint32_t` values are natural numbers, reduced modulo `2^32` where the C
  arithmetic can wrap.
* Functions that follow links return an `Exec`: following a `NULL` link is
  `Fault.null_deref`, and a `while` loop without a bound of its own is run
  on fuel and gives `Fault.out_of_fuel` when the fuel does not suffice.
* `cli` / `sti`, the debug log and port output do not touch the kernel data
  and are left out of the kernel functions, each of which is one atomic step
  on the data; where the interrupt-enable flag or the port writes matter
  (`Cpu`, `Day12.Machine`, `outb`) they are explicit state.
-/

namespace MiniOS

/-! ## Constants (`include/kernel.h`) -/

abbrev MAX_THREADS : Nat := 4

def THREAD_STACK_SIZE : Nat := 1024

def MAX_COUNTER_VALUE : Nat := 65535

def VGA_HEIGHT : Int := 25

def EFLAGS_INTERRUPT_ENABLE : Nat := 0x202

/-- Number of values of a `uint32_t`. -/
def UINT32_RANGE : Nat := 2 ^ 32

/-- The size in bytes of `thread_t` on the 32-bit target: 1024 stack words and
ten 4-byte fields. -/
def SIZEOF_THREAD_T : Nat := 4 * THREAD_STACK_SIZE + 40

/-! ## Types (`include/kernel.h`, `include/error_types.h`) -/

inductive thread_state_t where
  | THREAD_READY
  | THREAD_RUNNING
  | THREAD_BLOCKED
  deriving DecidableEq, Repr

inductive block_reason_t where
  | BLOCK_REASON_NONE
  | BLOCK_REASON_TIMER
  | BLOCK_REASON_KEYBOARD
  deriving DecidableEq, Repr

inductive os_result_t where
  | OS_SUCCESS
  | OS_ERROR_NULL_POINTER
  | OS_ERROR_INVALID_PARAMETER
  | OS_ERROR_OUT_OF_MEMORY
  | OS_ERROR_INVALID_STATE
  deriving DecidableEq, Repr

open thread_state_t block_reason_t os_result_t

/-- A non-null `thread_t*`: the index of a slot of `threads[MAX_THREADS]`. -/
abbrev tid := Fin MAX_THREADS

/-- The thread control block. -/
structure thread_t where
  stack : Nat → Nat
  state : thread_state_t
  counter : Nat
  delay_ticks : Nat
  last_tick : Nat
  block_reason : block_reason_t
  wake_up_tick : Nat
  display_row : Int
  next_ready : Option tid
  next_blocked : Option tid
  esp : Nat

/-- The kernel context `k_context`. -/
structure kernel_context_t where
  current_thread : Option tid
  ready_thread_list : Option tid
  blocked_thread_list : Option tid
  system_ticks : Nat
  scheduler_lock_count : Int

/-- The kernel data: `k_context` and the two statics of `create_thread`. -/
structure Kernel where
  k_context : kernel_context_t
  threads : tid → thread_t
  thread_count : Nat

/-- Why a function did not return. -/
inductive Fault where
  | null_deref
  | out_of_fuel
  deriving DecidableEq, Repr

abbrev Exec (α : Type) := Except Fault α

/-- A zero-initialised `thread_t` (static storage). -/
def zero_thread : thread_t :=
  { stack := fun _ => 0, state := THREAD_READY, counter := 0, delay_ticks := 0,
    last_tick := 0, block_reason := BLOCK_REASON_NONE, wake_up_tick := 0,
    display_row := 0, next_ready := none, next_blocked := none, esp := 0 }

/-- The data after `init_kernel_context`, with the statics of `create_thread`
still zero. -/
def init_kernel_context : Kernel :=
  { k_context :=
      { current_thread := none, ready_thread_list := none,
        blocked_thread_list := none, system_ticks := 0,
        scheduler_lock_count := 0 },
    threads := fun _ => zero_thread,
    thread_count := 0 }

/-- The store `threads[t] = v`. -/
def set_thread (k : Kernel) (t : tid) (v : thread_t) : Kernel :=
  { k with threads := fun j => if j = t then v else k.threads j }

/-- The store `k_context = c`. -/
def set_context (k : Kernel) (c : kernel_context_t) : Kernel :=
  { k with k_context := c }

/-- The store `t->state = x`. -/
def set_state (k : Kernel) (t : tid) (x : thread_state_t) : Kernel :=
  set_thread k t { k.threads t with state := x }

/-- The store `t->block_reason = x`. -/
def set_block_reason (k : Kernel) (t : tid) (x : block_reason_t) : Kernel :=
  set_thread k t { k.threads t with block_reason := x }

/-- The store `t->wake_up_tick = x`. -/
def set_wake_up_tick (k : Kernel) (t : tid) (x : Nat) : Kernel :=
  set_thread k t { k.threads t with wake_up_tick := x }

/-- The store `t->next_ready = x`. -/
def set_next_ready (k : Kernel) (t : tid) (x : Option tid) : Kernel :=
  set_thread k t { k.threads t with next_ready := x }

/-- The store `t->next_blocked = x`. -/
def set_next_blocked (k : Kernel) (t : tid) (x : Option tid) : Kernel :=
  set_thread k t { k.threads t with next_blocked := x }

/-- The store `ctx->current_thread = x`. -/
def set_current_thread (k : Kernel) (x : Option tid) : Kernel :=
  set_context k { k.k_context with current_thread := x }

/-- The store `ctx->ready_thread_list = x`. -/
def set_ready_thread_list (k : Kernel) (x : Option tid) : Kernel :=
  set_context k { k.k_context with ready_thread_list := x }

/-- The store `ctx->blocked_thread_list = x`. -/
def set_blocked_thread_list (k : Kernel) (x : Option tid) : Kernel :=
  set_context k { k.k_context with blocked_thread_list := x }

/-- The store `ctx->system_ticks = x`. -/
def set_system_ticks (k : Kernel) (x : Nat) : Kernel :=
  set_context k { k.k_context with system_ticks := x }

/-- The store `ctx->scheduler_lock_count = x`. -/
def set_scheduler_lock_count (k : Kernel) (x : Int) : Kernel :=
  set_context k { k.k_context with scheduler_lock_count := x }

/-! ## Thread creation -/

/-- The function `validate_thread_params`: the result and the value left in
`*delay_ticks`. A function pointer is a number, `0` being `NULL`. -/
def validate_thread_params (func : Nat) (display_row : Int) (delay_ticks : Nat) :
    os_result_t × Nat :=
  if func = 0 then (OS_ERROR_NULL_POINTER, delay_ticks)
  else if display_row < 0 ∨ display_row ≥ VGA_HEIGHT then
    (OS_ERROR_INVALID_PARAMETER, delay_ticks)
  else if delay_ticks = 0 then (OS_SUCCESS, 1)
  else (OS_SUCCESS, delay_ticks)

/-- The store `*--sp = v` on the stack words: the new `sp` (a word index) and
the new stack. -/
def push_word (sp : Nat) (stack : Nat → Nat) (v : Nat) : Nat × (Nat → Nat) :=
  (sp - 1, fun i => if i = sp - 1 then v else stack i)

/-- The function `initialize_thread_stack`. `stack_addr` is the address of
`thread->stack[0]`; `sp` is kept as a word index into the stack. -/
def initialize_thread_stack (stack_addr : Nat) (thread : thread_t) (func : Nat) :
    thread_t :=
  let s0 := push_word THREAD_STACK_SIZE thread.stack (func % UINT32_RANGE)
  let s1 := push_word s0.1 s0.2 EFLAGS_INTERRUPT_ENABLE
  let s2 := push_word s1.1 s1.2 0
  let s3 := push_word s2.1 s2.2 0
  let s4 := push_word s3.1 s3.2 0
  let s5 := push_word s4.1 s4.2 0
  let s6 := push_word s5.1 s5.2 0
  let s7 := push_word s6.1 s6.2 0
  let s8 := push_word s7.1 s7.2 0
  { thread with stack := s8.2, esp := (stack_addr + 4 * s8.1) % UINT32_RANGE }

/-- The function `configure_thread_attributes`. -/
def configure_thread_attributes (thread : thread_t) (delay_ticks : Nat)
    (display_row : Int) : thread_t :=
  { thread with
    state := THREAD_READY, counter := 0, delay_ticks := delay_ticks,
    last_tick := 0, display_row := display_row, next_ready := none }

/-- The `while` loop of `add_thread_to_ready_list`, with `r` the distance of
`safety_counter` from `MAX_THREADS`: gives the final `last` and the final
distance. -/
def find_last (threads : tid → thread_t) (head : tid) : Nat → tid → Exec (tid × Nat)
  | 0, last => .ok (last, 0)
  | r + 1, last =>
    match (threads last).next_ready with
    | none => .error Fault.null_deref
    | some n => if n = head then .ok (last, r + 1) else find_last threads head r n

/-- The function `add_thread_to_ready_list`. -/
def add_thread_to_ready_list (thread : tid) (k : Kernel) : Exec (os_result_t × Kernel) :=
  match k.k_context.ready_thread_list with
  | none =>
    let k1 := set_ready_thread_list k (some thread)
    .ok (OS_SUCCESS, set_next_ready k1 thread (some thread))
  | some head =>
    match find_last k.threads head MAX_THREADS head with
    | .error e => .error e
    | .ok (last, r) =>
      if r = 0 then .ok (OS_ERROR_INVALID_STATE, k)
      else
        let k1 := set_next_ready k thread k.k_context.ready_thread_list
        .ok (OS_SUCCESS, set_next_ready k1 last (some thread))

/-- The address of `threads[i].stack[0]`, for `threads` placed at `threads_addr`. -/
def stack_address (threads_addr : Nat) (i : tid) : Nat :=
  threads_addr + i.val * SIZEOF_THREAD_T

/-- The function `create_thread`: the result, the value left in `*out_thread`
and the new data. `out_thread` tells whether the out pointer is non-null. -/
def create_thread (threads_addr : Nat) (func : Nat) (delay_ticks : Nat)
    (display_row : Int) (out_thread : Bool) (k : Kernel) :
    Exec (os_result_t × Option tid × Kernel) :=
  if out_thread = false then .ok (OS_ERROR_NULL_POINTER, none, k)
  else
    let v := validate_thread_params func display_row delay_ticks
    if v.1 ≠ OS_SUCCESS then .ok (v.1, none, k)
    else if h : k.thread_count < MAX_THREADS then
      let thread : tid := ⟨k.thread_count, h⟩
      let k1 : Kernel := { k with thread_count := k.thread_count + 1 }
      let k2 := set_thread k1 thread
        (initialize_thread_stack (stack_address threads_addr thread) (k1.threads thread) func)
      let k3 := set_thread k2 thread
        (configure_thread_attributes (k2.threads thread) v.2 display_row)
      match add_thread_to_ready_list thread k3 with
      | .error e => .error e
      | .ok (r, k4) =>
        if r ≠ OS_SUCCESS then
          .ok (r, none, { k4 with thread_count := k4.thread_count - 1 })
        else .ok (OS_SUCCESS, some thread, k4)
    else .ok (OS_ERROR_OUT_OF_MEMORY, none, k)

/-! ## Ready ring and blocked list -/

/-- The `while` loop of `remove_from_ready_list`: the `prev` it stops at. -/
def find_prev (threads : tid → thread_t) (thread : tid) : Nat → Option tid → Exec tid
  | _, none => .error Fault.null_deref
  | 0, some _ => .error Fault.out_of_fuel
  | fuel + 1, some prev =>
    if (threads prev).next_ready = some thread then .ok prev
    else find_prev threads thread fuel (threads prev).next_ready

/-- The function `remove_from_ready_list`. -/
def remove_from_ready_list (fuel : Nat) (thread : tid) (k : Kernel) : Exec Kernel :=
  if k.k_context.ready_thread_list = some thread ∧
      (k.threads thread).next_ready = some thread then
    .ok (set_ready_thread_list k none)
  else
    match find_prev k.threads thread fuel k.k_context.ready_thread_list with
    | .error e => .error e
    | .ok prev =>
      let k1 := set_next_ready k prev (k.threads thread).next_ready
      if k1.k_context.ready_thread_list = some thread then
        .ok (set_ready_thread_list k1 (k1.threads thread).next_ready)
      else .ok k1

/-- The `while` loop of the timer branch of `block_current_thread`, which
stops at the entry to insert after. -/
def find_timer_slot (threads : tid → thread_t) (thread : tid) : Nat → tid → Exec tid
  | 0, _ => .error Fault.out_of_fuel
  | fuel + 1, current =>
    match (threads current).next_blocked with
    | none => .ok current
    | some n =>
      if (threads n).wake_up_tick ≤ (threads thread).wake_up_tick then
        find_timer_slot threads thread fuel n
      else .ok current

/-- The `while` loop of the FIFO branch of `block_current_thread`, which stops
at the last entry. -/
def find_blocked_tail (threads : tid → thread_t) : Nat → tid → Exec tid
  | 0, _ => .error Fault.out_of_fuel
  | fuel + 1, current =>
    match (threads current).next_blocked with
    | none => .ok current
    | some n => find_blocked_tail threads fuel n

/-- Step 3 of `block_current_thread`: the insertion of `thread` into the
blocked list. -/
def insert_blocked (fuel : Nat) (thread : tid) (reason : block_reason_t) (data : Nat)
    (k : Kernel) : Exec Kernel :=
  if reason = BLOCK_REASON_TIMER then
    let k3 := set_wake_up_tick k thread data
    match k3.k_context.blocked_thread_list with
    | none =>
      let k4 := set_next_blocked k3 thread k3.k_context.blocked_thread_list
      .ok (set_blocked_thread_list k4 (some thread))
    | some head =>
      if (k3.threads thread).wake_up_tick < (k3.threads head).wake_up_tick then
        let k4 := set_next_blocked k3 thread k3.k_context.blocked_thread_list
        .ok (set_blocked_thread_list k4 (some thread))
      else
        match find_timer_slot k3.threads thread fuel head with
        | .error e => .error e
        | .ok current =>
          let k4 := set_next_blocked k3 thread (k3.threads current).next_blocked
          .ok (set_next_blocked k4 current (some thread))
  else
    match k.k_context.blocked_thread_list with
    | none => .ok (set_blocked_thread_list k (some thread))
    | some head =>
      match find_blocked_tail k.threads fuel head with
      | .error e => .error e
      | .ok current => .ok (set_next_blocked k current (some thread))

/-- The function `block_current_thread`. -/
def block_current_thread (fuel : Nat) (reason : block_reason_t) (data : Nat) (k : Kernel) :
    Exec Kernel :=
  match k.k_context.current_thread with
  | none => .ok k
  | some thread =>
    match remove_from_ready_list fuel thread k with
    | .error e => .error e
    | .ok k1 =>
      let k2 := set_state k1 thread THREAD_BLOCKED
      let k2 := set_block_reason k2 thread reason
      let k2 := set_next_blocked k2 thread none
      insert_blocked fuel thread reason data k2

/-- The first statement of `unblock_and_requeue_thread`: the removal of
`thread` from the blocked list, `prev` being the entry before it. -/
def unlink_blocked (thread : tid) (prev : Option tid) (k : Kernel) : Kernel :=
  match prev with
  | some p => set_next_blocked k p (k.threads thread).next_blocked
  | none => set_blocked_thread_list k (k.threads thread).next_blocked

/-- The function `unblock_and_requeue_thread`; the result of
`add_thread_to_ready_list` is dropped, as in the source. -/
def unblock_and_requeue_thread (thread : tid) (prev : Option tid) (k : Kernel) :
    Exec Kernel :=
  let k1 := unlink_blocked thread prev k
  let k2 := set_state k1 thread THREAD_READY
  let k2 := set_block_reason k2 thread BLOCK_REASON_NONE
  let k2 := set_next_blocked k2 thread none
  match add_thread_to_ready_list thread k2 with
  | .error e => .error e
  | .ok (_, k3) => .ok k3

/-- The test of `check_and_wake_timer_threads` on an entry. -/
def timer_due (k : Kernel) (t : tid) : Bool :=
  decide ((k.threads t).block_reason = BLOCK_REASON_TIMER ∧
    (k.threads t).wake_up_tick ≤ k.k_context.system_ticks)

/-- The test of `unblock_keyboard_threads` on an entry. -/
def keyboard_waiting (k : Kernel) (t : tid) : Bool :=
  decide ((k.threads t).block_reason = BLOCK_REASON_KEYBOARD)

/-- The `while (current)` loop shared, up to the test on the entry, by
`check_and_wake_timer_threads` and `unblock_keyboard_threads`. -/
def wake_loop (test : Kernel → tid → Bool) :
    Nat → Option tid → Option tid → Kernel → Exec Kernel
  | _, none, _, k => .ok k
  | 0, some _, _, _ => .error Fault.out_of_fuel
  | fuel + 1, some current, prev, k =>
    let next := (k.threads current).next_blocked
    if test k current = true then
      match unblock_and_requeue_thread current prev k with
      | .error e => .error e
      | .ok k1 => wake_loop test fuel next prev k1
    else wake_loop test fuel next (some current) k

/-- The function `check_and_wake_timer_threads`. -/
def check_and_wake_timer_threads (fuel : Nat) (k : Kernel) : Exec Kernel :=
  wake_loop timer_due fuel k.k_context.blocked_thread_list none k

/-- The function `unblock_keyboard_threads`. -/
def unblock_keyboard_threads (fuel : Nat) (k : Kernel) : Exec Kernel :=
  wake_loop keyboard_waiting fuel k.k_context.blocked_thread_list none k

/-! ## Scheduler -/

/-- How a call of `schedule` ends. -/
inductive sched_exit where
  /-- `is_scheduler_locked()`: returned at once. -/
  | locked
  /-- The ready list is empty: returned. -/
  | no_ready
  /-- Reached `initial_context_switch(new_esp)`. -/
  | initial_switch (new_esp : Nat)
  /-- Reached `context_switch(&old->esp, new_esp)`. -/
  | switch (old : tid) (new_esp : Nat)
  /-- `perform_thread_switch` found no other ready thread: returned. -/
  | no_switch
  /-- `handle_blocked_thread_scheduling` entered its `hlt` loop. -/
  | idle
  deriving DecidableEq, Repr

/-- The function `acquire_scheduler_lock`. -/
def acquire_scheduler_lock (k : Kernel) : Kernel :=
  set_scheduler_lock_count k (k.k_context.scheduler_lock_count + 1)

/-- The function `release_scheduler_lock`. -/
def release_scheduler_lock (k : Kernel) : Kernel :=
  set_scheduler_lock_count k (k.k_context.scheduler_lock_count - 1)

/-- The function `is_scheduler_locked`. -/
def is_scheduler_locked (k : Kernel) : Bool :=
  decide (k.k_context.scheduler_lock_count > 0)

/-- The function `handle_initial_thread_selection`, up to the call of
`initial_context_switch`. -/
def handle_initial_thread_selection (k : Kernel) : Exec (sched_exit × Kernel) :=
  let k1 := set_current_thread k k.k_context.ready_thread_list
  match k1.k_context.current_thread with
  | none => .error Fault.null_deref
  | some c =>
    let k2 := set_state k1 c THREAD_RUNNING
    let k3 := release_scheduler_lock k2
    .ok (sched_exit.initial_switch (k3.threads c).esp, k3)

/-- The `while` loop of `perform_thread_switch`: the thread to switch to, if
the search finds one. -/
def find_next_ready (threads : tid → thread_t) (old_thread : tid)
    (search_start : Option tid) : Nat → Option tid → Exec (Option tid)
  | _, none => .ok none
  | 0, some _ => .error Fault.out_of_fuel
  | fuel + 1, some next =>
    if next = old_thread then .ok none
    else if (threads next).state = THREAD_READY then .ok (some next)
    else if (threads next).next_ready = search_start then .ok none
    else find_next_ready threads old_thread search_start fuel (threads next).next_ready

/-- The function `perform_thread_switch`, up to the call of `context_switch`. -/
def perform_thread_switch (fuel : Nat) (k : Kernel) : Exec (sched_exit × Kernel) :=
  match k.k_context.current_thread with
  | none => .error Fault.null_deref
  | some old_thread =>
    let search_start := (k.threads old_thread).next_ready
    match find_next_ready k.threads old_thread search_start fuel search_start with
    | .error e => .error e
    | .ok none => .ok (sched_exit.no_switch, release_scheduler_lock k)
    | .ok (some next) =>
      let k1 := set_state k old_thread THREAD_READY
      let k2 := set_state k1 next THREAD_RUNNING
      let k3 := set_current_thread k2 (some next)
      let k4 := release_scheduler_lock k3
      .ok (sched_exit.switch old_thread (k4.threads next).esp, k4)

/-- The function `handle_blocked_thread_scheduling`, up to the call of
`context_switch` or to the entry of the `hlt` loop. -/
def handle_blocked_thread_scheduling (k : Kernel) : Exec (sched_exit × Kernel) :=
  match k.k_context.current_thread with
  | none => .error Fault.null_deref
  | some blocked_thread =>
    match k.k_context.ready_thread_list with
    | some head =>
      if (k.threads head).state = THREAD_READY then
        let k1 := set_state k head THREAD_RUNNING
        let k2 := set_current_thread k1 k1.k_context.ready_thread_list
        let k3 := release_scheduler_lock k2
        .ok (sched_exit.switch blocked_thread (k3.threads head).esp, k3)
      else .ok (sched_exit.idle, release_scheduler_lock k)
    | none => .ok (sched_exit.idle, release_scheduler_lock k)

/-- The function `schedule`. -/
def schedule (fuel : Nat) (k : Kernel) : Exec (sched_exit × Kernel) :=
  if is_scheduler_locked k = true then .ok (sched_exit.locked, k)
  else
    match check_and_wake_timer_threads fuel (acquire_scheduler_lock k) with
    | .error e => .error e
    | .ok k1 =>
      match k1.k_context.ready_thread_list with
      | none => .ok (sched_exit.no_ready, release_scheduler_lock k1)
      | some _ =>
        match k1.k_context.current_thread with
        | none => handle_initial_thread_selection k1
        | some c =>
          if (k1.threads c).state = THREAD_BLOCKED then handle_blocked_thread_scheduling k1
          else perform_thread_switch fuel k1

/-- The function `sleep`: `none` when it returns before blocking, else how
its call of `schedule` ends. -/
def sleep (fuel : Nat) (ticks : Nat) (k : Kernel) : Exec (Option sched_exit × Kernel) :=
  if ticks = 0 then .ok (none, k)
  else
    let ticks := if ticks > MAX_COUNTER_VALUE then MAX_COUNTER_VALUE else ticks
    match k.k_context.current_thread with
    | none => .ok (none, k)
    | some _ =>
      let wake_up_time := (k.k_context.system_ticks + ticks) % UINT32_RANGE
      match block_current_thread fuel BLOCK_REASON_TIMER wake_up_time k with
      | .error e => .error e
      | .ok k1 =>
        match schedule fuel k1 with
        | .error e => .error e
        | .ok (x, k2) => .ok (some x, k2)

/-- The function `timer_handler_c`. -/
def timer_handler_c (fuel : Nat) (k : Kernel) : Exec (sched_exit × Kernel) :=
  schedule fuel (set_system_ticks k ((k.k_context.system_ticks + 1) % UINT32_RANGE))

/-! ## Well-formed kernel data -/

/-- The link `t->next_ready`. -/
def next_ready_of (k : Kernel) (t : tid) : Option tid := (k.threads t).next_ready

/-- The link `t->next_blocked`. -/
def next_blocked_of (k : Kernel) (t : tid) : Option tid := (k.threads t).next_blocked

/-- Following the links `nxt` from the pointer `p` visits the entries of `l`,
in this order, and then arrives at the pointer `q`. -/
def Path (nxt : tid → Option tid) : Option tid → List tid → Option tid → Prop
  | p, [], q => p = q
  | p, a :: l, q => p = some a ∧ Path nxt (nxt a) l q

/-- The ready list of `k` is the ring `ring`: it is empty with a `NULL` head,
or the head is its first member and following `next_ready` from the head
visits each member once, in the order of `ring`, and returns to the head. -/
def ReadyRing (k : Kernel) (ring : List tid) : Prop :=
  k.k_context.ready_thread_list = ring.head? ∧
  Path (next_ready_of k) k.k_context.ready_thread_list ring
    k.k_context.ready_thread_list ∧
  ring.Nodup

/-- The blocked list of `k` is `blocked`: following `next_blocked` from the
head visits each entry once, in the order of `blocked`, and ends at `NULL`. -/
def BlockedList (k : Kernel) (blocked : List tid) : Prop :=
  Path (next_blocked_of k) k.k_context.blocked_thread_list blocked none ∧
  blocked.Nodup

/-- Timer entries of the blocked list are behind no entry of a later
`wake_up_tick`. -/
def TimerSorted (k : Kernel) (blocked : List tid) : Prop :=
  blocked.Pairwise (fun a b =>
    (k.threads b).block_reason = BLOCK_REASON_TIMER →
      (k.threads a).wake_up_tick ≤ (k.threads b).wake_up_tick)

/-- The kernel data is well formed, with ready ring `ring` and blocked list
`blocked`. -/
structure WellFormed (k : Kernel) (ring blocked : List tid) : Prop where
  ready_ok : ReadyRing k ring
  blocked_ok : BlockedList k blocked
  disjoint : ∀ t, t ∈ ring → t ∉ blocked
  created : ∀ t : tid, (t ∈ ring ∨ t ∈ blocked) ↔ t.val < k.thread_count
  ring_state : ∀ t, t ∈ ring → (k.threads t).state ≠ THREAD_BLOCKED
  blocked_state : ∀ t, t ∈ blocked → (k.threads t).state = THREAD_BLOCKED
  running : ∀ t, (k.threads t).state = THREAD_RUNNING → k.k_context.current_thread = some t
  current_created : ∀ c, k.k_context.current_thread = some c → c.val < k.thread_count
  timer_sorted : TimerSorted k blocked
  fresh : ∀ t : tid, k.thread_count ≤ t.val →
    (k.threads t).block_reason = BLOCK_REASON_NONE ∧ (k.threads t).next_blocked = none

/-- Between `k` and `k2` nothing but `next_ready` links and the head of the
ready list has changed. -/
def ReadyLinksOnly (k k2 : Kernel) : Prop :=
  k2.thread_count = k.thread_count ∧
  k2.k_context =
    { k.k_context with ready_thread_list := k2.k_context.ready_thread_list } ∧
  ∀ j, k2.threads j = { k.threads j with next_ready := (k2.threads j).next_ready }

/-- One call of a kernel function that returns or reaches a context switch.
A call that follows a `NULL` link or does not terminate makes no step. -/
inductive Step : Kernel → Kernel → Prop where
  | create_thread {k k' : Kernel} (threads_addr func delay_ticks : Nat) (display_row : Int)
      (out_thread : Bool) (r : os_result_t) (o : Option tid) :
      create_thread threads_addr func delay_ticks display_row out_thread k = .ok (r, o, k') →
      Step k k'
  | block_current_thread {k k' : Kernel} (fuel : Nat) (reason : block_reason_t) (data : Nat) :
      block_current_thread fuel reason data k = .ok k' → Step k k'
  | sleep {k k' : Kernel} (fuel ticks : Nat) (x : Option sched_exit) :
      sleep fuel ticks k = .ok (x, k') → Step k k'
  | schedule {k k' : Kernel} (fuel : Nat) (x : sched_exit) :
      schedule fuel k = .ok (x, k') → Step k k'
  | check_and_wake_timer_threads {k k' : Kernel} (fuel : Nat) :
      check_and_wake_timer_threads fuel k = .ok k' → Step k k'
  | unblock_keyboard_threads {k k' : Kernel} (fuel : Nat) :
      unblock_keyboard_threads fuel k = .ok k' → Step k k'
  | timer_handler_c {k k' : Kernel} (fuel : Nat) (x : sched_exit) :
      timer_handler_c fuel k = .ok (x, k') → Step k k'

/-- The kernel data reachable from `init_kernel_context` by calls of kernel
functions. -/
inductive Reachable : Kernel → Prop where
  | init : Reachable init_kernel_context
  | step {k k' : Kernel} : Reachable k → Step k k' → Reachable k'

/-- What the insertion into the blocked list keeps. -/
def InsertKeeps (k k2 : Kernel) (t : tid) (blocked : List tid) : Prop :=
  k2.thread_count = k.thread_count ∧
  k2.k_context.current_thread = k.k_context.current_thread ∧
  k2.k_context.ready_thread_list = k.k_context.ready_thread_list ∧
  k2.k_context.system_ticks = k.k_context.system_ticks ∧
  k2.k_context.scheduler_lock_count = k.k_context.scheduler_lock_count ∧
  next_ready_of k2 = next_ready_of k ∧
  (∀ j, (k2.threads j).state = (k.threads j).state ∧
    (k2.threads j).block_reason = (k.threads j).block_reason) ∧
  (∀ j, j ≠ t → (k2.threads j).wake_up_tick = (k.threads j).wake_up_tick) ∧
  (∀ j, j ≠ t → j ∉ blocked → (k2.threads j).next_blocked = (k.threads j).next_blocked)

/-- The test of a wake loop looks at nothing but the tick count and the
`block_reason` and `wake_up_tick` of the entry. -/
def TestStable (test : Kernel → tid → Bool) : Prop :=
  ∀ (k k2 : Kernel) (a : tid),
    k2.k_context.system_ticks = k.k_context.system_ticks →
    (k2.threads a).block_reason = (k.threads a).block_reason →
    (k2.threads a).wake_up_tick = (k.threads a).wake_up_tick →
    test k2 a = test k a

/-- The invariant of the kernel data between calls: the scheduler lock is
free and the data is well formed for some ready ring and blocked list. -/
def Inv (k : Kernel) : Prop :=
  k.k_context.scheduler_lock_count = 0 ∧ ∃ ring blocked, WellFormed k ring blocked

/-- The data that a call left, or the initial data if it did not return. -/
def data_of {α : Type} (r : Exec (α × Kernel)) : Kernel :=
  match r with
  | .ok (_, k) => k
  | .error _ => init_kernel_context

/-- The data after `create_thread(f, 1, 3, &t)` on the initial data. -/
def one_thread : Kernel :=
  match create_thread 0x200000 0x100000 1 3 true init_kernel_context with
  | .ok (_, _, k) => k
  | .error _ => init_kernel_context

/-- The data after the first `schedule()`: the only thread is running. -/
def one_running : Kernel := data_of (schedule 8 one_thread)

/-- The data after the running thread has called
`block_current_thread(BLOCK_REASON_TIMER, 5)`. -/
def one_blocked : Kernel :=
  match block_current_thread 8 BLOCK_REASON_TIMER 5 one_running with
  | .ok k => k
  | .error _ => init_kernel_context

/-- The data after the running thread has called `sleep(5)` instead. -/
def one_sleeping : Kernel := data_of (sleep 8 5 one_running)

/-- The data after a second `create_thread(g, 0, 4, &t)`. -/
def two_threads : Kernel :=
  match create_thread 0x200000 0x100040 0 4 true one_thread with
  | .ok (_, _, k) => k
  | .error _ => init_kernel_context

/-- Two threads after the first `schedule()`: thread 0 is running. -/
def two_running : Kernel := data_of (schedule 8 two_threads)

/-- Two threads after thread 0 has called `sleep(5)`: thread 1 is running. -/
def two_sleeping : Kernel := data_of (sleep 8 5 two_running)

/-- The data after a third `create_thread(h, 150, 14, &t)`. -/
def three_threads : Kernel :=
  match create_thread 0x200000 0x100080 150 14 true two_threads with
  | .ok (_, _, k) => k
  | .error _ => init_kernel_context

/-- The data after a fourth `create_thread(i, 200, 15, &t)`: the thread
array is full. -/
def full_kernel : Kernel :=
  match create_thread 0x200000 0x1000C0 200 15 true three_threads with
  | .ok (_, _, k) => k
  | .error _ => init_kernel_context

/-- The data inside a call of `schedule` (lock count 1) at tick 10, with
thread 0 asleep until tick 5 and so due. -/
def locked_kernel : Kernel :=
  set_system_ticks (set_scheduler_lock_count two_sleeping 1) 10

/-- Three threads after the first `schedule()`: thread 0 is running. -/
def three_running : Kernel := data_of (schedule 8 three_threads)

/-- Three threads after thread 0 has called `sleep(5)`: thread 1 is running. -/
def three_sleeping : Kernel := data_of (sleep 8 5 three_running)

/-- The data after thread 1 has then called
`block_current_thread(BLOCK_REASON_KEYBOARD, 0)`, as `getchar` does. -/
def three_keyed : Kernel :=
  match block_current_thread 8 BLOCK_REASON_KEYBOARD 0 three_sleeping with
  | .ok k => k
  | .error _ => init_kernel_context

/-- The data after the `schedule()` that follows in `getchar`: thread 0 is
asleep until tick 5, thread 1 waits for a key, thread 2 is running. -/
def three_waiting : Kernel := data_of (schedule 8 three_keyed)

/-- The same data at tick 10, when the sleep of thread 0 is over. -/
def three_due : Kernel := set_system_ticks three_waiting 10

/-- A run of `n` consecutive calls of `schedule`, each taken until it returns or
reaches a context switch. -/
def schedule_times (fuel : Nat) : Nat → Kernel → Exec Kernel
  | 0, k => .ok k
  | n + 1, k =>
    match schedule fuel k with
    | .error e => .error e
    | .ok (_, k1) => schedule_times fuel n k1

/-- Two threads after a second `schedule()`: thread 1 is running. -/
def two_switched : Kernel := data_of (schedule 8 two_running)

/-- The function `unblock_and_requeue_thread` together with the result of its
call of `add_thread_to_ready_list`, which the source drops. -/
def unblock_and_requeue_result (thread : tid) (prev : Option tid) (k : Kernel) :
    Exec (os_result_t × Kernel) :=
  let k1 := unlink_blocked thread prev k
  let k2 := set_state k1 thread THREAD_READY
  let k2 := set_block_reason k2 thread BLOCK_REASON_NONE
  let k2 := set_next_blocked k2 thread none
  add_thread_to_ready_list thread k2

/-- The wake loop together with the results of the calls of
`add_thread_to_ready_list` made in it, in the order of the calls. -/
def wake_loop_results (test : Kernel → tid → Bool) :
    Nat → Option tid → Option tid → Kernel → Exec (List os_result_t × Kernel)
  | _, none, _, k => .ok ([], k)
  | 0, some _, _, _ => .error Fault.out_of_fuel
  | fuel + 1, some current, prev, k =>
    let next := (k.threads current).next_blocked
    if test k current = true then
      match unblock_and_requeue_result current prev k with
      | .error e => .error e
      | .ok (r, k1) =>
        match wake_loop_results test fuel next prev k1 with
        | .error e => .error e
        | .ok (rs, k2) => .ok (r :: rs, k2)
    else wake_loop_results test fuel next (some current) k

/-- The data after the only thread, running, has called
`block_current_thread(BLOCK_REASON_KEYBOARD, 0)` in the loop of `getchar`. -/
def one_waiting : Kernel :=
  match block_current_thread 8 BLOCK_REASON_KEYBOARD 0 one_running with
  | .ok k => k
  | .error _ => init_kernel_context

/-- The data after the `schedule()` that follows in the loop of `getchar`. -/
def one_waited : Kernel := data_of (schedule 8 one_waiting)

/-! ## Keyboard (`src/keyboard.c`, `include/keyboard.h`) -/

def KEYBOARD_BUFFER_SIZE : Int := 256

def KEYBOARD_STATUS_OUTPUT_FULL : Nat := 0x01

def SCANCODE_RELEASE_MASK : Nat := 0x80

def SCANCODE_LEFT_SHIFT : Nat := 0x2A

def SCANCODE_RIGHT_SHIFT : Nat := 0x36

/-- The type `keyboard_buffer_t`. A `char` is given by its byte value and an
`int` index by its value; `buffer` is read and written at any index here, and
the indices are shown to stay inside `[0, KEYBOARD_BUFFER_SIZE)` below. -/
structure keyboard_buffer_t where
  buffer : Int → Nat
  head : Int
  tail : Int

/-- The table `scancode_to_ascii`, as byte values. -/
def scancode_to_ascii : List Nat :=
  [0, 27, 49, 50, 51, 52, 53, 54, 55, 56, 57, 48, 45, 61, 8,
   9, 113, 119, 101, 114, 116, 121, 117, 105, 111, 112, 91, 93, 10, 0,
   97, 115, 100, 102, 103, 104, 106, 107, 108, 59, 39, 96, 0, 92, 122,
   120, 99, 118, 98, 110, 109, 44, 46, 47, 0, 42, 0, 32]

/-- The table `scancode_to_ascii_shift`, as byte values. -/
def scancode_to_ascii_shift : List Nat :=
  [0, 27, 33, 64, 35, 36, 37, 94, 38, 42, 40, 41, 95, 43, 8,
   9, 81, 87, 69, 82, 84, 89, 85, 73, 79, 80, 123, 125, 10, 0,
   65, 83, 68, 70, 71, 72, 74, 75, 76, 58, 34, 126, 0, 124, 90,
   88, 67, 86, 66, 78, 77, 60, 62, 63, 0, 42, 0, 32]

/-- The function `init_keyboard_buffer`. -/
def init_keyboard_buffer (b : keyboard_buffer_t) : keyboard_buffer_t :=
  { b with head := 0, tail := 0 }

/-- The function `keyboard_buffer_put`; `%` of C on `int` is `Int.tmod`. -/
def keyboard_buffer_put (c : Nat) (b : keyboard_buffer_t) : keyboard_buffer_t :=
  let next_head := (b.head + 1).tmod KEYBOARD_BUFFER_SIZE
  if next_head = b.tail then b
  else { b with buffer := fun i => if i = b.head then c else b.buffer i, head := next_head }

/-- The function `keyboard_buffer_get`: the byte returned and the ring left. -/
def keyboard_buffer_get (b : keyboard_buffer_t) : Nat × keyboard_buffer_t :=
  if b.head = b.tail then (0, b)
  else (b.buffer b.tail, { b with tail := (b.tail + 1).tmod KEYBOARD_BUFFER_SIZE })

/-- The function `keyboard_buffer_is_empty`. -/
def keyboard_buffer_is_empty (b : keyboard_buffer_t) : Bool :=
  decide (b.head = b.tail)

/-- The function `keyboard_buffer_is_full`. -/
def keyboard_buffer_is_full (b : keyboard_buffer_t) : Bool :=
  decide ((b.head + 1).tmod KEYBOARD_BUFFER_SIZE = b.tail)

/-- The function `convert_scancode_to_ascii`; `none` is a read outside the
table, which has `sizeof(scancode_to_ascii)` entries. -/
def convert_scancode_to_ascii (scancode : Nat) (shift_pressed : Bool) : Option Nat :=
  if scancode ≥ scancode_to_ascii.length then some 0
  else if shift_pressed = true then scancode_to_ascii_shift[scancode]?
  else scancode_to_ascii[scancode]?

/-- The statics of `keyboard.c`. -/
structure keyboard_t where
  kbd_buffer : keyboard_buffer_t
  shift_pressed : Bool

/-- Why `keyboard_handler_c` did not return. -/
inductive kbd_fault where
  | out_of_bounds
  | kernel (f : Fault)

/-- The function `keyboard_handler_c`, with `status` the byte read from
`KEYBOARD_STATUS_PORT` and `scancode` the byte read from `KEYBOARD_DATA_PORT`.
The end-of-interrupt write to the interrupt controller and the debug output
are left out. -/
def keyboard_handler_c (fuel : Nat) (status scancode : Nat) (kb : keyboard_t) (k : Kernel) :
    Except kbd_fault (keyboard_t × Kernel) :=
  if status &&& KEYBOARD_STATUS_OUTPUT_FULL = 0 then .ok (kb, k)
  else if scancode &&& SCANCODE_RELEASE_MASK ≠ 0 then
    let key_code := scancode &&& 0x7F
    if key_code = SCANCODE_LEFT_SHIFT ∨ key_code = SCANCODE_RIGHT_SHIFT then
      .ok ({ kb with shift_pressed := false }, k)
    else .ok (kb, k)
  else if scancode = SCANCODE_LEFT_SHIFT ∨ scancode = SCANCODE_RIGHT_SHIFT then
    .ok ({ kb with shift_pressed := true }, k)
  else
    match convert_scancode_to_ascii scancode kb.shift_pressed with
    | none => .error kbd_fault.out_of_bounds
    | some ascii =>
      if ascii ≠ 0 then
        let kb1 := { kb with kbd_buffer := keyboard_buffer_put ascii kb.kbd_buffer }
        match unblock_keyboard_threads fuel k with
        | .error e => .error (kbd_fault.kernel e)
        | .ok k1 => .ok (kb1, k1)
      else .ok (kb, k)

/-- Calls of `keyboard_buffer_put`, one for each byte of a list, in order. -/
def put_all : List Nat → keyboard_buffer_t → keyboard_buffer_t
  | [], b => b
  | c :: cs, b => put_all cs (keyboard_buffer_put c b)

/-- The bytes returned by `n` calls of `keyboard_buffer_get`, in order, and
the ring left. -/
def get_all : Nat → keyboard_buffer_t → List Nat × keyboard_buffer_t
  | 0, b => ([], b)
  | n + 1, b =>
    ((keyboard_buffer_get b).1 :: (get_all n (keyboard_buffer_get b).2).1,
      (get_all n (keyboard_buffer_get b).2).2)

/-- A call on the keyboard ring. -/
inductive kbd_op where
  | put (c : Nat)
  | get

/-- The ring after a sequence of calls. -/
def run_ops : List kbd_op → keyboard_buffer_t → keyboard_buffer_t
  | [], b => b
  | kbd_op.put c :: ops, b => run_ops ops (keyboard_buffer_put c b)
  | kbd_op.get :: ops, b => run_ops ops (keyboard_buffer_get b).2

/-- The ring `b` holds the bytes `q`, oldest first: they are what the next
calls of `keyboard_buffer_get` return. -/
def Holds (b : keyboard_buffer_t) (q : List Nat) : Prop :=
  0 ≤ b.head ∧ b.head < 256 ∧ 0 ≤ b.tail ∧ b.tail < 256 ∧
  b.head = (b.tail + q.length) % 256 ∧ q.length ≤ 255 ∧
  ∀ i : Nat, i < q.length → q[i]? = some (b.buffer ((b.tail + i) % 256))

/-- A ring with `head = tail = 0` after `init_keyboard_buffer`. -/
def empty_ring : keyboard_buffer_t :=
  init_keyboard_buffer { buffer := fun _ => 0, head := 0, tail := 0 }

/-- A ring that holds 255 bytes `A`: `head` is one place before `tail`. -/
def full_ring : keyboard_buffer_t :=
  { buffer := fun _ => 65, head := 255, tail := 0 }

/-- The loop of `read_line`, with `input` the bytes that the successive calls
of `getchar` return: the buffer, `pos`, the bytes passed to
`serial_write_char` and the input not read; `none` when the input runs out, so
that `getchar` does not return. -/
def read_line_loop (max_length : Int) :
    List Nat → (Nat → Nat) → Nat → List Nat →
      Option ((Nat → Nat) × Nat × List Nat × List Nat)
  | [], buffer, pos, echo =>
    if (pos : Int) < max_length - 1 then none else some (buffer, pos, echo, [])
  | c :: rest, buffer, pos, echo =>
    if (pos : Int) < max_length - 1 then
      if c = 10 ∨ c = 13 then some (buffer, pos, echo, rest)
      else if c = 8 ∧ pos > 0 then
        read_line_loop max_length rest buffer (pos - 1) (echo ++ [8, 32, 8])
      else if c ≥ 32 ∧ c ≤ 126 then
        read_line_loop max_length rest (fun i => if i = pos then c else buffer i) (pos + 1)
          (echo ++ [c])
      else read_line_loop max_length rest buffer pos echo
    else some (buffer, pos, echo, c :: rest)

/-- The function `read_line` on the memory `buffer` points to: the memory
after it, the bytes passed to `serial_write_char` and the input not read. -/
def read_line (buffer_null : Bool) (buffer : Nat → Nat) (max_length : Int)
    (input : List Nat) : Option ((Nat → Nat) × List Nat × List Nat) :=
  if buffer_null = true ∨ max_length ≤ 1 then some (buffer, [], input)
  else
    let max_length := if max_length > 1024 then 1024 else max_length
    match read_line_loop max_length input (fun i => if i = 0 then 0 else buffer i) 0 [] with
    | none => none
    | some (buffer1, pos, echo, rest) =>
      some (fun i => if i = pos then 0 else buffer1 i, echo ++ [10], rest)

/-- The C string at `buffer[i]`: the bytes before the first 0, looking at `n`
bytes at most. -/
def c_string (buffer : Nat → Nat) : Nat → Nat → List Nat
  | 0, _ => []
  | n + 1, i => if buffer i = 0 then [] else buffer i :: c_string buffer n (i + 1)

/-- In the words of the specification: the text got from a stream, starting
with `text`, by reading up to the first CR or LF or until `limit` bytes are
held, where a printable byte is appended, a backspace (byte 8) removes the
last accepted byte if there is one, and any other byte is ignored. -/
def line_text_spec (limit : Nat) : List Nat → List Nat → List Nat
  | [], text => text
  | c :: rest, text =>
    if text.length ≥ limit then text
    else if c = 10 ∨ c = 13 then text
    else if c = 8 then line_text_spec limit rest text.dropLast
    else if 32 ≤ c ∧ c ≤ 126 then line_text_spec limit rest (text ++ [c])
    else line_text_spec limit rest text

/-- The first `pos` bytes of `buffer` are the printable bytes `text`. -/
def HoldsText (buffer : Nat → Nat) (pos : Nat) (text : List Nat) : Prop :=
  pos = text.length ∧ (∀ i, i < pos → text[i]? = some (buffer i)) ∧
  ∀ c, c ∈ text → 32 ≤ c ∧ c ≤ 126

/-! ## The programmable interval timer (`src/kernel.c`) -/

def PIT_FREQUENCY : Nat := 1193180

def PIT_CHANNEL0 : Nat := 0x40

def PIT_COMMAND : Nat := 0x43

def PIT_MODE_SQUARE_WAVE : Nat := 0x36

def MASK_LOW_BYTE : Nat := 0xFF

def SHIFT_HIGH_BYTE : Nat := 8

/-- The instruction `outb`, as one more entry of the list of port writes; the
port is a `uint16_t` and the value a `uint8_t`. -/
def outb (port val : Nat) (ports : List (Nat × Nat)) : List (Nat × Nat) :=
  ports ++ [(port % 2 ^ 16, val % 2 ^ 8)]

/-- The function `init_timer`: the port writes after it, `none` for the
division by zero. The call of `print_at` writes to video memory only. -/
def init_timer (frequency : Nat) (ports : List (Nat × Nat)) : Option (List (Nat × Nat)) :=
  if frequency = 0 then none
  else
    let divisor := (PIT_FREQUENCY / frequency) % UINT32_RANGE
    let ports := outb PIT_COMMAND PIT_MODE_SQUARE_WAVE ports
    let ports := outb PIT_CHANNEL0 (divisor &&& MASK_LOW_BYTE) ports
    some (outb PIT_CHANNEL0 ((divisor >>> SHIFT_HIGH_BYTE) &&& MASK_LOW_BYTE) ports)

namespace Day10

/-! ## The time slice of `day10_completed/kernel.c` -/

/-- The statics read and written by `timer_handler_c`, and the ticks at which
it has called `schedule`. -/
structure timer_t where
  system_ticks : Nat
  last_slice_tick : Nat
  slice_ticks : Nat
  timer_count : Nat
  schedule_calls : List Nat

/-- The statics at start: `slice_ticks = 10`, the others 0. -/
def timer_start : timer_t :=
  { system_ticks := 0, last_slice_tick := 0, slice_ticks := 10, timer_count := 0,
    schedule_calls := [] }

/-- The function `timer_handler_c` of day 10, on 32-bit unsigned counters;
`schedule` writes none of them. -/
def timer_handler_c (s : timer_t) : timer_t :=
  let s1 := { s with timer_count := (s.timer_count + 1) % UINT32_RANGE }
  let s2 := { s1 with system_ticks := (s1.system_ticks + 1) % UINT32_RANGE }
  if (s2.system_ticks + UINT32_RANGE - s2.last_slice_tick) % UINT32_RANGE ≥ s2.slice_ticks then
    { s2 with last_slice_tick := s2.system_ticks,
              schedule_calls := s2.schedule_calls ++ [s2.system_ticks] }
  else s2

end Day10

namespace Day12

/-! ## The interrupt descriptor table of `day12_completed/src/kernel.c` -/

/-- The type `idt_entry_t`. -/
structure idt_entry_t where
  lo : Nat
  sel : Nat
  zero : Nat
  flags : Nat
  hi : Nat

/-- The function `set_gate` on the array `idt`. -/
def set_gate (n : Nat) (h : Nat) (idt : Nat → idt_entry_t) : Nat → idt_entry_t :=
  fun i =>
    if i = n then
      { lo := h &&& 0xFFFF, sel := 0x08, zero := 0, flags := 0x8E, hi := (h >>> 16) &&& 0xFFFF }
    else idt i

/-- The loop `for (int i = 0; i < 256; i++) set_gate(i, 0)`, from `i` on, with
`n` rounds to go. -/
def clear_gates : Nat → Nat → (Nat → idt_entry_t) → Nat → idt_entry_t
  | 0, _, idt => idt
  | n + 1, i, idt => clear_gates n (i + 1) (set_gate i 0 idt)

/-- The addresses of the interrupt stubs. -/
structure stubs_t where
  isr0 : Nat
  isr3 : Nat
  isr6 : Nat
  isr13 : Nat
  isr14 : Nat
  timer_interrupt_handler : Nat
  keyboard_interrupt_handler : Nat

/-- The function `idt_init`, up to the stores to `idtr`. -/
def idt_init (a : stubs_t) (idt : Nat → idt_entry_t) : Nat → idt_entry_t :=
  let idt := clear_gates 256 0 idt
  let idt := set_gate 0 a.isr0 idt
  let idt := set_gate 3 a.isr3 idt
  let idt := set_gate 6 a.isr6 idt
  let idt := set_gate 13 a.isr13 idt
  let idt := set_gate 14 a.isr14 idt
  let idt := set_gate 32 a.timer_interrupt_handler idt
  set_gate 33 a.keyboard_interrupt_handler idt

/-- Stub addresses as a linker may place them. -/
def example_stubs : stubs_t :=
  { isr0 := 0x100200, isr3 := 0x100210, isr6 := 0x100220, isr13 := 0x100230,
    isr14 := 0x100240, timer_interrupt_handler := 0x100250,
    keyboard_interrupt_handler := 0x100260 }

/-- An `idt` array before `idt_init`: all zero. -/
def zero_idt : Nat → idt_entry_t :=
  fun _ => { lo := 0, sel := 0, zero := 0, flags := 0, hi := 0 }

end Day12

/-- The gate `g` is a present 32-bit interrupt gate of the kernel code segment
for the handler at address `h`. -/
def Day12.HoldsStub (g : Day12.idt_entry_t) (h : Nat) : Prop :=
  g.lo = h &&& 0xFFFF ∧ g.hi = h >>> 16 ∧ g.sel = 0x08 ∧ g.flags = 0x8E ∧ g.zero = 0

/-! ## The interrupt-enable flag during bring-up (`kernel_main`) -/

/-- The shared scheduler data that a store writes. -/
inductive shared_field where
  | current_thread
  | ready_thread_list
  | blocked_thread_list
  | next_ready (t : tid)
  | next_blocked (t : tid)
  deriving DecidableEq, Repr

/-- The kernel data, the interrupt-enable flag of the CPU, and the stores to
shared scheduler data made so far, each with the value of the flag at the time
of the store. -/
structure Cpu where
  k : Kernel
  interrupts : Bool
  stores : List (shared_field × Bool)

/-- The instruction `cli`. -/
def cli (m : Cpu) : Cpu := { m with interrupts := false }

/-- The instruction `sti`. -/
def sti (m : Cpu) : Cpu := { m with interrupts := true }

/-- A store to shared scheduler data: the kernel data is updated and the
store is recorded with the current flag. -/
def store_shared (f : shared_field) (upd : Kernel → Kernel) (m : Cpu) : Cpu :=
  { m with k := upd m.k, stores := m.stores ++ [(f, m.interrupts)] }

/-- The function `init_kernel_context` as a sequence of stores. -/
def init_kernel_context_stores (m : Cpu) : Cpu :=
  let m := store_shared shared_field.current_thread (fun k => set_current_thread k none) m
  let m := store_shared shared_field.ready_thread_list
    (fun k => set_ready_thread_list k none) m
  let m := store_shared shared_field.blocked_thread_list
    (fun k => set_blocked_thread_list k none) m
  { m with k := set_scheduler_lock_count (set_system_ticks m.k 0) 0 }

/-- The function `enable_cpu_interrupts`. -/
def enable_cpu_interrupts (m : Cpu) : Cpu := sti m

/-- The function `init_interrupts`: the table and the interrupt controller
are set up (no kernel data is written) and `enable_cpu_interrupts` is called. -/
def init_interrupts (m : Cpu) : Cpu := enable_cpu_interrupts m

/-- The function `add_thread_to_ready_list` with its stores recorded. -/
def add_thread_to_ready_list_stores (thread : tid) (m : Cpu) : Exec (os_result_t × Cpu) :=
  match m.k.k_context.ready_thread_list with
  | none =>
    let m1 := store_shared shared_field.ready_thread_list
      (fun k => set_ready_thread_list k (some thread)) m
    .ok (OS_SUCCESS, store_shared (shared_field.next_ready thread)
      (fun k => set_next_ready k thread (some thread)) m1)
  | some head =>
    match find_last m.k.threads head MAX_THREADS head with
    | .error e => .error e
    | .ok (last, r) =>
      if r = 0 then .ok (OS_ERROR_INVALID_STATE, m)
      else
        let m1 := store_shared (shared_field.next_ready thread)
          (fun k => set_next_ready k thread k.k_context.ready_thread_list) m
        .ok (OS_SUCCESS, store_shared (shared_field.next_ready last)
          (fun k => set_next_ready k last (some thread)) m1)

/-- The function `create_thread` with its stores to shared scheduler data
recorded: `thread->next_ready = NULL` in `configure_thread_attributes` and the
stores of `add_thread_to_ready_list`. -/
def create_thread_stores (threads_addr : Nat) (func : Nat) (delay_ticks : Nat)
    (display_row : Int) (out_thread : Bool) (m : Cpu) :
    Exec (os_result_t × Option tid × Cpu) :=
  if out_thread = false then .ok (OS_ERROR_NULL_POINTER, none, m)
  else
    let v := validate_thread_params func display_row delay_ticks
    if v.1 ≠ OS_SUCCESS then .ok (v.1, none, m)
    else if h : m.k.thread_count < MAX_THREADS then
      let thread : tid := ⟨m.k.thread_count, h⟩
      let k1 : Kernel := { m.k with thread_count := m.k.thread_count + 1 }
      let k2 := set_thread k1 thread
        (initialize_thread_stack (stack_address threads_addr thread) (k1.threads thread) func)
      let m3 := store_shared (shared_field.next_ready thread)
        (fun k => set_thread k thread
          (configure_thread_attributes (k.threads thread) v.2 display_row))
        { m with k := k2 }
      match add_thread_to_ready_list_stores thread m3 with
      | .error e => .error e
      | .ok (r, m4) =>
        if r ≠ OS_SUCCESS then
          .ok (r, none, { m4 with k := { m4.k with thread_count := m4.k.thread_count - 1 } })
        else .ok (OS_SUCCESS, some thread, m4)
    else .ok (OS_ERROR_OUT_OF_MEMORY, none, m)

/-- The addresses of the four thread functions of `init_thread_system`. -/
structure thread_funcs_t where
  idle_thread : Nat
  threadA : Nat
  threadB : Nat
  threadC : Nat

/-- The function `init_thread_system`: four calls of `create_thread`; after a
failure of the first the kernel halts. -/
def init_thread_system (threads_addr : Nat) (f : thread_funcs_t) (m : Cpu) : Exec Cpu :=
  match create_thread_stores threads_addr f.idle_thread 1 0 true m with
  | .error e => .error e
  | .ok (r, _, m1) =>
    if r ≠ OS_SUCCESS then .ok m1
    else
      match create_thread_stores threads_addr f.threadA 100 13 true m1 with
      | .error e => .error e
      | .ok (_, _, m2) =>
        match create_thread_stores threads_addr f.threadB 150 14 true m2 with
        | .error e => .error e
        | .ok (_, _, m3) =>
          match create_thread_stores threads_addr f.threadC 200 15 true m3 with
          | .error e => .error e
          | .ok (_, _, m4) => .ok m4

/-- The function `kernel_main` up to `kernel_main_loop`, where it waits for the
first timer interrupt. `init_basic_systems` and `init_keyboard` write no
kernel data and do not touch the flag. -/
def kernel_main (threads_addr : Nat) (f : thread_funcs_t) (m : Cpu) : Exec Cpu :=
  let m := init_kernel_context_stores m
  let m := init_interrupts m
  init_thread_system threads_addr f m

/-- The machine at the entry of `kernel_main`: zero-initialised statics and
the interrupt-enable flag `b`. -/
def boot_cpu (b : Bool) : Cpu :=
  { k := init_kernel_context, interrupts := b, stores := [] }

/-- Addresses of the thread functions as a linker may place them. -/
def example_funcs : thread_funcs_t :=
  { idle_thread := 0x100000, threadA := 0x100040, threadB := 0x100080, threadC := 0x1000C0 }

namespace Day12

/-! ## Blocking on the keyboard in `day12_completed` -/

abbrev MAX_THREADS : Nat := 5

/-- A non-null `thread_t*` of day 12: the index of a slot of the thread array. -/
abbrev tid := Fin MAX_THREADS

/-- The kernel data of day 12 that `getchar_blocking` and
`block_current_thread` read or write: `k_context` and, one map for each field,
the fields `state`, `block_reason`, `wake_up_tick`, `next_ready` and
`next_blocked` of the thread control blocks. -/
structure Kernel where
  current_thread : Option tid
  ready_thread_list : Option tid
  blocked_thread_list : Option tid
  state : tid → thread_state_t
  block_reason : tid → block_reason_t
  wake_up_tick : tid → Nat
  next_ready : tid → Option tid
  next_blocked : tid → Option tid

/-- The `while` loop of `remove_from_ready_list`: the `prev` it stops at. -/
def find_prev (next_ready : tid → Option tid) (thread : tid) : Nat → Option tid → Exec tid
  | _, none => .error Fault.null_deref
  | 0, some _ => .error Fault.out_of_fuel
  | fuel + 1, some prev =>
    if next_ready prev = some thread then .ok prev
    else find_prev next_ready thread fuel (next_ready prev)

/-- The function `remove_from_ready_list` of day 12, for a non-null `thread`. -/
def remove_from_ready_list (fuel : Nat) (thread : tid) (k : Kernel) : Exec Kernel :=
  if k.ready_thread_list = none then .ok k
  else if k.ready_thread_list = some thread ∧ k.next_ready thread = some thread then
    .ok { k with ready_thread_list := none }
  else
    match find_prev k.next_ready thread fuel k.ready_thread_list with
    | .error e => .error e
    | .ok prev =>
      let k1 := { k with next_ready := Function.update k.next_ready prev (k.next_ready thread) }
      if k1.ready_thread_list = some thread then
        .ok { k1 with ready_thread_list := k1.next_ready thread }
      else .ok k1

/-- The `while` loop of the timer branch of `block_current_thread`. -/
def find_timer_slot (k : Kernel) (thread : tid) : Nat → tid → Exec tid
  | 0, _ => .error Fault.out_of_fuel
  | fuel + 1, current =>
    match k.next_blocked current with
    | none => .ok current
    | some n =>
      if k.wake_up_tick n ≤ k.wake_up_tick thread then find_timer_slot k thread fuel n
      else .ok current

/-- The `while` loop of the FIFO branch of `block_current_thread`. -/
def find_blocked_tail (next_blocked : tid → Option tid) : Nat → tid → Exec tid
  | 0, _ => .error Fault.out_of_fuel
  | fuel + 1, current =>
    match next_blocked current with
    | none => .ok current
    | some n => find_blocked_tail next_blocked fuel n

/-- The stores of `block_current_thread` to the thread control block after
the removal: `state`, `block_reason`, `next_blocked`. -/
def mark_blocked (thread : tid) (reason : block_reason_t) (k : Kernel) : Kernel :=
  { k with
    state := Function.update k.state thread THREAD_BLOCKED,
    block_reason := Function.update k.block_reason thread reason,
    next_blocked := Function.update k.next_blocked thread none }

/-- The insertion of `block_current_thread` into the blocked list. -/
def insert_blocked (fuel : Nat) (thread : tid) (reason : block_reason_t) (data : Nat)
    (k : Kernel) : Exec Kernel :=
  if reason = BLOCK_REASON_TIMER then
    let k3 := { k with wake_up_tick := Function.update k.wake_up_tick thread data }
    match k3.blocked_thread_list with
    | none =>
      .ok { k3 with
        next_blocked := Function.update k3.next_blocked thread k3.blocked_thread_list,
        blocked_thread_list := some thread }
    | some head =>
      if k3.wake_up_tick thread < k3.wake_up_tick head then
        .ok { k3 with
          next_blocked := Function.update k3.next_blocked thread k3.blocked_thread_list,
          blocked_thread_list := some thread }
      else
        match find_timer_slot k3 thread fuel head with
        | .error e => .error e
        | .ok current =>
          let k4 := { k3 with
            next_blocked := Function.update k3.next_blocked thread (k3.next_blocked current) }
          .ok { k4 with next_blocked := Function.update k4.next_blocked current (some thread) }
  else
    match k.blocked_thread_list with
    | none => .ok { k with blocked_thread_list := some thread }
    | some head =>
      match find_blocked_tail k.next_blocked fuel head with
      | .error e => .error e
      | .ok current =>
        .ok { k with next_blocked := Function.update k.next_blocked current (some thread) }

/-- The kernel data, the interrupt-enable flag of the CPU and the keyboard
ring `kbuf`, `khead`, `ktail` of `keyboard.c`. -/
structure Machine where
  k : Kernel
  interrupts : Bool
  kbuf : Nat → Nat
  khead : Nat
  ktail : Nat

/-- A statement of `getchar_blocking` or `block_current_thread`. -/
inductive stmt where
  | kbuf_pop (got : Bool)
  | cli
  | sti
  | remove_from_ready_list
  | mark_blocked
  | insert_blocked
  | schedule
  deriving DecidableEq, Repr

/-- The instruction `cli`. -/
def cli (m : Machine) : Machine := { m with interrupts := false }

/-- The instruction `sti`. -/
def sti (m : Machine) : Machine := { m with interrupts := true }

/-- The function `kbuf_pop`: the byte stored to `*out`, if any, and the
machine after it. -/
def kbuf_pop (m : Machine) : Option Nat × Machine :=
  if m.khead = m.ktail then (none, m)
  else (some (m.kbuf m.ktail), { m with ktail := (m.ktail + 1) % 256 })

/-- The function `block_current_thread` of day 12: the statements executed,
each with the machine after it, and the machine at the return. -/
def block_current_thread (fuel : Nat) (reason : block_reason_t) (data : Nat) (m : Machine) :
    Exec (List (stmt × Machine) × Machine) :=
  let m1 := cli m
  match m1.k.current_thread with
  | none => .ok ([(stmt.cli, m1), (stmt.sti, sti m1)], sti m1)
  | some thread =>
    match remove_from_ready_list fuel thread m1.k with
    | .error e => .error e
    | .ok k2 =>
      let m2 := { m1 with k := k2 }
      let m3 := { m2 with k := mark_blocked thread reason m2.k }
      match insert_blocked fuel thread reason data m3.k with
      | .error e => .error e
      | .ok k4 =>
        let m4 := { m3 with k := k4 }
        .ok ([(stmt.cli, m1), (stmt.remove_from_ready_list, m2), (stmt.mark_blocked, m3),
          (stmt.insert_blocked, m4), (stmt.sti, sti m4)], sti m4)

/-- One round of the loop of `getchar_blocking`, up to its `return` or to its
call of `schedule`: the statements executed, each with the machine after it,
and the byte returned, if the round returns. -/
def getchar_blocking_round (fuel : Nat) (m : Machine) :
    Exec (List (stmt × Machine) × Option Nat) :=
  match kbuf_pop m with
  | (some c, m1) => .ok ([(stmt.kbuf_pop true, m1)], some c)
  | (none, m1) =>
    let m2 := cli m1
    match kbuf_pop m2 with
    | (some c, m3) =>
      .ok ([(stmt.kbuf_pop false, m1), (stmt.cli, m2), (stmt.kbuf_pop true, m3),
        (stmt.sti, sti m3)], some c)
    | (none, m3) =>
      match block_current_thread fuel BLOCK_REASON_KEYBOARD 0 m3 with
      | .error e => .error e
      | .ok (tr, m4) =>
        .ok ([(stmt.kbuf_pop false, m1), (stmt.cli, m2), (stmt.kbuf_pop false, m3)] ++ tr ++
          [(stmt.sti, sti m4), (stmt.schedule, sti m4)], none)

/-- Following the links `nxt` from `p` visits the entries of `l`, in this
order, and then arrives at `q`. -/
def Path (nxt : tid → Option tid) : Option tid → List tid → Option tid → Prop
  | p, [], q => p = q
  | p, a :: l, q => p = some a ∧ Path nxt (nxt a) l q

/-- The ready list with head `head` and links `nxt` is the ring `ring`. -/
def Ring (nxt : tid → Option tid) (head : Option tid) (ring : List tid) : Prop :=
  head = ring.head? ∧ Path nxt head ring head ∧ ring.Nodup

/-- The blocked list with head `head` and links `nxt` is `blocked`. -/
def Chain (nxt : tid → Option tid) (head : Option tid) (blocked : List tid) : Prop :=
  Path nxt head blocked none ∧ blocked.Nodup

/-- Two threads: thread 0 is current and thread 1 follows it on the ring,
nothing is blocked, interrupts are enabled and the keyboard ring is empty. -/
def two_ready : Machine :=
  { k :=
      { current_thread := some 0, ready_thread_list := some 0, blocked_thread_list := none,
        state := fun t => if t = 0 then THREAD_RUNNING else THREAD_READY,
        block_reason := fun _ => BLOCK_REASON_NONE,
        wake_up_tick := fun _ => 0,
        next_ready := fun t => if t = 0 then some 1 else if t = 1 then some 0 else none,
        next_blocked := fun _ => none },
    interrupts := true, kbuf := fun _ => 0, khead := 0, ktail := 0 }

end Day12

/-- Three threads after thread 0 has called `sleep(20)`: thread 1 is running. -/
def three_first_asleep : Kernel := data_of (sleep 8 20 three_running)

/-- The data after thread 1 has then called `sleep(10)`: thread 2 is running,
and threads 1 and 0 are asleep until the ticks 10 and 20. -/
def three_both_asleep : Kernel := data_of (sleep 8 10 three_first_asleep)

/-- Four threads after the first `schedule()`: thread 0 is running. -/
def four_running : Kernel := data_of (schedule 8 full_kernel)

/-- Four threads after thread 0 has called `sleep(5)`: thread 1 is running. -/
def four_sleeping : Kernel := data_of (sleep 8 5 four_running)

/-- The data after thread 1 has then called
`block_current_thread(BLOCK_REASON_KEYBOARD, 0)`, as `getchar` does. -/
def four_keyed : Kernel :=
  match block_current_thread 8 BLOCK_REASON_KEYBOARD 0 four_sleeping with
  | .ok k => k
  | .error _ => init_kernel_context

/-- The data after the `schedule()` that follows in `getchar`: thread 2 is
running. -/
def four_waiting : Kernel := data_of (schedule 8 four_keyed)

/-- The data after thread 2 has then called `sleep(30)`: thread 3 is running,
and the blocked list holds thread 0 (asleep until tick 5), thread 1 (waiting
for a key) and thread 2 (asleep until tick 30). -/
def four_mixed : Kernel := data_of (sleep 8 30 four_waiting)

/-! ## Stores -/

@[simp] theorem set_thread_threads_same (k : Kernel) (t : tid) (v : thread_t) :
    (set_thread k t v).threads t = v := by
  simp [set_thread]

@[simp] theorem set_thread_threads_other (k : Kernel) (t j : tid) (v : thread_t)
    (h : j ≠ t) : (set_thread k t v).threads j = k.threads j := by
  simp [set_thread, h]

theorem set_thread_threads (k : Kernel) (t j : tid) (v : thread_t) :
    (set_thread k t v).threads j = if j = t then v else k.threads j := rfl

@[simp] theorem set_thread_context (k : Kernel) (t : tid) (v : thread_t) :
    (set_thread k t v).k_context = k.k_context := rfl

@[simp] theorem set_thread_count (k : Kernel) (t : tid) (v : thread_t) :
    (set_thread k t v).thread_count = k.thread_count := rfl

@[simp] theorem set_context_threads (k : Kernel) (c : kernel_context_t) :
    (set_context k c).threads = k.threads := rfl

@[simp] theorem set_context_context (k : Kernel) (c : kernel_context_t) :
    (set_context k c).k_context = c := rfl

@[simp] theorem set_context_count (k : Kernel) (c : kernel_context_t) :
    (set_context k c).thread_count = k.thread_count := rfl

@[simp] theorem set_state_fields (k : Kernel) (t j : tid) (x : thread_state_t) :
    ((set_state k t x).threads j).stack = (k.threads j).stack ∧
    ((set_state k t x).threads j).state = (if j = t then x else (k.threads j).state) ∧
    ((set_state k t x).threads j).counter = (k.threads j).counter ∧
    ((set_state k t x).threads j).delay_ticks = (k.threads j).delay_ticks ∧
    ((set_state k t x).threads j).last_tick = (k.threads j).last_tick ∧
    ((set_state k t x).threads j).block_reason = (k.threads j).block_reason ∧
    ((set_state k t x).threads j).wake_up_tick = (k.threads j).wake_up_tick ∧
    ((set_state k t x).threads j).display_row = (k.threads j).display_row ∧
    ((set_state k t x).threads j).next_ready = (k.threads j).next_ready ∧
    ((set_state k t x).threads j).next_blocked = (k.threads j).next_blocked ∧
    ((set_state k t x).threads j).esp = (k.threads j).esp := by
  by_cases h : j = t <;> simp [set_state, set_thread, h]

@[simp] theorem set_state_context (k : Kernel) (t : tid) (x : thread_state_t) :
    (set_state k t x).k_context = k.k_context ∧
    (set_state k t x).thread_count = k.thread_count := ⟨rfl, rfl⟩

@[simp] theorem set_block_reason_fields (k : Kernel) (t j : tid) (x : block_reason_t) :
    ((set_block_reason k t x).threads j).stack = (k.threads j).stack ∧
    ((set_block_reason k t x).threads j).state = (k.threads j).state ∧
    ((set_block_reason k t x).threads j).counter = (k.threads j).counter ∧
    ((set_block_reason k t x).threads j).delay_ticks = (k.threads j).delay_ticks ∧
    ((set_block_reason k t x).threads j).last_tick = (k.threads j).last_tick ∧
    ((set_block_reason k t x).threads j).block_reason = (if j = t then x else (k.threads j).block_reason) ∧
    ((set_block_reason k t x).threads j).wake_up_tick = (k.threads j).wake_up_tick ∧
    ((set_block_reason k t x).threads j).display_row = (k.threads j).display_row ∧
    ((set_block_reason k t x).threads j).next_ready = (k.threads j).next_ready ∧
    ((set_block_reason k t x).threads j).next_blocked = (k.threads j).next_blocked ∧
    ((set_block_reason k t x).threads j).esp = (k.threads j).esp := by
  by_cases h : j = t <;> simp [set_block_reason, set_thread, h]

@[simp] theorem set_block_reason_context (k : Kernel) (t : tid) (x : block_reason_t) :
    (set_block_reason k t x).k_context = k.k_context ∧
    (set_block_reason k t x).thread_count = k.thread_count := ⟨rfl, rfl⟩

@[simp] theorem set_wake_up_tick_fields (k : Kernel) (t j : tid) (x : Nat) :
    ((set_wake_up_tick k t x).threads j).stack = (k.threads j).stack ∧
    ((set_wake_up_tick k t x).threads j).state = (k.threads j).state ∧
    ((set_wake_up_tick k t x).threads j).counter = (k.threads j).counter ∧
    ((set_wake_up_tick k t x).threads j).delay_ticks = (k.threads j).delay_ticks ∧
    ((set_wake_up_tick k t x).threads j).last_tick = (k.threads j).last_tick ∧
    ((set_wake_up_tick k t x).threads j).block_reason = (k.threads j).block_reason ∧
    ((set_wake_up_tick k t x).threads j).wake_up_tick = (if j = t then x else (k.threads j).wake_up_tick) ∧
    ((set_wake_up_tick k t x).threads j).display_row = (k.threads j).display_row ∧
    ((set_wake_up_tick k t x).threads j).next_ready = (k.threads j).next_ready ∧
    ((set_wake_up_tick k t x).threads j).next_blocked = (k.threads j).next_blocked ∧
    ((set_wake_up_tick k t x).threads j).esp = (k.threads j).esp := by
  by_cases h : j = t <;> simp [set_wake_up_tick, set_thread, h]

@[simp] theorem set_wake_up_tick_context (k : Kernel) (t : tid) (x : Nat) :
    (set_wake_up_tick k t x).k_context = k.k_context ∧
    (set_wake_up_tick k t x).thread_count = k.thread_count := ⟨rfl, rfl⟩

@[simp] theorem set_next_ready_fields (k : Kernel) (t j : tid) (x : Option tid) :
    ((set_next_ready k t x).threads j).stack = (k.threads j).stack ∧
    ((set_next_ready k t x).threads j).state = (k.threads j).state ∧
    ((set_next_ready k t x).threads j).counter = (k.threads j).counter ∧
    ((set_next_ready k t x).threads j).delay_ticks = (k.threads j).delay_ticks ∧
    ((set_next_ready k t x).threads j).last_tick = (k.threads j).last_tick ∧
    ((set_next_ready k t x).threads j).block_reason = (k.threads j).block_reason ∧
    ((set_next_ready k t x).threads j).wake_up_tick = (k.threads j).wake_up_tick ∧
    ((set_next_ready k t x).threads j).display_row = (k.threads j).display_row ∧
    ((set_next_ready k t x).threads j).next_ready = (if j = t then x else (k.threads j).next_ready) ∧
    ((set_next_ready k t x).threads j).next_blocked = (k.threads j).next_blocked ∧
    ((set_next_ready k t x).threads j).esp = (k.threads j).esp := by
  by_cases h : j = t <;> simp [set_next_ready, set_thread, h]

@[simp] theorem set_next_ready_context (k : Kernel) (t : tid) (x : Option tid) :
    (set_next_ready k t x).k_context = k.k_context ∧
    (set_next_ready k t x).thread_count = k.thread_count := ⟨rfl, rfl⟩

@[simp] theorem set_next_blocked_fields (k : Kernel) (t j : tid) (x : Option tid) :
    ((set_next_blocked k t x).threads j).stack = (k.threads j).stack ∧
    ((set_next_blocked k t x).threads j).state = (k.threads j).state ∧
    ((set_next_blocked k t x).threads j).counter = (k.threads j).counter ∧
    ((set_next_blocked k t x).threads j).delay_ticks = (k.threads j).delay_ticks ∧
    ((set_next_blocked k t x).threads j).last_tick = (k.threads j).last_tick ∧
    ((set_next_blocked k t x).threads j).block_reason = (k.threads j).block_reason ∧
    ((set_next_blocked k t x).threads j).wake_up_tick = (k.threads j).wake_up_tick ∧
    ((set_next_blocked k t x).threads j).display_row = (k.threads j).display_row ∧
    ((set_next_blocked k t x).threads j).next_ready = (k.threads j).next_ready ∧
    ((set_next_blocked k t x).threads j).next_blocked = (if j = t then x else (k.threads j).next_blocked) ∧
    ((set_next_blocked k t x).threads j).esp = (k.threads j).esp := by
  by_cases h : j = t <;> simp [set_next_blocked, set_thread, h]

@[simp] theorem set_next_blocked_context (k : Kernel) (t : tid) (x : Option tid) :
    (set_next_blocked k t x).k_context = k.k_context ∧
    (set_next_blocked k t x).thread_count = k.thread_count := ⟨rfl, rfl⟩

@[simp] theorem set_current_thread_fields (k : Kernel) (x : Option tid) :
    (set_current_thread k x).threads = k.threads ∧
    (set_current_thread k x).thread_count = k.thread_count ∧
    (set_current_thread k x).k_context.current_thread = x ∧
    (set_current_thread k x).k_context.ready_thread_list = k.k_context.ready_thread_list ∧
    (set_current_thread k x).k_context.blocked_thread_list = k.k_context.blocked_thread_list ∧
    (set_current_thread k x).k_context.system_ticks = k.k_context.system_ticks ∧
    (set_current_thread k x).k_context.scheduler_lock_count = k.k_context.scheduler_lock_count :=
  ⟨rfl, rfl, rfl, rfl, rfl, rfl, rfl⟩

@[simp] theorem set_ready_thread_list_fields (k : Kernel) (x : Option tid) :
    (set_ready_thread_list k x).threads = k.threads ∧
    (set_ready_thread_list k x).thread_count = k.thread_count ∧
    (set_ready_thread_list k x).k_context.current_thread = k.k_context.current_thread ∧
    (set_ready_thread_list k x).k_context.ready_thread_list = x ∧
    (set_ready_thread_list k x).k_context.blocked_thread_list = k.k_context.blocked_thread_list ∧
    (set_ready_thread_list k x).k_context.system_ticks = k.k_context.system_ticks ∧
    (set_ready_thread_list k x).k_context.scheduler_lock_count = k.k_context.scheduler_lock_count :=
  ⟨rfl, rfl, rfl, rfl, rfl, rfl, rfl⟩

@[simp] theorem set_blocked_thread_list_fields (k : Kernel) (x : Option tid) :
    (set_blocked_thread_list k x).threads = k.threads ∧
    (set_blocked_thread_list k x).thread_count = k.thread_count ∧
    (set_blocked_thread_list k x).k_context.current_thread = k.k_context.current_thread ∧
    (set_blocked_thread_list k x).k_context.ready_thread_list = k.k_context.ready_thread_list ∧
    (set_blocked_thread_list k x).k_context.blocked_thread_list = x ∧
    (set_blocked_thread_list k x).k_context.system_ticks = k.k_context.system_ticks ∧
    (set_blocked_thread_list k x).k_context.scheduler_lock_count = k.k_context.scheduler_lock_count :=
  ⟨rfl, rfl, rfl, rfl, rfl, rfl, rfl⟩

@[simp] theorem set_scheduler_lock_count_fields (k : Kernel) (x : Int) :
    (set_scheduler_lock_count k x).threads = k.threads ∧
    (set_scheduler_lock_count k x).thread_count = k.thread_count ∧
    (set_scheduler_lock_count k x).k_context.current_thread = k.k_context.current_thread ∧
    (set_scheduler_lock_count k x).k_context.ready_thread_list = k.k_context.ready_thread_list ∧
    (set_scheduler_lock_count k x).k_context.blocked_thread_list = k.k_context.blocked_thread_list ∧
    (set_scheduler_lock_count k x).k_context.system_ticks = k.k_context.system_ticks ∧
    (set_scheduler_lock_count k x).k_context.scheduler_lock_count = x :=
  ⟨rfl, rfl, rfl, rfl, rfl, rfl, rfl⟩

/-! ## Paths along links -/

theorem path_nil (nxt : tid → Option tid) (p q : Option tid) :
    Path nxt p [] q ↔ p = q := Iff.rfl

theorem path_cons (nxt : tid → Option tid) (a : tid) (l : List tid) (p q : Option tid) :
    Path nxt p (a :: l) q ↔ p = some a ∧ Path nxt (nxt a) l q := Iff.rfl

theorem path_append (nxt : tid → Option tid) (l1 l2 : List tid) (p q : Option tid) :
    Path nxt p (l1 ++ l2) q ↔ ∃ m, Path nxt p l1 m ∧ Path nxt m l2 q := by
  induction l1 generalizing p with
  | nil => simp [path_nil]
  | cons a l ih =>
    rw [List.cons_append, path_cons, ih]
    simp only [path_cons]
    constructor
    · rintro ⟨h, m, h1, h2⟩
      exact ⟨m, ⟨h, h1⟩, h2⟩
    · rintro ⟨m, ⟨h, h1⟩, h2⟩
      exact ⟨h, m, h1, h2⟩

theorem path_snoc (nxt : tid → Option tid) (l : List tid) (a : tid) (p q : Option tid) :
    Path nxt p (l ++ [a]) q ↔ Path nxt p l (some a) ∧ nxt a = q := by
  rw [path_append]
  constructor
  · rintro ⟨m, h1, h2, h3⟩
    subst h2
    exact ⟨h1, h3⟩
  · rintro ⟨h1, h2⟩
    exact ⟨some a, h1, rfl, h2⟩

theorem path_congr (nxt nxt2 : tid → Option tid) (l : List tid) (p q : Option tid)
    (h : ∀ a, a ∈ l → nxt2 a = nxt a) : Path nxt2 p l q ↔ Path nxt p l q := by
  induction l generalizing p with
  | nil => simp [path_nil]
  | cons a l ih =>
    rw [path_cons, path_cons, h a (by simp), ih (nxt a) (fun b hb => h b (by simp [hb]))]

theorem path_update (nxt : tid → Option tid) (l : List tid) (p q : Option tid) (a : tid)
    (x : Option tid) (h : a ∉ l) :
    Path (Function.update nxt a x) p l q ↔ Path nxt p l q := by
  apply path_congr
  intro b hb
  have : b ≠ a := fun e => h (e ▸ hb)
  simp [Function.update_apply, this]

theorem path_head (nxt : tid → Option tid) (l : List tid) (a : tid) (p q : Option tid)
    (h : Path nxt p (a :: l) q) : p = some a := h.1

theorem path_mem_next (nxt : tid → Option tid) (l : List tid) (p : Option tid) (h : tid)
    (hp : Path nxt p l (some h)) (a : tid) (ha : a ∈ l) :
    ∃ b, nxt a = some b ∧ (b ∈ l ∨ b = h) := by
  induction l generalizing p with
  | nil => simp at ha
  | cons c l ih =>
    obtain ⟨-, h2⟩ := hp
    rcases List.mem_cons.1 ha with e | ha2
    · subst e
      cases l with
      | nil => exact ⟨h, h2, Or.inr rfl⟩
      | cons d l2 => exact ⟨d, h2.1, Or.inl (by simp)⟩
    · obtain ⟨b, hb, hm⟩ := ih (nxt c) h2 ha2
      exact ⟨b, hb, hm.imp (fun x => List.mem_cons_of_mem _ x) id⟩

/-! ## Thread creation: failures and the initial frame -/

/-- C1: `create_thread` returns `OS_ERROR_NULL_POINTER` when the function or
the out pointer is null, otherwise `OS_ERROR_INVALID_PARAMETER` when the
display row is outside `[0, 25)`, otherwise `OS_ERROR_OUT_OF_MEMORY` when
`MAX_THREADS` threads exist; in each case the kernel data (ready list, links,
slot count, every thread control block) is returned as it was. -/
theorem create_thread_failure (threads_addr func delay_ticks : Nat) (display_row : Int)
    (out_thread : Bool) (k : Kernel) :
    ((func = 0 ∨ out_thread = false) →
      create_thread threads_addr func delay_ticks display_row out_thread k
        = .ok (OS_ERROR_NULL_POINTER, none, k)) ∧
    (func ≠ 0 → out_thread = true → (display_row < 0 ∨ 25 ≤ display_row) →
      create_thread threads_addr func delay_ticks display_row out_thread k
        = .ok (OS_ERROR_INVALID_PARAMETER, none, k)) ∧
    (func ≠ 0 → out_thread = true → 0 ≤ display_row → display_row < 25 →
      MAX_THREADS ≤ k.thread_count →
      create_thread threads_addr func delay_ticks display_row out_thread k
        = .ok (OS_ERROR_OUT_OF_MEMORY, none, k)) := by
  refine ⟨?_, ?_, ?_⟩
  · intro h
    cases out_thread with
    | false => simp [create_thread]
    | true =>
      have hf : func = 0 := by simpa using h
      simp [create_thread, validate_thread_params, hf]
  · intro hf ho hr
    subst ho
    have hr2 : display_row < 0 ∨ VGA_HEIGHT ≤ display_row := by
      simpa [VGA_HEIGHT] using hr
    simp [create_thread, validate_thread_params, hf, hr2]
  · intro hf ho h0 h25 hc
    subst ho
    have hr2 : ¬ (display_row < 0 ∨ VGA_HEIGHT ≤ display_row) := by
      simp only [VGA_HEIGHT]; omega
    have hc2 : ¬ k.thread_count < MAX_THREADS := by omega
    by_cases hd : delay_ticks = 0 <;>
      simp [create_thread, validate_thread_params, hf, hr2, hd, hc2]

/-- The three failures of `create_thread` at concrete arguments, on the data
after four creations; the last is the fifth creation. -/
theorem create_thread_failure_witness :
    full_kernel.thread_count = MAX_THREADS ∧
    create_thread 0x200000 0 1 3 true full_kernel
        = .ok (OS_ERROR_NULL_POINTER, none, full_kernel) ∧
    create_thread 0x200000 0x100100 1 25 true full_kernel
        = .ok (OS_ERROR_INVALID_PARAMETER, none, full_kernel) ∧
    create_thread 0x200000 0x100100 1 3 true full_kernel
        = .ok (OS_ERROR_OUT_OF_MEMORY, none, full_kernel) :=
  ⟨rfl,
   (create_thread_failure 0x200000 0 1 3 true full_kernel).1 (Or.inl rfl),
   (create_thread_failure 0x200000 0x100100 1 25 true full_kernel).2.1 (by decide) rfl
      (Or.inr (by decide)),
   (create_thread_failure 0x200000 0x100100 1 3 true full_kernel).2.2 (by decide) rfl
      (by decide) (by decide) (Nat.le_of_eq rfl)⟩

/-- C3: `initialize_thread_stack` writes the nine words `stack[1015..1023]`
(the function address, `0x202`, seven zeros), leaves every other stack word
as it was, sets `esp` to the address of `stack[1015]` and changes no other
field. -/
theorem initialize_thread_stack_frame (stack_addr : Nat) (thread : thread_t) (func : Nat)
    (hfunc : func < UINT32_RANGE) :
    (initialize_thread_stack stack_addr thread func).stack 1023 = func ∧
    (initialize_thread_stack stack_addr thread func).stack 1022 = 0x00000202 ∧
    (∀ i, 1015 ≤ i → i ≤ 1021 →
      (initialize_thread_stack stack_addr thread func).stack i = 0) ∧
    (initialize_thread_stack stack_addr thread func).esp
      = (stack_addr + 4 * 1015) % UINT32_RANGE ∧
    (∀ i, i < 1015 ∨ 1023 < i →
      (initialize_thread_stack stack_addr thread func).stack i = thread.stack i) ∧
    initialize_thread_stack stack_addr thread func
      = { thread with
          stack := (initialize_thread_stack stack_addr thread func).stack,
          esp := (initialize_thread_stack stack_addr thread func).esp } := by
  have hm : func % UINT32_RANGE = func := Nat.mod_eq_of_lt hfunc
  refine ⟨?_, ?_, ?_, ?_, ?_, ?_⟩
  · simp [initialize_thread_stack, push_word, THREAD_STACK_SIZE, hm]
  · simp [initialize_thread_stack, push_word, THREAD_STACK_SIZE, EFLAGS_INTERRUPT_ENABLE]
  · intro i h1 h2
    simp only [initialize_thread_stack, push_word, THREAD_STACK_SIZE]
    have : i = 1015 ∨ i = 1016 ∨ i = 1017 ∨ i = 1018 ∨ i = 1019 ∨ i = 1020 ∨ i = 1021 := by
      omega
    rcases this with h | h | h | h | h | h | h <;> subst h <;> simp
  · simp [initialize_thread_stack, push_word, THREAD_STACK_SIZE]
  · intro i h
    simp only [initialize_thread_stack, push_word, THREAD_STACK_SIZE]
    have e1 : ¬ i = 1023 := by omega
    have e2 : ¬ i = 1022 := by omega
    have e3 : ¬ i = 1021 := by omega
    have e4 : ¬ i = 1020 := by omega
    have e5 : ¬ i = 1019 := by omega
    have e6 : ¬ i = 1018 := by omega
    have e7 : ¬ i = 1017 := by omega
    have e8 : ¬ i = 1016 := by omega
    have e9 : ¬ i = 1015 := by omega
    simp [e1, e2, e3, e4, e5, e6, e7, e8, e9]
  · rfl

/-- The frame of a thread entered at `0x100000`, with its stack at `0x200000`. -/
theorem initialize_thread_stack_frame_witness :
    (0x100000 < UINT32_RANGE) ∧
    (initialize_thread_stack 0x200000 zero_thread 0x100000).stack 1023 = 0x100000 ∧
    (initialize_thread_stack 0x200000 zero_thread 0x100000).esp = 0x200FDC :=
  ⟨by decide,
   (initialize_thread_stack_frame 0x200000 zero_thread 0x100000 (by decide)).1,
   (initialize_thread_stack_frame 0x200000 zero_thread 0x100000 (by decide)).2.2.2.1⟩

/-! ## The re-entrancy guard -/

/-- C10: with `scheduler_lock_count > 0`, `schedule` returns at once and the
kernel data is what it was on entry: no thread is woken, nothing is switched. -/
theorem schedule_locked_no_effect (fuel : Nat) (k : Kernel)
    (h : k.k_context.scheduler_lock_count > 0) :
    schedule fuel k = .ok (sched_exit.locked, k) := by
  simp [schedule, is_scheduler_locked, h]

/-- A locked call of `schedule` while a sleeper is due: nothing is woken. -/
theorem schedule_locked_no_effect_witness :
    locked_kernel.k_context.scheduler_lock_count > 0 ∧
    timer_due locked_kernel 0 = true ∧
    locked_kernel.k_context.blocked_thread_list = some 0 ∧
    schedule 8 locked_kernel = .ok (sched_exit.locked, locked_kernel) :=
  ⟨by decide, rfl, rfl, schedule_locked_no_effect 8 locked_kernel (by decide)⟩

/-! ## Links under stores -/

theorem next_ready_of_set_thread (k : Kernel) (t : tid) (v : thread_t) :
    next_ready_of (set_thread k t v) = Function.update (next_ready_of k) t v.next_ready := by
  funext j
  by_cases h : j = t
  · subst h; simp [next_ready_of]
  · simp [next_ready_of, h]

theorem next_blocked_of_set_thread (k : Kernel) (t : tid) (v : thread_t) :
    next_blocked_of (set_thread k t v)
      = Function.update (next_blocked_of k) t v.next_blocked := by
  funext j
  by_cases h : j = t
  · subst h; simp [next_blocked_of]
  · simp [next_blocked_of, h]

@[simp] theorem next_ready_of_set_next_ready (k : Kernel) (t : tid) (x : Option tid) :
    next_ready_of (set_next_ready k t x) = Function.update (next_ready_of k) t x := by
  funext j
  by_cases h : j = t
  · subst h; simp [next_ready_of]
  · simp [next_ready_of, h]

@[simp] theorem next_ready_of_set_state (k : Kernel) (t : tid) (x : thread_state_t) :
    next_ready_of (set_state k t x) = next_ready_of k := by
  funext j
  simp [next_ready_of]

@[simp] theorem next_ready_of_set_block_reason (k : Kernel) (t : tid) (x : block_reason_t) :
    next_ready_of (set_block_reason k t x) = next_ready_of k := by
  funext j
  simp [next_ready_of]

@[simp] theorem next_ready_of_set_wake_up_tick (k : Kernel) (t : tid) (x : Nat) :
    next_ready_of (set_wake_up_tick k t x) = next_ready_of k := by
  funext j
  simp [next_ready_of]

@[simp] theorem next_ready_of_set_next_blocked (k : Kernel) (t : tid) (x : Option tid) :
    next_ready_of (set_next_blocked k t x) = next_ready_of k := by
  funext j
  simp [next_ready_of]

@[simp] theorem next_ready_of_set_current_thread (k : Kernel) (x : Option tid) :
    next_ready_of (set_current_thread k x) = next_ready_of k := rfl

@[simp] theorem next_ready_of_set_ready_thread_list (k : Kernel) (x : Option tid) :
    next_ready_of (set_ready_thread_list k x) = next_ready_of k := rfl

@[simp] theorem next_ready_of_set_blocked_thread_list (k : Kernel) (x : Option tid) :
    next_ready_of (set_blocked_thread_list k x) = next_ready_of k := rfl

@[simp] theorem next_ready_of_set_system_ticks (k : Kernel) (x : Nat) :
    next_ready_of (set_system_ticks k x) = next_ready_of k := rfl

@[simp] theorem next_ready_of_set_scheduler_lock_count (k : Kernel) (x : Int) :
    next_ready_of (set_scheduler_lock_count k x) = next_ready_of k := rfl

@[simp] theorem next_blocked_of_set_next_blocked (k : Kernel) (t : tid) (x : Option tid) :
    next_blocked_of (set_next_blocked k t x) = Function.update (next_blocked_of k) t x := by
  funext j
  by_cases h : j = t
  · subst h; simp [next_blocked_of]
  · simp [next_blocked_of, h]

@[simp] theorem next_blocked_of_set_state (k : Kernel) (t : tid) (x : thread_state_t) :
    next_blocked_of (set_state k t x) = next_blocked_of k := by
  funext j
  simp [next_blocked_of]

@[simp] theorem next_blocked_of_set_block_reason (k : Kernel) (t : tid) (x : block_reason_t) :
    next_blocked_of (set_block_reason k t x) = next_blocked_of k := by
  funext j
  simp [next_blocked_of]

@[simp] theorem next_blocked_of_set_wake_up_tick (k : Kernel) (t : tid) (x : Nat) :
    next_blocked_of (set_wake_up_tick k t x) = next_blocked_of k := by
  funext j
  simp [next_blocked_of]

@[simp] theorem next_blocked_of_set_next_ready (k : Kernel) (t : tid) (x : Option tid) :
    next_blocked_of (set_next_ready k t x) = next_blocked_of k := by
  funext j
  simp [next_blocked_of]

@[simp] theorem next_blocked_of_set_current_thread (k : Kernel) (x : Option tid) :
    next_blocked_of (set_current_thread k x) = next_blocked_of k := rfl

@[simp] theorem next_blocked_of_set_ready_thread_list (k : Kernel) (x : Option tid) :
    next_blocked_of (set_ready_thread_list k x) = next_blocked_of k := rfl

@[simp] theorem next_blocked_of_set_blocked_thread_list (k : Kernel) (x : Option tid) :
    next_blocked_of (set_blocked_thread_list k x) = next_blocked_of k := rfl

@[simp] theorem next_blocked_of_set_system_ticks (k : Kernel) (x : Nat) :
    next_blocked_of (set_system_ticks k x) = next_blocked_of k := rfl

@[simp] theorem next_blocked_of_set_scheduler_lock_count (k : Kernel) (x : Int) :
    next_blocked_of (set_scheduler_lock_count k x) = next_blocked_of k := rfl

/-! ## The ready ring -/

theorem ready_links_only_refl (k : Kernel) : ReadyLinksOnly k k :=
  ⟨rfl, rfl, fun _ => rfl⟩

theorem ready_links_only_trans (k k2 k3 : Kernel) (h1 : ReadyLinksOnly k k2)
    (h2 : ReadyLinksOnly k2 k3) : ReadyLinksOnly k k3 := by
  obtain ⟨a1, b1, c1⟩ := h1
  obtain ⟨a2, b2, c2⟩ := h2
  refine ⟨a2.trans a1, ?_, fun j => ?_⟩
  · rw [b2, b1]
  · rw [c2 j, c1 j]

theorem ready_links_only_set_next_ready (k : Kernel) (t : tid) (x : Option tid) :
    ReadyLinksOnly k (set_next_ready k t x) := by
  refine ⟨rfl, rfl, fun j => ?_⟩
  by_cases h : j = t
  · subst h; simp [set_next_ready]
  · simp [set_next_ready, h]

theorem ready_links_only_set_ready_thread_list (k : Kernel) (x : Option tid) :
    ReadyLinksOnly k (set_ready_thread_list k x) :=
  ⟨rfl, rfl, fun _ => rfl⟩

/-- What `ReadyLinksOnly` keeps. -/
theorem ready_links_only_keeps (k k2 : Kernel) (h : ReadyLinksOnly k k2) :
    k2.thread_count = k.thread_count ∧
    k2.k_context.current_thread = k.k_context.current_thread ∧
    k2.k_context.blocked_thread_list = k.k_context.blocked_thread_list ∧
    k2.k_context.system_ticks = k.k_context.system_ticks ∧
    k2.k_context.scheduler_lock_count = k.k_context.scheduler_lock_count ∧
    next_blocked_of k2 = next_blocked_of k ∧
    ∀ j, (k2.threads j).state = (k.threads j).state ∧
      (k2.threads j).block_reason = (k.threads j).block_reason ∧
      (k2.threads j).wake_up_tick = (k.threads j).wake_up_tick ∧
      (k2.threads j).next_blocked = (k.threads j).next_blocked ∧
      (k2.threads j).esp = (k.threads j).esp ∧
      (k2.threads j).stack = (k.threads j).stack ∧
      (k2.threads j).counter = (k.threads j).counter ∧
      (k2.threads j).delay_ticks = (k.threads j).delay_ticks ∧
      (k2.threads j).last_tick = (k.threads j).last_tick ∧
      (k2.threads j).display_row = (k.threads j).display_row := by
  obtain ⟨a, b, c⟩ := h
  refine ⟨a, by rw [b], by rw [b], by rw [b], by rw [b], ?_, fun j => ?_⟩
  · funext j
    simp only [next_blocked_of]
    rw [c j]
  · refine ⟨?_, ?_, ?_, ?_, ?_, ?_, ?_, ?_, ?_, ?_⟩ <;> rw [c j]

theorem find_last_succ (threads : tid → thread_t) (h : tid) (r : Nat) (last : tid) :
    find_last threads h (r + 1) last =
      match (threads last).next_ready with
      | none => .error Fault.null_deref
      | some n => if n = h then .ok (last, r + 1) else find_last threads h r n := rfl

/-- The loop of `add_thread_to_ready_list` stops at the last member of the
ring, with its counter below `MAX_THREADS`. -/
theorem find_last_spec (threads : tid → thread_t) (h : tid) (l : List tid) :
    ∀ (a : tid) (r : Nat),
      Path (fun t => (threads t).next_ready) (some a) (a :: l) (some h) → h ∉ l →
      find_last threads h (r + l.length + 1) a = .ok ((a :: l).getLast (by simp), r + 1) := by
  induction l with
  | nil =>
    intro a r hp _
    have h2 : (threads a).next_ready = some h := hp.2
    rw [find_last_succ, h2]
    simp
  | cons b l ih =>
    intro a r hp hh
    have h2 : (threads a).next_ready = some b := hp.2.1
    have hb : b ≠ h := fun e => hh (by simp [e])
    have hp2 : Path (fun t => (threads t).next_ready) (some b) (b :: l) (some h) :=
      ⟨rfl, hp.2.2⟩
    have := ih b r hp2 (fun e => hh (by simp [e]))
    have e : r + (b :: l).length + 1 = (r + l.length + 1) + 1 := by simp; omega
    rw [e, find_last_succ, h2]
    simp only [hb, if_false]
    rw [this]
    simp

theorem nodup_length_le (l : List tid) (h : l.Nodup) : l.length ≤ MAX_THREADS := by
  have := List.Nodup.length_le_card h
  simpa using this

/-- `add_thread_to_ready_list` on a well-formed ring succeeds and appends the
thread at the tail, changing nothing but `next_ready` links and the head. -/
theorem add_thread_to_ready_list_spec (k : Kernel) (ring : List tid) (t : tid)
    (hr : ReadyRing k ring) (ht : t ∉ ring) :
    ∃ k2, add_thread_to_ready_list t k = .ok (OS_SUCCESS, k2) ∧
      ReadyRing k2 (ring ++ [t]) ∧ ReadyLinksOnly k k2 := by
  obtain ⟨hh, hp, hn⟩ := hr
  cases ring with
  | nil =>
    have h0 : k.k_context.ready_thread_list = none := by simpa using hh
    refine ⟨_, by simp only [add_thread_to_ready_list, h0]; rfl, ?_, ?_⟩
    · refine ⟨by simp, ?_, by simp⟩
      simp [path_cons, path_nil]
    · exact ready_links_only_trans _ _ _ (ready_links_only_set_ready_thread_list _ _)
        (ready_links_only_set_next_ready _ _ _)
  | cons h r =>
    have h0 : k.k_context.ready_thread_list = some h := by simpa using hh
    rw [h0] at hp
    have hnr : h ∉ r := (List.nodup_cons.1 hn).1
    have hlen : r.length + 1 ≤ MAX_THREADS := by
      have := nodup_length_le _ hn
      simpa using this
    have hfl := find_last_spec k.threads h r h (MAX_THREADS - (r.length + 1)) hp hnr
    have e1 : MAX_THREADS - (r.length + 1) + r.length + 1 = MAX_THREADS := by omega
    rw [e1] at hfl
    have hlast_mem : (h :: r).getLast (by simp) ∈ h :: r := List.getLast_mem _
    have hlt : (h :: r).getLast (by simp) ≠ t := fun e => ht (e ▸ hlast_mem)
    refine ⟨_, by simp only [add_thread_to_ready_list, h0, hfl]; rfl, ?_, ?_⟩
    · refine ⟨by simp [h0], ?_, ?_⟩
      · simp only [set_next_ready_context, h0, next_ready_of_set_next_ready]
        rw [path_snoc]
        constructor
        · have hsplit := List.dropLast_append_getLast (l := h :: r) (by simp)
          have hp2 := hp
          rw [← hsplit, path_snoc] at hp2
          have hn2 := hn
          rw [← hsplit] at hn2
          have hn3 : (h :: r).getLast (by simp) ∉ (h :: r).dropLast := by
            intro hm
            have := List.nodup_append.1 hn2
            exact this.2.2 hm (by simp)
          have ht2 : t ∉ (h :: r).dropLast := fun hm => ht (List.dropLast_subset _ hm)
          have hgoal : Path (Function.update
              (Function.update (next_ready_of k) t (some h))
              ((h :: r).getLast (by simp)) (some t)) (some h)
              ((h :: r).dropLast ++ [(h :: r).getLast (by simp)]) (some t) := by
            rw [path_snoc]
            refine ⟨?_, by simp⟩
            rw [path_update _ _ _ _ _ _ hn3, path_update _ _ _ _ _ _ ht2]
            exact hp2.1
          rw [hsplit] at hgoal
          exact hgoal
        · simp [Function.update_apply, hlt.symm]
      · rw [List.nodup_append]
        refine ⟨hn, by simp, ?_⟩
        intro a ha hb
        have : a = t := by simpa using hb
        exact ht (this ▸ ha)
    · exact ready_links_only_trans _ _ _ (ready_links_only_set_next_ready _ _ _)
        (ready_links_only_set_next_ready _ _ _)


theorem ready_ring_next_mem (k : Kernel) (ring : List tid) (hr : ReadyRing k ring) (a : tid)
    (ha : a ∈ ring) : ∃ b, (k.threads a).next_ready = some b ∧ b ∈ ring := by
  obtain ⟨hh, hp, -⟩ := hr
  cases ring with
  | nil => simp at ha
  | cons h r =>
    have h0 : k.k_context.ready_thread_list = some h := by simpa using hh
    rw [h0] at hp
    obtain ⟨b, hb, hm⟩ := path_mem_next _ _ _ _ hp a ha
    refine ⟨b, hb, ?_⟩
    rcases hm with hm | hm
    · exact hm
    · simp [hm]

theorem ready_ring_head_mem (k : Kernel) (ring : List tid) (hr : ReadyRing k ring) (a : tid)
    (ha : k.k_context.ready_thread_list = some a) : a ∈ ring := by
  have := hr.1
  rw [ha] at this
  cases ring with
  | nil => simp at this
  | cons h r =>
    have e : a = h := by simpa using this
    simp [e]

theorem find_prev_succ (threads : tid → thread_t) (thread : tid) (fuel : Nat) (prev : tid) :
    find_prev threads thread (fuel + 1) (some prev) =
      if (threads prev).next_ready = some thread then .ok prev
      else find_prev threads thread fuel (threads prev).next_ready := rfl

/-- What the loop of `remove_from_ready_list` returns is a ring member whose
`next_ready` is the thread. -/
theorem find_prev_spec (k : Kernel) (ring : List tid) (hr : ReadyRing k ring) (t : tid) :
    ∀ (fuel : Nat) (p : Option tid) (prev : tid), (∀ a, p = some a → a ∈ ring) →
      find_prev k.threads t fuel p = .ok prev →
      prev ∈ ring ∧ (k.threads prev).next_ready = some t := by
  intro fuel
  induction fuel with
  | zero =>
    intro p prev _ h
    cases p <;> simp [find_prev] at h
  | succ n ih =>
    intro p prev hp h
    cases p with
    | none => simp [find_prev] at h
    | some a =>
      rw [find_prev_succ] at h
      by_cases e : (k.threads a).next_ready = some t
      · rw [if_pos e] at h
        have : a = prev := by simpa using h
        subst this
        exact ⟨hp a rfl, e⟩
      · rw [if_neg e] at h
        obtain ⟨b, hb, hm⟩ := ready_ring_next_mem k ring hr a (hp a rfl)
        refine ih _ prev ?_ h
        intro c hc
        rw [hb] at hc
        have : b = c := by simpa using hc
        exact this ▸ hm

theorem path_head_append (nxt : tid → Option tid) (l : List tid) (p : Option tid) (q : tid)
    (hp : Path nxt p l (some q)) : p = (l ++ [q]).head? := by
  cases l with
  | nil => simpa [path_nil] using hp
  | cons a l => simpa using hp.1

/-- When `remove_from_ready_list` returns, the thread was a member of the ring
and has been taken out of it; nothing but `next_ready` links and the head has
changed. -/
theorem remove_from_ready_list_spec (fuel : Nat) (k k2 : Kernel) (ring : List tid) (t : tid)
    (hr : ReadyRing k ring) (h : remove_from_ready_list fuel t k = .ok k2) :
    ∃ l1 l2, ring = l1 ++ t :: l2 ∧ ReadyRing k2 (l1 ++ l2) ∧ ReadyLinksOnly k k2 := by
  unfold remove_from_ready_list at h
  by_cases hc : k.k_context.ready_thread_list = some t ∧ (k.threads t).next_ready = some t
  · rw [if_pos hc] at h
    have hk : set_ready_thread_list k none = k2 := by
      simpa using h
    subst hk
    obtain ⟨hh, hp, hn⟩ := hr
    rw [hc.1] at hp hh
    cases ring with
    | nil => simp at hh
    | cons a r =>
      have ea : t = a := by simpa using hh
      subst ea
      cases r with
      | nil =>
        exact ⟨[], [], rfl, ⟨rfl, rfl, by simp⟩, ready_links_only_set_ready_thread_list _ _⟩
      | cons b r2 =>
        exfalso
        have hb : next_ready_of k t = some b := hp.2.1
        have : (k.threads t).next_ready = some b := hb
        rw [hc.2] at this
        have e : t = b := by simpa using this
        rw [e] at hn
        simp at hn
  · rw [if_neg hc] at h
    cases hf : find_prev k.threads t fuel k.k_context.ready_thread_list with
    | error e => rw [hf] at h; simp at h
    | ok prev =>
      rw [hf] at h
      simp only at h
      obtain ⟨hpm, hpn⟩ := find_prev_spec k ring hr t fuel _ prev
        (fun a ha => ready_ring_head_mem k ring hr a ha) hf
      obtain ⟨hh, hp, hn⟩ := hr
      obtain ⟨m1, m2, hsplit⟩ := List.append_of_mem hpm
      subst hsplit
      have hprev1 : prev ∉ m1 := fun hm => by
        have := List.nodup_append.1 hn
        exact this.2.2 hm (by simp)
      cases m2 with
      | cons b m3 =>
        rw [path_append] at hp
        obtain ⟨m, hpa, hpb⟩ := hp
        have hm : m = some prev := hpb.1
        subst hm
        have hb : (k.threads prev).next_ready = some b := hpb.2.1
        have eb : t = b := by
          rw [hpn] at hb
          simpa using hb
        subst eb
        have hpc : Path (next_ready_of k) (next_ready_of k t) m3
            k.k_context.ready_thread_list := hpb.2.2
        have hn2 : (prev :: t :: m3).Nodup := (List.nodup_append.1 hn).2.1
        have hprev3 : prev ∉ m3 := fun hm => by
          have := (List.nodup_cons.1 hn2).1
          exact this (by simp [hm])
        have htne : t ≠ prev := fun e => by
          have := (List.nodup_cons.1 hn2).1
          exact this (by simp [e])
        have hhead : k.k_context.ready_thread_list ≠ some t := by
          intro e
          rw [e] at hh
          cases m1 with
          | nil =>
            have : t = prev := by simpa using hh
            exact htne this
          | cons c m1b =>
            have : t = c := by simpa using hh
            subst this
            have := List.nodup_append.1 hn
            exact this.2.2 (List.mem_cons_self t m1b) (by simp)
        simp only [set_next_ready_context, hhead, if_false] at h
        have hk : set_next_ready k prev (k.threads t).next_ready = k2 := by
          simpa using h
        subst hk
        refine ⟨m1 ++ [prev], m3, by simp, ⟨?_, ?_, ?_⟩, ready_links_only_set_next_ready _ _ _⟩
        · rw [(set_next_ready_context _ _ _).1, hh]
          cases m1 <;> simp
        · rw [(set_next_ready_context _ _ _).1, next_ready_of_set_next_ready,
            List.append_assoc, List.singleton_append, path_append]
          refine ⟨some prev, ?_, ?_⟩
          · rw [path_update _ _ _ _ _ _ hprev1]
            exact hpa
          · rw [path_cons, path_update _ _ _ _ _ _ hprev3]
            refine ⟨rfl, ?_⟩
            simpa [Function.update_apply] using hpc
        · have : (m1 ++ [prev] ++ m3).Sublist (m1 ++ prev :: t :: m3) := by
            rw [List.append_assoc]
            apply List.Sublist.append_left
            simp
          exact this.nodup hn
      | nil =>
        rw [path_snoc] at hp
        obtain ⟨hpa, hpb⟩ := hp
        have hrt : k.k_context.ready_thread_list = some t := by
          rw [← hpb]
          exact hpn
        cases m1 with
        | nil =>
          exfalso
          rw [path_nil] at hpa
          have : t = prev := by
            rw [hrt] at hpa
            simpa using hpa
          subst this
          exact hc ⟨hrt, hpn⟩
        | cons c m1b =>
          have ec : t = c := by
            have := hpa.1
            rw [hrt] at this
            simpa using this
          subst ec
          have htne : prev ≠ t := fun e => hprev1 (by simp [e])
          have hprev1b : prev ∉ m1b := fun hm => hprev1 (by simp [hm])
          have hpc : Path (next_ready_of k) (next_ready_of k t) m1b (some prev) := hpa.2
          simp only [set_next_ready_context, hrt, if_true] at h
          have hk : set_ready_thread_list
              (set_next_ready k prev (k.threads t).next_ready) (k.threads t).next_ready
              = k2 := by
            simpa [htne.symm] using h
          subst hk
          refine ⟨[], m1b ++ [prev], by simp, ⟨?_, ?_, ?_⟩,
            ready_links_only_trans _ _ _ (ready_links_only_set_next_ready _ _ _)
              (ready_links_only_set_ready_thread_list _ _)⟩
          · simp only [set_ready_thread_list_fields, List.nil_append]
            exact path_head_append _ _ _ _ hpc
          · simp only [set_ready_thread_list_fields, List.nil_append,
              next_ready_of_set_ready_thread_list, next_ready_of_set_next_ready]
            rw [path_snoc]
            refine ⟨?_, by simp [next_ready_of]⟩
            rw [path_update _ _ _ _ _ _ hprev1b]
            exact hpc
          · have : ([] ++ (m1b ++ [prev])).Sublist (t :: m1b ++ [prev]) := by simp
            exact this.nodup hn


/-! ## The blocked list -/

theorem path_next_head (nxt : tid → Option tid) (pre post : List tid) (c : tid)
    (p q : Option tid) (hp : Path nxt p (pre ++ c :: post) q) :
    Path nxt (nxt c) post q := by
  rw [path_append] at hp
  obtain ⟨m, -, hb⟩ := hp
  exact hb.2

theorem path_to_none_head (nxt : tid → Option tid) (l : List tid) (p : Option tid)
    (hp : Path nxt p l none) : p = l.head? := by
  cases l with
  | nil => simpa [path_nil] using hp
  | cons a l => simpa using hp.1

theorem find_timer_slot_succ (threads : tid → thread_t) (thread : tid) (fuel : Nat)
    (current : tid) :
    find_timer_slot threads thread (fuel + 1) current =
      match (threads current).next_blocked with
      | none => .ok current
      | some n =>
        if (threads n).wake_up_tick ≤ (threads thread).wake_up_tick then
          find_timer_slot threads thread fuel n
        else .ok current := rfl

/-- The timer loop of `block_current_thread` stops at an entry such that no
entry up to it wakes later than the thread, and the next one, if any, does. -/
theorem find_timer_slot_spec (k : Kernel) (blocked : List tid) (t : tid) (p : Option tid)
    (hp : Path (next_blocked_of k) p blocked none) :
    ∀ (fuel : Nat) (c cur : tid) (pre post : List tid), blocked = pre ++ c :: post →
      (∀ a, a ∈ pre ++ [c] → (k.threads a).wake_up_tick ≤ (k.threads t).wake_up_tick) →
      find_timer_slot k.threads t fuel c = .ok cur →
      ∃ pre2 post2, blocked = pre2 ++ cur :: post2 ∧
        (∀ a, a ∈ pre2 ++ [cur] →
          (k.threads a).wake_up_tick ≤ (k.threads t).wake_up_tick) ∧
        (∀ n, post2.head? = some n →
          (k.threads t).wake_up_tick < (k.threads n).wake_up_tick) := by
  intro fuel
  induction fuel with
  | zero =>
    intro c cur pre post _ _ h
    simp [find_timer_slot] at h
  | succ n ih =>
    intro c cur pre post hb hle h
    rw [find_timer_slot_succ] at h
    have hnext : Path (next_blocked_of k) (next_blocked_of k c) post none := by
      rw [hb] at hp
      exact path_next_head _ _ _ _ _ _ hp
    have hhead : (k.threads c).next_blocked = post.head? := path_to_none_head _ _ _ hnext
    cases post with
    | nil =>
      rw [hhead] at h
      have e : c = cur := by simpa using h
      subst e
      exact ⟨pre, [], hb, hle, by simp⟩
    | cons b post3 =>
      rw [hhead] at h
      simp only [List.head?_cons] at h
      by_cases hw : (k.threads b).wake_up_tick ≤ (k.threads t).wake_up_tick
      · rw [if_pos hw] at h
        refine ih b cur (pre ++ [c]) post3 (by simp [hb]) ?_ h
        intro a ha
        rcases List.mem_append.1 ha with ha | ha
        · exact hle a ha
        · have : a = b := by simpa using ha
          exact this ▸ hw
      · rw [if_neg hw] at h
        have e : c = cur := by simpa using h
        subst e
        refine ⟨pre, b :: post3, hb, hle, ?_⟩
        intro m hm
        have : b = m := by simpa using hm
        subst this
        omega

theorem find_blocked_tail_succ (threads : tid → thread_t) (fuel : Nat) (current : tid) :
    find_blocked_tail threads (fuel + 1) current =
      match (threads current).next_blocked with
      | none => .ok current
      | some n => find_blocked_tail threads fuel n := rfl

/-- The FIFO loop of `block_current_thread` stops at the last entry. -/
theorem find_blocked_tail_spec (k : Kernel) (blocked : List tid) (p : Option tid)
    (hp : Path (next_blocked_of k) p blocked none) :
    ∀ (fuel : Nat) (c cur : tid) (pre post : List tid), blocked = pre ++ c :: post →
      find_blocked_tail k.threads fuel c = .ok cur →
      ∃ pre2, blocked = pre2 ++ [cur] := by
  intro fuel
  induction fuel with
  | zero =>
    intro c cur pre post _ h
    simp [find_blocked_tail] at h
  | succ n ih =>
    intro c cur pre post hb h
    rw [find_blocked_tail_succ] at h
    have hnext : Path (next_blocked_of k) (next_blocked_of k c) post none := by
      rw [hb] at hp
      exact path_next_head _ _ _ _ _ _ hp
    have hhead : (k.threads c).next_blocked = post.head? := path_to_none_head _ _ _ hnext
    cases post with
    | nil =>
      rw [hhead] at h
      have e : c = cur := by simpa using h
      subst e
      exact ⟨pre, hb⟩
    | cons b post3 =>
      rw [hhead] at h
      simp only [List.head?_cons] at h
      exact ih b cur (pre ++ [c]) post3 (by simp [hb]) h

theorem timer_sorted_congr (k k2 : Kernel) (l : List tid)
    (h : ∀ a, a ∈ l → (k2.threads a).block_reason = (k.threads a).block_reason ∧
      (k2.threads a).wake_up_tick = (k.threads a).wake_up_tick)
    (hs : TimerSorted k l) : TimerSorted k2 l := by
  unfold TimerSorted at *
  refine List.Pairwise.imp_of_mem ?_ hs
  intro a b ha hb hab hr
  rw [(h a ha).2, (h b hb).2]
  exact hab (by rw [← (h b hb).1]; exact hr)

theorem timer_sorted_insert (k : Kernel) (bl1 bl2 : List tid) (t : tid)
    (hs : TimerSorted k (bl1 ++ bl2))
    (hle : ∀ a, a ∈ bl1 → (k.threads t).block_reason = BLOCK_REASON_TIMER →
      (k.threads a).wake_up_tick ≤ (k.threads t).wake_up_tick)
    (hge : ∀ b, b ∈ bl2 → (k.threads b).block_reason = BLOCK_REASON_TIMER →
      (k.threads t).wake_up_tick ≤ (k.threads b).wake_up_tick) :
    TimerSorted k (bl1 ++ t :: bl2) := by
  unfold TimerSorted at *
  rw [List.pairwise_append] at hs ⊢
  refine ⟨hs.1, ?_, ?_⟩
  · rw [List.pairwise_cons]
    exact ⟨fun b hb => hge b hb, hs.2.1⟩
  · intro a ha b hb
    rcases List.mem_cons.1 hb with e | hb2
    · subst e
      exact hle a ha
    · exact hs.2.2 a ha b hb2

theorem timer_sorted_sublist (k : Kernel) (l l2 : List tid) (h : l2.Sublist l)
    (hs : TimerSorted k l) : TimerSorted k l2 :=
  List.Pairwise.sublist h hs


theorem blocked_head_eq (k : Kernel) (blocked : List tid) (hb : BlockedList k blocked) :
    k.k_context.blocked_thread_list = blocked.head? :=
  path_to_none_head _ _ _ hb.1

/-- The insertion of `block_current_thread` puts the thread into the blocked
list, at a place that keeps the timer entries sorted. -/
theorem insert_blocked_spec (fuel : Nat) (k k2 : Kernel) (blocked : List tid) (t : tid)
    (reason : block_reason_t) (data : Nat)
    (hb : BlockedList k blocked) (hs : TimerSorted k blocked) (ht : t ∉ blocked)
    (hnb : (k.threads t).next_blocked = none)
    (hreason : (k.threads t).block_reason = reason)
    (h : insert_blocked fuel t reason data k = .ok k2) :
    ∃ bl1 bl2, blocked = bl1 ++ bl2 ∧ BlockedList k2 (bl1 ++ t :: bl2) ∧
      TimerSorted k2 (bl1 ++ t :: bl2) ∧ InsertKeeps k k2 t blocked ∧
      (reason = BLOCK_REASON_TIMER → (k2.threads t).wake_up_tick = data) := by
  have hhead := blocked_head_eq k blocked hb
  obtain ⟨hp, hn⟩ := hb
  unfold insert_blocked at h
  by_cases hr : reason = BLOCK_REASON_TIMER
  · rw [if_pos hr] at h
    simp only [set_wake_up_tick_context] at h
    -- the data after `thread->wake_up_tick = data`
    have hs3 : TimerSorted (set_wake_up_tick k t data) blocked := by
      refine timer_sorted_congr k _ blocked (fun a ha => ?_) hs
      have : a ≠ t := fun e => ht (e ▸ ha)
      simp [this]
    cases blocked with
    | nil =>
      have h0 : k.k_context.blocked_thread_list = none := by simpa using hhead
      rw [h0] at h
      simp only at h
      have hk := Except.ok.inj h
      subst hk
      refine ⟨[], [], rfl, ⟨?_, by simp⟩, ?_, ?_, fun _ => by simp⟩
      · simp [path_cons, path_nil]
      · simp [TimerSorted]
      · refine ⟨rfl, rfl, rfl, rfl, rfl, by simp, fun j => by simp, fun j hj => by simp [hj],
          fun j hj _ => by simp [hj]⟩
    | cons hd r =>
      have h0 : k.k_context.blocked_thread_list = some hd := by simpa using hhead
      have hdt : hd ≠ t := fun e => ht (by simp [e])
      rw [h0] at h hp
      simp only at h
      by_cases hlt : ((set_wake_up_tick k t data).threads t).wake_up_tick
          < ((set_wake_up_tick k t data).threads hd).wake_up_tick
      · rw [if_pos hlt] at h
        have hk := Except.ok.inj h
        subst hk
        refine ⟨[], hd :: r, rfl, ⟨?_, ?_⟩, ?_, ?_, fun _ => by simp⟩
        · simp only [List.nil_append, set_blocked_thread_list_fields,
            next_blocked_of_set_blocked_thread_list, next_blocked_of_set_next_blocked,
            next_blocked_of_set_wake_up_tick]
          rw [path_cons]
          refine ⟨rfl, ?_⟩
          rw [path_update _ _ _ _ _ _ ht]
          simpa using hp
        · exact List.nodup_cons.2 ⟨ht, hn⟩
        · have hs4 : TimerSorted (set_blocked_thread_list
              (set_next_blocked (set_wake_up_tick k t data) t (some hd)) (some t))
              ([] ++ hd :: r) :=
            timer_sorted_congr (set_wake_up_tick k t data) _ _ (fun a _ => by simp) hs3
          refine timer_sorted_insert _ [] (hd :: r) t hs4 (by simp) ?_
          intro b hb hbr
          simp only [set_blocked_thread_list_fields, set_next_blocked_fields,
            set_wake_up_tick_fields] at hbr ⊢
          have hbt : b ≠ t := fun e => ht (e ▸ hb)
          simp only [hbt, if_false, if_true] at hbr ⊢
          simp only [set_wake_up_tick_fields, if_true, hdt, if_false] at hlt
          rcases List.mem_cons.1 hb with e | hb2
          · subst e; omega
          · have := (List.pairwise_cons.1 hs).1 b hb2 hbr
            omega
        · refine ⟨rfl, rfl, rfl, rfl, rfl, by simp, fun j => by simp, fun j hj => by simp [hj],
            fun j hj _ => by simp [hj]⟩
      · rw [if_neg hlt] at h
        cases hf : find_timer_slot (set_wake_up_tick k t data).threads t fuel hd with
        | error e => rw [hf] at h; simp at h
        | ok cur =>
          rw [hf] at h
          simp only at h
          have hk := Except.ok.inj h
          subst hk
          have hp3 : Path (next_blocked_of (set_wake_up_tick k t data)) (some hd) (hd :: r)
              none := by simpa using hp
          obtain ⟨pre2, post2, hsplit, hle, hgt⟩ :=
            find_timer_slot_spec (set_wake_up_tick k t data) (hd :: r) t (some hd) hp3 fuel hd
              cur [] r rfl (by
                intro a ha
                have : a = hd := by simpa using ha
                subst this
                omega) hf
          have hcur_mem : cur ∈ hd :: r := by rw [hsplit]; simp
          have hcurt : cur ≠ t := fun e => ht (e ▸ hcur_mem)
          rw [hsplit] at hn hp hs hs3
          have hcur_pre : cur ∉ pre2 := fun hm =>
            (List.nodup_append.1 hn).2.2 hm (by simp)
          have hcur_post : cur ∉ post2 := fun hm =>
            (List.nodup_cons.1 (List.nodup_append.1 hn).2.1).1 hm
          have ht_pre : t ∉ pre2 := fun hm => ht (by rw [hsplit]; simp [hm])
          have ht_post : t ∉ post2 := fun hm => ht (by rw [hsplit]; simp [hm])
          rw [path_append] at hp
          obtain ⟨m, hpa, hpb⟩ := hp
          have hm : m = some cur := hpb.1
          subst hm
          have hpc : Path (next_blocked_of k) (next_blocked_of k cur) post2 none := hpb.2
          refine ⟨pre2 ++ [cur], post2, by simp [hsplit], ⟨?_, ?_⟩, ?_, ?_, fun _ => by
            simp [hcurt.symm]⟩
          · simp only [set_next_blocked_context, set_wake_up_tick_context, h0,
              next_blocked_of_set_next_blocked, next_blocked_of_set_wake_up_tick,
              List.append_assoc, List.singleton_append, set_wake_up_tick_fields]
            rw [path_append]
            refine ⟨some cur, ?_, ?_⟩
            · rw [path_update _ _ _ _ _ _ hcur_pre, path_update _ _ _ _ _ _ ht_pre]
              exact hpa
            · rw [path_cons, path_cons]
              refine ⟨rfl, by simp, ?_⟩
              rw [path_update _ _ _ _ _ _ hcur_post, path_update _ _ _ _ _ _ ht_post]
              simpa [Function.update_apply, hcurt.symm, next_blocked_of] using hpc
          · have hperm : (pre2 ++ [cur] ++ t :: post2).Perm (t :: (pre2 ++ [cur] ++ post2)) :=
              List.perm_middle
            have e : pre2 ++ [cur] ++ post2 = pre2 ++ cur :: post2 := by simp
            rw [hperm.nodup_iff, e]
            exact List.nodup_cons.2 ⟨by rw [← hsplit]; exact ht, hn⟩
          · have hs4 : TimerSorted (set_next_blocked
                (set_next_blocked (set_wake_up_tick k t data) t
                  ((set_wake_up_tick k t data).threads cur).next_blocked) cur (some t))
                ((pre2 ++ [cur]) ++ post2) := by
              refine timer_sorted_congr (set_wake_up_tick k t data) _ _ (fun a _ => by simp) ?_
              simpa using hs3
            refine timer_sorted_insert _ (pre2 ++ [cur]) post2 t hs4 ?_ ?_
            · intro a ha _
              have := hle a ha
              simpa using this
            · intro b hb hbr
              have hbt : b ≠ t := fun e => ht_post (e ▸ hb)
              simp only [set_next_blocked_fields, set_wake_up_tick_fields, hbt, if_false,
                if_true] at hbr ⊢
              cases post2 with
              | nil => simp at hb
              | cons n post3 =>
                have hn1 := hgt n (by simp)
                have hnt : n ≠ t := fun e => ht_post (by simp [e])
                simp only [set_wake_up_tick_fields, hnt, if_false, if_true] at hn1
                rcases List.mem_cons.1 hb with e | hb2
                · subst e; omega
                · have hs5 : TimerSorted k (n :: post3) :=
                    timer_sorted_sublist k _ _ (by
                      apply List.Sublist.trans _ (List.sublist_append_right _ _)
                      simp) hs
                  have := (List.pairwise_cons.1 hs5).1 b hb2 hbr
                  omega
          · refine ⟨rfl, rfl, rfl, rfl, rfl, by simp, fun j => by simp,
              fun j hj => by simp [hj], fun j hj hjb => ?_⟩
            have : j ≠ cur := fun e => hjb (e ▸ hcur_mem)
            simp [hj, this]
  · rw [if_neg hr] at h
    cases blocked with
    | nil =>
      have h0 : k.k_context.blocked_thread_list = none := by simpa using hhead
      rw [h0] at h
      simp only at h
      have hk := Except.ok.inj h
      subst hk
      refine ⟨[], [], rfl, ⟨?_, by simp⟩, ?_, ?_, fun e => absurd e hr⟩
      · simp only [List.nil_append, set_blocked_thread_list_fields,
          next_blocked_of_set_blocked_thread_list]
        rw [path_cons, path_nil]
        exact ⟨rfl, hnb⟩
      · simp [TimerSorted]
      · exact ⟨rfl, rfl, rfl, rfl, rfl, rfl, fun j => ⟨rfl, rfl⟩, fun j _ => rfl,
          fun j _ _ => rfl⟩
    | cons hd r =>
      have h0 : k.k_context.blocked_thread_list = some hd := by simpa using hhead
      rw [h0] at h hp
      simp only at h
      cases hf : find_blocked_tail k.threads fuel hd with
      | error e => rw [hf] at h; simp at h
      | ok cur =>
        rw [hf] at h
        simp only at h
        have hk := Except.ok.inj h
        subst hk
        obtain ⟨pre2, hsplit⟩ :=
          find_blocked_tail_spec k (hd :: r) (some hd) hp fuel hd cur [] r rfl hf
        have hcur_mem : cur ∈ hd :: r := by rw [hsplit]; simp
        have hcurt : cur ≠ t := fun e => ht (e ▸ hcur_mem)
        rw [hsplit] at hn hp hs
        have hcur_pre : cur ∉ pre2 := fun hm =>
          (List.nodup_append.1 hn).2.2 hm (by simp)
        rw [path_snoc] at hp
        refine ⟨pre2 ++ [cur], [], by simp [hsplit], ⟨?_, ?_⟩, ?_, ?_, fun e => absurd e hr⟩
        · simp only [set_next_blocked_context, h0, next_blocked_of_set_next_blocked]
          rw [path_snoc, path_snoc]
          refine ⟨⟨?_, by simp⟩, ?_⟩
          · rw [path_update _ _ _ _ _ _ hcur_pre]
            exact hp.1
          · simpa [Function.update_apply, hcurt.symm, next_blocked_of] using hnb
        · rw [List.nodup_append]
          refine ⟨hn, by simp, ?_⟩
          intro a ha hb
          have : a = t := by simpa using hb
          exact ht (by rw [hsplit]; exact this ▸ ha)
        · have hs4 : TimerSorted (set_next_blocked k cur (some t)) ((pre2 ++ [cur]) ++ []) := by
            refine timer_sorted_congr k _ _ (fun a _ => by simp) ?_
            simpa using hs
          refine timer_sorted_insert _ (pre2 ++ [cur]) [] t hs4 ?_ (by simp)
          intro a _ hrt
          simp only [set_next_blocked_fields] at hrt
          exact absurd (hreason.symm.trans hrt) hr
        · refine ⟨rfl, rfl, rfl, rfl, rfl, by simp, fun j => by simp,
            fun j hj => by simp, fun j hj hjb => ?_⟩
          have : j ≠ cur := fun e => hjb (e ▸ hcur_mem)
          simp [this]


/-! ## Blocking keeps the kernel data well formed -/

/-- When `block_current_thread` returns with a current thread, that thread
was on the ready ring and has moved to the blocked list. -/
theorem block_current_thread_wf (fuel : Nat) (reason : block_reason_t) (data : Nat)
    (k k2 : Kernel) (ring blocked : List tid) (hw : WellFormed k ring blocked)
    (h : block_current_thread fuel reason data k = .ok k2) :
    (k.k_context.current_thread = none ∧ k2 = k) ∨
    ∃ t l1 l2 bl1 bl2, k.k_context.current_thread = some t ∧ ring = l1 ++ t :: l2 ∧
      blocked = bl1 ++ bl2 ∧ WellFormed k2 (l1 ++ l2) (bl1 ++ t :: bl2) ∧
      (k2.threads t).state = THREAD_BLOCKED ∧ (k2.threads t).block_reason = reason ∧
      (reason = BLOCK_REASON_TIMER → (k2.threads t).wake_up_tick = data) ∧
      k2.k_context.current_thread = k.k_context.current_thread ∧
      k2.k_context.system_ticks = k.k_context.system_ticks ∧
      k2.k_context.scheduler_lock_count = k.k_context.scheduler_lock_count ∧
      k2.thread_count = k.thread_count := by
  unfold block_current_thread at h
  cases hc : k.k_context.current_thread with
  | none =>
    rw [hc] at h
    exact Or.inl ⟨rfl, (Except.ok.inj h).symm⟩
  | some t =>
    right
    rw [hc] at h
    simp only at h
    cases hrm : remove_from_ready_list fuel t k with
    | error e => rw [hrm] at h; simp at h
    | ok k1 =>
      rw [hrm] at h
      simp only at h
      obtain ⟨l1, l2, hsplit, hring1, hlinks⟩ :=
        remove_from_ready_list_spec fuel k k1 ring t hw.ready_ok hrm
      obtain ⟨hcount, hcur, hbh, hticks, hlock, hnbo, hfields⟩ :=
        ready_links_only_keeps k k1 hlinks
      have ht_ring : t ∈ ring := by rw [hsplit]; simp
      have ht_blocked : t ∉ blocked := hw.disjoint t ht_ring
      have hnodup : (l1 ++ t :: l2).Nodup := hsplit ▸ hw.ready_ok.2.2
      have ht12 : t ∉ l1 ++ l2 := by
        intro hm
        rcases List.mem_append.1 hm with hm | hm
        · exact (List.nodup_append.1 hnodup).2.2 hm (by simp)
        · exact (List.nodup_cons.1 (List.nodup_append.1 hnodup).2.1).1 hm
      have hsub : ∀ x, x ∈ l1 ++ l2 → x ∈ ring := by
        intro x hx
        rw [hsplit]
        rcases List.mem_append.1 hx with hx | hx
        · simp [hx]
        · simp [hx]
      -- the data before the insertion
      have hbl : BlockedList (set_next_blocked (set_block_reason
          (set_state k1 t THREAD_BLOCKED) t reason) t none) blocked := by
        refine ⟨?_, hw.blocked_ok.2⟩
        simp only [set_next_blocked_context, set_block_reason_context, set_state_context,
          next_blocked_of_set_next_blocked, next_blocked_of_set_block_reason,
          next_blocked_of_set_state, hbh, hnbo]
        rw [path_update _ _ _ _ _ _ ht_blocked]
        exact hw.blocked_ok.1
      have hts : TimerSorted (set_next_blocked (set_block_reason
          (set_state k1 t THREAD_BLOCKED) t reason) t none) blocked := by
        refine timer_sorted_congr k _ blocked (fun a ha => ?_) hw.timer_sorted
        have : a ≠ t := fun e => ht_blocked (e ▸ ha)
        simp [this, hfields a]
      obtain ⟨bl1, bl2, hbsplit, hbl2, hts2, hkeep, hwake⟩ :=
        insert_blocked_spec fuel _ k2 blocked t reason data hbl hts ht_blocked
          (by simp) (by simp) h
      obtain ⟨kcount, kcur, krh, kticks, klock, knro, kfields, kwake, knb⟩ := hkeep
      have hstate : ∀ j, j ≠ t → (k2.threads j).state = (k.threads j).state := by
        intro j hj
        rw [(kfields j).1]
        simp [hj, hfields j]
      have hstate_t : (k2.threads t).state = THREAD_BLOCKED := by
        rw [(kfields t).1]
        simp
      have hmemb : ∀ x, x ∈ bl1 ++ t :: bl2 ↔ x = t ∨ x ∈ blocked := by
        intro x
        rw [hbsplit]
        simp only [List.mem_append, List.mem_cons]
        tauto
      refine ⟨t, l1, l2, bl1, bl2, rfl, hsplit, hbsplit, ?_, hstate_t, ?_, hwake, ?_, ?_, ?_, ?_⟩
      · refine ⟨⟨?_, ?_, hring1.2.2⟩, hbl2, ?_, ?_, ?_, ?_, ?_, ?_, hts2, ?_⟩
        · rw [krh]
          simpa using hring1.1
        · rw [krh, knro]
          simpa using hring1.2.1
        · intro x hx hxb
          rcases (hmemb x).1 hxb with e | hxb2
          · exact ht12 (e ▸ hx)
          · exact hw.disjoint x (hsub x hx) hxb2
        · intro x
          rw [kcount]
          simp only [set_next_blocked_context, set_block_reason_context, set_state_context,
            hcount]
          rw [← hw.created x, hmemb x, hsplit]
          simp only [List.mem_append, List.mem_cons]
          tauto
        · intro x hx
          have hxt : x ≠ t := fun e => ht12 (e ▸ hx)
          rw [hstate x hxt]
          exact hw.ring_state x (hsub x hx)
        · intro x hx
          rcases (hmemb x).1 hx with e | hxb2
          · rw [e]; exact hstate_t
          · have hxt : x ≠ t := fun e => ht_blocked (e ▸ hxb2)
            rw [hstate x hxt]
            exact hw.blocked_state x hxb2
        · intro x hx
          have hxt : x ≠ t := by
            intro e
            rw [e, hstate_t] at hx
            exact absurd hx (by decide)
          rw [hstate x hxt] at hx
          rw [kcur]
          simp only [set_next_blocked_context, set_block_reason_context, set_state_context,
            hcur]
          exact hw.running x hx
        · intro c hcc
          rw [kcur] at hcc
          simp only [set_next_blocked_context, set_block_reason_context, set_state_context,
            hcur] at hcc
          rw [kcount]
          simp only [set_next_blocked_context, set_block_reason_context, set_state_context,
            hcount]
          exact hw.current_created c hcc
        · intro x hx
          rw [kcount] at hx
          simp only [set_next_blocked_context, set_block_reason_context, set_state_context,
            hcount] at hx
          have hxn : ¬ (x ∈ ring ∨ x ∈ blocked) := by
            rw [hw.created x]
            omega
          have hxt : x ≠ t := fun e => hxn (Or.inl (e ▸ ht_ring))
          have hxb : x ∉ blocked := fun hm => hxn (Or.inr hm)
          rw [(kfields x).2, knb x hxt hxb]
          simp only [set_next_blocked_fields, set_block_reason_fields, set_state_fields, hxt,
            if_false, hfields x]
          exact hw.fresh x hx
      · rw [(kfields t).2]
        simp
      · rw [kcur]
        simp [hcur, hc]
      · rw [kticks]
        simp [hticks]
      · rw [klock]
        simp [hlock]
      · rw [kcount]
        simp [hcount]


/-! ## Waking keeps the kernel data well formed -/

/-- `unblock_and_requeue_thread`, called on a blocked-list entry with the
entry before it as `prev`, moves the entry to the tail of the ready ring. -/
theorem unblock_and_requeue_thread_wf (k : Kernel) (ring pre post : List tid) (c : tid)
    (prev : Option tid) (hw : WellFormed k ring (pre ++ c :: post))
    (hprev : prev = pre.getLast?) :
    ∃ k2, unblock_and_requeue_thread c prev k = .ok k2 ∧
      WellFormed k2 (ring ++ [c]) (pre ++ post) ∧
      k2.k_context.current_thread = k.k_context.current_thread ∧
      k2.k_context.system_ticks = k.k_context.system_ticks ∧
      k2.k_context.scheduler_lock_count = k.k_context.scheduler_lock_count ∧
      k2.thread_count = k.thread_count ∧
      (k2.threads c).state = THREAD_READY ∧
      (k2.threads c).block_reason = BLOCK_REASON_NONE ∧
      (k2.threads c).next_blocked = none ∧
      (∀ j, (k2.threads j).wake_up_tick = (k.threads j).wake_up_tick) ∧
      (∀ j, j ≠ c → (k2.threads j).state = (k.threads j).state ∧
        (k2.threads j).block_reason = (k.threads j).block_reason) ∧
      (∀ j, j ≠ c → j ∉ pre →
        (k2.threads j).next_blocked = (k.threads j).next_blocked) := by
  have hbhead := blocked_head_eq k _ hw.blocked_ok
  obtain ⟨hp, hn⟩ := hw.blocked_ok
  have hc_pre : c ∉ pre := fun hm => (List.nodup_append.1 hn).2.2 hm (by simp)
  have hc_post : c ∉ post := (List.nodup_cons.1 (List.nodup_append.1 hn).2.1).1
  have hc_blocked : c ∈ pre ++ c :: post := by simp
  have hc_ring : c ∉ ring := fun hm => hw.disjoint c hm hc_blocked
  have hnext : Path (next_blocked_of k) (next_blocked_of k c) post none :=
    path_next_head _ _ _ _ _ _ hp
  have hsubl : (pre ++ post).Sublist (pre ++ c :: post) :=
    List.Sublist.append_left (List.sublist_cons_self c post) pre
  -- the data after the unlinking and the stores to the entry
  have hmid : ∃ k1, unlink_blocked c prev k = k1 ∧
      Path (next_blocked_of k1) k1.k_context.blocked_thread_list (pre ++ post) none ∧
      k1.k_context.current_thread = k.k_context.current_thread ∧
      k1.k_context.ready_thread_list = k.k_context.ready_thread_list ∧
      k1.k_context.system_ticks = k.k_context.system_ticks ∧
      k1.k_context.scheduler_lock_count = k.k_context.scheduler_lock_count ∧
      k1.thread_count = k.thread_count ∧
      next_ready_of k1 = next_ready_of k ∧
      (∀ j, (k1.threads j).state = (k.threads j).state ∧
        (k1.threads j).block_reason = (k.threads j).block_reason ∧
        (k1.threads j).wake_up_tick = (k.threads j).wake_up_tick) ∧
      (∀ j, j ∉ pre → (k1.threads j).next_blocked = (k.threads j).next_blocked) := by
    rcases List.eq_nil_or_concat pre with e | ⟨pre0, p, e⟩
    · subst e
      have hprev2 : prev = none := by simpa using hprev
      subst hprev2
      refine ⟨set_blocked_thread_list k (k.threads c).next_blocked, rfl, ?_, rfl, rfl, rfl,
        rfl, rfl, rfl, fun j => ⟨rfl, rfl, rfl⟩, fun j _ => rfl⟩
      simpa using hnext
    · rw [List.concat_eq_append] at e
      subst e
      have hprev2 : prev = some p := by simpa using hprev
      subst hprev2
      have hp_pre0 : p ∉ pre0 := by
        have := (List.nodup_append.1 (List.nodup_append.1 hn).1)
        exact fun hm => this.2.2 hm (by simp)
      have hp_post : p ∉ post := by
        intro hm
        exact (List.nodup_append.1 hn).2.2 (List.mem_append_right pre0 (List.mem_singleton_self p))
          (List.mem_cons_of_mem c hm)
      rw [path_append] at hp
      obtain ⟨m, hpa, -⟩ := hp
      rw [path_snoc] at hpa
      refine ⟨set_next_blocked k p (k.threads c).next_blocked, rfl, ?_, rfl, rfl, rfl, rfl,
        rfl, by simp, fun j => by simp, fun j hj => ?_⟩
      · simp only [set_next_blocked_context, next_blocked_of_set_next_blocked]
        rw [path_append]
        refine ⟨next_blocked_of k c, ?_, ?_⟩
        · rw [path_snoc]
          refine ⟨?_, by simp [next_blocked_of]⟩
          rw [path_update _ _ _ _ _ _ hp_pre0]
          exact hpa.1
        · rw [path_update _ _ _ _ _ _ hp_post]
          exact hnext
      · have : j ≠ p := fun e => hj (by simp [e])
        simp [this]
  obtain ⟨k1, hk1, hpath1, hcur1, hrh1, hticks1, hlock1, hcount1, hnr1, hf1, hnb1⟩ := hmid
  have hring_mid : ReadyRing (set_next_blocked (set_block_reason
      (set_state k1 c THREAD_READY) c BLOCK_REASON_NONE) c none) ring := by
    refine ⟨?_, ?_, hw.ready_ok.2.2⟩
    · simpa [hrh1] using hw.ready_ok.1
    · simpa [hrh1, hnr1] using hw.ready_ok.2.1
  obtain ⟨k2, hadd, hring2, hlinks⟩ := add_thread_to_ready_list_spec _ ring c hring_mid hc_ring
  obtain ⟨hcount, hcur, hbh, hticks, hlock, hnbo, hfields⟩ :=
    ready_links_only_keeps _ k2 hlinks
  have hc_pp : c ∉ pre ++ post := by
    intro hm
    rcases List.mem_append.1 hm with hm | hm
    · exact hc_pre hm
    · exact hc_post hm
  have hstate : ∀ j, j ≠ c → (k2.threads j).state = (k.threads j).state ∧
      (k2.threads j).block_reason = (k.threads j).block_reason := by
    intro j hj
    rw [(hfields j).1, (hfields j).2.1]
    simp [hj, hf1 j]
  have hstate_c : (k2.threads c).state = THREAD_READY := by
    rw [(hfields c).1]
    simp
  have hwake : ∀ j, (k2.threads j).wake_up_tick = (k.threads j).wake_up_tick := by
    intro j
    rw [(hfields j).2.2.1]
    simp [hf1 j]
  have hlink : ∀ j, j ≠ c → j ∉ pre →
      (k2.threads j).next_blocked = (k.threads j).next_blocked := by
    intro j hj hjp
    rw [(hfields j).2.2.2.1]
    simp [hj, hnb1 j hjp]
  refine ⟨k2, ?_, ?_, ?_, ?_, ?_, ?_, hstate_c, ?_, ?_, hwake, hstate, hlink⟩
  · unfold unblock_and_requeue_thread
    simp only [hk1, hadd]
  · refine ⟨hring2, ⟨?_, hsubl.nodup hn⟩, ?_, ?_, ?_, ?_, ?_, ?_, ?_, ?_⟩
    · rw [hbh, hnbo]
      simp only [set_next_blocked_context, set_block_reason_context, set_state_context,
        next_blocked_of_set_next_blocked, next_blocked_of_set_block_reason,
        next_blocked_of_set_state]
      rw [path_update _ _ _ _ _ _ hc_pp]
      exact hpath1
    · intro x hx hxb
      rcases List.mem_append.1 hx with hx | hx
      · exact hw.disjoint x hx (hsubl.subset hxb)
      · have : x = c := by simpa using hx
        exact hc_pp (this ▸ hxb)
    · intro x
      rw [hcount]
      simp only [set_next_blocked_context, set_block_reason_context, set_state_context,
        hcount1]
      rw [← hw.created x]
      simp only [List.mem_append, List.mem_cons, List.mem_singleton]
      tauto
    · intro x hx
      rcases List.mem_append.1 hx with hx | hx
      · have hxc : x ≠ c := fun e => hc_ring (e ▸ hx)
        rw [(hstate x hxc).1]
        exact hw.ring_state x hx
      · have : x = c := by simpa using hx
        rw [this, hstate_c]
        decide
    · intro x hx
      have hxc : x ≠ c := fun e => hc_pp (e ▸ hx)
      rw [(hstate x hxc).1]
      exact hw.blocked_state x (hsubl.subset hx)
    · intro x hx
      have hxc : x ≠ c := by
        intro e
        rw [e, hstate_c] at hx
        exact absurd hx (by decide)
      rw [(hstate x hxc).1] at hx
      rw [hcur]
      simp only [set_next_blocked_context, set_block_reason_context, set_state_context, hcur1]
      exact hw.running x hx
    · intro x hx
      rw [hcur] at hx
      simp only [set_next_blocked_context, set_block_reason_context, set_state_context,
        hcur1] at hx
      rw [hcount]
      simp only [set_next_blocked_context, set_block_reason_context, set_state_context,
        hcount1]
      exact hw.current_created x hx
    · refine timer_sorted_congr k k2 _ (fun a ha => ?_) (timer_sorted_sublist k _ _ hsubl
        hw.timer_sorted)
      have hac : a ≠ c := fun e => hc_pp (e ▸ ha)
      exact ⟨(hstate a hac).2, hwake a⟩
    · intro x hx
      rw [hcount] at hx
      simp only [set_next_blocked_context, set_block_reason_context, set_state_context,
        hcount1] at hx
      have hxn : ¬ (x ∈ ring ∨ x ∈ pre ++ c :: post) := by
        rw [hw.created x]
        omega
      have hxc : x ≠ c := fun e => hxn (Or.inr (e ▸ hc_blocked))
      have hxp : x ∉ pre := fun hm => hxn (Or.inr (by simp [hm]))
      rw [(hstate x hxc).2, (hfields x).2.2.2.1]
      simp only [set_next_blocked_fields, set_block_reason_fields, set_state_fields, hxc,
        if_false, hnb1 x hxp]
      exact hw.fresh x hx
  · rw [hcur]
    simp [hcur1]
  · rw [hticks]
    simp [hticks1]
  · rw [hlock]
    simp [hlock1]
  · rw [hcount]
    simp [hcount1]
  · rw [(hfields c).2.1]
    simp
  · rw [(hfields c).2.2.2.1]
    simp


theorem timer_due_stable : TestStable timer_due := by
  intro k k2 a h1 h2 h3
  simp [timer_due, h1, h2, h3]

theorem keyboard_waiting_stable : TestStable keyboard_waiting := by
  intro k k2 a _ h2 _
  simp [keyboard_waiting, h2]

theorem wake_loop_succ (test : Kernel → tid → Bool) (fuel : Nat) (current : tid)
    (prev : Option tid) (k : Kernel) :
    wake_loop test (fuel + 1) (some current) prev k =
      if test k current = true then
        match unblock_and_requeue_thread current prev k with
        | .error e => .error e
        | .ok k1 => wake_loop test fuel (k.threads current).next_blocked prev k1
      else wake_loop test fuel (k.threads current).next_blocked (some current) k := rfl

/-- A wake loop that has reached the entries `post` of the blocked list, with
the entries `pre` kept before them, moves the entries of `post` that pass the
test to the tail of the ready ring, in their order, and keeps the others. -/
theorem wake_loop_wf (test : Kernel → tid → Bool) (htest : TestStable test) :
    ∀ (fuel : Nat) (cur prev : Option tid) (k k2 : Kernel) (ring pre post : List tid),
      WellFormed k ring (pre ++ post) → cur = post.head? → prev = pre.getLast? →
      wake_loop test fuel cur prev k = .ok k2 →
      WellFormed k2 (ring ++ post.filter (test k))
        (pre ++ post.filter (fun a => !test k a)) ∧
      k2.k_context.current_thread = k.k_context.current_thread ∧
      k2.k_context.system_ticks = k.k_context.system_ticks ∧
      k2.k_context.scheduler_lock_count = k.k_context.scheduler_lock_count ∧
      k2.thread_count = k.thread_count ∧
      (∀ j, (k2.threads j).wake_up_tick = (k.threads j).wake_up_tick) ∧
      (∀ j, j ∉ post.filter (test k) → (k2.threads j).state = (k.threads j).state ∧
        (k2.threads j).block_reason = (k.threads j).block_reason) ∧
      (∀ j, j ∉ pre → j ∉ post →
        (k2.threads j).next_blocked = (k.threads j).next_blocked) ∧
      (∀ j, j ∈ post.filter (test k) → (k2.threads j).state = THREAD_READY ∧
        (k2.threads j).block_reason = BLOCK_REASON_NONE ∧
        (k2.threads j).next_blocked = none) := by
  intro fuel
  induction fuel with
  | zero =>
    intro cur prev k k2 ring pre post hw hcur hprev h
    cases post with
    | nil =>
      subst hcur
      have hk : k = k2 := by simpa [wake_loop] using h
      subst hk
      simpa using hw
    | cons c post2 =>
      subst hcur
      simp [wake_loop] at h
  | succ n ih =>
    intro cur prev k k2 ring pre post hw hcur hprev h
    cases post with
    | nil =>
      subst hcur
      have hk : k = k2 := by simpa [wake_loop] using h
      subst hk
      simpa using hw
    | cons c post2 =>
      have hcur2 : cur = some c := by simpa using hcur
      subst hcur2
      rw [wake_loop_succ] at h
      have hnext : (k.threads c).next_blocked = post2.head? :=
        path_to_none_head _ _ _ (path_next_head _ _ _ _ _ _ hw.blocked_ok.1)
      have hnd : (pre ++ c :: post2).Nodup := hw.blocked_ok.2
      have hc_post : c ∉ post2 := (List.nodup_cons.1 (List.nodup_append.1 hnd).2.1).1
      by_cases ht : test k c = true
      · rw [if_pos ht] at h
        obtain ⟨k1, hun, hw1, hcur1, hticks1, hlock1, hcount1, hs1, hr1, hb1, hwake1, hoth1,
            hlink1⟩ :=
          unblock_and_requeue_thread_wf k ring pre post2 c prev hw hprev
        rw [hun] at h
        simp only at h
        have hstab : ∀ a, a ∈ post2 → test k1 a = test k a := by
          intro a ha
          have hac : a ≠ c := fun e => hc_post (e ▸ ha)
          exact htest k k1 a hticks1 (hoth1 a hac).2 (hwake1 a)
        have hf1 : post2.filter (test k1) = post2.filter (test k) :=
          List.filter_congr hstab
        have hf2 : post2.filter (fun a => !test k1 a) = post2.filter (fun a => !test k a) :=
          List.filter_congr (fun a ha => by simp [hstab a ha])
        obtain ⟨hw2, hcur2, hticks2, hlock2, hcount2, hwake2, hoth2, hlink2, hmov2⟩ :=
          ih _ prev k1 k2 (ring ++ [c]) pre post2 hw1 hnext hprev h
        rw [hf1] at hw2 hoth2 hmov2
        rw [hf2] at hw2
        have hc_f : c ∉ post2.filter (test k) := fun hm => hc_post (List.mem_filter.1 hm).1
        have hc_pre : c ∉ pre := fun hm => (List.nodup_append.1 hnd).2.2 hm (by simp)
        refine ⟨?_, hcur2.trans hcur1, hticks2.trans hticks1, hlock2.trans hlock1,
          hcount2.trans hcount1, fun j => (hwake2 j).trans (hwake1 j), ?_, ?_, ?_⟩
        · simpa [List.filter_cons, ht] using hw2
        · intro j hj
          have hjc : j ≠ c := fun e => hj (by simp [List.filter_cons, ht, e])
          have hj2 : j ∉ post2.filter (test k) := fun hm =>
            hj (by simp [List.filter_cons, ht, hm])
          exact ⟨(hoth2 j hj2).1.trans (hoth1 j hjc).1, (hoth2 j hj2).2.trans (hoth1 j hjc).2⟩
        · intro j hjp hj
          have hjc : j ≠ c := fun e => hj (by simp [e])
          have hj2 : j ∉ post2 := fun hm => hj (by simp [hm])
          exact (hlink2 j hjp hj2).trans (hlink1 j hjc hjp)
        · intro j hj
          have hj2 : j = c ∨ j ∈ post2.filter (test k) := by
            simpa [List.filter_cons, ht] using hj
          rcases hj2 with e | hj2
          · subst e
            have hkeep := hoth2 j hc_f
            exact ⟨hkeep.1.trans hs1, hkeep.2.trans hr1, (hlink2 j hc_pre hc_post).trans hb1⟩
          · exact hmov2 j hj2
      · rw [if_neg ht] at h
        have hf : test k c = false := by simpa using ht
        have hw1 : WellFormed k ring ((pre ++ [c]) ++ post2) := by simpa using hw
        obtain ⟨hw2, hcur2, hticks2, hlock2, hcount2, hwake2, hoth2, hlink2, hmov2⟩ :=
          ih _ (some c) k k2 ring (pre ++ [c]) post2 hw1 hnext (by simp) h
        refine ⟨?_, hcur2, hticks2, hlock2, hcount2, hwake2, ?_, ?_, ?_⟩
        · simpa [List.filter_cons, hf] using hw2
        · intro j hj
          exact hoth2 j (by simpa [List.filter_cons, hf] using hj)
        · intro j hjp hj
          refine hlink2 j ?_ (fun hm => hj (by simp [hm]))
          intro hm
          rcases List.mem_append.1 hm with hm | hm
          · exact hjp hm
          · exact hj (by simp [List.mem_singleton.1 hm])
        · intro j hj
          exact hmov2 j (by simpa [List.filter_cons, hf] using hj)


/-! ## The scheduler keeps the kernel data well formed -/

/-- Stores that leave the links, the heads, the block reasons and the wake-up
ticks alone keep the data well formed, as long as the states stay in line with
the two lists and with `current_thread`. -/
theorem wellformed_of_links (k k2 : Kernel) (ring blocked : List tid)
    (hw : WellFormed k ring blocked)
    (hnr : next_ready_of k2 = next_ready_of k)
    (hnb : next_blocked_of k2 = next_blocked_of k)
    (hrh : k2.k_context.ready_thread_list = k.k_context.ready_thread_list)
    (hbh : k2.k_context.blocked_thread_list = k.k_context.blocked_thread_list)
    (hcount : k2.thread_count = k.thread_count)
    (hreason : ∀ j, (k2.threads j).block_reason = (k.threads j).block_reason)
    (hwake : ∀ j, (k2.threads j).wake_up_tick = (k.threads j).wake_up_tick)
    (hrs : ∀ t, t ∈ ring → (k2.threads t).state ≠ THREAD_BLOCKED)
    (hbs : ∀ t, t ∈ blocked → (k2.threads t).state = THREAD_BLOCKED)
    (hrun : ∀ t, (k2.threads t).state = THREAD_RUNNING → k2.k_context.current_thread = some t)
    (hcc : ∀ c, k2.k_context.current_thread = some c → c.val < k2.thread_count) :
    WellFormed k2 ring blocked := by
  refine ⟨⟨?_, ?_, hw.ready_ok.2.2⟩, ⟨?_, hw.blocked_ok.2⟩, hw.disjoint, ?_, hrs, hbs, hrun, hcc,
    ?_, ?_⟩
  · rw [hrh]; exact hw.ready_ok.1
  · rw [hrh, hnr]; exact hw.ready_ok.2.1
  · rw [hbh, hnb]; exact hw.blocked_ok.1
  · intro t
    rw [hcount]
    exact hw.created t
  · exact timer_sorted_congr k k2 blocked (fun a _ => ⟨hreason a, hwake a⟩) hw.timer_sorted
  · intro t ht
    rw [hcount] at ht
    have := hw.fresh t ht
    have e : (k2.threads t).next_blocked = (k.threads t).next_blocked :=
      congrFun hnb t
    rw [hreason t, e]
    exact this

/-- Stores to `system_ticks` and `scheduler_lock_count` keep the data well
formed. -/
theorem wellformed_of_same (k k2 : Kernel) (ring blocked : List tid)
    (hw : WellFormed k ring blocked) (hth : k2.threads = k.threads)
    (hcur : k2.k_context.current_thread = k.k_context.current_thread)
    (hrh : k2.k_context.ready_thread_list = k.k_context.ready_thread_list)
    (hbh : k2.k_context.blocked_thread_list = k.k_context.blocked_thread_list)
    (hcount : k2.thread_count = k.thread_count) : WellFormed k2 ring blocked := by
  refine wellformed_of_links k k2 ring blocked hw ?_ ?_ hrh hbh hcount ?_ ?_ ?_ ?_ ?_ ?_
  · funext j; simp [next_ready_of, hth]
  · funext j; simp [next_blocked_of, hth]
  · intro j; rw [hth]
  · intro j; rw [hth]
  · intro t ht; rw [hth]; exact hw.ring_state t ht
  · intro t ht; rw [hth]; exact hw.blocked_state t ht
  · intro t ht; rw [hth] at ht; rw [hcur]; exact hw.running t ht
  · intro c hc; rw [hcur] at hc; rw [hcount]; exact hw.current_created c hc

theorem wellformed_release (k : Kernel) (ring blocked : List tid)
    (hw : WellFormed k ring blocked) : WellFormed (release_scheduler_lock k) ring blocked :=
  wellformed_of_same k _ ring blocked hw rfl rfl rfl rfl rfl

theorem wellformed_acquire (k : Kernel) (ring blocked : List tid)
    (hw : WellFormed k ring blocked) : WellFormed (acquire_scheduler_lock k) ring blocked :=
  wellformed_of_same k _ ring blocked hw rfl rfl rfl rfl rfl

/-- In well-formed data a created thread that is not blocked is on the ring. -/
theorem mem_ring_of_not_blocked (k : Kernel) (ring blocked : List tid)
    (hw : WellFormed k ring blocked) (t : tid) (hc : t.val < k.thread_count)
    (hs : (k.threads t).state ≠ THREAD_BLOCKED) : t ∈ ring := by
  rcases (hw.created t).2 hc with h | h
  · exact h
  · exact absurd (hw.blocked_state t h) hs

/-- `check_and_wake_timer_threads` moves the due timer entries to the tail of
the ready ring and keeps the other entries. -/
theorem check_and_wake_timer_threads_wf (fuel : Nat) (k k2 : Kernel)
    (ring blocked : List tid) (hw : WellFormed k ring blocked)
    (h : check_and_wake_timer_threads fuel k = .ok k2) :
    WellFormed k2 (ring ++ blocked.filter (timer_due k))
        (blocked.filter (fun a => !timer_due k a)) ∧
      k2.k_context.current_thread = k.k_context.current_thread ∧
      k2.k_context.system_ticks = k.k_context.system_ticks ∧
      k2.k_context.scheduler_lock_count = k.k_context.scheduler_lock_count ∧
      k2.thread_count = k.thread_count ∧
      (∀ j, (k2.threads j).wake_up_tick = (k.threads j).wake_up_tick) ∧
      (∀ j, j ∉ blocked.filter (timer_due k) → (k2.threads j).state = (k.threads j).state ∧
        (k2.threads j).block_reason = (k.threads j).block_reason) ∧
      (∀ j, j ∉ blocked →
        (k2.threads j).next_blocked = (k.threads j).next_blocked) ∧
      (∀ j, j ∈ blocked.filter (timer_due k) → (k2.threads j).state = THREAD_READY ∧
        (k2.threads j).block_reason = BLOCK_REASON_NONE ∧
        (k2.threads j).next_blocked = none) := by
  have := wake_loop_wf timer_due timer_due_stable fuel _ none k k2 ring [] blocked
    (by simpa using hw) (blocked_head_eq k blocked hw.blocked_ok) rfl h
  simpa using this

/-- `unblock_keyboard_threads` moves the keyboard entries to the tail of the
ready ring and keeps the other entries. -/
theorem unblock_keyboard_threads_wf (fuel : Nat) (k k2 : Kernel)
    (ring blocked : List tid) (hw : WellFormed k ring blocked)
    (h : unblock_keyboard_threads fuel k = .ok k2) :
    WellFormed k2 (ring ++ blocked.filter (keyboard_waiting k))
        (blocked.filter (fun a => !keyboard_waiting k a)) ∧
      k2.k_context.current_thread = k.k_context.current_thread ∧
      k2.k_context.system_ticks = k.k_context.system_ticks ∧
      k2.k_context.scheduler_lock_count = k.k_context.scheduler_lock_count ∧
      k2.thread_count = k.thread_count ∧
      (∀ j, (k2.threads j).wake_up_tick = (k.threads j).wake_up_tick) ∧
      (∀ j, j ∉ blocked.filter (keyboard_waiting k) →
        (k2.threads j).state = (k.threads j).state ∧
        (k2.threads j).block_reason = (k.threads j).block_reason) ∧
      (∀ j, j ∉ blocked →
        (k2.threads j).next_blocked = (k.threads j).next_blocked) ∧
      (∀ j, j ∈ blocked.filter (keyboard_waiting k) → (k2.threads j).state = THREAD_READY ∧
        (k2.threads j).block_reason = BLOCK_REASON_NONE ∧
        (k2.threads j).next_blocked = none) := by
  have := wake_loop_wf keyboard_waiting keyboard_waiting_stable fuel _ none k k2 ring []
    blocked (by simpa using hw) (blocked_head_eq k blocked hw.blocked_ok) rfl h
  simpa using this


theorem find_next_ready_succ (threads : tid → thread_t) (old_thread : tid)
    (search_start : Option tid) (fuel : Nat) (next : tid) :
    find_next_ready threads old_thread search_start (fuel + 1) (some next) =
      if next = old_thread then .ok none
      else if (threads next).state = THREAD_READY then .ok (some next)
      else if (threads next).next_ready = search_start then .ok none
      else find_next_ready threads old_thread search_start fuel (threads next).next_ready :=
  rfl

/-- The thread that the search of `perform_thread_switch` finds is a ready
member of the ring other than the outgoing thread. -/
theorem find_next_ready_spec (k : Kernel) (ring : List tid) (hr : ReadyRing k ring)
    (old : tid) (start : Option tid) :
    ∀ (fuel : Nat) (p : Option tid) (r : tid), (∀ a, p = some a → a ∈ ring) →
      find_next_ready k.threads old start fuel p = .ok (some r) →
      r ∈ ring ∧ r ≠ old ∧ (k.threads r).state = THREAD_READY := by
  intro fuel
  induction fuel with
  | zero =>
    intro p r _ h
    cases p <;> simp [find_next_ready] at h
  | succ n ih =>
    intro p r hp h
    cases p with
    | none => simp [find_next_ready] at h
    | some a =>
      rw [find_next_ready_succ] at h
      by_cases e1 : a = old
      · rw [if_pos e1] at h
        simp at h
      · rw [if_neg e1] at h
        by_cases e2 : (k.threads a).state = THREAD_READY
        · rw [if_pos e2] at h
          have : a = r := by simpa using h
          subst this
          exact ⟨hp a rfl, e1, e2⟩
        · rw [if_neg e2] at h
          by_cases e3 : (k.threads a).next_ready = start
          · rw [if_pos e3] at h
            simp at h
          · rw [if_neg e3] at h
            obtain ⟨b, hb, hm⟩ := ready_ring_next_mem k ring hr a (hp a rfl)
            refine ih _ r ?_ h
            intro c hc
            rw [hb] at hc
            have : b = c := by simpa using hc
            exact this ▸ hm

/-- The first selection marks the head of the ring, a ready thread, as
running. -/
theorem handle_initial_thread_selection_wf (k k2 : Kernel) (x : sched_exit)
    (ring blocked : List tid) (hw : WellFormed k ring blocked)
    (hcur : k.k_context.current_thread = none)
    (h : handle_initial_thread_selection k = .ok (x, k2)) :
    ∃ c, k.k_context.ready_thread_list = some c ∧ c ∈ ring ∧
      (k.threads c).state = THREAD_READY ∧
      k2 = release_scheduler_lock (set_state (set_current_thread k (some c)) c THREAD_RUNNING) ∧
      x = sched_exit.initial_switch (k.threads c).esp ∧ WellFormed k2 ring blocked := by
  unfold handle_initial_thread_selection at h
  simp only [set_current_thread_fields] at h
  cases hr : k.k_context.ready_thread_list with
  | none => rw [hr] at h; simp at h
  | some c =>
    rw [hr] at h
    simp only at h
    have hinj := Except.ok.inj h
    have hx : sched_exit.initial_switch
        ((release_scheduler_lock
          (set_state (set_current_thread k (some c)) c THREAD_RUNNING)).threads c).esp = x :=
      congrArg Prod.fst hinj
    have hk : release_scheduler_lock
        (set_state (set_current_thread k (some c)) c THREAD_RUNNING) = k2 :=
      congrArg Prod.snd hinj
    have hc_ring : c ∈ ring := ready_ring_head_mem k ring hw.ready_ok c hr
    have hnr : ∀ t, (k.threads t).state ≠ THREAD_RUNNING := by
      intro t ht
      have := hw.running t ht
      rw [hcur] at this
      exact absurd this (by simp)
    have hc_state : (k.threads c).state = THREAD_READY := by
      have h1 := hw.ring_state c hc_ring
      have h2 := hnr c
      cases hs : (k.threads c).state <;> simp_all
    refine ⟨c, rfl, hc_ring, hc_state, hk.symm, ?_, ?_⟩
    · rw [← hx]
      simp [release_scheduler_lock]
    · subst hk
      refine wellformed_of_links k _ ring blocked hw (by simp [release_scheduler_lock])
        (by simp [release_scheduler_lock]) (by simp [release_scheduler_lock])
        (by simp [release_scheduler_lock]) (by simp [release_scheduler_lock])
        (fun j => by simp [release_scheduler_lock])
        (fun j => by simp [release_scheduler_lock]) ?_ ?_ ?_ ?_
      · intro t ht
        simp only [release_scheduler_lock, set_scheduler_lock_count_fields, set_state_fields,
          set_current_thread_fields]
        by_cases e : t = c
        · simp [e]
        · simp only [e, if_false]
          exact hw.ring_state t ht
      · intro t ht
        have e : t ≠ c := fun e => hw.disjoint c hc_ring (e ▸ ht)
        simp only [release_scheduler_lock, set_scheduler_lock_count_fields, set_state_fields,
          set_current_thread_fields, e, if_false]
        exact hw.blocked_state t ht
      · intro t ht
        simp only [release_scheduler_lock, set_scheduler_lock_count_fields, set_state_fields,
          set_current_thread_fields, set_state_context] at ht ⊢
        by_cases e : t = c
        · rw [e]
        · simp only [e, if_false] at ht
          exact absurd ht (hnr t)
      · intro t ht
        simp only [release_scheduler_lock, set_scheduler_lock_count_fields, set_state_fields,
          set_current_thread_fields, set_state_context] at ht ⊢
        have e : c = t := by simpa using ht
        rw [← e]
        exact (hw.created c).1 (Or.inl hc_ring)


/-- A switch away from a blocked current thread marks the head of the ring, a
ready thread, as running; without such a head nothing but the lock changes. -/
theorem handle_blocked_thread_scheduling_wf (k k2 : Kernel) (x : sched_exit)
    (ring blocked : List tid) (hw : WellFormed k ring blocked) (b : tid)
    (hcur : k.k_context.current_thread = some b)
    (hb : (k.threads b).state = THREAD_BLOCKED)
    (h : handle_blocked_thread_scheduling k = .ok (x, k2)) :
    (x = sched_exit.idle ∧ k2 = release_scheduler_lock k ∧ WellFormed k2 ring blocked) ∨
    ∃ c, k.k_context.ready_thread_list = some c ∧ c ∈ ring ∧
      (k.threads c).state = THREAD_READY ∧
      k2 = release_scheduler_lock (set_current_thread (set_state k c THREAD_RUNNING) (some c)) ∧
      x = sched_exit.switch b (k.threads c).esp ∧ WellFormed k2 ring blocked := by
  unfold handle_blocked_thread_scheduling at h
  rw [hcur] at h
  simp only at h
  have hidle : ∀ y k3, (Except.ok (sched_exit.idle, release_scheduler_lock k) :
      Exec (sched_exit × Kernel)) = .ok (y, k3) →
      (y = sched_exit.idle ∧ k3 = release_scheduler_lock k ∧ WellFormed k3 ring blocked) := by
    intro y k3 hh
    have hinj := Except.ok.inj hh
    have h1 : sched_exit.idle = y := congrArg Prod.fst hinj
    have h2 : release_scheduler_lock k = k3 := congrArg Prod.snd hinj
    subst h1
    subst h2
    exact ⟨rfl, rfl, wellformed_release k ring blocked hw⟩
  cases hr : k.k_context.ready_thread_list with
  | none =>
    rw [hr] at h
    exact Or.inl (hidle x k2 h)
  | some c =>
    rw [hr] at h
    simp only at h
    by_cases hs : (k.threads c).state = THREAD_READY
    · right
      rw [if_pos hs] at h
      have hinj := Except.ok.inj h
      simp only [set_state_context, hr] at hinj
      have hx := congrArg Prod.fst hinj
      have hk := congrArg Prod.snd hinj
      simp only at hx hk
      have hc_ring : c ∈ ring := ready_ring_head_mem k ring hw.ready_ok c hr
      have hnr : ∀ t, (k.threads t).state ≠ THREAD_RUNNING := by
        intro t ht
        have := hw.running t ht
        rw [hcur] at this
        have e : b = t := by simpa using this
        rw [← e, hb] at ht
        exact absurd ht (by decide)
      refine ⟨c, rfl, hc_ring, hs, hk.symm, ?_, ?_⟩
      · rw [← hx]
        simp [release_scheduler_lock]
      · subst hk
        refine wellformed_of_links k _ ring blocked hw (by simp [release_scheduler_lock])
          (by simp [release_scheduler_lock]) (by simp [release_scheduler_lock, hr])
          (by simp [release_scheduler_lock]) (by simp [release_scheduler_lock])
          (fun j => by simp [release_scheduler_lock])
          (fun j => by simp [release_scheduler_lock]) ?_ ?_ ?_ ?_
        · intro t ht
          simp only [release_scheduler_lock, set_scheduler_lock_count_fields, set_state_fields,
            set_current_thread_fields]
          by_cases e : t = c
          · simp [e]
          · simp only [e, if_false]
            exact hw.ring_state t ht
        · intro t ht
          have e : t ≠ c := fun e => hw.disjoint c hc_ring (e ▸ ht)
          simp only [release_scheduler_lock, set_scheduler_lock_count_fields, set_state_fields,
            set_current_thread_fields, e, if_false]
          exact hw.blocked_state t ht
        · intro t ht
          simp only [release_scheduler_lock, set_scheduler_lock_count_fields, set_state_fields,
            set_current_thread_fields] at ht ⊢
          by_cases e : t = c
          · rw [e]
          · simp only [e, if_false] at ht
            exact absurd ht (hnr t)
        · intro t ht
          simp only [release_scheduler_lock, set_scheduler_lock_count_fields,
            set_current_thread_fields, set_state_context] at ht ⊢
          have e : c = t := by simpa using ht
          rw [← e]
          exact (hw.created c).1 (Or.inl hc_ring)
    · rw [if_neg hs] at h
      exact Or.inl (hidle x k2 h)

/-- A round-robin switch marks the outgoing thread as ready and a ready ring
member as running; when the search finds none nothing but the lock changes. -/
theorem perform_thread_switch_wf (fuel : Nat) (k k2 : Kernel) (x : sched_exit)
    (ring blocked : List tid) (hw : WellFormed k ring blocked) (old : tid)
    (hcur : k.k_context.current_thread = some old)
    (hold : (k.threads old).state ≠ THREAD_BLOCKED)
    (h : perform_thread_switch fuel k = .ok (x, k2)) :
    (x = sched_exit.no_switch ∧ k2 = release_scheduler_lock k ∧ WellFormed k2 ring blocked) ∨
    ∃ next, next ∈ ring ∧ next ≠ old ∧ (k.threads next).state = THREAD_READY ∧
      k2 = release_scheduler_lock (set_current_thread
        (set_state (set_state k old THREAD_READY) next THREAD_RUNNING) (some next)) ∧
      x = sched_exit.switch old (k.threads next).esp ∧ WellFormed k2 ring blocked := by
  unfold perform_thread_switch at h
  rw [hcur] at h
  simp only at h
  have hold_ring : old ∈ ring :=
    mem_ring_of_not_blocked k ring blocked hw old (hw.current_created old hcur) hold
  cases hf : find_next_ready k.threads old (k.threads old).next_ready fuel
      (k.threads old).next_ready with
  | error e => rw [hf] at h; simp at h
  | ok r =>
    rw [hf] at h
    cases r with
    | none =>
      left
      simp only at h
      have hinj := Except.ok.inj h
      have h1 : sched_exit.no_switch = x := congrArg Prod.fst hinj
      have h2 : release_scheduler_lock k = k2 := congrArg Prod.snd hinj
      subst h1
      subst h2
      exact ⟨rfl, rfl, wellformed_release k ring blocked hw⟩
    | some next =>
      right
      simp only at h
      have hinj := Except.ok.inj h
      have hx := congrArg Prod.fst hinj
      have hk := congrArg Prod.snd hinj
      simp only at hx hk
      obtain ⟨hn_ring, hn_old, hn_state⟩ :=
        find_next_ready_spec k ring hw.ready_ok old _ fuel _ next (by
          intro a ha
          obtain ⟨b, hb, hm⟩ := ready_ring_next_mem k ring hw.ready_ok old hold_ring
          rw [hb] at ha
          have : b = a := by simpa using ha
          exact this ▸ hm) hf
      refine ⟨next, hn_ring, hn_old, hn_state, hk.symm, ?_, ?_⟩
      · rw [← hx]
        simp [release_scheduler_lock]
      · subst hk
        refine wellformed_of_links k _ ring blocked hw (by simp [release_scheduler_lock])
          (by simp [release_scheduler_lock]) (by simp [release_scheduler_lock])
          (by simp [release_scheduler_lock]) (by simp [release_scheduler_lock])
          (fun j => by simp [release_scheduler_lock])
          (fun j => by simp [release_scheduler_lock]) ?_ ?_ ?_ ?_
        · intro t ht
          simp only [release_scheduler_lock, set_scheduler_lock_count_fields, set_state_fields,
            set_current_thread_fields]
          by_cases e : t = next
          · simp [e]
          · by_cases e2 : t = old
            · subst e2
              simp [e]
            · simp only [e, e2, if_false]
              exact hw.ring_state t ht
        · intro t ht
          have e : t ≠ next := fun e => hw.disjoint next hn_ring (e ▸ ht)
          have e2 : t ≠ old := fun e => hw.disjoint old hold_ring (e ▸ ht)
          simp only [release_scheduler_lock, set_scheduler_lock_count_fields, set_state_fields,
            set_current_thread_fields, e, e2, if_false]
          exact hw.blocked_state t ht
        · intro t ht
          simp only [release_scheduler_lock, set_scheduler_lock_count_fields, set_state_fields,
            set_current_thread_fields] at ht ⊢
          by_cases e : t = next
          · rw [e]
          · simp only [e, if_false] at ht
            by_cases e2 : t = old
            · simp [e2] at ht
            · simp only [e2, if_false] at ht
              have := hw.running t ht
              rw [hcur] at this
              exact absurd (Option.some.inj this).symm e2
        · intro t ht
          simp only [release_scheduler_lock, set_scheduler_lock_count_fields,
            set_current_thread_fields, set_state_context] at ht ⊢
          have e : next = t := by simpa using ht
          rw [← e]
          exact (hw.created next).1 (Or.inl hn_ring)


/-- A call of `schedule` outside the guard: the timer wake, then one of the
four ways out. The data stays well formed, the lock count is zero again, and
a thread that is marked running was a ready ring member right before. -/
theorem schedule_wf (fuel : Nat) (k k2 : Kernel) (x : sched_exit) (ring blocked : List tid)
    (hw : WellFormed k ring blocked) (hlock : k.k_context.scheduler_lock_count = 0)
    (h : schedule fuel k = .ok (x, k2)) :
    ∃ k1, check_and_wake_timer_threads fuel (acquire_scheduler_lock k) = .ok k1 ∧
      WellFormed k1 (ring ++ blocked.filter (timer_due k))
        (blocked.filter (fun a => !timer_due k a)) ∧
      WellFormed k2 (ring ++ blocked.filter (timer_due k))
        (blocked.filter (fun a => !timer_due k a)) ∧
      k2.k_context.scheduler_lock_count = 0 ∧
      k2.k_context.system_ticks = k.k_context.system_ticks ∧
      k2.thread_count = k.thread_count ∧
      ((x = sched_exit.no_ready ∧ ring ++ blocked.filter (timer_due k) = [] ∧
          k2 = release_scheduler_lock k1) ∨
        (x = sched_exit.no_switch ∧ k2 = release_scheduler_lock k1) ∨
        (∃ c, c ∈ ring ++ blocked.filter (timer_due k) ∧
          (k1.threads c).state = THREAD_READY ∧
          k2.k_context.current_thread = some c ∧
          (k2.threads c).state = THREAD_RUNNING ∧
          k1.k_context.current_thread ≠ some c ∧
          (∀ j, j ≠ c → (k2.threads j).state ≠ THREAD_RUNNING) ∧
          ((k1.k_context.current_thread = none ∧
              x = sched_exit.initial_switch (k1.threads c).esp) ∨
            (∃ old, k1.k_context.current_thread = some old ∧
              x = sched_exit.switch old (k1.threads c).esp)))) := by
  unfold schedule at h
  have hnl : is_scheduler_locked k = false := by simp [is_scheduler_locked, hlock]
  rw [hnl] at h
  simp only [Bool.false_eq_true, if_false] at h
  cases hwk : check_and_wake_timer_threads fuel (acquire_scheduler_lock k) with
  | error e => rw [hwk] at h; simp at h
  | ok k1 =>
    rw [hwk] at h
    simp only at h
    obtain ⟨hw1, hcur1, hticks1, hlock1, hcount1, -⟩ :=
      check_and_wake_timer_threads_wf fuel _ k1 ring blocked
        (wellformed_acquire k ring blocked hw) hwk
    have hst : ∀ a, timer_due (acquire_scheduler_lock k) a = timer_due k a := fun a =>
      timer_due_stable k _ a rfl rfl rfl
    have hf1 : blocked.filter (timer_due (acquire_scheduler_lock k))
        = blocked.filter (timer_due k) := List.filter_congr (fun a _ => hst a)
    have hf2 : blocked.filter (fun a => !timer_due (acquire_scheduler_lock k) a)
        = blocked.filter (fun a => !timer_due k a) :=
      List.filter_congr (fun a _ => by simp [hst a])
    rw [hf1, hf2] at hw1
    have hl1 : k1.k_context.scheduler_lock_count = 1 := by
      rw [hlock1]
      simp [acquire_scheduler_lock, hlock]
    have ht1 : k1.k_context.system_ticks = k.k_context.system_ticks := by
      rw [hticks1]; rfl
    have hc1 : k1.thread_count = k.thread_count := by
      rw [hcount1]; rfl
    have hrel : (release_scheduler_lock k1).k_context.scheduler_lock_count = 0 := by
      simp [release_scheduler_lock, hl1]
    refine ⟨k1, rfl, hw1, ?_⟩
    cases hr : k1.k_context.ready_thread_list with
    | none =>
      rw [hr] at h
      simp only at h
      have hinj := Except.ok.inj h
      have h1 : sched_exit.no_ready = x := congrArg Prod.fst hinj
      have h2 : release_scheduler_lock k1 = k2 := congrArg Prod.snd hinj
      subst h1
      subst h2
      have hnil : ring ++ blocked.filter (timer_due k) = [] := by
        have := hw1.ready_ok.1
        rw [hr] at this
        exact List.head?_eq_none_iff.1 this.symm
      exact ⟨wellformed_release k1 _ _ hw1, hrel, ht1, hc1, Or.inl ⟨rfl, hnil, rfl⟩⟩
    | some hd =>
      rw [hr] at h
      simp only at h
      cases hc : k1.k_context.current_thread with
      | none =>
        rw [hc] at h
        simp only at h
        obtain ⟨c, hrc, hc_ring, hc_state, hk2, hx, hw2⟩ :=
          handle_initial_thread_selection_wf k1 k2 x _ _ hw1 hc h
        have hnr : ∀ t, (k1.threads t).state ≠ THREAD_RUNNING := by
          intro t ht
          have := hw1.running t ht
          rw [hc] at this
          exact absurd this (by simp)
        refine ⟨hw2, ?_, ?_, ?_, Or.inr (Or.inr ⟨c, hc_ring, hc_state, ?_, ?_, by simp, ?_,
          Or.inl ⟨rfl, hx⟩⟩)⟩
        · rw [hk2]; simp [release_scheduler_lock, hl1]
        · rw [hk2]; simp [release_scheduler_lock, ht1]
        · rw [hk2]; simp [release_scheduler_lock, hc1]
        · rw [hk2]; simp [release_scheduler_lock]
        · rw [hk2]; simp [release_scheduler_lock]
        · intro j hj
          rw [hk2]
          simp only [release_scheduler_lock, set_scheduler_lock_count_fields, set_state_fields,
            set_current_thread_fields, hj, if_false]
          exact hnr j
      | some old =>
        rw [hc] at h
        simp only at h
        by_cases hb : (k1.threads old).state = THREAD_BLOCKED
        · rw [if_pos hb] at h
          rcases handle_blocked_thread_scheduling_wf k1 k2 x _ _ hw1 old hc hb h with
            ⟨hx, hk2, hw2⟩ | ⟨c, hrc, hc_ring, hc_state, hk2, hx, hw2⟩
          · -- the head of a non-empty ring is ready here, so this way out is not taken
            exfalso
            have hhd_ring := ready_ring_head_mem k1 _ hw1.ready_ok hd hr
            have hne : (k1.threads hd).state ≠ THREAD_READY := by
              intro hs
              unfold handle_blocked_thread_scheduling at h
              rw [hc, hr] at h
              simp only [hs, if_true] at h
              have := congrArg Prod.fst (Except.ok.inj h)
              rw [hx] at this
              exact absurd this (by simp)
            have h1 := hw1.ring_state hd hhd_ring
            have hrun : (k1.threads hd).state = THREAD_RUNNING := by
              cases hs : (k1.threads hd).state <;> simp_all
            have := hw1.running hd hrun
            rw [hc] at this
            have e : old = hd := by simpa using this
            rw [e] at hb
            exact h1 hb
          · have hco : c ≠ old := by
              intro e
              rw [e, hb] at hc_state
              exact absurd hc_state (by decide)
            have hnr : ∀ t, (k1.threads t).state ≠ THREAD_RUNNING := by
              intro t ht
              have := hw1.running t ht
              rw [hc] at this
              have e : old = t := by simpa using this
              rw [← e, hb] at ht
              exact absurd ht (by decide)
            refine ⟨hw2, ?_, ?_, ?_, Or.inr (Or.inr ⟨c, hc_ring, hc_state, ?_, ?_, ?_, ?_,
              Or.inr ⟨old, rfl, hx⟩⟩)⟩
            · rw [hk2]; simp [release_scheduler_lock, hl1]
            · rw [hk2]; simp [release_scheduler_lock, ht1]
            · rw [hk2]; simp [release_scheduler_lock, hc1]
            · rw [hk2]; simp [release_scheduler_lock]
            · rw [hk2]; simp [release_scheduler_lock]
            · intro e
              exact hco (Option.some.inj e).symm
            · intro j hj
              rw [hk2]
              simp only [release_scheduler_lock, set_scheduler_lock_count_fields,
                set_state_fields, set_current_thread_fields, hj, if_false]
              exact hnr j
        · rw [if_neg hb] at h
          rcases perform_thread_switch_wf fuel k1 k2 x _ _ hw1 old hc hb h with
            ⟨hx, hk2, hw2⟩ | ⟨c, hc_ring, hco, hc_state, hk2, hx, hw2⟩
          · refine ⟨hw2, ?_, ?_, ?_, Or.inr (Or.inl ⟨hx, hk2⟩)⟩
            · rw [hk2]; exact hrel
            · rw [hk2]; simp [release_scheduler_lock, ht1]
            · rw [hk2]; simp [release_scheduler_lock, hc1]
          · refine ⟨hw2, ?_, ?_, ?_, Or.inr (Or.inr ⟨c, hc_ring, hc_state, ?_, ?_, ?_, ?_,
              Or.inr ⟨old, rfl, hx⟩⟩)⟩
            · rw [hk2]; simp [release_scheduler_lock, hl1]
            · rw [hk2]; simp [release_scheduler_lock, ht1]
            · rw [hk2]; simp [release_scheduler_lock, hc1]
            · rw [hk2]; simp [release_scheduler_lock]
            · rw [hk2]; simp [release_scheduler_lock]
            · intro e
              exact hco (Option.some.inj e).symm
            · intro j hj
              rw [hk2]
              simp only [release_scheduler_lock, set_scheduler_lock_count_fields,
                set_state_fields, set_current_thread_fields, hj, if_false]
              by_cases e : j = old
              · simp [e]
              · simp only [e, if_false]
                intro hrun
                have := hw1.running j hrun
                rw [hc] at this
                exact e (Option.some.inj this).symm


/-! ## Thread creation keeps the kernel data well formed -/

@[simp] theorem configure_thread_attributes_fields (thread : thread_t) (d : Nat) (row : Int) :
    (configure_thread_attributes thread d row).state = THREAD_READY ∧
    (configure_thread_attributes thread d row).counter = 0 ∧
    (configure_thread_attributes thread d row).delay_ticks = d ∧
    (configure_thread_attributes thread d row).last_tick = 0 ∧
    (configure_thread_attributes thread d row).display_row = row ∧
    (configure_thread_attributes thread d row).next_ready = none ∧
    (configure_thread_attributes thread d row).block_reason = thread.block_reason ∧
    (configure_thread_attributes thread d row).wake_up_tick = thread.wake_up_tick ∧
    (configure_thread_attributes thread d row).next_blocked = thread.next_blocked ∧
    (configure_thread_attributes thread d row).stack = thread.stack ∧
    (configure_thread_attributes thread d row).esp = thread.esp :=
  ⟨rfl, rfl, rfl, rfl, rfl, rfl, rfl, rfl, rfl, rfl, rfl⟩

@[simp] theorem initialize_thread_stack_fields (a : Nat) (thread : thread_t) (func : Nat) :
    (initialize_thread_stack a thread func).state = thread.state ∧
    (initialize_thread_stack a thread func).counter = thread.counter ∧
    (initialize_thread_stack a thread func).delay_ticks = thread.delay_ticks ∧
    (initialize_thread_stack a thread func).last_tick = thread.last_tick ∧
    (initialize_thread_stack a thread func).display_row = thread.display_row ∧
    (initialize_thread_stack a thread func).next_ready = thread.next_ready ∧
    (initialize_thread_stack a thread func).block_reason = thread.block_reason ∧
    (initialize_thread_stack a thread func).wake_up_tick = thread.wake_up_tick ∧
    (initialize_thread_stack a thread func).next_blocked = thread.next_blocked :=
  ⟨rfl, rfl, rfl, rfl, rfl, rfl, rfl, rfl, rfl⟩

/-- The data of `create_thread` after the slot is reserved, the frame written
and the attributes set, before the insertion into the ready ring. -/
theorem create_thread_success_eq (threads_addr func delay_ticks : Nat) (display_row : Int)
    (k : Kernel) (hf : func ≠ 0) (h0 : 0 ≤ display_row) (h25 : display_row < 25)
    (hc : k.thread_count < MAX_THREADS) :
    create_thread threads_addr func delay_ticks display_row true k =
      match add_thread_to_ready_list ⟨k.thread_count, hc⟩
        (set_thread
          (set_thread { k with thread_count := k.thread_count + 1 } ⟨k.thread_count, hc⟩
            (initialize_thread_stack (stack_address threads_addr ⟨k.thread_count, hc⟩)
              (k.threads ⟨k.thread_count, hc⟩) func))
          ⟨k.thread_count, hc⟩
          (configure_thread_attributes
            (initialize_thread_stack (stack_address threads_addr ⟨k.thread_count, hc⟩)
              (k.threads ⟨k.thread_count, hc⟩) func)
            (if delay_ticks = 0 then 1 else delay_ticks) display_row)) with
      | .error e => .error e
      | .ok (r, k4) =>
        if r ≠ OS_SUCCESS then
          .ok (r, none, { k4 with thread_count := k4.thread_count - 1 })
        else .ok (OS_SUCCESS, some ⟨k.thread_count, hc⟩, k4) := by
  have hr2 : ¬ (display_row < 0 ∨ VGA_HEIGHT ≤ display_row) := by
    simp only [VGA_HEIGHT]; omega
  unfold create_thread
  by_cases hd : delay_ticks = 0
  · simp [validate_thread_params, hf, hr2, hd, hc]
  · simp [validate_thread_params, hf, hr2, hd, hc]


/-- The ways of `create_thread`: one of the three failures, with the data
untouched, or valid arguments and a free slot. -/
theorem create_thread_cases (threads_addr func delay_ticks : Nat) (display_row : Int)
    (out_thread : Bool) (k : Kernel) :
    create_thread threads_addr func delay_ticks display_row out_thread k
        = .ok (OS_ERROR_NULL_POINTER, none, k) ∨
    create_thread threads_addr func delay_ticks display_row out_thread k
        = .ok (OS_ERROR_INVALID_PARAMETER, none, k) ∨
    create_thread threads_addr func delay_ticks display_row out_thread k
        = .ok (OS_ERROR_OUT_OF_MEMORY, none, k) ∨
    (func ≠ 0 ∧ out_thread = true ∧ 0 ≤ display_row ∧ display_row < 25 ∧
      k.thread_count < MAX_THREADS) := by
  cases out_thread with
  | false => left; simp [create_thread]
  | true =>
    by_cases hf : func = 0
    · left; simp [create_thread, validate_thread_params, hf]
    · by_cases hr : display_row < 0 ∨ VGA_HEIGHT ≤ display_row
      · right; left; simp [create_thread, validate_thread_params, hf, hr]
      · by_cases hc : k.thread_count < MAX_THREADS
        · right; right; right
          simp only [VGA_HEIGHT] at hr
          exact ⟨hf, rfl, by omega, by omega, hc⟩
        · right; right; left
          by_cases hd : delay_ticks = 0 <;>
            simp [create_thread, validate_thread_params, hf, hr, hd, hc]

/-- With valid arguments and a free slot, `create_thread` on well-formed data
succeeds: the new thread is the next slot, it is appended to the ready ring,
and its attributes are the initial ones. -/
theorem create_thread_success_wf (threads_addr func delay_ticks : Nat) (display_row : Int)
    (k : Kernel) (ring blocked : List tid) (hw : WellFormed k ring blocked)
    (hf : func ≠ 0) (h0 : 0 ≤ display_row) (h25 : display_row < 25)
    (hc : k.thread_count < MAX_THREADS) :
    ∃ k2, create_thread threads_addr func delay_ticks display_row true k
        = .ok (OS_SUCCESS, some ⟨k.thread_count, hc⟩, k2) ∧
      WellFormed k2 (ring ++ [⟨k.thread_count, hc⟩]) blocked ∧
      k2.thread_count = k.thread_count + 1 ∧
      k2.k_context.current_thread = k.k_context.current_thread ∧
      k2.k_context.system_ticks = k.k_context.system_ticks ∧
      k2.k_context.scheduler_lock_count = k.k_context.scheduler_lock_count ∧
      (k2.threads ⟨k.thread_count, hc⟩).state = THREAD_READY ∧
      (k2.threads ⟨k.thread_count, hc⟩).counter = 0 ∧
      (k2.threads ⟨k.thread_count, hc⟩).last_tick = 0 ∧
      (k2.threads ⟨k.thread_count, hc⟩).block_reason = BLOCK_REASON_NONE ∧
      (k2.threads ⟨k.thread_count, hc⟩).next_blocked = none ∧
      (k2.threads ⟨k.thread_count, hc⟩).display_row = display_row ∧
      (k2.threads ⟨k.thread_count, hc⟩).delay_ticks
        = (if delay_ticks = 0 then 1 else delay_ticks) ∧
      (∀ j, j ≠ ⟨k.thread_count, hc⟩ → (k2.threads j).state = (k.threads j).state) := by
  rw [create_thread_success_eq threads_addr func delay_ticks display_row k hf h0 h25 hc]
  generalize ht : (⟨k.thread_count, hc⟩ : tid) = t
  have htv : t.val = k.thread_count := by rw [← ht]
  have ht_not : ¬ (t ∈ ring ∨ t ∈ blocked) := by
    rw [hw.created t]
    omega
  have ht_ring : t ∉ ring := fun hm => ht_not (Or.inl hm)
  have ht_blocked : t ∉ blocked := fun hm => ht_not (Or.inr hm)
  have hfresh := hw.fresh t (by omega)
  generalize hk3 : set_thread
      (set_thread { k with thread_count := k.thread_count + 1 } t
        (initialize_thread_stack (stack_address threads_addr t) (k.threads t) func)) t
      (configure_thread_attributes
        (initialize_thread_stack (stack_address threads_addr t) (k.threads t) func)
        (if delay_ticks = 0 then 1 else delay_ticks) display_row) = k3
  have h3ctx : k3.k_context = k.k_context := by rw [← hk3]; rfl
  have h3count : k3.thread_count = k.thread_count + 1 := by rw [← hk3]; rfl
  have h3t : k3.threads t = configure_thread_attributes
      (initialize_thread_stack (stack_address threads_addr t) (k.threads t) func)
      (if delay_ticks = 0 then 1 else delay_ticks) display_row := by
    rw [← hk3]; simp
  have h3o : ∀ j, j ≠ t → k3.threads j = k.threads j := by
    intro j hj
    rw [← hk3]
    simp [hj, set_thread_threads]
  have h3nr : next_ready_of k3 = Function.update (next_ready_of k) t none := by
    funext j
    by_cases e : j = t
    · subst e; simp [next_ready_of, h3t]
    · simp [next_ready_of, h3o j e, e]
  have h3nb : next_blocked_of k3 = next_blocked_of k := by
    funext j
    by_cases e : j = t
    · subst e; simp [next_blocked_of, h3t]
    · simp [next_blocked_of, h3o j e]
  have hring3 : ReadyRing k3 ring := by
    refine ⟨?_, ?_, hw.ready_ok.2.2⟩
    · rw [h3ctx]; exact hw.ready_ok.1
    · rw [h3ctx, h3nr, path_update _ _ _ _ _ _ ht_ring]
      exact hw.ready_ok.2.1
  obtain ⟨k4, hadd, hring4, hlinks⟩ := add_thread_to_ready_list_spec k3 ring t hring3 ht_ring
  obtain ⟨hcount, hcur, hbh, hticks, hlock, hnbo, hfields⟩ :=
    ready_links_only_keeps k3 k4 hlinks
  have hstate_o : ∀ j, j ≠ t → (k4.threads j).state = (k.threads j).state := by
    intro j hj
    rw [(hfields j).1, h3o j hj]
  have hstate_t : (k4.threads t).state = THREAD_READY := by
    rw [(hfields t).1, h3t]; simp
  have hreason : ∀ j, (k4.threads j).block_reason = (k.threads j).block_reason := by
    intro j
    rw [(hfields j).2.1]
    by_cases e : j = t
    · subst e; rw [h3t]; simp
    · rw [h3o j e]
  have hwake : ∀ j, (k4.threads j).wake_up_tick = (k.threads j).wake_up_tick := by
    intro j
    rw [(hfields j).2.2.1]
    by_cases e : j = t
    · subst e; rw [h3t]; simp
    · rw [h3o j e]
  refine ⟨k4, by rw [hadd]; simp, ?_, by rw [hcount, h3count], by rw [hcur, h3ctx],
    by rw [hticks, h3ctx], by rw [hlock, h3ctx], hstate_t, ?_, ?_, ?_, ?_, ?_, ?_, hstate_o⟩
  · refine ⟨hring4, ⟨?_, hw.blocked_ok.2⟩, ?_, ?_, ?_, ?_, ?_, ?_, ?_, ?_⟩
    · rw [hbh, hnbo, h3ctx, h3nb]
      exact hw.blocked_ok.1
    · intro x hx hxb
      rcases List.mem_append.1 hx with hx | hx
      · exact hw.disjoint x hx hxb
      · have : x = t := by simpa using hx
        exact ht_blocked (this ▸ hxb)
    · intro x
      rw [hcount, h3count]
      have hxt : x = t ↔ x.val = k.thread_count := by
        rw [← htv]
        exact Fin.ext_iff
      have := hw.created x
      simp only [List.mem_append, List.mem_singleton]
      constructor
      · rintro ((h1 | h1) | h1)
        · have := this.1 (Or.inl h1); omega
        · have := hxt.1 h1; omega
        · have := this.1 (Or.inr h1); omega
      · intro hlt
        by_cases e : x.val = k.thread_count
        · exact Or.inl (Or.inr (hxt.2 e))
        · rcases this.2 (by omega) with h1 | h1
          · exact Or.inl (Or.inl h1)
          · exact Or.inr h1
    · intro x hx
      rcases List.mem_append.1 hx with hx | hx
      · have hxt : x ≠ t := fun e => ht_ring (e ▸ hx)
        rw [hstate_o x hxt]
        exact hw.ring_state x hx
      · have : x = t := by simpa using hx
        rw [this, hstate_t]
        decide
    · intro x hx
      have hxt : x ≠ t := fun e => ht_blocked (e ▸ hx)
      rw [hstate_o x hxt]
      exact hw.blocked_state x hx
    · intro x hx
      have hxt : x ≠ t := by
        intro e
        rw [e, hstate_t] at hx
        exact absurd hx (by decide)
      rw [hstate_o x hxt] at hx
      rw [hcur, h3ctx]
      exact hw.running x hx
    · intro x hx
      rw [hcur, h3ctx] at hx
      rw [hcount, h3count]
      have := hw.current_created x hx
      omega
    · exact timer_sorted_congr k k4 blocked (fun a _ => ⟨hreason a, hwake a⟩) hw.timer_sorted
    · intro x hx
      rw [hcount, h3count] at hx
      have hxt : x ≠ t := by
        intro e
        rw [e, htv] at hx
        omega
      rw [hreason x, (hfields x).2.2.2.1, h3o x hxt]
      exact hw.fresh x (by omega)
  · rw [(hfields t).2.2.2.2.2.2.1, h3t]; simp
  · rw [(hfields t).2.2.2.2.2.2.2.2.1, h3t]; simp
  · rw [hreason t]; exact hfresh.1
  · rw [(hfields t).2.2.2.1, h3t]; simp [hfresh.2]
  · rw [(hfields t).2.2.2.2.2.2.2.2.2, h3t]; simp
  · rw [(hfields t).2.2.2.2.2.2.2.1, h3t]; simp


/-! ## The invariant over all reachable kernel data -/

theorem init_kernel_context_wf : WellFormed init_kernel_context [] [] := by
  refine ⟨⟨rfl, rfl, by simp⟩, ⟨rfl, by simp⟩, by simp, ?_, by simp, by simp, ?_, ?_, ?_, ?_⟩
  · intro t
    simp [init_kernel_context]
  · intro t ht
    simp [init_kernel_context, zero_thread] at ht
  · intro c hc
    simp [init_kernel_context] at hc
  · simp [TimerSorted]
  · intro t _
    exact ⟨rfl, rfl⟩

theorem inv_init : Inv init_kernel_context :=
  ⟨rfl, [], [], init_kernel_context_wf⟩

theorem inv_create_thread (threads_addr func delay_ticks : Nat) (display_row : Int)
    (out_thread : Bool) (r : os_result_t) (o : Option tid) (k k2 : Kernel) (hi : Inv k)
    (h : create_thread threads_addr func delay_ticks display_row out_thread k = .ok (r, o, k2)) :
    Inv k2 := by
  obtain ⟨hlock, ring, blocked, hw⟩ := hi
  rcases create_thread_cases threads_addr func delay_ticks display_row out_thread k with
    e | e | e | ⟨hf, ho, h0, h25, hc⟩
  · rw [e] at h
    have := congrArg (fun p => p.2.2) (Except.ok.inj h)
    simp only at this
    exact this ▸ ⟨hlock, ring, blocked, hw⟩
  · rw [e] at h
    have := congrArg (fun p => p.2.2) (Except.ok.inj h)
    simp only at this
    exact this ▸ ⟨hlock, ring, blocked, hw⟩
  · rw [e] at h
    have := congrArg (fun p => p.2.2) (Except.ok.inj h)
    simp only at this
    exact this ▸ ⟨hlock, ring, blocked, hw⟩
  · subst ho
    obtain ⟨k3, he, hw3, -, -, -, hl3, -⟩ :=
      create_thread_success_wf threads_addr func delay_ticks display_row k ring blocked hw
        hf h0 h25 hc
    rw [he] at h
    have := congrArg (fun p => p.2.2) (Except.ok.inj h)
    simp only at this
    subst this
    exact ⟨hl3.trans hlock, _, _, hw3⟩

theorem inv_block_current_thread (fuel : Nat) (reason : block_reason_t) (data : Nat)
    (k k2 : Kernel) (hi : Inv k) (h : block_current_thread fuel reason data k = .ok k2) :
    Inv k2 := by
  obtain ⟨hlock, ring, blocked, hw⟩ := hi
  rcases block_current_thread_wf fuel reason data k k2 ring blocked hw h with
    ⟨-, e⟩ | ⟨t, l1, l2, bl1, bl2, -, -, -, hw2, -, -, -, -, -, hl2, -⟩
  · exact e ▸ ⟨hlock, ring, blocked, hw⟩
  · exact ⟨hl2.trans hlock, _, _, hw2⟩

theorem inv_schedule (fuel : Nat) (x : sched_exit) (k k2 : Kernel) (hi : Inv k)
    (h : schedule fuel k = .ok (x, k2)) : Inv k2 := by
  obtain ⟨hlock, ring, blocked, hw⟩ := hi
  obtain ⟨k1, -, -, hw2, hl2, -⟩ := schedule_wf fuel k k2 x ring blocked hw hlock h
  exact ⟨hl2, _, _, hw2⟩

theorem inv_sleep (fuel ticks : Nat) (x : Option sched_exit) (k k2 : Kernel) (hi : Inv k)
    (h : sleep fuel ticks k = .ok (x, k2)) : Inv k2 := by
  unfold sleep at h
  by_cases h0 : ticks = 0
  · rw [if_pos h0] at h
    have e : k = k2 := congrArg Prod.snd (Except.ok.inj h)
    exact e ▸ hi
  · rw [if_neg h0] at h
    simp only at h
    cases hc : k.k_context.current_thread with
    | none =>
      rw [hc] at h
      have e : k = k2 := congrArg Prod.snd (Except.ok.inj h)
      exact e ▸ hi
    | some c =>
      rw [hc] at h
      simp only at h
      cases hb : block_current_thread fuel BLOCK_REASON_TIMER
          ((k.k_context.system_ticks +
            if ticks > MAX_COUNTER_VALUE then MAX_COUNTER_VALUE else ticks) % UINT32_RANGE)
          k with
      | error e => rw [hb] at h; simp at h
      | ok k1 =>
        rw [hb] at h
        simp only at h
        cases hs : schedule fuel k1 with
        | error e => rw [hs] at h; simp at h
        | ok p =>
          obtain ⟨y, k3⟩ := p
          rw [hs] at h
          have e : k3 = k2 := congrArg Prod.snd (Except.ok.inj h)
          subst e
          exact inv_schedule fuel y k1 k3
            (inv_block_current_thread fuel _ _ k k1 hi hb) hs

theorem inv_set_system_ticks (k : Kernel) (x : Nat) (hi : Inv k) :
    Inv (set_system_ticks k x) := by
  obtain ⟨hlock, ring, blocked, hw⟩ := hi
  exact ⟨hlock, ring, blocked, wellformed_of_same k _ ring blocked hw rfl rfl rfl rfl rfl⟩

theorem inv_wake (fuel : Nat) (k k2 : Kernel) (hi : Inv k) :
    (check_and_wake_timer_threads fuel k = .ok k2 → Inv k2) ∧
    (unblock_keyboard_threads fuel k = .ok k2 → Inv k2) := by
  obtain ⟨hlock, ring, blocked, hw⟩ := hi
  constructor
  · intro h
    obtain ⟨hw2, -, -, hl2, -⟩ := check_and_wake_timer_threads_wf fuel k k2 ring blocked hw h
    exact ⟨hl2.trans hlock, _, _, hw2⟩
  · intro h
    obtain ⟨hw2, -, -, hl2, -⟩ := unblock_keyboard_threads_wf fuel k k2 ring blocked hw h
    exact ⟨hl2.trans hlock, _, _, hw2⟩

/-- Every call of a kernel function keeps the invariant. -/
theorem inv_step (k k2 : Kernel) (hi : Inv k) (hs : Step k k2) : Inv k2 := by
  cases hs with
  | create_thread a f d row out r o h => exact inv_create_thread a f d row out r o k k2 hi h
  | block_current_thread fuel reason data h =>
    exact inv_block_current_thread fuel reason data k k2 hi h
  | sleep fuel ticks x h => exact inv_sleep fuel ticks x k k2 hi h
  | schedule fuel x h => exact inv_schedule fuel x k k2 hi h
  | check_and_wake_timer_threads fuel h => exact (inv_wake fuel k k2 hi).1 h
  | unblock_keyboard_threads fuel h => exact (inv_wake fuel k k2 hi).2 h
  | timer_handler_c fuel x h =>
    exact inv_schedule fuel x _ k2 (inv_set_system_ticks k _ hi) h

/-- All reachable kernel data satisfies the invariant. -/
theorem reachable_inv (k : Kernel) (h : Reachable k) : Inv k := by
  induction h with
  | init => exact inv_init
  | step _ hs ih => exact inv_step _ _ ih hs


/-! ## Example runs -/

theorem one_thread_eq :
    create_thread 0x200000 0x100000 1 3 true init_kernel_context
      = .ok (OS_SUCCESS, some 0, one_thread) := rfl

theorem one_running_eq :
    schedule 8 one_thread = .ok (sched_exit.initial_switch 0x200FDC, one_running) := rfl

theorem one_blocked_eq :
    block_current_thread 8 BLOCK_REASON_TIMER 5 one_running = .ok one_blocked := rfl

theorem one_sleeping_eq :
    sleep 8 5 one_running = .ok (some sched_exit.no_ready, one_sleeping) := rfl

theorem two_threads_eq :
    create_thread 0x200000 0x100040 0 4 true one_thread
      = .ok (OS_SUCCESS, some 1, two_threads) := rfl

theorem two_running_eq :
    schedule 8 two_threads = .ok (sched_exit.initial_switch 0x200FDC, two_running) := rfl

theorem two_sleeping_eq :
    sleep 8 5 two_running = .ok (some (sched_exit.switch 0 0x202004), two_sleeping) := rfl

theorem reachable_one_thread : Reachable one_thread :=
  Reachable.step Reachable.init (Step.create_thread _ _ _ _ _ _ _ one_thread_eq)

theorem reachable_one_running : Reachable one_running :=
  Reachable.step reachable_one_thread (Step.schedule _ _ one_running_eq)

theorem reachable_one_blocked : Reachable one_blocked :=
  Reachable.step reachable_one_running (Step.block_current_thread _ _ _ one_blocked_eq)

theorem reachable_two_threads : Reachable two_threads :=
  Reachable.step reachable_one_thread (Step.create_thread _ _ _ _ _ _ _ two_threads_eq)

theorem reachable_two_running : Reachable two_running :=
  Reachable.step reachable_two_threads (Step.schedule _ _ two_running_eq)

theorem reachable_two_sleeping : Reachable two_sleeping :=
  Reachable.step reachable_two_running (Step.sleep _ _ _ two_sleeping_eq)


/-! ## Claims on thread creation and on the two lists -/

/-- C2: on reachable kernel data, `create_thread` with a non-null function, a
row in `[0, 25)` and a free slot succeeds; the new thread control block is
`READY` with counter 0, last tick 0, no block reason, a null `next_blocked`,
the given row and the given delay (1 for 0); and the thread is the new tail of
the ready ring: the ring is the old one followed by the thread, so its
`next_ready` is the head and the former tail points to it. -/
theorem create_thread_success (threads_addr func delay_ticks : Nat) (display_row : Int)
    (k : Kernel) (hk : Reachable k) (hf : func ≠ 0) (h0 : 0 ≤ display_row)
    (h25 : display_row < 25) (hc : k.thread_count < MAX_THREADS) :
    ∃ (t : tid) (k2 : Kernel) (ring : List tid),
      create_thread threads_addr func delay_ticks display_row true k
        = .ok (OS_SUCCESS, some t, k2) ∧
      t.val = k.thread_count ∧
      (k2.threads t).state = THREAD_READY ∧
      (k2.threads t).counter = 0 ∧
      (k2.threads t).last_tick = 0 ∧
      (k2.threads t).block_reason = BLOCK_REASON_NONE ∧
      (k2.threads t).next_blocked = none ∧
      (k2.threads t).display_row = display_row ∧
      (k2.threads t).delay_ticks = (if delay_ticks = 0 then 1 else delay_ticks) ∧
      ReadyRing k ring ∧ ReadyRing k2 (ring ++ [t]) ∧
      (k2.threads t).next_ready = k2.k_context.ready_thread_list ∧
      k2.k_context.ready_thread_list = (ring ++ [t]).head? ∧
      (∀ last, ring.getLast? = some last → (k2.threads last).next_ready = some t) := by
  obtain ⟨-, ring, blocked, hw⟩ := reachable_inv k hk
  obtain ⟨k2, he, hw2, -, -, -, -, h1, h2, h3, h4, h5, h6, h7, -⟩ :=
    create_thread_success_wf threads_addr func delay_ticks display_row k ring blocked hw
      hf h0 h25 hc
  have hp := hw2.ready_ok.2.1
  rw [path_snoc] at hp
  refine ⟨⟨k.thread_count, hc⟩, k2, ring, he, rfl, h1, h2, h3, h4, h5, h6, h7, hw.ready_ok,
    hw2.ready_ok, hp.2, hw2.ready_ok.1, ?_⟩
  intro last hl
  obtain ⟨init, hinit⟩ : ∃ init, ring = init ++ [last] := by
    rcases List.eq_nil_or_concat ring with e | ⟨init, b, e⟩
    · rw [e] at hl; simp at hl
    · rw [List.concat_eq_append] at e
      rw [e] at hl
      have : b = last := by simpa using hl
      exact ⟨init, this ▸ e⟩
  have hp1 := hp.1
  rw [hinit, path_snoc] at hp1
  exact hp1.2

/-- The first creation, on the initial data. -/
theorem create_thread_success_witness :
    Reachable init_kernel_context ∧ (0x100000 : Nat) ≠ 0 ∧ (0 : Int) ≤ 3 ∧ (3 : Int) < 25 ∧
    init_kernel_context.thread_count < MAX_THREADS ∧
    ∃ (t : tid) (k2 : Kernel) (ring : List tid),
      create_thread 0x200000 0x100000 0 3 true init_kernel_context
        = .ok (OS_SUCCESS, some t, k2) ∧
      t.val = init_kernel_context.thread_count ∧
      (k2.threads t).state = THREAD_READY ∧
      (k2.threads t).counter = 0 ∧
      (k2.threads t).last_tick = 0 ∧
      (k2.threads t).block_reason = BLOCK_REASON_NONE ∧
      (k2.threads t).next_blocked = none ∧
      (k2.threads t).display_row = 3 ∧
      (k2.threads t).delay_ticks = (if (0 : Nat) = 0 then 1 else 0) ∧
      ReadyRing init_kernel_context ring ∧ ReadyRing k2 (ring ++ [t]) ∧
      (k2.threads t).next_ready = k2.k_context.ready_thread_list ∧
      k2.k_context.ready_thread_list = (ring ++ [t]).head? ∧
      (∀ last, ring.getLast? = some last → (k2.threads last).next_ready = some t) :=
  ⟨Reachable.init, by decide, by decide, by decide, by decide,
    create_thread_success 0x200000 0x100000 0 3 init_kernel_context Reachable.init
      (by decide) (by decide) (by decide) (by decide)⟩

/-- C4: in all reachable kernel data the ready list is empty, with a `NULL`
head, or circular: following `next_ready` from the head visits each member
once and returns to the head. -/
theorem ready_list_empty_or_circular (k : Kernel) (hk : Reachable k) :
    k.k_context.ready_thread_list = none ∨
    ∃ (hd : tid) (rest : List tid),
      k.k_context.ready_thread_list = some hd ∧ (hd :: rest).Nodup ∧
      Path (next_ready_of k) (some hd) (hd :: rest) (some hd) := by
  obtain ⟨-, ring, blocked, hw⟩ := reachable_inv k hk
  obtain ⟨hh, hp, hn⟩ := hw.ready_ok
  cases ring with
  | nil => exact Or.inl (by simpa using hh)
  | cons hd rest =>
    have h0 : k.k_context.ready_thread_list = some hd := by simpa using hh
    rw [h0] at hp
    exact Or.inr ⟨hd, rest, h0, hn, hp⟩

/-- The ready list of two threads of which one is asleep. -/
theorem ready_list_empty_or_circular_witness :
    Reachable two_sleeping ∧
    (two_sleeping.k_context.ready_thread_list = none ∨
      ∃ (hd : tid) (rest : List tid),
        two_sleeping.k_context.ready_thread_list = some hd ∧ (hd :: rest).Nodup ∧
        Path (next_ready_of two_sleeping) (some hd) (hd :: rest) (some hd)) :=
  ⟨reachable_two_sleeping, ready_list_empty_or_circular two_sleeping reachable_two_sleeping⟩

/-- C5: in all reachable kernel data there are a ready ring and a blocked
list, each without a repeated entry, such that every created thread is on the
ring if and only if it is `READY` or `RUNNING`, on the blocked list if and
only if it is `BLOCKED`, and on exactly one of the two. -/
theorem thread_on_exactly_one_list (k : Kernel) (hk : Reachable k) :
    ∃ ring blocked : List tid, ReadyRing k ring ∧ BlockedList k blocked ∧
      ring.Nodup ∧ blocked.Nodup ∧
      ∀ t : tid, t.val < k.thread_count →
        (t ∈ ring ↔ ((k.threads t).state = THREAD_READY ∨
          (k.threads t).state = THREAD_RUNNING)) ∧
        (t ∈ blocked ↔ (k.threads t).state = THREAD_BLOCKED) ∧
        (t ∈ ring ↔ t ∉ blocked) := by
  obtain ⟨-, ring, blocked, hw⟩ := reachable_inv k hk
  refine ⟨ring, blocked, hw.ready_ok, hw.blocked_ok, hw.ready_ok.2.2, hw.blocked_ok.2, ?_⟩
  intro t ht
  have hmem := (hw.created t).2 ht
  refine ⟨⟨?_, ?_⟩, ⟨hw.blocked_state t, ?_⟩, ⟨hw.disjoint t, ?_⟩⟩
  · intro hr
    have := hw.ring_state t hr
    cases hs : (k.threads t).state <;> simp_all
  · intro hs
    rcases hmem with h | h
    · exact h
    · have := hw.blocked_state t h
      rcases hs with hs | hs <;> rw [hs] at this <;> exact absurd this (by decide)
  · intro hs
    rcases hmem with h | h
    · exact absurd hs (hw.ring_state t h)
    · exact h
  · intro hnb
    rcases hmem with h | h
    · exact h
    · exact absurd h hnb

/-- The two lists of two threads of which one is asleep. -/
theorem thread_on_exactly_one_list_witness :
    Reachable two_sleeping ∧
    ∃ ring blocked : List tid, ReadyRing two_sleeping ring ∧ BlockedList two_sleeping blocked ∧
      ring.Nodup ∧ blocked.Nodup ∧
      ∀ t : tid, t.val < two_sleeping.thread_count →
        (t ∈ ring ↔ ((two_sleeping.threads t).state = THREAD_READY ∨
          (two_sleeping.threads t).state = THREAD_RUNNING)) ∧
        (t ∈ blocked ↔ (two_sleeping.threads t).state = THREAD_BLOCKED) ∧
        (t ∈ ring ↔ t ∉ blocked) :=
  ⟨reachable_two_sleeping, thread_on_exactly_one_list two_sleeping reachable_two_sleeping⟩


/-- C6: in all reachable kernel data a `RUNNING` thread is `current_thread`,
so at most one thread is `RUNNING`; and when a call of `schedule` ends in a
context switch, exactly one thread is `RUNNING`, the new `current_thread`. -/
theorem running_thread_is_current (k : Kernel) (hk : Reachable k) :
    (∀ t, (k.threads t).state = THREAD_RUNNING → k.k_context.current_thread = some t) ∧
    (∀ t1 t2, (k.threads t1).state = THREAD_RUNNING →
      (k.threads t2).state = THREAD_RUNNING → t1 = t2) ∧
    (∀ (fuel : Nat) (x : sched_exit) (k2 : Kernel), schedule fuel k = .ok (x, k2) →
      ((∃ e, x = sched_exit.initial_switch e) ∨ ∃ old e, x = sched_exit.switch old e) →
      ∃ c, k2.k_context.current_thread = some c ∧
        (k2.threads c).state = THREAD_RUNNING ∧
        ∀ j, (k2.threads j).state = THREAD_RUNNING → j = c) := by
  obtain ⟨hlock, ring, blocked, hw⟩ := reachable_inv k hk
  refine ⟨hw.running, ?_, ?_⟩
  · intro t1 t2 h1 h2
    have e1 := hw.running t1 h1
    have e2 := hw.running t2 h2
    rw [e1] at e2
    exact Option.some.inj e2
  · intro fuel x k2 h hx
    obtain ⟨k1, -, -, -, -, -, -, hcase⟩ := schedule_wf fuel k k2 x ring blocked hw hlock h
    rcases hcase with ⟨e, -⟩ | ⟨e, -⟩ | ⟨c, -, -, hcur, hrun, -, hoth, -⟩
    · rcases hx with ⟨a, ha⟩ | ⟨a, b, ha⟩ <;> rw [e] at ha <;> exact absurd ha (by simp)
    · rcases hx with ⟨a, ha⟩ | ⟨a, b, ha⟩ <;> rw [e] at ha <;> exact absurd ha (by simp)
    · refine ⟨c, hcur, hrun, ?_⟩
      intro j hj
      by_contra hne
      exact hoth j hne hj

/-- The first `schedule()` of one thread: it ends in the initial switch and
leaves that thread as the only running one. -/
theorem running_thread_is_current_witness :
    Reachable one_thread ∧
    schedule 8 one_thread = .ok (sched_exit.initial_switch 0x200FDC, one_running) ∧
    ∃ c, one_running.k_context.current_thread = some c ∧
      (one_running.threads c).state = THREAD_RUNNING ∧
      ∀ j, (one_running.threads j).state = THREAD_RUNNING → j = c :=
  ⟨reachable_one_thread, one_running_eq,
    (running_thread_is_current one_thread reachable_one_thread).2.2 8 _ one_running
      one_running_eq (Or.inl ⟨_, rfl⟩)⟩

theorem blocked_path_unique (nxt : tid → Option tid) :
    ∀ (l1 l2 : List tid) (p : Option tid), Path nxt p l1 none → Path nxt p l2 none → l1 = l2
  | [], [], _, _, _ => rfl
  | [], b :: _, p, h1, h2 => by
    have e1 : p = none := h1
    have e2 : p = some b := h2.1
    rw [e1] at e2
    exact absurd e2 (by simp)
  | a :: _, [], p, h1, h2 => by
    have e1 : p = none := h2
    have e2 : p = some a := h1.1
    rw [e1] at e2
    exact absurd e2 (by simp)
  | a :: l1, b :: l2, p, h1, h2 => by
    have e1 : p = some a := h1.1
    have e2 : p = some b := h2.1
    rw [e1] at e2
    have e : a = b := Option.some.inj e2
    subst e
    rw [blocked_path_unique nxt l1 l2 (nxt a) h1.2 h2.2]

theorem blocked_list_unique (k : Kernel) (l1 l2 : List tid)
    (h1 : BlockedList k l1) (h2 : BlockedList k l2) : l1 = l2 :=
  blocked_path_unique (next_blocked_of k) l1 l2 _ h1.1 h2.1

theorem reachable_three_both_asleep : Reachable three_both_asleep := by
  have h1 : Reachable three_threads :=
    Reachable.step reachable_two_threads (Step.create_thread _ _ _ _ _ _ _
      (rfl : create_thread 0x200000 0x100080 150 14 true two_threads
        = .ok (OS_SUCCESS, some 2, three_threads)))
  have h2 : Reachable three_running :=
    Reachable.step h1 (Step.schedule 8 (sched_exit.initial_switch 0x200FDC) rfl)
  have h3 : Reachable three_first_asleep :=
    Reachable.step h2 (Step.sleep 8 20 (some (sched_exit.switch 0 0x202004)) rfl)
  exact Reachable.step h3 (Step.sleep 8 10 _ rfl)

theorem reachable_four_mixed : Reachable four_mixed := by
  have h1 : Reachable three_threads :=
    Reachable.step reachable_two_threads (Step.create_thread _ _ _ _ _ _ _
      (rfl : create_thread 0x200000 0x100080 150 14 true two_threads
        = .ok (OS_SUCCESS, some 2, three_threads)))
  have h2 : Reachable full_kernel :=
    Reachable.step h1 (Step.create_thread _ _ _ _ _ _ _
      (rfl : create_thread 0x200000 0x1000C0 200 15 true three_threads
        = .ok (OS_SUCCESS, some 3, full_kernel)))
  have h3 : Reachable four_running :=
    Reachable.step h2 (Step.schedule 8 (sched_exit.initial_switch 0x200FDC) rfl)
  have h4 : Reachable four_sleeping :=
    Reachable.step h3 (Step.sleep 8 5 _ rfl)
  have h5 : Reachable four_keyed :=
    Reachable.step h4 (Step.block_current_thread 8 BLOCK_REASON_KEYBOARD 0 rfl)
  have h6 : Reachable four_waiting :=
    Reachable.step h5 (Step.schedule 8 _ rfl)
  exact Reachable.step h6 (Step.sleep 8 30 _ rfl)

theorem blocked_list_three_both_asleep : BlockedList three_both_asleep [1, 0] :=
  ⟨⟨rfl, rfl, rfl⟩, by decide⟩

theorem blocked_list_four_mixed : BlockedList four_mixed [0, 1, 2] :=
  ⟨⟨rfl, rfl, rfl, rfl⟩, by decide⟩

/-- C7: in all reachable kernel data, of two timer entries of the blocked
list the earlier one has the smaller or equal `wake_up_tick`, whatever lies
between them. -/
theorem timer_entries_sorted (k : Kernel) (hk : Reachable k) :
    ∃ blocked : List tid, BlockedList k blocked ∧
      blocked.Pairwise (fun a b =>
        (k.threads a).block_reason = BLOCK_REASON_TIMER →
        (k.threads b).block_reason = BLOCK_REASON_TIMER →
        (k.threads a).wake_up_tick ≤ (k.threads b).wake_up_tick) := by
  obtain ⟨-, ring, blocked, hw⟩ := reachable_inv k hk
  refine ⟨blocked, hw.blocked_ok, ?_⟩
  exact List.Pairwise.imp (fun hab _ hb => hab hb) hw.timer_sorted

/-- Three threads after `sleep(20)` of thread 0 and `sleep(10)` of thread 1:
the later sleeper, thread 1, stands before thread 0 in the blocked list; and
four threads of which thread 0 sleeps until tick 5, thread 1 waits for a key
and thread 2 sleeps until tick 30: the keyboard entry lies between the two
timer entries. -/
theorem timer_entries_sorted_witness :
    (Reachable three_both_asleep ∧ BlockedList three_both_asleep [1, 0] ∧
      (three_both_asleep.threads 1).block_reason = BLOCK_REASON_TIMER ∧
      (three_both_asleep.threads 0).block_reason = BLOCK_REASON_TIMER ∧
      (three_both_asleep.threads 1).wake_up_tick = 10 ∧
      (three_both_asleep.threads 0).wake_up_tick = 20 ∧
      [(1 : tid), 0].Pairwise (fun a b =>
        (three_both_asleep.threads a).block_reason = BLOCK_REASON_TIMER →
        (three_both_asleep.threads b).block_reason = BLOCK_REASON_TIMER →
        (three_both_asleep.threads a).wake_up_tick
          ≤ (three_both_asleep.threads b).wake_up_tick)) ∧
    (Reachable four_mixed ∧ BlockedList four_mixed [0, 1, 2] ∧
      (four_mixed.threads 0).block_reason = BLOCK_REASON_TIMER ∧
      (four_mixed.threads 1).block_reason = BLOCK_REASON_KEYBOARD ∧
      (four_mixed.threads 2).block_reason = BLOCK_REASON_TIMER ∧
      (four_mixed.threads 0).wake_up_tick = 5 ∧
      (four_mixed.threads 1).wake_up_tick = 0 ∧
      (four_mixed.threads 2).wake_up_tick = 30 ∧
      [(0 : tid), 1, 2].Pairwise (fun a b =>
        (four_mixed.threads a).block_reason = BLOCK_REASON_TIMER →
        (four_mixed.threads b).block_reason = BLOCK_REASON_TIMER →
        (four_mixed.threads a).wake_up_tick ≤ (four_mixed.threads b).wake_up_tick)) := by
  constructor
  · obtain ⟨blocked, hb, hp⟩ :=
      timer_entries_sorted three_both_asleep reachable_three_both_asleep
    rw [blocked_list_unique _ _ _ hb blocked_list_three_both_asleep] at hp
    exact ⟨reachable_three_both_asleep, blocked_list_three_both_asleep, rfl, rfl, rfl, rfl, hp⟩
  · obtain ⟨blocked, hb, hp⟩ := timer_entries_sorted four_mixed reachable_four_mixed
    rw [blocked_list_unique _ _ _ hb blocked_list_four_mixed] at hp
    exact ⟨reachable_four_mixed, blocked_list_four_mixed, rfl, rfl, rfl, rfl, rfl, rfl, hp⟩

/-! ## The scheduler with an empty ready list -/

/-- C8: the only thread, running at tick 0, calls `sleep(5)`: it is put on
the blocked list with wake-up tick 5, `schedule` finds the ready list empty
and returns, and so `sleep` returns at tick 0, before tick 5. -/
theorem sleep_returns_before_deadline :
    Reachable one_running ∧
    one_running.k_context.current_thread = some 0 ∧
    (one_running.threads 0).state = THREAD_RUNNING ∧
    one_running.k_context.system_ticks = 0 ∧
    sleep 8 5 one_running = .ok (some sched_exit.no_ready, one_sleeping) ∧
    (one_sleeping.threads 0).wake_up_tick = 5 ∧
    one_sleeping.k_context.system_ticks = 0 ∧
    one_sleeping.k_context.system_ticks < 0 + min 5 MAX_COUNTER_VALUE :=
  ⟨reachable_one_running, rfl, rfl, rfl, one_sleeping_eq, rfl, rfl, by decide⟩

/-- C9: the only thread has blocked itself on the timer; the next call of
`schedule` is not held by the guard, finds the ready list empty and returns
with `current_thread` still that thread, in state `BLOCKED`. -/
theorem schedule_exits_with_blocked_current :
    Reachable one_blocked ∧
    one_blocked.k_context.scheduler_lock_count = 0 ∧
    one_blocked.k_context.current_thread = some 0 ∧
    (one_blocked.threads 0).state = THREAD_BLOCKED ∧
    schedule 8 one_blocked = .ok (sched_exit.no_ready, one_sleeping) ∧
    one_sleeping.k_context.current_thread = some 0 ∧
    (one_sleeping.threads 0).state = THREAD_BLOCKED :=
  ⟨reachable_one_blocked, rfl, rfl, rfl, rfl, rfl, rfl⟩


/-! ## The lock count along a call of `schedule` -/

/-- C12: `sleep(0)` returns at once and the kernel data (current thread, both
lists, tick count, lock count, every thread control block) is what it was, so
any number of such calls changes nothing. -/
theorem sleep_zero_no_effect (fuel : Nat) (k : Kernel) :
    sleep fuel 0 k = .ok (none, k) ∧
    ∀ n : Nat, (fun s => data_of (sleep fuel 0 s))^[n] k = k := by
  have h : sleep fuel 0 k = .ok (none, k) := by simp [sleep]
  refine ⟨h, fun n => ?_⟩
  induction n with
  | zero => rfl
  | succ n ih =>
    rw [Function.iterate_succ_apply']
    rw [ih]
    simp [sleep, data_of]


/-! ## Enough fuel: the loops terminate on well-formed data -/

/-- From a ring member at the start of a stretch of the ring whose last member
points to the thread, the loop of `remove_from_ready_list` finds a `prev`
within as many steps as the stretch is long. -/
theorem find_prev_total (threads : tid → thread_t) (t : tid) :
    ∀ (seg : List tid) (a : tid) (q : Option tid) (fuel : Nat),
      Path (fun j => (threads j).next_ready) (some a) (a :: seg) q →
      (threads ((a :: seg).getLast (by simp))).next_ready = some t →
      (a :: seg).length ≤ fuel →
      ∃ prev, find_prev threads t fuel (some a) = .ok prev := by
  intro seg
  induction seg with
  | nil =>
    intro a q fuel _ hl hf
    have hl2 : (threads a).next_ready = some t := by simpa using hl
    cases fuel with
    | zero => simp at hf
    | succ n =>
      rw [find_prev_succ, if_pos hl2]
      exact ⟨a, rfl⟩
  | cons b seg ih =>
    intro a q fuel hp hl hf
    cases fuel with
    | zero => simp at hf
    | succ n =>
      rw [find_prev_succ]
      by_cases e : (threads a).next_ready = some t
      · rw [if_pos e]
        exact ⟨a, rfl⟩
      · rw [if_neg e]
        have hab : (threads a).next_ready = some b := hp.2.1
        rw [hab]
        have hp2 : Path (fun j => (threads j).next_ready) (some b) (b :: seg) q :=
          ⟨rfl, hp.2.2⟩
        refine ih b q n hp2 ?_ (by simp at hf ⊢; omega)
        simpa using hl

/-- `remove_from_ready_list` of a ring member returns, given fuel for one
round of the ring. -/
theorem remove_from_ready_list_total (fuel : Nat) (k : Kernel) (ring : List tid) (t : tid)
    (hr : ReadyRing k ring) (ht : t ∈ ring) (hf : ring.length ≤ fuel) :
    ∃ k2, remove_from_ready_list fuel t k = .ok k2 := by
  unfold remove_from_ready_list
  by_cases hc : k.k_context.ready_thread_list = some t ∧ (k.threads t).next_ready = some t
  · rw [if_pos hc]
    exact ⟨_, rfl⟩
  · rw [if_neg hc]
    obtain ⟨hh, hp, hn⟩ := hr
    obtain ⟨l1, l2, hsplit⟩ := List.append_of_mem ht
    have hfind : ∃ prev, find_prev k.threads t fuel k.k_context.ready_thread_list
        = .ok prev := by
      cases ring with
      | nil => simp at ht
      | cons hd r =>
        have h0 : k.k_context.ready_thread_list = some hd := by simpa using hh
        rw [h0] at hp ⊢
        cases l1 with
        | nil =>
          -- the thread is the head: the last ring member points to it
          have e : hd = t := by
            have := congrArg List.head? hsplit
            simpa using this
          subst e
          refine find_prev_total k.threads hd r hd (some hd) fuel hp ?_ hf
          have hsp := List.dropLast_append_getLast (l := hd :: r) (by simp)
          have hp2 := hp
          rw [← hsp, path_snoc] at hp2
          exact hp2.2
        | cons c l1b =>
          have e : hd = c := by
            have := congrArg List.head? hsplit
            simpa using this
          subst e
          have hr2 : r = l1b ++ t :: l2 := by
            have := congrArg List.tail hsplit
            simpa using this
          have hp2 := hp
          rw [hsplit, path_append] at hp2
          obtain ⟨m, hpa, hpb⟩ := hp2
          have hm : m = some t := hpb.1
          subst hm
          refine find_prev_total k.threads t l1b hd (some t) fuel hpa ?_ ?_
          · have hsp := List.dropLast_append_getLast (l := hd :: l1b) (by simp)
            have hpa2 := hpa
            rw [← hsp, path_snoc] at hpa2
            exact hpa2.2
          · rw [hr2] at hf
            simp at hf ⊢
            omega
    obtain ⟨prev, hprev⟩ := hfind
    rw [hprev]
    simp only
    split
    · exact ⟨_, rfl⟩
    · exact ⟨_, rfl⟩

theorem find_timer_slot_total (threads : tid → thread_t) (t : tid) :
    ∀ (post : List tid) (c : tid) (fuel : Nat),
      Path (fun j => (threads j).next_blocked) (some c) (c :: post) none →
      (c :: post).length ≤ fuel →
      ∃ cur, find_timer_slot threads t fuel c = .ok cur := by
  intro post
  induction post with
  | nil =>
    intro c fuel hp hf
    cases fuel with
    | zero => simp at hf
    | succ n =>
      have h2 : (threads c).next_blocked = none := hp.2
      rw [find_timer_slot_succ, h2]
      exact ⟨c, rfl⟩
  | cons b post ih =>
    intro c fuel hp hf
    cases fuel with
    | zero => simp at hf
    | succ n =>
      have h2 : (threads c).next_blocked = some b := hp.2.1
      rw [find_timer_slot_succ, h2]
      simp only
      by_cases hw : (threads b).wake_up_tick ≤ (threads t).wake_up_tick
      · rw [if_pos hw]
        exact ih b n ⟨rfl, hp.2.2⟩ (by simp at hf ⊢; omega)
      · rw [if_neg hw]
        exact ⟨c, rfl⟩

theorem find_blocked_tail_total (threads : tid → thread_t) :
    ∀ (post : List tid) (c : tid) (fuel : Nat),
      Path (fun j => (threads j).next_blocked) (some c) (c :: post) none →
      (c :: post).length ≤ fuel →
      ∃ cur, find_blocked_tail threads fuel c = .ok cur := by
  intro post
  induction post with
  | nil =>
    intro c fuel hp hf
    cases fuel with
    | zero => simp at hf
    | succ n =>
      have h2 : (threads c).next_blocked = none := hp.2
      rw [find_blocked_tail_succ, h2]
      exact ⟨c, rfl⟩
  | cons b post ih =>
    intro c fuel hp hf
    cases fuel with
    | zero => simp at hf
    | succ n =>
      have h2 : (threads c).next_blocked = some b := hp.2.1
      rw [find_blocked_tail_succ, h2]
      exact ih b n ⟨rfl, hp.2.2⟩ (by simp at hf ⊢; omega)

/-- The insertion of `block_current_thread` returns, given fuel for one walk
of the blocked list. -/
theorem insert_blocked_total (fuel : Nat) (k : Kernel) (blocked : List tid) (t : tid)
    (reason : block_reason_t) (data : Nat) (hb : BlockedList k blocked)
    (hf : blocked.length ≤ fuel) :
    ∃ k2, insert_blocked fuel t reason data k = .ok k2 := by
  have hhead := blocked_head_eq k blocked hb
  obtain ⟨hp, -⟩ := hb
  unfold insert_blocked
  by_cases hr : reason = BLOCK_REASON_TIMER
  · rw [if_pos hr]
    simp only [set_wake_up_tick_context]
    cases blocked with
    | nil =>
      have h0 : k.k_context.blocked_thread_list = none := by simpa using hhead
      rw [h0]
      exact ⟨_, rfl⟩
    | cons hd r =>
      have h0 : k.k_context.blocked_thread_list = some hd := by simpa using hhead
      rw [h0] at hp ⊢
      simp only
      split
      · exact ⟨_, rfl⟩
      · have hp3 : Path (fun j => ((set_wake_up_tick k t data).threads j).next_blocked)
            (some hd) (hd :: r) none := by
          have : (fun j => ((set_wake_up_tick k t data).threads j).next_blocked)
              = next_blocked_of k := by
            funext j
            simp [next_blocked_of]
          rw [this]
          exact hp
        obtain ⟨cur, hcur⟩ := find_timer_slot_total _ t r hd fuel hp3 hf
        rw [hcur]
        exact ⟨_, rfl⟩
  · rw [if_neg hr]
    cases blocked with
    | nil =>
      have h0 : k.k_context.blocked_thread_list = none := by simpa using hhead
      rw [h0]
      exact ⟨_, rfl⟩
    | cons hd r =>
      have h0 : k.k_context.blocked_thread_list = some hd := by simpa using hhead
      rw [h0] at hp ⊢
      simp only
      obtain ⟨cur, hcur⟩ := find_blocked_tail_total k.threads r hd fuel hp hf
      rw [hcur]
      exact ⟨_, rfl⟩


theorem wellformed_lengths (k : Kernel) (ring blocked : List tid)
    (hw : WellFormed k ring blocked) :
    ring.length ≤ MAX_THREADS ∧ blocked.length ≤ MAX_THREADS :=
  ⟨nodup_length_le ring hw.ready_ok.2.2, nodup_length_le blocked hw.blocked_ok.2⟩

/-- `block_current_thread` returns when the current thread is on the ready
ring, given fuel for `MAX_THREADS` steps. -/
theorem block_current_thread_total (fuel : Nat) (reason : block_reason_t) (data : Nat)
    (k : Kernel) (ring blocked : List tid) (hw : WellFormed k ring blocked) (t : tid)
    (hcur : k.k_context.current_thread = some t) (ht : t ∈ ring)
    (hf : MAX_THREADS ≤ fuel) :
    ∃ k2, block_current_thread fuel reason data k = .ok k2 := by
  obtain ⟨hl1, hl2⟩ := wellformed_lengths k ring blocked hw
  unfold block_current_thread
  rw [hcur]
  simp only
  obtain ⟨k1, hrm⟩ := remove_from_ready_list_total fuel k ring t hw.ready_ok ht (by omega)
  rw [hrm]
  simp only
  obtain ⟨l1, l2, hsplit, hring1, hlinks⟩ :=
    remove_from_ready_list_spec fuel k k1 ring t hw.ready_ok hrm
  obtain ⟨hcount, hc1, hbh, hticks, hlock, hnbo, hfields⟩ :=
    ready_links_only_keeps k k1 hlinks
  have ht_blocked : t ∉ blocked := hw.disjoint t ht
  have hbl : BlockedList (set_next_blocked (set_block_reason
      (set_state k1 t THREAD_BLOCKED) t reason) t none) blocked := by
    refine ⟨?_, hw.blocked_ok.2⟩
    simp only [set_next_blocked_context, set_block_reason_context, set_state_context,
      next_blocked_of_set_next_blocked, next_blocked_of_set_block_reason,
      next_blocked_of_set_state, hbh, hnbo]
    rw [path_update _ _ _ _ _ _ ht_blocked]
    exact hw.blocked_ok.1
  exact insert_blocked_total fuel _ blocked t reason data hbl (by omega)

/-- A wake loop returns, given fuel for the entries still to look at. -/
theorem wake_loop_total (test : Kernel → tid → Bool) :
    ∀ (post pre ring : List tid) (fuel : Nat) (cur prev : Option tid) (k : Kernel),
      WellFormed k ring (pre ++ post) → cur = post.head? → prev = pre.getLast? →
      post.length ≤ fuel → ∃ k2, wake_loop test fuel cur prev k = .ok k2 := by
  intro post
  induction post with
  | nil =>
    intro pre ring fuel cur prev k _ hcur _ _
    have : cur = none := by simpa using hcur
    subst this
    cases fuel <;> exact ⟨k, rfl⟩
  | cons c post2 ih =>
    intro pre ring fuel cur prev k hw hcur hprev hf
    have hcur2 : cur = some c := by simpa using hcur
    subst hcur2
    cases fuel with
    | zero => simp at hf
    | succ n =>
      rw [wake_loop_succ]
      have hnext : (k.threads c).next_blocked = post2.head? :=
        path_to_none_head _ _ _ (path_next_head _ _ _ _ _ _ hw.blocked_ok.1)
      have hn : post2.length ≤ n := by simp at hf; omega
      by_cases ht : test k c = true
      · rw [if_pos ht]
        obtain ⟨k1, hun, hw1, -⟩ := unblock_and_requeue_thread_wf k ring pre post2 c prev hw hprev
        rw [hun]
        simp only
        exact ih pre (ring ++ [c]) n _ prev k1 hw1 hnext hprev hn
      · rw [if_neg ht]
        have hw1 : WellFormed k ring ((pre ++ [c]) ++ post2) := by simpa using hw
        exact ih (pre ++ [c]) ring n _ (some c) k hw1 hnext (by simp) hn

/-- A wake loop in which no entry passes the test leaves the data as it is. -/
theorem wake_loop_none (test : Kernel → tid → Bool) :
    ∀ (post pre ring : List tid) (fuel : Nat) (cur prev : Option tid) (k : Kernel),
      WellFormed k ring (pre ++ post) → cur = post.head? →
      (∀ a, a ∈ post → test k a = false) →
      post.length ≤ fuel → wake_loop test fuel cur prev k = .ok k := by
  intro post
  induction post with
  | nil =>
    intro pre ring fuel cur prev k _ hcur _ _
    have : cur = none := by simpa using hcur
    subst this
    cases fuel <;> rfl
  | cons c post2 ih =>
    intro pre ring fuel cur prev k hw hcur hno hf
    have hcur2 : cur = some c := by simpa using hcur
    subst hcur2
    cases fuel with
    | zero => simp at hf
    | succ n =>
      rw [wake_loop_succ]
      have hnext : (k.threads c).next_blocked = post2.head? :=
        path_to_none_head _ _ _ (path_next_head _ _ _ _ _ _ hw.blocked_ok.1)
      have hn : post2.length ≤ n := by simp at hf; omega
      have ht : ¬ test k c = true := by simp [hno c (by simp)]
      rw [if_neg ht]
      have hw1 : WellFormed k ring ((pre ++ [c]) ++ post2) := by simpa using hw
      exact ih (pre ++ [c]) ring n _ (some c) k hw1 hnext
        (fun a ha => hno a (by simp [ha])) hn

/-- In well-formed data the search of `perform_thread_switch` ends at its
first step: the thread after the outgoing one is the outgoing one itself or
is ready. -/
theorem find_next_ready_first (k : Kernel) (ring blocked : List tid)
    (hw : WellFormed k ring blocked) (old b : tid) (start : Option tid) (fuel : Nat)
    (hcur : k.k_context.current_thread = some old) (hb : b ∈ ring) :
    find_next_ready k.threads old start (fuel + 1) (some b)
      = .ok (if b = old then none else some b) := by
  rw [find_next_ready_succ]
  by_cases e : b = old
  · simp [e]
  · rw [if_neg e, if_neg e]
    have h1 := hw.ring_state b hb
    have h2 : (k.threads b).state ≠ THREAD_RUNNING := by
      intro hr
      have := hw.running b hr
      rw [hcur] at this
      exact e (Option.some.inj this).symm
    have h3 : (k.threads b).state = THREAD_READY := by
      cases hs : (k.threads b).state <;> simp_all
    rw [if_pos h3]

/-- `schedule` returns or reaches a context switch on well-formed data with a
free lock, given fuel for `MAX_THREADS` steps. -/
theorem schedule_total (fuel : Nat) (k : Kernel) (ring blocked : List tid)
    (hw : WellFormed k ring blocked) (hlock : k.k_context.scheduler_lock_count = 0)
    (hf : MAX_THREADS ≤ fuel) :
    ∃ x k2, schedule fuel k = .ok (x, k2) := by
  obtain ⟨-, hl2⟩ := wellformed_lengths k ring blocked hw
  have hwa := wellformed_acquire k ring blocked hw
  obtain ⟨k1, hwk⟩ := wake_loop_total timer_due blocked [] ring fuel _ none
    (acquire_scheduler_lock k) (by simpa using hwa)
    (blocked_head_eq _ blocked hwa.blocked_ok) rfl (by omega)
  have hwk2 : check_and_wake_timer_threads fuel (acquire_scheduler_lock k) = .ok k1 := hwk
  obtain ⟨hw1, -⟩ := check_and_wake_timer_threads_wf fuel _ k1 ring blocked hwa hwk2
  unfold schedule
  have hnl : is_scheduler_locked k = false := by simp [is_scheduler_locked, hlock]
  rw [hnl, hwk2]
  simp only [Bool.false_eq_true, if_false]
  cases hr : k1.k_context.ready_thread_list with
  | none => exact ⟨_, _, rfl⟩
  | some hd =>
    simp only
    cases hc : k1.k_context.current_thread with
    | none =>
      simp only [handle_initial_thread_selection, set_current_thread_fields, hr]
      exact ⟨_, _, rfl⟩
    | some old =>
      simp only
      by_cases hb : (k1.threads old).state = THREAD_BLOCKED
      · rw [if_pos hb]
        simp only [handle_blocked_thread_scheduling, hc, hr]
        split
        · exact ⟨_, _, rfl⟩
        · exact ⟨_, _, rfl⟩
      · rw [if_neg hb]
        have hold := mem_ring_of_not_blocked k1 _ _ hw1 old (hw1.current_created old hc) hb
        obtain ⟨b, hnb, hbm⟩ := ready_ring_next_mem k1 _ hw1.ready_ok old hold
        have h4 : 4 ≤ fuel := hf
        obtain ⟨n, hn⟩ : ∃ n, fuel = n + 1 := ⟨fuel - 1, by omega⟩
        simp only [perform_thread_switch, hc, hnb, hn]
        rw [find_next_ready_first k1 _ _ hw1 old b (some b) n hc hbm]
        by_cases e : b = old
        · simp only [e, if_true]
          exact ⟨_, _, rfl⟩
        · simp only [e, if_false]
          exact ⟨_, _, rfl⟩


/-! ## `sleep` -/

/-- What `sleep` does with a non-zero argument and a current thread. -/
theorem sleep_eq (fuel ticks : Nat) (k : Kernel) (c : tid) (ht : ticks ≠ 0)
    (hcur : k.k_context.current_thread = some c) :
    sleep fuel ticks k =
      match block_current_thread fuel BLOCK_REASON_TIMER
          ((k.k_context.system_ticks + min ticks MAX_COUNTER_VALUE) % UINT32_RANGE) k with
      | .error e => .error e
      | .ok k1 =>
        match schedule fuel k1 with
        | .error e => .error e
        | .ok (x, k2) => .ok (some x, k2) := by
  have hmin : (if ticks > MAX_COUNTER_VALUE then MAX_COUNTER_VALUE else ticks)
      = min ticks MAX_COUNTER_VALUE := by
    by_cases h : ticks > MAX_COUNTER_VALUE
    · rw [if_pos h, Nat.min_eq_right (Nat.le_of_lt h)]
    · rw [if_neg h, Nat.min_eq_left (Nat.le_of_not_lt h)]
  unfold sleep
  rw [if_neg ht, hcur]
  simp only [hmin]

/-- `sleep` with a non-zero argument, called by a running current thread on
well-formed data: the thread is blocked on the timer with the clamped deadline
and `schedule` is called. -/
theorem sleep_blocks (fuel ticks : Nat) (k : Kernel) (ring blocked : List tid)
    (hw : WellFormed k ring blocked) (hlock : k.k_context.scheduler_lock_count = 0) (c : tid)
    (hcur : k.k_context.current_thread = some c)
    (hrun : (k.threads c).state = THREAD_RUNNING) (ht : 1 ≤ ticks)
    (hf : MAX_THREADS ≤ fuel) :
    ∃ k1 x k2 l1 l2 bl1 bl2,
      block_current_thread fuel BLOCK_REASON_TIMER
        ((k.k_context.system_ticks + min ticks MAX_COUNTER_VALUE) % UINT32_RANGE) k
        = .ok k1 ∧
      ring = l1 ++ c :: l2 ∧ blocked = bl1 ++ bl2 ∧
      WellFormed k1 (l1 ++ l2) (bl1 ++ c :: bl2) ∧
      (k1.threads c).state = THREAD_BLOCKED ∧
      (k1.threads c).block_reason = BLOCK_REASON_TIMER ∧
      (k1.threads c).wake_up_tick
        = (k.k_context.system_ticks + min ticks MAX_COUNTER_VALUE) % UINT32_RANGE ∧
      k1.k_context.system_ticks = k.k_context.system_ticks ∧
      k1.k_context.current_thread = some c ∧
      k1.k_context.scheduler_lock_count = 0 ∧
      schedule fuel k1 = .ok (x, k2) ∧
      sleep fuel ticks k = .ok (some x, k2) := by
  have hc_ring : c ∈ ring :=
    mem_ring_of_not_blocked k ring blocked hw c (hw.current_created c hcur)
      (by rw [hrun]; decide)
  obtain ⟨k1, hb⟩ := block_current_thread_total fuel BLOCK_REASON_TIMER
    ((k.k_context.system_ticks + min ticks MAX_COUNTER_VALUE) % UINT32_RANGE) k ring blocked
    hw c hcur hc_ring hf
  rcases block_current_thread_wf fuel _ _ k k1 ring blocked hw hb with
    ⟨hnone, -⟩ | ⟨t, l1, l2, bl1, bl2, hct, hsplit, hbsplit, hw1, hs1, hr1, hwk1, hc1, ht1,
      hl1, -⟩
  · rw [hcur] at hnone
    exact absurd hnone (by simp)
  · have e : t = c := by
      rw [hcur] at hct
      exact (Option.some.inj hct).symm
    subst e
    obtain ⟨x, k2, hs⟩ := schedule_total fuel k1 _ _ hw1 (hl1.trans hlock) hf
    refine ⟨k1, x, k2, l1, l2, bl1, bl2, hb, hsplit, hbsplit, hw1, hs1, hr1, hwk1 rfl, ht1,
      hc1.trans hcur, hl1.trans hlock, hs, ?_⟩
    rw [sleep_eq fuel ticks k t (by omega) hcur, hb]
    simp only
    rw [hs]


/-- C13, as amended: for every `ticks >= 1`, `sleep(ticks)` called by a running
current thread on reachable kernel data blocks that thread with reason `TIMER`
and `wake_up_tick = (system_ticks + min(ticks, 65535)) mod 2^32`, putting it on
the blocked list, and then calls `schedule`; so `ticks > 65535` counts as
65535. -/
theorem sleep_clamps_and_blocks (fuel ticks : Nat) (k : Kernel) (hk : Reachable k) (c : tid)
    (hcur : k.k_context.current_thread = some c)
    (hrun : (k.threads c).state = THREAD_RUNNING) (ht : 1 ≤ ticks)
    (hf : MAX_THREADS ≤ fuel) :
    ∃ k1 x k2 blocked1,
      block_current_thread fuel BLOCK_REASON_TIMER
        ((k.k_context.system_ticks + min ticks 65535) % 2 ^ 32) k = .ok k1 ∧
      (k1.threads c).state = THREAD_BLOCKED ∧
      (k1.threads c).block_reason = BLOCK_REASON_TIMER ∧
      (k1.threads c).wake_up_tick = (k.k_context.system_ticks + min ticks 65535) % 2 ^ 32 ∧
      (65535 < ticks →
        (k1.threads c).wake_up_tick = (k.k_context.system_ticks + 65535) % 2 ^ 32) ∧
      BlockedList k1 blocked1 ∧ c ∈ blocked1 ∧
      schedule fuel k1 = .ok (x, k2) ∧
      sleep fuel ticks k = .ok (some x, k2) := by
  obtain ⟨hlock, ring, blocked, hw⟩ := reachable_inv k hk
  obtain ⟨k1, x, k2, l1, l2, bl1, bl2, hb, -, -, hw1, hs1, hr1, hwk1, -, -, -, hs, hsl⟩ :=
    sleep_blocks fuel ticks k ring blocked hw hlock c hcur hrun ht hf
  refine ⟨k1, x, k2, bl1 ++ c :: bl2, hb, hs1, hr1, hwk1, ?_, hw1.blocked_ok, by simp, hs, hsl⟩
  intro hbig
  have hmin : min ticks MAX_COUNTER_VALUE = 65535 :=
    Nat.min_eq_right (Nat.le_of_lt hbig)
  rw [hwk1, hmin]
  rfl

/-- The running thread of two calls `sleep(70000)` at tick 0: it is blocked
until tick 65535. -/
theorem sleep_clamps_and_blocks_witness :
    Reachable two_running ∧ two_running.k_context.current_thread = some 0 ∧
    (two_running.threads 0).state = THREAD_RUNNING ∧ 1 ≤ 70000 ∧ MAX_THREADS ≤ 8 ∧
    ∃ k1 x k2 blocked1,
      block_current_thread 8 BLOCK_REASON_TIMER
        ((two_running.k_context.system_ticks + min 70000 65535) % 2 ^ 32) two_running
        = .ok k1 ∧
      (k1.threads 0).state = THREAD_BLOCKED ∧
      (k1.threads 0).block_reason = BLOCK_REASON_TIMER ∧
      (k1.threads 0).wake_up_tick
        = (two_running.k_context.system_ticks + min 70000 65535) % 2 ^ 32 ∧
      (65535 < 70000 →
        (k1.threads 0).wake_up_tick
          = (two_running.k_context.system_ticks + 65535) % 2 ^ 32) ∧
      BlockedList k1 blocked1 ∧ 0 ∈ blocked1 ∧
      schedule 8 k1 = .ok (x, k2) ∧
      sleep 8 70000 two_running = .ok (some x, k2) :=
  ⟨reachable_two_running, rfl, rfl, by decide, by decide,
    sleep_clamps_and_blocks 8 70000 two_running reachable_two_running 0 rfl rfl
      (by decide) (by decide)⟩

/-- C13, as stated, fails at `ticks = 0`: `sleep(0)` called by the running
thread returns at once; the thread is still `RUNNING`, with no block reason,
and the blocked list is still empty, whereas `sleep(1)` blocks it. -/
theorem sleep_zero_does_not_block :
    one_running.k_context.current_thread = some 0 ∧
    (one_running.threads 0).state = THREAD_RUNNING ∧
    sleep 8 0 one_running = .ok (none, one_running) ∧
    ((data_of (sleep 8 0 one_running)).threads 0).state = THREAD_RUNNING ∧
    ((data_of (sleep 8 0 one_running)).threads 0).block_reason ≠ BLOCK_REASON_TIMER ∧
    (data_of (sleep 8 0 one_running)).k_context.blocked_thread_list = none ∧
    ((data_of (sleep 8 1 one_running)).threads 0).state = THREAD_BLOCKED ∧
    ((data_of (sleep 8 1 one_running)).threads 0).block_reason = BLOCK_REASON_TIMER ∧
    ((data_of (sleep 8 1 one_running)).threads 0).wake_up_tick = 1 :=
  ⟨rfl, rfl, rfl, rfl, by decide, rfl, rfl, rfl, rfl⟩


/-! ## The deadline of a sleeper -/

theorem wellformed_three_waiting : WellFormed three_waiting [2] [0, 1] where
  ready_ok := ⟨rfl, ⟨rfl, rfl⟩, by decide⟩
  blocked_ok := ⟨⟨rfl, rfl, rfl⟩, by decide⟩
  disjoint := by decide
  created := by decide
  ring_state := by decide
  blocked_state := by decide
  running := by decide
  current_created := by decide
  timer_sorted := by
    unfold TimerSorted
    decide
  fresh := by decide

theorem wellformed_three_due : WellFormed three_due [2] [0, 1] :=
  wellformed_of_same three_waiting three_due [2] [0, 1] wellformed_three_waiting
    rfl rfl rfl rfl rfl

/-- A wake walk over the whole blocked list returns, and moves the entries
that pass the test to the ring tail. -/
theorem wake_all (test : Kernel → tid → Bool) (htest : TestStable test) (fuel : Nat)
    (k : Kernel) (ring blocked : List tid) (hw : WellFormed k ring blocked)
    (hf : MAX_THREADS ≤ fuel) :
    ∃ k2, wake_loop test fuel k.k_context.blocked_thread_list none k = .ok k2 ∧
      WellFormed k2 (ring ++ blocked.filter (test k))
        (blocked.filter (fun a => !test k a)) ∧
      (∀ j, (k2.threads j).wake_up_tick = (k.threads j).wake_up_tick) ∧
      (∀ j, j ∉ blocked.filter (test k) → (k2.threads j).state = (k.threads j).state ∧
        (k2.threads j).block_reason = (k.threads j).block_reason) ∧
      (∀ j, j ∈ blocked.filter (test k) → (k2.threads j).state = THREAD_READY ∧
        (k2.threads j).block_reason = BLOCK_REASON_NONE ∧
        (k2.threads j).next_blocked = none) := by
  obtain ⟨-, hl2⟩ := wellformed_lengths k ring blocked hw
  have h4 : 4 ≤ fuel := hf
  obtain ⟨k2, hwk⟩ := wake_loop_total test blocked [] ring fuel _ none k (by simpa using hw)
    (blocked_head_eq k blocked hw.blocked_ok) rfl (by omega)
  have := wake_loop_wf test htest fuel _ none k k2 ring [] blocked
    (by simpa using hw) (blocked_head_eq k blocked hw.blocked_ok) rfl hwk
  simp only [List.nil_append] at this
  obtain ⟨hw2, -, -, -, -, hwake, hoth, -, hmoved⟩ := this
  exact ⟨k2, hwk, hw2, hwake, hoth, hmoved⟩

/-- C15: on well-formed kernel data `unblock_keyboard_threads` returns; after
it the blocked list holds the former entries whose reason is not `KEYBOARD`,
in their order, each with state, reason and `wake_up_tick` as before, and the
ready ring is the former ring followed by the former `KEYBOARD` entries in
blocked-list order, each `READY` with reason `NONE` and `next_blocked` null. -/
theorem unblock_keyboard_threads_moves (fuel : Nat) (k : Kernel) (ring blocked : List tid)
    (hw : WellFormed k ring blocked) (hf : MAX_THREADS ≤ fuel) :
    ∃ k2, unblock_keyboard_threads fuel k = .ok k2 ∧
      BlockedList k2 (blocked.filter
        (fun a => decide ((k.threads a).block_reason ≠ BLOCK_REASON_KEYBOARD))) ∧
      ReadyRing k2 (ring ++ blocked.filter
        (fun a => decide ((k.threads a).block_reason = BLOCK_REASON_KEYBOARD))) ∧
      (∀ a, a ∈ blocked → (k.threads a).block_reason ≠ BLOCK_REASON_KEYBOARD →
        (k2.threads a).state = THREAD_BLOCKED ∧
        (k2.threads a).block_reason = (k.threads a).block_reason ∧
        (k2.threads a).wake_up_tick = (k.threads a).wake_up_tick) ∧
      (∀ a, a ∈ blocked → (k.threads a).block_reason = BLOCK_REASON_KEYBOARD →
        (k2.threads a).state = THREAD_READY ∧
        (k2.threads a).block_reason = BLOCK_REASON_NONE ∧
        (k2.threads a).next_blocked = none) := by
  obtain ⟨k2, hwk, hw2, hwake, hoth, hmoved⟩ :=
    wake_all keyboard_waiting keyboard_waiting_stable fuel k ring blocked hw hf
  have e1 : blocked.filter (fun a => !keyboard_waiting k a) = blocked.filter
      (fun a => decide ((k.threads a).block_reason ≠ BLOCK_REASON_KEYBOARD)) := by
    apply List.filter_congr
    intro a _
    simp [keyboard_waiting]
  have e2 : blocked.filter (keyboard_waiting k) = blocked.filter
      (fun a => decide ((k.threads a).block_reason = BLOCK_REASON_KEYBOARD)) := rfl
  refine ⟨k2, hwk, ?_, ?_, ?_, ?_⟩
  · rw [← e1]
    exact hw2.blocked_ok
  · rw [← e2]
    exact hw2.ready_ok
  · intro a ha hne
    have hnf : a ∉ blocked.filter (keyboard_waiting k) := by
      intro hm
      have := (List.mem_filter.1 hm).2
      simp [keyboard_waiting] at this
      exact hne this
    refine ⟨?_, (hoth a hnf).2, hwake a⟩
    rw [(hoth a hnf).1]
    exact hw.blocked_state a ha
  · intro a ha he
    exact hmoved a (List.mem_filter.2 ⟨ha, by simp [keyboard_waiting, he]⟩)

/-- With thread 0 asleep, thread 1 waiting for a key and thread 2 running, the
keyboard wake-up moves thread 1 behind thread 2 and keeps thread 0. -/
theorem unblock_keyboard_threads_moves_witness :
    WellFormed three_waiting [2] [0, 1] ∧
    (three_waiting.threads 0).block_reason = BLOCK_REASON_TIMER ∧
    (three_waiting.threads 1).block_reason = BLOCK_REASON_KEYBOARD ∧
    ∃ k2, unblock_keyboard_threads 8 three_waiting = .ok k2 ∧
      BlockedList k2 ([0, 1].filter
        (fun a => decide ((three_waiting.threads a).block_reason ≠ BLOCK_REASON_KEYBOARD))) ∧
      ReadyRing k2 ([2] ++ [0, 1].filter
        (fun a => decide ((three_waiting.threads a).block_reason = BLOCK_REASON_KEYBOARD))) ∧
      (∀ a, a ∈ [0, 1] → (three_waiting.threads a).block_reason ≠ BLOCK_REASON_KEYBOARD →
        (k2.threads a).state = THREAD_BLOCKED ∧
        (k2.threads a).block_reason = (three_waiting.threads a).block_reason ∧
        (k2.threads a).wake_up_tick = (three_waiting.threads a).wake_up_tick) ∧
      (∀ a, a ∈ [0, 1] → (three_waiting.threads a).block_reason = BLOCK_REASON_KEYBOARD →
        (k2.threads a).state = THREAD_READY ∧
        (k2.threads a).block_reason = BLOCK_REASON_NONE ∧
        (k2.threads a).next_blocked = none) :=
  ⟨wellformed_three_waiting, rfl, rfl,
    unblock_keyboard_threads_moves 8 three_waiting [2] [0, 1] wellformed_three_waiting
      (by decide)⟩

/-- C22: on well-formed kernel data `check_and_wake_timer_threads` returns; a
formerly blocked thread is then on the ready ring if and only if its reason
was `TIMER` and its `wake_up_tick <= system_ticks`; the moved threads are
`READY` with reason `NONE` and `next_blocked` null and follow the former ring
in blocked-list order, and the blocked list holds the other entries in their
order. -/
theorem check_and_wake_timer_threads_moves (fuel : Nat) (k : Kernel)
    (ring blocked : List tid) (hw : WellFormed k ring blocked) (hf : MAX_THREADS ≤ fuel) :
    ∃ k2 ring2 blocked2, check_and_wake_timer_threads fuel k = .ok k2 ∧
      ReadyRing k2 ring2 ∧ BlockedList k2 blocked2 ∧
      ring2 = ring ++ blocked.filter (fun a =>
        decide ((k.threads a).block_reason = BLOCK_REASON_TIMER ∧
          (k.threads a).wake_up_tick ≤ k.k_context.system_ticks)) ∧
      blocked2 = blocked.filter (fun a =>
        decide (¬ ((k.threads a).block_reason = BLOCK_REASON_TIMER ∧
          (k.threads a).wake_up_tick ≤ k.k_context.system_ticks))) ∧
      (∀ a, a ∈ blocked →
        (a ∈ ring2 ↔ ((k.threads a).block_reason = BLOCK_REASON_TIMER ∧
          (k.threads a).wake_up_tick ≤ k.k_context.system_ticks))) ∧
      (∀ a, a ∈ blocked → a ∈ ring2 →
        (k2.threads a).state = THREAD_READY ∧
        (k2.threads a).block_reason = BLOCK_REASON_NONE ∧
        (k2.threads a).next_blocked = none) ∧
      (∀ a, a ∈ blocked → a ∉ ring2 →
        a ∈ blocked2 ∧ (k2.threads a).state = THREAD_BLOCKED ∧
        (k2.threads a).block_reason = (k.threads a).block_reason ∧
        (k2.threads a).wake_up_tick = (k.threads a).wake_up_tick) := by
  obtain ⟨k2, hwk, hw2, hwake, hoth, hmoved⟩ :=
    wake_all timer_due timer_due_stable fuel k ring blocked hw hf
  have e1 : blocked.filter (fun a => !timer_due k a) = blocked.filter (fun a =>
      decide (¬ ((k.threads a).block_reason = BLOCK_REASON_TIMER ∧
        (k.threads a).wake_up_tick ≤ k.k_context.system_ticks))) := by
    apply List.filter_congr
    intro a _
    by_cases h1 : (k.threads a).block_reason = BLOCK_REASON_TIMER <;>
      by_cases h2 : (k.threads a).wake_up_tick ≤ k.k_context.system_ticks <;>
      simp [timer_due, h1, h2]
  have e2 : blocked.filter (timer_due k) = blocked.filter (fun a =>
      decide ((k.threads a).block_reason = BLOCK_REASON_TIMER ∧
        (k.threads a).wake_up_tick ≤ k.k_context.system_ticks)) := rfl
  have hmem : ∀ a, a ∈ blocked →
      (a ∈ ring ++ blocked.filter (timer_due k) ↔
        ((k.threads a).block_reason = BLOCK_REASON_TIMER ∧
          (k.threads a).wake_up_tick ≤ k.k_context.system_ticks)) := by
    intro a ha
    rw [List.mem_append, List.mem_filter]
    constructor
    · rintro (h | ⟨-, h⟩)
      · exact absurd ha (hw.disjoint a h)
      · simpa [timer_due] using h
    · intro h
      exact Or.inr ⟨ha, by simpa [timer_due] using h⟩
  refine ⟨k2, _, _, hwk, hw2.ready_ok, hw2.blocked_ok, by rw [e2], e1, ?_, ?_, ?_⟩
  · exact hmem
  · intro a ha hm
    rcases List.mem_append.1 hm with h | h
    · exact absurd ha (hw.disjoint a h)
    · exact hmoved a h
  · intro a ha hn
    have hnf : a ∉ blocked.filter (timer_due k) := fun h => hn (List.mem_append.2 (Or.inr h))
    refine ⟨?_, ?_, (hoth a hnf).2, hwake a⟩
    · rw [List.mem_filter]
      refine ⟨ha, ?_⟩
      have : timer_due k a ≠ true := fun h => hnf (List.mem_filter.2 ⟨ha, h⟩)
      simpa using this
    · rw [(hoth a hnf).1]
      exact hw.blocked_state a ha

/-- At tick 10, with thread 0 asleep until tick 5 and thread 1 waiting for a
key, the timer wake-up moves thread 0 behind thread 2 and keeps thread 1. -/
theorem check_and_wake_timer_threads_moves_witness :
    WellFormed three_due [2] [0, 1] ∧
    ∃ k2 ring2 blocked2, check_and_wake_timer_threads 8 three_due = .ok k2 ∧
      ReadyRing k2 ring2 ∧ BlockedList k2 blocked2 ∧
      ring2 = [2] ++ [0, 1].filter (fun a =>
        decide ((three_due.threads a).block_reason = BLOCK_REASON_TIMER ∧
          (three_due.threads a).wake_up_tick ≤ three_due.k_context.system_ticks)) ∧
      blocked2 = [0, 1].filter (fun a =>
        decide (¬ ((three_due.threads a).block_reason = BLOCK_REASON_TIMER ∧
          (three_due.threads a).wake_up_tick ≤ three_due.k_context.system_ticks))) ∧
      (∀ a, a ∈ [0, 1] →
        (a ∈ ring2 ↔ ((three_due.threads a).block_reason = BLOCK_REASON_TIMER ∧
          (three_due.threads a).wake_up_tick ≤ three_due.k_context.system_ticks))) ∧
      (∀ a, a ∈ [0, 1] → a ∈ ring2 →
        (k2.threads a).state = THREAD_READY ∧
        (k2.threads a).block_reason = BLOCK_REASON_NONE ∧
        (k2.threads a).next_blocked = none) ∧
      (∀ a, a ∈ [0, 1] → a ∉ ring2 →
        a ∈ blocked2 ∧ (k2.threads a).state = THREAD_BLOCKED ∧
        (k2.threads a).block_reason = (three_due.threads a).block_reason ∧
        (k2.threads a).wake_up_tick = (three_due.threads a).wake_up_tick) :=
  ⟨wellformed_three_due,
    check_and_wake_timer_threads_moves 8 three_due [2] [0, 1] wellformed_three_due
      (by decide)⟩


/-! ## Round robin -/

theorem release_acquire (k : Kernel) (h : k.k_context.scheduler_lock_count = 0) :
    release_scheduler_lock (acquire_scheduler_lock k) = k := by
  cases k with
  | mk c th n =>
    cases c with
    | mk a b d e f =>
      have hf : f = 0 := h
      subst hf
      simp [release_scheduler_lock, acquire_scheduler_lock, set_scheduler_lock_count,
        set_context]

theorem release_switch_acquire (k : Kernel) (c s : tid)
    (h : k.k_context.scheduler_lock_count = 0) :
    release_scheduler_lock (set_current_thread
        (set_state (set_state (acquire_scheduler_lock k) c THREAD_READY) s THREAD_RUNNING)
        (some s))
      = set_current_thread (set_state (set_state k c THREAD_READY) s THREAD_RUNNING)
        (some s) := by
  cases k with
  | mk ctx th n =>
    cases ctx with
    | mk a b d e f =>
      have hf : f = 0 := h
      subst hf
      simp [release_scheduler_lock, acquire_scheduler_lock, set_scheduler_lock_count,
        set_context, set_current_thread, set_state, set_thread]

/-- The thread after `c` on the ring `l1 ++ c :: l2` is the first of `l2`, else
the first of `l1`, else `c` itself. -/
theorem ring_successor (k : Kernel) (l1 l2 : List tid) (c : tid)
    (hr : ReadyRing k (l1 ++ c :: l2)) :
    (k.threads c).next_ready = (l2 ++ l1 ++ [c]).head? := by
  obtain ⟨hh, hp, -⟩ := hr
  rw [path_append] at hp
  obtain ⟨m, -, hm⟩ := hp
  rw [path_cons] at hm
  obtain ⟨-, h2⟩ := hm
  cases l2 with
  | nil =>
    rw [path_nil] at h2
    show next_ready_of k c = _
    rw [h2, hh]
    cases l1 <;> simp
  | cons s r =>
    have h3 : next_ready_of k c = some s := h2.1
    show next_ready_of k c = _
    rw [h3]
    simp

/-- With a free lock, a running current thread and no due sleeper, `schedule`
is `perform_thread_switch` under the lock. -/
theorem schedule_eq_perform (fuel : Nat) (k : Kernel) (ring blocked : List tid) (c : tid)
    (hw : WellFormed k ring blocked) (hlock : k.k_context.scheduler_lock_count = 0)
    (hcur : k.k_context.current_thread = some c)
    (hrun : (k.threads c).state = THREAD_RUNNING)
    (hno : ∀ a, a ∈ blocked → timer_due k a = false) (hf : MAX_THREADS ≤ fuel) :
    schedule fuel k = perform_thread_switch fuel (acquire_scheduler_lock k) := by
  obtain ⟨-, hl2⟩ := wellformed_lengths k ring blocked hw
  have h4 : 4 ≤ fuel := hf
  have hwa := wellformed_acquire k ring blocked hw
  have hwk : check_and_wake_timer_threads fuel (acquire_scheduler_lock k)
      = .ok (acquire_scheduler_lock k) :=
    wake_loop_none timer_due blocked [] ring fuel _ none (acquire_scheduler_lock k)
      (by simpa using hwa) (blocked_head_eq _ blocked hwa.blocked_ok)
      (fun a ha => hno a ha) (by omega)
  have hc_ring : c ∈ ring :=
    mem_ring_of_not_blocked k ring blocked hw c (hw.current_created c hcur)
      (by rw [hrun]; decide)
  unfold schedule
  have hnl : is_scheduler_locked k = false := by simp [is_scheduler_locked, hlock]
  rw [hnl, hwk]
  simp only [Bool.false_eq_true, if_false]
  cases hr : (acquire_scheduler_lock k).k_context.ready_thread_list with
  | none =>
    have h1 := hwa.ready_ok.1
    rw [hr] at h1
    cases ring with
    | nil => simp at hc_ring
    | cons a r => simp at h1
  | some hd =>
    simp only
    have hc2 : (acquire_scheduler_lock k).k_context.current_thread = some c := hcur
    have hs2 : ((acquire_scheduler_lock k).threads c).state = THREAD_RUNNING := hrun
    rw [hc2]
    simp only
    rw [if_neg (by rw [hs2]; decide)]

/-- One call of `schedule` by a running thread with no due sleeper: with no
other ring member nothing changes, else the thread after the current one on
the ring becomes the running current thread and the outgoing one is ready. -/
theorem schedule_round_robin_step (fuel : Nat) (k : Kernel) (l1 l2 blocked : List tid)
    (c : tid) (hw : WellFormed k (l1 ++ c :: l2) blocked)
    (hlock : k.k_context.scheduler_lock_count = 0)
    (hcur : k.k_context.current_thread = some c)
    (hrun : (k.threads c).state = THREAD_RUNNING)
    (hno : ∀ a, a ∈ blocked → timer_due k a = false) (hf : MAX_THREADS ≤ fuel) :
    (l2 ++ l1 = [] ∧ schedule fuel k = .ok (sched_exit.no_switch, k)) ∨
    ∃ s rest, l2 ++ l1 = s :: rest ∧ s ≠ c ∧ (k.threads c).next_ready = some s ∧
      schedule fuel k = .ok (sched_exit.switch c (k.threads s).esp,
        set_current_thread (set_state (set_state k c THREAD_READY) s THREAD_RUNNING)
          (some s)) ∧
      WellFormed (set_current_thread
        (set_state (set_state k c THREAD_READY) s THREAD_RUNNING) (some s))
        (l1 ++ c :: l2) blocked ∧
      ∃ l1b l2b, l1 ++ c :: l2 = l1b ++ s :: l2b ∧ l2b ++ l1b = rest ++ [c] := by
  have hsucc := ring_successor k l1 l2 c hw.ready_ok
  have hwa := wellformed_acquire k _ blocked hw
  have hca : (acquire_scheduler_lock k).k_context.current_thread = some c := hcur
  have h4 : 4 ≤ fuel := hf
  obtain ⟨n, hn⟩ : ∃ n, fuel = n + 1 := ⟨fuel - 1, by omega⟩
  rw [schedule_eq_perform fuel k _ blocked c hw hlock hcur hrun hno hf]
  have hnod := hw.ready_ok.2.2
  cases hrot : l2 ++ l1 with
  | nil =>
    left
    refine ⟨rfl, ?_⟩
    rw [hrot] at hsucc
    have hsa : ((acquire_scheduler_lock k).threads c).next_ready = some c := by
      simpa using hsucc
    simp only [perform_thread_switch, hca, hsa, hn]
    rw [find_next_ready_first _ _ _ hwa c c (some c) n hca (by simp)]
    simp only [if_true]
    rw [release_acquire k hlock]
  | cons s rest =>
    right
    rw [hrot] at hsucc
    have hs : (k.threads c).next_ready = some s := by simpa using hsucc
    have hsa : ((acquire_scheduler_lock k).threads c).next_ready = some s := hs
    have hsm : s ∈ l2 ++ l1 := by rw [hrot]; simp
    have hsring : s ∈ l1 ++ c :: l2 := by
      rcases List.mem_append.1 hsm with h | h
      · simp [h]
      · simp [h]
    have hsc : s ≠ c := by
      intro e
      subst e
      rw [List.nodup_append] at hnod
      obtain ⟨-, hn2, hd⟩ := hnod
      rcases List.mem_append.1 hsm with h | h
      · exact (List.nodup_cons.1 hn2).1 h
      · exact hd h (by simp)
    have hsplit : ∃ l1b l2b, l1 ++ c :: l2 = l1b ++ s :: l2b ∧ l2b ++ l1b = rest ++ [c] := by
      cases l2 with
      | nil =>
        have e : l1 = s :: rest := by simpa using hrot
        subst e
        exact ⟨[], rest ++ [c], by simp, by simp⟩
      | cons a r =>
        have e : a = s ∧ r ++ l1 = rest := by simpa using hrot
        obtain ⟨e1, e2⟩ := e
        subst e1
        exact ⟨l1 ++ [c], r, by simp, by simp [← e2]⟩
    have hperf : perform_thread_switch fuel (acquire_scheduler_lock k)
        = .ok (sched_exit.switch c (k.threads s).esp,
          set_current_thread (set_state (set_state k c THREAD_READY) s THREAD_RUNNING)
            (some s)) := by
      simp only [perform_thread_switch, hca, hsa, hn]
      rw [find_next_ready_first _ _ _ hwa c s (some s) n hca hsring]
      simp only [hsc, if_false]
      rw [release_switch_acquire k c s hlock]
      simp [release_scheduler_lock, hsc]
    refine ⟨s, rest, rfl, hsc, hs, hperf, ?_, hsplit⟩
    rcases perform_thread_switch_wf fuel _ _ _ _ blocked hwa c hca
        (by
          show (k.threads c).state ≠ THREAD_BLOCKED
          rw [hrun]; decide) hperf with
      ⟨hx, -, -⟩ | ⟨_, _, _, _, _, _, hw2⟩
    · exact absurd hx (by simp)
    · exact hw2


theorem schedule_times_succ (fuel n : Nat) (k k1 : Kernel) (x : sched_exit)
    (h : schedule fuel k = .ok (x, k1)) :
    schedule_times fuel (n + 1) k = schedule_times fuel n k1 := by
  simp only [schedule_times, h]

/-- Consecutive calls of `schedule` with no due sleeper go round the ring: the
`i+1`-th call makes the `i`-th thread after the first current one current. -/
theorem schedule_times_round_robin (fuel : Nat) (hf : MAX_THREADS ≤ fuel)
    (blocked : List tid) :
    ∀ (i : Nat) (k : Kernel) (l1 l2 : List tid) (c : tid),
      WellFormed k (l1 ++ c :: l2) blocked →
      k.k_context.scheduler_lock_count = 0 →
      k.k_context.current_thread = some c →
      (k.threads c).state = THREAD_RUNNING →
      (∀ a, a ∈ blocked → timer_due k a = false) →
      i < (l1 ++ c :: l2).length →
      ∃ ki, schedule_times fuel (i + 1) k = .ok ki ∧
        ki.k_context.current_thread = (l2 ++ l1 ++ [c])[i]? ∧
        ∀ t, ki.k_context.current_thread = some t →
          (ki.threads t).state = THREAD_RUNNING := by
  intro i
  induction i with
  | zero =>
    intro k l1 l2 c hw hlock hcur hrun hno _
    rcases schedule_round_robin_step fuel k l1 l2 blocked c hw hlock hcur hrun hno hf with
      ⟨hrot, hs⟩ | ⟨s, rest, hrot, hsc, -, hs, -, -⟩
    · refine ⟨k, ?_, ?_, ?_⟩
      · rw [schedule_times_succ fuel 0 k k _ hs]
        rfl
      · rw [hrot, hcur]
        simp
      · intro t ht
        rw [hcur] at ht
        rw [← Option.some.inj ht]
        exact hrun
    · refine ⟨set_current_thread
        (set_state (set_state k c THREAD_READY) s THREAD_RUNNING) (some s), ?_, ?_, ?_⟩
      · rw [schedule_times_succ fuel 0 k _ _ hs]
        rfl
      · rw [hrot]
        simp
      · intro t ht
        have e : s = t := by simpa using ht
        subst e
        simp
  | succ i ih =>
    intro k l1 l2 c hw hlock hcur hrun hno hi
    have hlen : (l1 ++ c :: l2).length = (l2 ++ l1).length + 1 := by
      simp only [List.length_append, List.length_cons]
      omega
    rcases schedule_round_robin_step fuel k l1 l2 blocked c hw hlock hcur hrun hno hf with
      ⟨hrot, -⟩ | ⟨s, rest, hrot, hsc, -, hs, hw2, l1b, l2b, hsplit, hrot2⟩
    · rw [hlen, hrot] at hi
      simp at hi
    · rw [hsplit] at hw2
      have hno2 : ∀ a, a ∈ blocked → timer_due (set_current_thread
          (set_state (set_state k c THREAD_READY) s THREAD_RUNNING) (some s)) a = false := by
        intro a ha
        rw [← hno a ha]
        exact timer_due_stable _ _ a (by simp) (by simp) (by simp)
      have hi2 : i < (l1b ++ s :: l2b).length := by
        rw [← hsplit]
        omega
      obtain ⟨ki, hk1, hk2, hk3⟩ := ih _ l1b l2b s hw2 (by simpa using hlock) (by simp)
        (by simp) hno2 hi2
      refine ⟨ki, ?_, ?_, hk3⟩
      · rw [schedule_times_succ fuel (i + 1) k _ _ hs]
        exact hk1
      · rw [hk2, hrot2, hrot]
        rw [hlen, hrot] at hi
        have hlt : i < (rest ++ [c]).length := by
          simp only [List.length_append, List.length_cons, List.length_nil] at hi ⊢
          omega
        rw [List.getElem?_append_left hlt]
        simp

theorem wellformed_three_running : WellFormed three_running ([] ++ 0 :: [1, 2]) [] where
  ready_ok := ⟨rfl, ⟨rfl, rfl, rfl, rfl⟩, by decide⟩
  blocked_ok := ⟨rfl, by decide⟩
  disjoint := by decide
  created := by decide
  ring_state := by decide
  blocked_state := by decide
  running := by decide
  current_created := by decide
  timer_sorted := by
    unfold TimerSorted
    decide
  fresh := by decide

/-- C14: `schedule` entered with a free lock by a `RUNNING` current thread `c`,
with no due sleeper, on well-formed data whose ready ring is `l1 ++ c :: l2`:
with one ring member it returns without a switch and leaves all data as it
was; with two or more it switches to the `next_ready` successor `s` of `c`,
marking `c` `READY` and `s` `RUNNING`; and the `i+1`-th of consecutive calls
makes the `i`-th entry of `l2 ++ l1 ++ [c]` the running current thread, a list
that holds each ring member once and ends with `c`. -/
theorem schedule_round_robin (fuel : Nat) (k : Kernel) (l1 l2 blocked : List tid) (c : tid)
    (hw : WellFormed k (l1 ++ c :: l2) blocked)
    (hlock : k.k_context.scheduler_lock_count = 0)
    (hcur : k.k_context.current_thread = some c)
    (hrun : (k.threads c).state = THREAD_RUNNING)
    (hno : ∀ a, a ∈ blocked → timer_due k a = false) (hf : MAX_THREADS ≤ fuel) :
    ((l1 ++ c :: l2).length = 1 → schedule fuel k = .ok (sched_exit.no_switch, k)) ∧
    (2 ≤ (l1 ++ c :: l2).length →
      ∃ s k2, (k.threads c).next_ready = some s ∧ s ≠ c ∧
        (l2 ++ l1 ++ [c]).head? = some s ∧
        schedule fuel k = .ok (sched_exit.switch c (k.threads s).esp, k2) ∧
        k2 = set_current_thread
          (set_state (set_state k c THREAD_READY) s THREAD_RUNNING) (some s) ∧
        k2.k_context.current_thread = some s ∧
        (k2.threads s).state = THREAD_RUNNING ∧
        (k2.threads c).state = THREAD_READY ∧
        WellFormed k2 (l1 ++ c :: l2) blocked) ∧
    (l2 ++ l1 ++ [c]).Perm (l1 ++ c :: l2) ∧ (l2 ++ l1 ++ [c]).Nodup ∧
    (l2 ++ l1 ++ [c])[(l1 ++ c :: l2).length - 1]? = some c ∧
    ∀ i, i < (l1 ++ c :: l2).length →
      ∃ ki, schedule_times fuel (i + 1) k = .ok ki ∧
        ki.k_context.current_thread = (l2 ++ l1 ++ [c])[i]? ∧
        ∀ t, ki.k_context.current_thread = some t →
          (ki.threads t).state = THREAD_RUNNING := by
  have hlen : (l1 ++ c :: l2).length = (l2 ++ l1).length + 1 := by
    simp only [List.length_append, List.length_cons]
    omega
  have hperm : (l2 ++ l1 ++ [c]).Perm (l1 ++ c :: l2) := by
    have h1 : (l2 ++ l1 ++ [c]).Perm (l2 ++ (l1 ++ [c])) := by
      rw [List.append_assoc]
    have h2 : (l2 ++ (l1 ++ [c])).Perm ((l1 ++ [c]) ++ l2) := List.perm_append_comm
    have h3 : (l1 ++ [c]) ++ l2 = l1 ++ c :: l2 := by simp
    exact h1.trans (h3 ▸ h2)
  refine ⟨?_, ?_, hperm, (List.Perm.nodup_iff hperm).2 hw.ready_ok.2.2, ?_,
    fun i hi => schedule_times_round_robin fuel hf blocked i k l1 l2 c hw hlock hcur hrun hno hi⟩
  · intro h1
    rcases schedule_round_robin_step fuel k l1 l2 blocked c hw hlock hcur hrun hno hf with
      ⟨-, hs⟩ | ⟨s, rest, hrot, -⟩
    · exact hs
    · rw [hlen, hrot] at h1
      simp at h1
  · intro h2
    rcases schedule_round_robin_step fuel k l1 l2 blocked c hw hlock hcur hrun hno hf with
      ⟨hrot, -⟩ | ⟨s, rest, hrot, hsc, hnx, hs, hw2, -⟩
    · rw [hlen, hrot] at h2
      simp at h2
    · refine ⟨s, _, hnx, hsc, by rw [hrot]; simp, hs, rfl, by simp, by simp, ?_, hw2⟩
      simp [hsc.symm]
  · rw [hlen]
    have : (l2 ++ l1).length + 1 - 1 = (l2 ++ l1).length := by omega
    rw [this]
    exact List.getElem?_concat_length (l2 ++ l1) c

/-- Three threads with thread 0 running: three calls of `schedule` run
threads 1, 2 and 0. -/
theorem schedule_round_robin_witness :
    WellFormed three_running ([] ++ 0 :: [1, 2]) [] ∧
    three_running.k_context.scheduler_lock_count = 0 ∧
    three_running.k_context.current_thread = some 0 ∧
    (three_running.threads 0).state = THREAD_RUNNING ∧
    (([] ++ (0 : tid) :: [1, 2]).length = 1 →
      schedule 8 three_running = .ok (sched_exit.no_switch, three_running)) ∧
    (2 ≤ ([] ++ (0 : tid) :: [1, 2]).length →
      ∃ s k2, (three_running.threads 0).next_ready = some s ∧ s ≠ 0 ∧
        ([1, 2] ++ [] ++ [(0 : tid)]).head? = some s ∧
        schedule 8 three_running
          = .ok (sched_exit.switch 0 (three_running.threads s).esp, k2) ∧
        k2 = set_current_thread
          (set_state (set_state three_running 0 THREAD_READY) s THREAD_RUNNING) (some s) ∧
        k2.k_context.current_thread = some s ∧
        (k2.threads s).state = THREAD_RUNNING ∧
        (k2.threads 0).state = THREAD_READY ∧
        WellFormed k2 ([] ++ 0 :: [1, 2]) []) ∧
    ([1, 2] ++ [] ++ [(0 : tid)]).Perm ([] ++ 0 :: [1, 2]) ∧
    ([1, 2] ++ [] ++ [(0 : tid)]).Nodup ∧
    ([1, 2] ++ [] ++ [(0 : tid)])[([] ++ (0 : tid) :: [1, 2]).length - 1]? = some 0 ∧
    ∀ i, i < ([] ++ (0 : tid) :: [1, 2]).length →
      ∃ ki, schedule_times 8 (i + 1) three_running = .ok ki ∧
        ki.k_context.current_thread = ([1, 2] ++ [] ++ [(0 : tid)])[i]? ∧
        ∀ t, ki.k_context.current_thread = some t →
          (ki.threads t).state = THREAD_RUNNING :=
  ⟨wellformed_three_running, rfl, rfl, rfl,
    schedule_round_robin 8 three_running [] [1, 2] [] 0 wellformed_three_running rfl rfl rfl
      (by simp) (by decide)⟩


/-! ## The head of the ready list at a switch -/

theorem wellformed_two_running : WellFormed two_running [0, 1] [] where
  ready_ok := ⟨rfl, ⟨rfl, rfl, rfl⟩, by decide⟩
  blocked_ok := ⟨rfl, by decide⟩
  disjoint := by decide
  created := by decide
  ring_state := by decide
  blocked_state := by decide
  running := by decide
  current_created := by decide
  timer_sorted := by
    unfold TimerSorted
    decide
  fresh := by decide

/-- C23, as amended: a call of `schedule` on well-formed data with a free lock
that switches away from a `RUNNING` current thread leaves `ready_thread_list`
as it was; it is `current_thread` that moves on, to the `next_ready` successor
of the outgoing thread. -/
theorem schedule_switch_keeps_head (fuel : Nat) (k k2 : Kernel) (ring blocked : List tid)
    (old o : tid) (e : Nat) (hw : WellFormed k ring blocked)
    (hlock : k.k_context.scheduler_lock_count = 0)
    (hcur : k.k_context.current_thread = some old)
    (hrun : (k.threads old).state = THREAD_RUNNING)
    (h : schedule fuel k = .ok (sched_exit.switch o e, k2)) :
    o = old ∧
    k2.k_context.ready_thread_list = k.k_context.ready_thread_list ∧
    k2.k_context.current_thread = (k2.threads old).next_ready ∧
    k2.k_context.current_thread ≠ some old := by
  have hwa := wellformed_acquire k ring blocked hw
  have hold_ring : old ∈ ring :=
    mem_ring_of_not_blocked k ring blocked hw old (hw.current_created old hcur)
      (by rw [hrun]; decide)
  unfold schedule at h
  have hnl : is_scheduler_locked k = false := by simp [is_scheduler_locked, hlock]
  rw [hnl] at h
  simp only [Bool.false_eq_true, if_false] at h
  cases hwk : check_and_wake_timer_threads fuel (acquire_scheduler_lock k) with
  | error err =>
    rw [hwk] at h
    simp at h
  | ok k1 =>
    rw [hwk] at h
    simp only at h
    obtain ⟨hw1, hc1, -, -, -, -, hoth, -, -⟩ :=
      check_and_wake_timer_threads_wf fuel _ k1 ring blocked hwa hwk
    have hc1b : k1.k_context.current_thread = some old := by
      rw [hc1]
      exact hcur
    have hnf : old ∉ blocked.filter (timer_due (acquire_scheduler_lock k)) := by
      intro hm
      exact hw.disjoint old hold_ring (List.mem_filter.1 hm).1
    have hs1 : (k1.threads old).state = THREAD_RUNNING := by
      rw [(hoth old hnf).1]
      exact hrun
    have hhead : k1.k_context.ready_thread_list = k.k_context.ready_thread_list := by
      rw [hw1.ready_ok.1, hw.ready_ok.1]
      cases ring with
      | nil => simp at hold_ring
      | cons a r => simp
    cases hr : k1.k_context.ready_thread_list with
    | none =>
      rw [hr] at h
      simp at h
    | some hd =>
      rw [hr, hc1b] at h
      simp only at h
      rw [if_neg (by rw [hs1]; decide)] at h
      have hold1 : old ∈ ring ++ blocked.filter (timer_due (acquire_scheduler_lock k)) :=
        List.mem_append.2 (Or.inl hold_ring)
      obtain ⟨b, hnb, hbm⟩ := ready_ring_next_mem k1 _ hw1.ready_ok old hold1
      cases fuel with
      | zero =>
        simp [perform_thread_switch, hc1b, hnb, find_next_ready] at h
      | succ n =>
        simp only [perform_thread_switch, hc1b, hnb] at h
        rw [find_next_ready_first k1 _ _ hw1 old b (some b) n hc1b hbm] at h
        by_cases hb : b = old
        · simp [hb] at h
        · simp only [hb, if_false] at h
          have h2 := Except.ok.inj h
          have hx : sched_exit.switch old
              ((release_scheduler_lock (set_current_thread
                (set_state (set_state k1 old THREAD_READY) b THREAD_RUNNING)
                (some b))).threads b).esp = sched_exit.switch o e := congrArg Prod.fst h2
          have hk : release_scheduler_lock (set_current_thread
                (set_state (set_state k1 old THREAD_READY) b THREAD_RUNNING)
                (some b)) = k2 := congrArg Prod.snd h2
          injection hx with hx1 hx2
          subst hk
          refine ⟨hx1.symm, ?_, ?_, ?_⟩
          · rw [← hhead]
            rfl
          · simp [release_scheduler_lock, hnb]
          · simp [release_scheduler_lock, hb]

/-- Two threads, thread 0 running: `schedule` switches to thread 1 and the
head of the ready list is still thread 0. -/
theorem schedule_switch_keeps_head_witness :
    WellFormed two_running [0, 1] [] ∧
    two_running.k_context.scheduler_lock_count = 0 ∧
    two_running.k_context.current_thread = some 0 ∧
    (two_running.threads 0).state = THREAD_RUNNING ∧
    schedule 8 two_running = .ok (sched_exit.switch 0 0x202004, two_switched) ∧
    (0 : tid) = 0 ∧
    two_switched.k_context.ready_thread_list = two_running.k_context.ready_thread_list ∧
    two_switched.k_context.current_thread = (two_switched.threads 0).next_ready ∧
    two_switched.k_context.current_thread ≠ some 0 :=
  ⟨wellformed_two_running, rfl, rfl, rfl, rfl,
    schedule_switch_keeps_head 8 two_running two_switched [0, 1] [] 0 0 0x202004
      wellformed_two_running rfl rfl rfl rfl⟩

/-- C23, as stated, fails: with two threads and thread 0 running, `schedule`
switches from thread 0 to thread 1, and `ready_thread_list`, thread 0 before
the call, is thread 0 after it and not its `next_ready` successor, thread 1. -/
theorem schedule_switch_head_not_advanced :
    two_running.k_context.scheduler_lock_count = 0 ∧
    two_running.k_context.current_thread = some 0 ∧
    (two_running.threads 0).state = THREAD_RUNNING ∧
    two_running.k_context.ready_thread_list = some 0 ∧
    (two_running.threads 0).next_ready = some 1 ∧
    schedule 8 two_running = .ok (sched_exit.switch 0 0x202004, two_switched) ∧
    two_switched.k_context.current_thread = some 1 ∧
    (two_switched.threads 1).state = THREAD_RUNNING ∧
    two_switched.k_context.ready_thread_list = some 0 ∧
    two_switched.k_context.ready_thread_list ≠ (two_running.threads 0).next_ready :=
  ⟨rfl, rfl, rfl, rfl, rfl, rfl, rfl, rfl, rfl, by decide⟩


/-! ## The dropped result of `add_thread_to_ready_list` -/

theorem unblock_and_requeue_thread_eq (c : tid) (prev : Option tid) (k : Kernel) :
    unblock_and_requeue_thread c prev k =
      match unblock_and_requeue_result c prev k with
      | .error e => .error e
      | .ok (_, k3) => .ok k3 := rfl

theorem wake_loop_results_succ (test : Kernel → tid → Bool) (fuel : Nat) (current : tid)
    (prev : Option tid) (k : Kernel) :
    wake_loop_results test (fuel + 1) (some current) prev k =
      if test k current = true then
        match unblock_and_requeue_result current prev k with
        | .error e => .error e
        | .ok (r, k1) =>
          match wake_loop_results test fuel (k.threads current).next_blocked prev k1 with
          | .error e => .error e
          | .ok (rs, k2) => .ok (r :: rs, k2)
      else wake_loop_results test fuel (k.threads current).next_blocked (some current) k :=
  rfl

/-- On well-formed data the call of `add_thread_to_ready_list` inside
`unblock_and_requeue_thread` returns `OS_SUCCESS`. -/
theorem unblock_and_requeue_result_success (k : Kernel) (ring pre post : List tid) (c : tid)
    (prev : Option tid) (hw : WellFormed k ring (pre ++ c :: post)) :
    ∃ k2, unblock_and_requeue_result c prev k = .ok (OS_SUCCESS, k2) ∧
      unblock_and_requeue_thread c prev k = .ok k2 := by
  have hc_ring : c ∉ ring := fun hm => hw.disjoint c hm (by simp)
  have hring : ReadyRing (set_next_blocked (set_block_reason
      (set_state (unlink_blocked c prev k) c THREAD_READY) c BLOCK_REASON_NONE) c none)
      ring := by
    obtain ⟨h1, h2, h3⟩ := hw.ready_ok
    have hh : (set_next_blocked (set_block_reason
        (set_state (unlink_blocked c prev k) c THREAD_READY) c BLOCK_REASON_NONE) c
        none).k_context.ready_thread_list = k.k_context.ready_thread_list := by
      cases prev <;> simp [unlink_blocked]
    have hn : next_ready_of (set_next_blocked (set_block_reason
        (set_state (unlink_blocked c prev k) c THREAD_READY) c BLOCK_REASON_NONE) c
        none) = next_ready_of k := by
      cases prev <;> simp [unlink_blocked]
    refine ⟨?_, ?_, h3⟩
    · rw [hh]
      exact h1
    · rw [hh, hn]
      exact h2
  obtain ⟨k2, hadd, -, -⟩ := add_thread_to_ready_list_spec _ ring c hring hc_ring
  have hres : unblock_and_requeue_result c prev k = .ok (OS_SUCCESS, k2) := hadd
  refine ⟨k2, hres, ?_⟩
  rw [unblock_and_requeue_thread_eq, hres]

/-- The wake loop on well-formed data: every call of
`add_thread_to_ready_list` made in it returns `OS_SUCCESS`, one call for each
entry that passes the test. -/
theorem wake_loop_results_success (test : Kernel → tid → Bool) (htest : TestStable test) :
    ∀ (post pre ring : List tid) (fuel : Nat) (cur prev : Option tid) (k : Kernel),
      WellFormed k ring (pre ++ post) → cur = post.head? → prev = pre.getLast? →
      post.length ≤ fuel →
      ∃ rs k2, wake_loop_results test fuel cur prev k = .ok (rs, k2) ∧
        wake_loop test fuel cur prev k = .ok k2 ∧
        (∀ r, r ∈ rs → r = OS_SUCCESS) ∧
        rs.length = (post.filter (test k)).length := by
  intro post
  induction post with
  | nil =>
    intro pre ring fuel cur prev k _ hcur _ _
    have : cur = none := by simpa using hcur
    subst this
    cases fuel <;> exact ⟨[], k, rfl, rfl, by simp, by simp⟩
  | cons c post2 ih =>
    intro pre ring fuel cur prev k hw hcur hprev hf
    have hcur2 : cur = some c := by simpa using hcur
    subst hcur2
    cases fuel with
    | zero => simp at hf
    | succ n =>
      rw [wake_loop_succ, wake_loop_results_succ]
      have hnext : (k.threads c).next_blocked = post2.head? :=
        path_to_none_head _ _ _ (path_next_head _ _ _ _ _ _ hw.blocked_ok.1)
      have hn : post2.length ≤ n := by simp at hf; omega
      by_cases ht : test k c = true
      · rw [if_pos ht, if_pos ht]
        obtain ⟨k1, hun, hw1, -, hticks, -, -, -, -, -, hwake, hoth, -⟩ :=
          unblock_and_requeue_thread_wf k ring pre post2 c prev hw hprev
        obtain ⟨k1b, hres, hun2⟩ := unblock_and_requeue_result_success k ring pre post2 c prev hw
        have e : k1b = k1 := by
          rw [hun] at hun2
          exact (Except.ok.inj hun2).symm
        subst e
        rw [hun, hres]
        simp only
        obtain ⟨rs, k2, h1, h2, h3, h4⟩ := ih pre (ring ++ [c]) n _ prev k1b hw1 hnext hprev hn
        rw [h1, h2]
        refine ⟨OS_SUCCESS :: rs, k2, rfl, rfl, ?_, ?_⟩
        · intro r hr
          rcases List.mem_cons.1 hr with e | hm
          · exact e
          · exact h3 r hm
        · have hc_post : c ∉ post2 := by
            have := (List.nodup_append.1 hw.blocked_ok.2).2.1
            exact (List.nodup_cons.1 this).1
          have hfc : post2.filter (test k1b) = post2.filter (test k) := by
            apply List.filter_congr
            intro a ha
            have hac : a ≠ c := fun e => hc_post (e ▸ ha)
            exact htest k k1b a hticks (hoth a hac).2 (hwake a)
          rw [List.filter_cons_of_pos ht, List.length_cons, List.length_cons, h4, hfc]
      · rw [if_neg ht, if_neg ht]
        have hw1 : WellFormed k ring ((pre ++ [c]) ++ post2) := by simpa using hw
        obtain ⟨rs, k2, h1, h2, h3, h4⟩ :=
          ih (pre ++ [c]) ring n _ (some c) k hw1 hnext (by simp) hn
        refine ⟨rs, k2, h1, h2, h3, ?_⟩
        rw [List.filter_cons_of_neg ht]
        exact h4

theorem three_threads_eq :
    create_thread 0x200000 0x100080 150 14 true two_threads
      = .ok (OS_SUCCESS, some 2, three_threads) := rfl

theorem reachable_three_waiting : Reachable three_waiting := by
  have h1 : Reachable three_threads :=
    Reachable.step reachable_two_threads (Step.create_thread _ _ _ _ _ _ _ three_threads_eq)
  have h2 : Reachable three_running :=
    Reachable.step h1 (Step.schedule 8 (sched_exit.initial_switch 0x200FDC) rfl)
  have h3 : Reachable three_sleeping :=
    Reachable.step h2 (Step.sleep 8 5 (some (sched_exit.switch 0 0x202004)) rfl)
  have h4 : Reachable three_keyed :=
    Reachable.step h3 (Step.block_current_thread 8 BLOCK_REASON_KEYBOARD 0 rfl)
  exact Reachable.step h4 (Step.schedule 8 (sched_exit.switch 1 0x20302C) rfl)

/-- C28: in all reachable kernel data, well formed for a ready ring `ring` and
a blocked list `blocked`, every call of `add_thread_to_ready_list` made inside
`unblock_and_requeue_thread` by the timer wake-up of `schedule` (under the
lock) and by `unblock_keyboard_threads` returns `OS_SUCCESS`, with one call
for each entry to wake; after either every created thread is on the ready
ring or on the blocked list, and on one of them only. -/
theorem unblock_add_succeeds (fuel : Nat) (k : Kernel) (hk : Reachable k)
    (hf : MAX_THREADS ≤ fuel) :
    ∃ ring blocked, WellFormed k ring blocked ∧
      (∃ rs k2 ring2 blocked2,
        wake_loop_results timer_due fuel (acquire_scheduler_lock k).k_context.blocked_thread_list
          none (acquire_scheduler_lock k) = .ok (rs, k2) ∧
        check_and_wake_timer_threads fuel (acquire_scheduler_lock k) = .ok k2 ∧
        (∀ r, r ∈ rs → r = OS_SUCCESS) ∧
        rs.length = (blocked.filter (timer_due k)).length ∧
        ReadyRing k2 ring2 ∧ BlockedList k2 blocked2 ∧
        (∀ a, a ∈ blocked → timer_due k a = true → a ∈ ring2) ∧
        ∀ t : tid, t.val < k2.thread_count →
          (t ∈ ring2 ∧ t ∉ blocked2) ∨ (t ∈ blocked2 ∧ t ∉ ring2)) ∧
      (∃ rs k2 ring2 blocked2,
        wake_loop_results keyboard_waiting fuel k.k_context.blocked_thread_list none k
          = .ok (rs, k2) ∧
        unblock_keyboard_threads fuel k = .ok k2 ∧
        (∀ r, r ∈ rs → r = OS_SUCCESS) ∧
        rs.length = (blocked.filter (keyboard_waiting k)).length ∧
        ReadyRing k2 ring2 ∧ BlockedList k2 blocked2 ∧
        (∀ a, a ∈ blocked → keyboard_waiting k a = true → a ∈ ring2) ∧
        ∀ t : tid, t.val < k2.thread_count →
          (t ∈ ring2 ∧ t ∉ blocked2) ∨ (t ∈ blocked2 ∧ t ∉ ring2)) := by
  obtain ⟨-, ring, blocked, hw⟩ := reachable_inv k hk
  have hone : ∀ (k2 : Kernel) (r2 b2 : List tid), WellFormed k2 r2 b2 →
      ∀ t : tid, t.val < k2.thread_count → (t ∈ r2 ∧ t ∉ b2) ∨ (t ∈ b2 ∧ t ∉ r2) := by
    intro k2 r2 b2 hw2 t ht
    rcases (hw2.created t).2 ht with h | h
    · exact Or.inl ⟨h, hw2.disjoint t h⟩
    · exact Or.inr ⟨h, fun hr => hw2.disjoint t hr h⟩
  obtain ⟨-, hl2⟩ := wellformed_lengths k ring blocked hw
  have h4 : 4 ≤ fuel := hf
  have hwa := wellformed_acquire k ring blocked hw
  refine ⟨ring, blocked, hw, ?_, ?_⟩
  · obtain ⟨rs, k2, h1, h2, h3, h5⟩ := wake_loop_results_success timer_due timer_due_stable
      blocked [] ring fuel _ none (acquire_scheduler_lock k) (by simpa using hwa)
      (blocked_head_eq _ blocked hwa.blocked_ok) rfl (by omega)
    obtain ⟨hw2, -⟩ := check_and_wake_timer_threads_wf fuel _ k2 ring blocked hwa h2
    refine ⟨rs, k2, _, _, h1, h2, h3, h5, hw2.ready_ok, hw2.blocked_ok, ?_, hone k2 _ _ hw2⟩
    intro a ha hd
    exact List.mem_append.2 (Or.inr (List.mem_filter.2 ⟨ha, hd⟩))
  · obtain ⟨rs, k2, h1, h2, h3, h5⟩ := wake_loop_results_success keyboard_waiting
      keyboard_waiting_stable blocked [] ring fuel _ none k (by simpa using hw)
      (blocked_head_eq _ blocked hw.blocked_ok) rfl (by omega)
    obtain ⟨hw2, -⟩ := unblock_keyboard_threads_wf fuel _ k2 ring blocked hw h2
    refine ⟨rs, k2, _, _, h1, h2, h3, h5, hw2.ready_ok, hw2.blocked_ok, ?_, hone k2 _ _ hw2⟩
    intro a ha hd
    exact List.mem_append.2 (Or.inr (List.mem_filter.2 ⟨ha, hd⟩))

/-- With thread 0 asleep, thread 1 waiting for a key and thread 2 running:
the keyboard wake-up makes one call, which succeeds. -/
theorem unblock_add_succeeds_witness :
    Reachable three_waiting ∧ MAX_THREADS ≤ 8 ∧
    ∃ ring blocked, WellFormed three_waiting ring blocked ∧
      (∃ rs k2 ring2 blocked2,
        wake_loop_results timer_due 8
          (acquire_scheduler_lock three_waiting).k_context.blocked_thread_list
          none (acquire_scheduler_lock three_waiting) = .ok (rs, k2) ∧
        check_and_wake_timer_threads 8 (acquire_scheduler_lock three_waiting) = .ok k2 ∧
        (∀ r, r ∈ rs → r = OS_SUCCESS) ∧
        rs.length = (blocked.filter (timer_due three_waiting)).length ∧
        ReadyRing k2 ring2 ∧ BlockedList k2 blocked2 ∧
        (∀ a, a ∈ blocked → timer_due three_waiting a = true → a ∈ ring2) ∧
        ∀ t : tid, t.val < k2.thread_count →
          (t ∈ ring2 ∧ t ∉ blocked2) ∨ (t ∈ blocked2 ∧ t ∉ ring2)) ∧
      (∃ rs k2 ring2 blocked2,
        wake_loop_results keyboard_waiting 8 three_waiting.k_context.blocked_thread_list
          none three_waiting = .ok (rs, k2) ∧
        unblock_keyboard_threads 8 three_waiting = .ok k2 ∧
        (∀ r, r ∈ rs → r = OS_SUCCESS) ∧
        rs.length = (blocked.filter (keyboard_waiting three_waiting)).length ∧
        ReadyRing k2 ring2 ∧ BlockedList k2 blocked2 ∧
        (∀ a, a ∈ blocked → keyboard_waiting three_waiting a = true → a ∈ ring2) ∧
        ∀ t : tid, t.val < k2.thread_count →
          (t ∈ ring2 ∧ t ∉ blocked2) ∨ (t ∈ blocked2 ∧ t ∉ ring2)) :=
  ⟨reachable_three_waiting, by decide,
    unblock_add_succeeds 8 three_waiting reachable_three_waiting (by decide)⟩


/-! ## The loop of `getchar` with a single thread -/

/-- C29: the only thread, running, calls `getchar` on an empty keyboard ring:
`block_current_thread` empties the ready ring and puts the thread on the
blocked list, `schedule` finds the ready list empty and returns to the
thread, and the loop calls `block_current_thread` again with that thread still
current: it is on no ready ring, the ready list is `NULL`, and
`remove_from_ready_list` follows the null pointer, whatever the fuel. -/
theorem getchar_second_block_follows_null :
    Reachable one_running ∧
    one_running.k_context.current_thread = some 0 ∧
    block_current_thread 8 BLOCK_REASON_KEYBOARD 0 one_running = .ok one_waiting ∧
    schedule 8 one_waiting = .ok (sched_exit.no_ready, one_waited) ∧
    Reachable one_waited ∧
    one_waited.k_context.current_thread = some 0 ∧
    (one_waited.threads 0).state = THREAD_BLOCKED ∧
    one_waited.k_context.ready_thread_list = none ∧
    one_waited.k_context.blocked_thread_list = some 0 ∧
    (¬ ∃ ring, ReadyRing one_waited ring ∧ (0 : tid) ∈ ring) ∧
    (∀ fuel, remove_from_ready_list fuel 0 one_waited = .error Fault.null_deref) ∧
    ∀ fuel, block_current_thread fuel BLOCK_REASON_KEYBOARD 0 one_waited
      = .error Fault.null_deref := by
  have h1 : Reachable one_waiting :=
    Reachable.step reachable_one_running
      (Step.block_current_thread 8 BLOCK_REASON_KEYBOARD 0 rfl)
  have h2 : Reachable one_waited :=
    Reachable.step h1 (Step.schedule 8 sched_exit.no_ready rfl)
  refine ⟨reachable_one_running, rfl, rfl, rfl, h2, rfl, rfl, rfl, rfl, ?_, ?_, ?_⟩
  · rintro ⟨ring, ⟨hh, -, -⟩, hm⟩
    have e : one_waited.k_context.ready_thread_list = none := rfl
    rw [e] at hh
    cases ring with
    | nil => simp at hm
    | cons a r => simp at hh
  · intro fuel
    cases fuel <;> rfl
  · intro fuel
    cases fuel <;> rfl


/-! ## The keyboard ring -/

theorem holds_init (b : keyboard_buffer_t) : Holds (init_keyboard_buffer b) [] := by
  refine ⟨?_, ?_, ?_, ?_, ?_, ?_, ?_⟩ <;> simp [init_keyboard_buffer]

theorem tmod_succ (a : Int) (h0 : 0 ≤ a) : (a + 1).tmod KEYBOARD_BUFFER_SIZE = (a + 1) % 256 :=
  Int.tmod_eq_emod (by omega) (by decide)

/-- A put on a ring that holds fewer than 255 bytes appends the byte. -/
theorem holds_put (b : keyboard_buffer_t) (q : List Nat) (c : Nat) (h : Holds b q)
    (hlt : q.length < 255) : Holds (keyboard_buffer_put c b) (q ++ [c]) := by
  obtain ⟨h1, h2, h3, h4, h5, h6, h7⟩ := h
  have hne : ¬ (b.head + 1).tmod KEYBOARD_BUFFER_SIZE = b.tail := by
    rw [tmod_succ b.head h1]
    omega
  unfold keyboard_buffer_put
  simp only [hne, if_false]
  rw [tmod_succ b.head h1]
  unfold Holds
  dsimp only
  refine ⟨by omega, by omega, h3, h4, ?_, ?_, ?_⟩
  · simp only [List.length_append, List.length_singleton]
    push_cast
    omega
  · simp only [List.length_append, List.length_singleton]
    omega
  · intro i hi
    simp only [List.length_append, List.length_singleton] at hi
    by_cases e : i = q.length
    · subst e
      have : (b.tail + (q.length : Int)) % 256 = b.head := h5.symm
      simp [this]
    · have hi2 : i < q.length := by omega
      rw [List.getElem?_append_left hi2, h7 i hi2]
      have : (b.tail + (i : Int)) % 256 ≠ b.head := by omega
      simp [this]

/-- A put on a ring that holds 255 bytes changes nothing. -/
theorem put_full (b : keyboard_buffer_t) (q : List Nat) (c : Nat) (h : Holds b q)
    (hfull : q.length = 255) : keyboard_buffer_put c b = b := by
  obtain ⟨h1, h2, h3, h4, h5, h6, h7⟩ := h
  have he : (b.head + 1).tmod KEYBOARD_BUFFER_SIZE = b.tail := by
    rw [tmod_succ b.head h1]
    omega
  unfold keyboard_buffer_put
  simp only [he, if_true]

/-- A get on a ring that holds a byte returns the oldest one. -/
theorem holds_get (b : keyboard_buffer_t) (q : List Nat) (c : Nat) (h : Holds b (c :: q)) :
    (keyboard_buffer_get b).1 = c ∧ Holds (keyboard_buffer_get b).2 q := by
  obtain ⟨h1, h2, h3, h4, h5, h6, h7⟩ := h
  simp only [List.length_cons] at h5 h6 h7
  push_cast at h5
  have hne : ¬ b.head = b.tail := by omega
  unfold keyboard_buffer_get
  simp only [hne, if_false]
  rw [tmod_succ b.tail h3]
  have h0 := h7 0 (by omega)
  have e0 : (b.tail + ((0 : Nat) : Int)) % 256 = b.tail := by
    push_cast
    omega
  rw [e0] at h0
  unfold Holds
  dsimp only
  refine ⟨?_, by omega, h2, by omega, by omega, ?_, by omega, ?_⟩
  · have : some c = some (b.buffer b.tail) := by simpa using h0
    exact (Option.some.inj this).symm
  · omega
  · intro i hi
    have := h7 (i + 1) (by omega)
    have e : (b.tail + ((i + 1 : Nat) : Int)) % 256 = ((b.tail + 1) % 256 + (i : Int)) % 256 := by
      push_cast
      omega
    rw [e] at this
    simpa using this

/-- A get on a ring that holds nothing returns 0 and changes nothing. -/
theorem get_empty (b : keyboard_buffer_t) (h : Holds b []) :
    keyboard_buffer_get b = (0, b) := by
  obtain ⟨h1, h2, h3, h4, h5, -, -⟩ := h
  have he : b.head = b.tail := by
    simp only [List.length_nil] at h5
    push_cast at h5
    omega
  unfold keyboard_buffer_get
  simp only [he, if_true]

theorem holds_put_all (cs : List Nat) :
    ∀ (b : keyboard_buffer_t) (q : List Nat), Holds b q → q.length + cs.length ≤ 255 →
      Holds (put_all cs b) (q ++ cs) := by
  induction cs with
  | nil =>
    intro b q h _
    simpa [put_all] using h
  | cons c cs ih =>
    intro b q h hl
    simp only [List.length_cons] at hl
    have := ih (keyboard_buffer_put c b) (q ++ [c]) (holds_put b q c h (by omega))
      (by simp only [List.length_append, List.length_singleton]; omega)
    simpa [put_all] using this

theorem holds_get_all (q : List Nat) :
    ∀ (b : keyboard_buffer_t), Holds b q →
      (get_all q.length b).1 = q ∧ Holds (get_all q.length b).2 [] := by
  induction q with
  | nil =>
    intro b h
    exact ⟨rfl, h⟩
  | cons c q ih =>
    intro b h
    obtain ⟨h1, h2⟩ := holds_get b q c h
    obtain ⟨h3, h4⟩ := ih _ h2
    refine ⟨?_, ?_⟩
    · simp only [List.length_cons, get_all, h1, h3]
    · simpa only [List.length_cons, get_all] using h4


theorem put_all_append (cs ds : List Nat) :
    ∀ b : keyboard_buffer_t, put_all (cs ++ ds) b = put_all ds (put_all cs b) := by
  induction cs with
  | nil => intro b; rfl
  | cons c cs ih => intro b; simp [put_all, ih]

/-- One call of `keyboard_buffer_get` more than the ring holds bytes returns
the bytes and then the sentinel 0. -/
theorem get_all_one_more (q : List Nat) :
    ∀ b : keyboard_buffer_t, Holds b q → (get_all (q.length + 1) b).1 = q ++ [0] := by
  induction q with
  | nil =>
    intro b h
    simp [get_all, get_empty b h]
  | cons c q ih =>
    intro b h
    obtain ⟨h1, h2⟩ := holds_get b q c h
    have := ih _ h2
    simp only [List.length_cons, get_all, h1, List.cons_append, List.cons.injEq, true_and]
    simpa [get_all] using this

/-- C16, as amended: from an empty ring, for every sequence of at most 255
bytes, as many calls of `keyboard_buffer_put` followed by as many calls of
`keyboard_buffer_get` return the same bytes in the same order and leave the
ring empty. -/
theorem ring_round_trip (b0 : keyboard_buffer_t) (bytes : List Nat)
    (hK : bytes.length ≤ 255) :
    (get_all bytes.length (put_all bytes (init_keyboard_buffer b0))).1 = bytes ∧
    keyboard_buffer_is_empty
      (get_all bytes.length (put_all bytes (init_keyboard_buffer b0))).2 = true := by
  have h1 := holds_put_all bytes (init_keyboard_buffer b0) [] (holds_init b0)
    (by simpa using hK)
  rw [List.nil_append] at h1
  obtain ⟨h2, h3⟩ := holds_get_all bytes _ h1
  refine ⟨h2, ?_⟩
  obtain ⟨-, -, h33, h34, h5, -, -⟩ := h3
  simp only [List.length_nil] at h5
  push_cast at h5
  simp only [keyboard_buffer_is_empty, decide_eq_true_eq]
  omega

/-- The bytes `h`, `i` pushed and popped. -/
theorem ring_round_trip_witness :
    [104, 105].length ≤ 255 ∧
    (get_all [104, 105].length (put_all [104, 105] (init_keyboard_buffer full_ring))).1
      = [104, 105] ∧
    keyboard_buffer_is_empty
      (get_all [104, 105].length (put_all [104, 105] (init_keyboard_buffer full_ring))).2
      = true :=
  ⟨by decide, ring_round_trip full_ring [104, 105] (by decide)⟩

/-- One byte more than the ring can hold: the last push is dropped, and as
many pops return the first 255 bytes and then 0. -/
theorem put_one_too_many (b0 : keyboard_buffer_t) (l : List Nat) (c : Nat)
    (hl : l.length = 255) :
    put_all (l ++ [c]) (init_keyboard_buffer b0) = put_all l (init_keyboard_buffer b0) ∧
    (get_all (l.length + 1) (put_all (l ++ [c]) (init_keyboard_buffer b0))).1 = l ++ [0] := by
  have h1 : Holds (put_all l (init_keyboard_buffer b0)) l := by
    have := holds_put_all l (init_keyboard_buffer b0) [] (holds_init _)
      (by rw [hl]; decide)
    rw [List.nil_append] at this
    exact this
  have h2 : put_all (l ++ [c]) (init_keyboard_buffer b0)
      = put_all l (init_keyboard_buffer b0) := by
    rw [put_all_append]
    have e : ∀ b, put_all [c] b = keyboard_buffer_put c b := fun _ => rfl
    rw [e]
    exact put_full _ _ c h1 hl
  refine ⟨h2, ?_⟩
  rw [h2]
  exact get_all_one_more l _ h1

/-- C16, as stated, fails at `K = 256`: of 256 bytes `A` pushed into the empty
ring the last one is dropped, and the 256 calls of `keyboard_buffer_get` that
follow return 255 bytes `A` and then 0. -/
theorem ring_round_trip_fails_at_capacity :
    (List.replicate 255 65 ++ [65]).length = 256 ∧
    (∀ c, c ∈ List.replicate 255 65 ++ [65] → c ≠ 0) ∧
    put_all (List.replicate 255 65 ++ [65]) (init_keyboard_buffer empty_ring)
      = put_all (List.replicate 255 65) (init_keyboard_buffer empty_ring) ∧
    (get_all (List.replicate 255 65 ++ [65]).length
        (put_all (List.replicate 255 65 ++ [65]) (init_keyboard_buffer empty_ring))).1
      = List.replicate 255 65 ++ [0] ∧
    (get_all (List.replicate 255 65 ++ [65]).length
        (put_all (List.replicate 255 65 ++ [65]) (init_keyboard_buffer empty_ring))).1
      ≠ List.replicate 255 65 ++ [65] := by
  have hl : (List.replicate 255 65).length = 255 := List.length_replicate _ _
  have hlen : (List.replicate 255 65 ++ [65]).length = (List.replicate 255 65).length + 1 := by
    rw [List.length_append, List.length_singleton]
  obtain ⟨h2, h3⟩ := put_one_too_many empty_ring (List.replicate 255 65) 65 hl
  refine ⟨by rw [hlen, hl], ?_, h2, ?_, ?_⟩
  · intro c hc
    rcases List.mem_append.1 hc with h | h
    · rw [List.eq_of_mem_replicate h]
      decide
    · rw [List.mem_singleton.1 h]
      decide
  · rw [hlen]
    exact h3
  · rw [hlen]
    have h4 : (get_all ((List.replicate 255 65).length + 1)
        (put_all (List.replicate 255 65 ++ [65]) (init_keyboard_buffer empty_ring))).1
        = List.replicate 255 65 ++ [0] := h3
    rw [h4]
    intro e
    have h5 := List.append_cancel_left e
    exact absurd h5 (by decide)

/-- C17: when `keyboard_buffer_is_full()` holds, `keyboard_buffer_put(c)`
leaves `head`, `tail` and the buffer as they are, so any number of calls of
`keyboard_buffer_get` return what they would have returned without it; and
when `keyboard_buffer_is_empty()` holds, `keyboard_buffer_get` returns 0 and
leaves the ring as it is. -/
theorem full_put_dropped_empty_get_zero (b e : keyboard_buffer_t) (c : Nat)
    (hfull : keyboard_buffer_is_full b = true)
    (hempty : keyboard_buffer_is_empty e = true) :
    keyboard_buffer_put c b = b ∧
    (keyboard_buffer_put c b).head = b.head ∧
    (keyboard_buffer_put c b).tail = b.tail ∧
    (∀ i, (keyboard_buffer_put c b).buffer i = b.buffer i) ∧
    (∀ n, get_all n (keyboard_buffer_put c b) = get_all n b) ∧
    keyboard_buffer_get e = (0, e) := by
  have h1 : keyboard_buffer_put c b = b := by
    simp only [keyboard_buffer_is_full, decide_eq_true_eq] at hfull
    unfold keyboard_buffer_put
    simp only [hfull, if_true]
  have h2 : keyboard_buffer_get e = (0, e) := by
    simp only [keyboard_buffer_is_empty, decide_eq_true_eq] at hempty
    unfold keyboard_buffer_get
    simp only [hempty, if_true]
  rw [h1]
  exact ⟨rfl, rfl, rfl, fun _ => rfl, fun _ => rfl, h2⟩

/-- A push of `B` on the ring that holds 255 bytes, and a pop on the empty
ring. -/
theorem full_put_dropped_empty_get_zero_witness :
    keyboard_buffer_is_full full_ring = true ∧
    keyboard_buffer_is_empty empty_ring = true ∧
    keyboard_buffer_put 66 full_ring = full_ring ∧
    (keyboard_buffer_put 66 full_ring).head = full_ring.head ∧
    (keyboard_buffer_put 66 full_ring).tail = full_ring.tail ∧
    (∀ i, (keyboard_buffer_put 66 full_ring).buffer i = full_ring.buffer i) ∧
    (∀ n, get_all n (keyboard_buffer_put 66 full_ring) = get_all n full_ring) ∧
    keyboard_buffer_get empty_ring = (0, empty_ring) :=
  ⟨by decide, by decide,
    full_put_dropped_empty_get_zero full_ring empty_ring 66 (by decide) (by decide)⟩

theorem holds_run_ops (ops : List kbd_op) :
    ∀ (b : keyboard_buffer_t) (q : List Nat), Holds b q → ∃ q2, Holds (run_ops ops b) q2 := by
  induction ops with
  | nil =>
    intro b q h
    exact ⟨q, h⟩
  | cons op ops ih =>
    intro b q h
    cases op with
    | put c =>
      by_cases hl : q.length < 255
      · exact ih _ _ (holds_put b q c h hl)
      · have hq : q.length = 255 := by
          have := h.2.2.2.2.2.1
          omega
        have : run_ops (kbd_op.put c :: ops) b = run_ops ops b := by
          show run_ops ops (keyboard_buffer_put c b) = _
          rw [put_full b q c h hq]
        rw [this]
        exact ih b q h
    | get =>
      cases q with
      | nil =>
        have : run_ops (kbd_op.get :: ops) b = run_ops ops b := by
          show run_ops ops (keyboard_buffer_get b).2 = _
          rw [get_empty b h]
        rw [this]
        exact ih b [] h
      | cons c q => exact ih _ _ (holds_get b q c h).2

theorem convert_scancode_to_ascii_eq (s : Nat) (shift : Bool) :
    convert_scancode_to_ascii s shift
      = some ((if shift = true then scancode_to_ascii_shift else scancode_to_ascii).getD s 0) := by
  by_cases h : 58 ≤ s
  · have h1 : scancode_to_ascii.length = 58 := rfl
    have h2 : scancode_to_ascii_shift.length = 58 := rfl
    have : s ≥ scancode_to_ascii.length := by rw [h1]; exact h
    simp only [convert_scancode_to_ascii, this, if_true]
    cases shift
    · simp only [Bool.false_eq_true, if_false, List.getD_eq_getElem?_getD]
      rw [List.getElem?_eq_none (by rw [h1]; exact h)]
      rfl
    · simp only [if_true, List.getD_eq_getElem?_getD]
      rw [List.getElem?_eq_none (by rw [h2]; exact h)]
      rfl
  · have hlt : s < 58 := by omega
    interval_cases s <;> cases shift <;> rfl

/-- C30: after `init_keyboard_buffer` and any sequence of calls of
`keyboard_buffer_put` and `keyboard_buffer_get`, `head` and `tail` are in
`[0, 256)` and the ring holds at most 255 bytes; both tables have 58 entries,
and `convert_scancode_to_ascii` reads the entry of a scancode below 58, inside
the table, and returns 0 for every scancode from 58 on. -/
theorem keyboard_indices_in_bounds (b0 : keyboard_buffer_t) (ops : List kbd_op) (s : Nat)
    (shift : Bool) :
    (0 ≤ (run_ops ops (init_keyboard_buffer b0)).head ∧
      (run_ops ops (init_keyboard_buffer b0)).head < KEYBOARD_BUFFER_SIZE ∧
      0 ≤ (run_ops ops (init_keyboard_buffer b0)).tail ∧
      (run_ops ops (init_keyboard_buffer b0)).tail < KEYBOARD_BUFFER_SIZE) ∧
    (∃ q, Holds (run_ops ops (init_keyboard_buffer b0)) q ∧ q.length ≤ 255) ∧
    scancode_to_ascii.length = 58 ∧ scancode_to_ascii_shift.length = 58 ∧
    (s < 58 → ∃ c,
      (if shift = true then scancode_to_ascii_shift else scancode_to_ascii)[s]? = some c ∧
      convert_scancode_to_ascii s shift = some c) ∧
    (58 ≤ s → convert_scancode_to_ascii s shift = some 0) := by
  obtain ⟨q, hq⟩ := holds_run_ops ops (init_keyboard_buffer b0) [] (holds_init b0)
  have hq2 := hq
  obtain ⟨h1, h2, h3, h4, -, h6, -⟩ := hq2
  refine ⟨⟨h1, h2, h3, h4⟩, ⟨q, hq, h6⟩, rfl, rfl, ?_, ?_⟩
  · intro hs
    interval_cases s <;> cases shift <;> exact ⟨_, rfl, rfl⟩
  · intro hs
    have : s ≥ scancode_to_ascii.length := hs
    simp only [convert_scancode_to_ascii, this, if_true]


/-! ## The keyboard interrupt handler -/

/-- On a ring that holds the bytes `q`, `keyboard_buffer_is_full()` holds
exactly when `q` has 255 bytes. -/
theorem holds_is_full (b : keyboard_buffer_t) (q : List Nat) (h : Holds b q) :
    keyboard_buffer_is_full b = true ↔ q.length = 255 := by
  obtain ⟨h1, h2, h3, h4, h5, h6, -⟩ := h
  unfold keyboard_buffer_is_full
  rw [decide_eq_true_eq, tmod_succ b.head h1]
  omega

/-- C27, as amended: `keyboard_handler_c` with the output-buffer-full bit of
the status byte set, on well-formed kernel data and a ring that holds the
bytes `q`. A scan code with bit 7 set pushes nothing and clears the shift flag
exactly when its low seven bits are `0x2A` or `0x36`; the scan codes `0x2A`
and `0x36` set the shift flag and push nothing; for any other scan code `s`,
with `e` the entry for `s` of the shifted table if the shift flag is set and of
the unshifted table if not: when `e != 0` and `s < 58` the handler calls
`keyboard_buffer_put(e)` once and then `unblock_keyboard_threads()`, and the
ring then holds `q` followed by `e` if it was not full (`q` has fewer than 255
bytes) and is unchanged, the byte being dropped, if it was full (`q` has 255
bytes); otherwise nothing is pushed and no thread is woken; on a ring that is
not full `0x1E` pushes `a` unshifted and `A` shifted. -/
theorem keyboard_handler_c_cases (fuel status s : Nat) (kb : keyboard_t) (k : Kernel)
    (ring blocked : List tid) (q : List Nat)
    (hst : status &&& KEYBOARD_STATUS_OUTPUT_FULL ≠ 0)
    (hw : WellFormed k ring blocked) (hf : MAX_THREADS ≤ fuel)
    (hq : Holds kb.kbd_buffer q) :
    (s &&& 0x80 ≠ 0 →
      keyboard_handler_c fuel status s kb k
        = .ok ({ kb with shift_pressed :=
            if s &&& 0x7F = 0x2A ∨ s &&& 0x7F = 0x36 then false else kb.shift_pressed }, k)) ∧
    (s = 0x2A ∨ s = 0x36 →
      keyboard_handler_c fuel status s kb k = .ok ({ kb with shift_pressed := true }, k)) ∧
    (s &&& 0x80 = 0 → s ≠ 0x2A → s ≠ 0x36 →
      ((if kb.shift_pressed = true then scancode_to_ascii_shift
          else scancode_to_ascii).getD s 0 ≠ 0 ∧ s < 58 →
        ∃ k1 b1, unblock_keyboard_threads fuel k = .ok k1 ∧
          keyboard_handler_c fuel status s kb k = .ok ({ kb with kbd_buffer := b1 }, k1) ∧
          b1 = keyboard_buffer_put
            ((if kb.shift_pressed = true then scancode_to_ascii_shift
              else scancode_to_ascii).getD s 0) kb.kbd_buffer ∧
          (keyboard_buffer_is_full kb.kbd_buffer = false → q.length < 255 ∧
            Holds b1 (q ++ [(if kb.shift_pressed = true then scancode_to_ascii_shift
              else scancode_to_ascii).getD s 0])) ∧
          (keyboard_buffer_is_full kb.kbd_buffer = true → q.length = 255 ∧
            b1 = kb.kbd_buffer ∧ Holds b1 q)) ∧
      (¬ ((if kb.shift_pressed = true then scancode_to_ascii_shift
          else scancode_to_ascii).getD s 0 ≠ 0 ∧ s < 58) →
        keyboard_handler_c fuel status s kb k = .ok (kb, k))) ∧
    (kb.shift_pressed = false → keyboard_buffer_is_full kb.kbd_buffer = false →
      ∃ k1 b1, unblock_keyboard_threads fuel k = .ok k1 ∧
        keyboard_handler_c fuel status 0x1E kb k = .ok ({ kb with kbd_buffer := b1 }, k1) ∧
        Holds b1 (q ++ [97])) ∧
    (kb.shift_pressed = true → keyboard_buffer_is_full kb.kbd_buffer = false →
      ∃ k1 b1, unblock_keyboard_threads fuel k = .ok k1 ∧
        keyboard_handler_c fuel status 0x1E kb k = .ok ({ kb with kbd_buffer := b1 }, k1) ∧
        Holds b1 (q ++ [65])) := by
  obtain ⟨k1, hk1, -⟩ :=
    wake_all keyboard_waiting keyboard_waiting_stable fuel k ring blocked hw hf
  have hun : unblock_keyboard_threads fuel k = .ok k1 := hk1
  have hfull := holds_is_full kb.kbd_buffer q hq
  have hnot : keyboard_buffer_is_full kb.kbd_buffer = false → q.length < 255 := by
    intro h
    have h6 : q.length ≤ 255 := hq.2.2.2.2.2.1
    have hne : ¬ q.length = 255 := fun e => by
      rw [hfull.2 e] at h
      exact absurd h (by decide)
    omega
  have hother : ∀ t : Nat, t &&& 0x80 = 0 → t ≠ 0x2A → t ≠ 0x36 →
      keyboard_handler_c fuel status t kb k =
        if (if kb.shift_pressed = true then scancode_to_ascii_shift
            else scancode_to_ascii).getD t 0 ≠ 0 then
          .ok ({ kb with kbd_buffer := (keyboard_buffer_put
            ((if kb.shift_pressed = true then scancode_to_ascii_shift
              else scancode_to_ascii).getD t 0) kb.kbd_buffer) }, k1)
        else .ok (kb, k) := by
    intro t h1 h2 h3
    unfold keyboard_handler_c
    rw [if_neg hst]
    have h1b : ¬ (t &&& SCANCODE_RELEASE_MASK ≠ 0) := by
      simpa [SCANCODE_RELEASE_MASK] using h1
    rw [if_neg h1b]
    have h23 : ¬ (t = SCANCODE_LEFT_SHIFT ∨ t = SCANCODE_RIGHT_SHIFT) := by
      simp [SCANCODE_LEFT_SHIFT, SCANCODE_RIGHT_SHIFT, h2, h3]
    rw [if_neg h23, convert_scancode_to_ascii_eq]
    simp only [hun]
  refine ⟨?_, ?_, ?_, ?_, ?_⟩
  · intro h7
    unfold keyboard_handler_c
    rw [if_neg hst]
    have h7b : s &&& SCANCODE_RELEASE_MASK ≠ 0 := h7
    rw [if_pos h7b]
    simp only [SCANCODE_LEFT_SHIFT, SCANCODE_RIGHT_SHIFT]
    split <;> rfl
  · intro hs
    have h7 : ¬ (s &&& SCANCODE_RELEASE_MASK ≠ 0) := by
      rcases hs with e | e <;> subst e <;> decide
    unfold keyboard_handler_c
    rw [if_neg hst, if_neg h7]
    have : s = SCANCODE_LEFT_SHIFT ∨ s = SCANCODE_RIGHT_SHIFT := hs
    rw [if_pos this]
  · intro h1 h2 h3
    rw [hother s h1 h2 h3]
    constructor
    · rintro ⟨hne, -⟩
      refine ⟨k1, _, hun, by rw [if_pos hne], rfl, ?_, ?_⟩
      · intro hnf
        exact ⟨hnot hnf, holds_put _ q _ hq (hnot hnf)⟩
      · intro hf2
        have hlen := hfull.1 hf2
        have hp := put_full kb.kbd_buffer q
          ((if kb.shift_pressed = true then scancode_to_ascii_shift
            else scancode_to_ascii).getD s 0) hq hlen
        refine ⟨hlen, hp, ?_⟩
        rw [hp]
        exact hq
    · intro hn
      by_cases hlt : s < 58
      · have : ¬ (if kb.shift_pressed = true then scancode_to_ascii_shift
            else scancode_to_ascii).getD s 0 ≠ 0 := fun h => hn ⟨h, hlt⟩
        rw [if_neg this]
      · have hz : (if kb.shift_pressed = true then scancode_to_ascii_shift
            else scancode_to_ascii).getD s 0 = 0 := by
          have h58 : 58 ≤ s := by omega
          have := convert_scancode_to_ascii_eq s kb.shift_pressed
          have h0 : convert_scancode_to_ascii s kb.shift_pressed = some 0 := by
            have hge : s ≥ scancode_to_ascii.length := h58
            simp only [convert_scancode_to_ascii, hge, if_true]
          rw [h0] at this
          exact (Option.some.inj this).symm
        rw [if_neg (by rw [hz]; decide)]
  · intro hsh hnf
    refine ⟨k1, keyboard_buffer_put 97 kb.kbd_buffer, hun, ?_, holds_put _ q 97 hq (hnot hnf)⟩
    rw [hother 0x1E (by decide) (by decide) (by decide), hsh]
    rfl
  · intro hsh hnf
    refine ⟨k1, keyboard_buffer_put 65 kb.kbd_buffer, hun, ?_, holds_put _ q 65 hq (hnot hnf)⟩
    rw [hother 0x1E (by decide) (by decide) (by decide), hsh]
    rfl

/-- The key `a` arrives on an empty ring while thread 1 waits for a key: the
ring then holds the one byte `a`. -/
theorem keyboard_handler_c_cases_witness :
    (1 : Nat) &&& KEYBOARD_STATUS_OUTPUT_FULL ≠ 0 ∧
    WellFormed three_waiting [2] [0, 1] ∧
    Holds empty_ring [] ∧
    keyboard_buffer_is_full empty_ring = false ∧
    ∃ k1 b1, unblock_keyboard_threads 8 three_waiting = .ok k1 ∧
      keyboard_handler_c 8 1 0x1E { kbd_buffer := empty_ring, shift_pressed := false }
          three_waiting
        = .ok ({ kbd_buffer := b1, shift_pressed := false }, k1) ∧
      Holds b1 ([] ++ [97]) :=
  ⟨by decide, wellformed_three_waiting, holds_init _, by decide,
    (keyboard_handler_c_cases 8 1 0x1E { kbd_buffer := empty_ring, shift_pressed := false }
      three_waiting [2] [0, 1] [] (by decide) wellformed_three_waiting (by decide)
      (holds_init _)).2.2.2.1 rfl (by decide)⟩

/-- The key `a` arrives on a full ring while thread 1 waits for a key: the
entry for `0x1E` is `a`, not zero, yet the ring is afterwards what it was, with
no byte pushed, and thread 1 has been woken. -/
theorem keyboard_handler_c_drops_on_full_ring :
    scancode_to_ascii.getD 0x1E 0 = 97 ∧
    keyboard_buffer_is_full full_ring = true ∧
    (three_waiting.threads 1).state = THREAD_BLOCKED ∧
    ∃ k1, keyboard_handler_c 8 1 0x1E { kbd_buffer := full_ring, shift_pressed := false }
          three_waiting
        = .ok ({ kbd_buffer := full_ring, shift_pressed := false }, k1) ∧
      (k1.threads 1).state = THREAD_READY :=
  ⟨rfl, by decide, rfl, _, rfl, rfl⟩


/-! ## `read_line` -/

theorem holds_text_push (buffer : Nat → Nat) (pos : Nat) (text : List Nat) (c : Nat)
    (h : HoldsText buffer pos text) (hc : 32 ≤ c ∧ c ≤ 126) :
    HoldsText (fun i => if i = pos then c else buffer i) (pos + 1) (text ++ [c]) := by
  obtain ⟨h1, h2, h3⟩ := h
  refine ⟨by simp [h1], ?_, ?_⟩
  · intro i hi
    by_cases e : i = pos
    · subst e
      rw [h1]
      simp
    · have hi2 : i < pos := by omega
      have hi3 : i < text.length := by omega
      rw [List.getElem?_append_left hi3, h2 i hi2]
      simp [e]
  · intro d hd
    rcases List.mem_append.1 hd with hm | hm
    · exact h3 d hm
    · rw [List.mem_singleton.1 hm]
      exact hc

theorem holds_text_pop (buffer : Nat → Nat) (pos : Nat) (text : List Nat)
    (h : HoldsText buffer pos text) : HoldsText buffer (pos - 1) text.dropLast := by
  obtain ⟨h1, h2, h3⟩ := h
  refine ⟨by simp [h1], ?_, ?_⟩
  · intro i hi
    have hi2 : i < pos := by omega
    rw [← h2 i hi2, List.dropLast_eq_take, List.getElem?_take_of_lt]
    omega
  · intro d hd
    exact h3 d (List.dropLast_subset text hd)

/-- The loop of `read_line` refines `line_text_spec`. -/
theorem read_line_loop_refines (max_length : Int) :
    ∀ (input : List Nat) (buffer : Nat → Nat) (pos : Nat) (echo text : List Nat)
      (buffer1 : Nat → Nat) (pos1 : Nat) (echo1 rest : List Nat),
      HoldsText buffer pos text → (pos : Int) ≤ max_length - 1 →
      read_line_loop max_length input buffer pos echo = some (buffer1, pos1, echo1, rest) →
      HoldsText buffer1 pos1 (line_text_spec (max_length - 1).toNat input text) ∧
      (pos1 : Int) ≤ max_length - 1 := by
  intro input
  induction input with
  | nil =>
    intro buffer pos echo text buffer1 pos1 echo1 rest h hp hr
    simp only [read_line_loop] at hr
    split at hr
    · simp at hr
    · simp only [Option.some.injEq, Prod.mk.injEq] at hr
      obtain ⟨e1, e2, -, -⟩ := hr
      subst e1 e2
      exact ⟨h, hp⟩
  | cons c input ih =>
    intro buffer pos echo text buffer1 pos1 echo1 rest h hp hr
    have hlen : pos = text.length := h.1
    simp only [read_line_loop] at hr
    by_cases hlt : (pos : Int) < max_length - 1
    · rw [if_pos hlt] at hr
      have hnl : ¬ text.length ≥ (max_length - 1).toNat := by
        rw [← hlen]
        omega
      simp only [line_text_spec, hnl, if_false]
      by_cases hcr : c = 10 ∨ c = 13
      · rw [if_pos hcr] at hr
        simp only [Option.some.injEq, Prod.mk.injEq] at hr
        obtain ⟨e1, e2, -, -⟩ := hr
        subst e1 e2
        rw [if_pos hcr]
        exact ⟨h, hp⟩
      · rw [if_neg hcr] at hr
        rw [if_neg hcr]
        by_cases hbs : c = 8 ∧ pos > 0
        · rw [if_pos hbs] at hr
          rw [if_pos hbs.1]
          exact ih buffer (pos - 1) _ _ buffer1 pos1 echo1 rest
            (holds_text_pop buffer pos text h) (by omega) hr
        · rw [if_neg hbs] at hr
          by_cases hpr : c ≥ 32 ∧ c ≤ 126
          · rw [if_pos hpr] at hr
            have h8 : ¬ c = 8 := by omega
            rw [if_neg h8, if_pos (show 32 ≤ c ∧ c ≤ 126 from hpr)]
            exact ih _ (pos + 1) _ _ buffer1 pos1 echo1 rest
              (holds_text_push buffer pos text c h hpr) (by push_cast; omega) hr
          · rw [if_neg hpr] at hr
            by_cases h8 : c = 8
            · rw [if_pos h8]
              have hp0 : pos = 0 := by
                by_contra hne
                exact hbs ⟨h8, by omega⟩
              have ht : text = [] := by
                rw [hp0] at hlen
                exact List.length_eq_zero.1 hlen.symm
              subst ht
              exact ih buffer pos _ _ buffer1 pos1 echo1 rest h hp hr
            · rw [if_neg h8, if_neg (show ¬ (32 ≤ c ∧ c ≤ 126) from hpr)]
              exact ih buffer pos _ _ buffer1 pos1 echo1 rest h hp hr
    · rw [if_neg hlt] at hr
      simp only [Option.some.injEq, Prod.mk.injEq] at hr
      obtain ⟨e1, e2, -, -⟩ := hr
      subst e1 e2
      have hge : text.length ≥ (max_length - 1).toNat := by
        rw [← hlen]
        omega
      simp only [line_text_spec, hge, if_true]
      exact ⟨h, hp⟩

/-- The loop of `read_line` ends when the input holds a CR or LF. -/
theorem read_line_loop_total (max_length : Int) :
    ∀ (input : List Nat) (buffer : Nat → Nat) (pos : Nat) (echo : List Nat),
      (∃ c, c ∈ input ∧ (c = 10 ∨ c = 13)) →
      ∃ r, read_line_loop max_length input buffer pos echo = some r := by
  intro input
  induction input with
  | nil =>
    intro buffer pos echo h
    obtain ⟨c, hc, -⟩ := h
    simp at hc
  | cons c input ih =>
    intro buffer pos echo h
    simp only [read_line_loop]
    by_cases hlt : (pos : Int) < max_length - 1
    · rw [if_pos hlt]
      by_cases hcr : c = 10 ∨ c = 13
      · rw [if_pos hcr]
        exact ⟨_, rfl⟩
      · rw [if_neg hcr]
        have h2 : ∃ d, d ∈ input ∧ (d = 10 ∨ d = 13) := by
          obtain ⟨d, hd, hd2⟩ := h
          rcases List.mem_cons.1 hd with e | hm
          · exact absurd (e ▸ hd2) hcr
          · exact ⟨d, hm, hd2⟩
        split
        · exact ih _ _ _ h2
        · split
          · exact ih _ _ _ h2
          · exact ih _ _ _ h2
    · rw [if_neg hlt]
      exact ⟨_, rfl⟩

/-- The C string of a buffer that holds `text` followed by a 0. -/
theorem c_string_of_holds (buffer : Nat → Nat) (pos : Nat) (text : List Nat)
    (h : HoldsText buffer pos text) (hz : buffer pos = 0) :
    ∀ (m n i : Nat), pos - i = m → i ≤ pos → pos - i < n →
      c_string buffer n i = text.drop i := by
  obtain ⟨h1, h2, h3⟩ := h
  intro m
  induction m with
  | zero =>
    intro n i hm hi hn
    have e : i = pos := by omega
    subst e
    cases n with
    | zero => omega
    | succ n =>
      simp only [c_string, hz, if_true]
      rw [h1, List.drop_length]
  | succ m ih =>
    intro n i hm hi hn
    have hlt : i < pos := by omega
    cases n with
    | zero => omega
    | succ n =>
      have hg := h2 i hlt
      have hil : i < text.length := by omega
      have hmem : buffer i ∈ text := by
        have := List.getElem?_eq_some.1 hg
        obtain ⟨hh, e⟩ := this
        rw [← e]
        exact List.getElem_mem _
      have hne : buffer i ≠ 0 := by
        have := h3 _ hmem
        omega
      simp only [c_string, hne, if_false]
      rw [ih n (i + 1) (by omega) (by omega) (by omega)]
      rw [List.drop_eq_getElem_cons hil]
      congr 1
      have := List.getElem?_eq_some.1 hg
      obtain ⟨hh, e⟩ := this
      exact e.symm


/-- C20: `read_line` with a non-null buffer and `2 <= max_length <= 1024`, on
the bytes `input` that `getchar` delivers: it returns when `input` holds a CR
or LF, and whenever it returns the buffer holds a NUL-terminated string that
is the text of `line_text_spec` for the limit `max_length - 1`, of length at
most `max_length - 1` and of bytes in `32..126` only. -/
theorem read_line_refines (buffer : Nat → Nat) (max_length : Int) (input : List Nat)
    (h2 : 2 ≤ max_length) (h1024 : max_length ≤ 1024) :
    ((∃ c, c ∈ input ∧ (c = 10 ∨ c = 13)) →
      ∃ r, read_line false buffer max_length input = some r) ∧
    ∀ (buffer2 : Nat → Nat) (echo rest : List Nat),
      read_line false buffer max_length input = some (buffer2, echo, rest) →
      c_string buffer2 max_length.toNat 0
        = line_text_spec (max_length - 1).toNat input [] ∧
      ((line_text_spec (max_length - 1).toNat input []).length : Int) ≤ max_length - 1 ∧
      buffer2 (line_text_spec (max_length - 1).toNat input []).length = 0 ∧
      ∀ c, c ∈ line_text_spec (max_length - 1).toNat input [] → 32 ≤ c ∧ c ≤ 126 := by
  have hc1 : ¬ ((false : Bool) = true ∨ max_length ≤ 1) := by
    intro h
    rcases h with h | h
    · exact absurd h (by decide)
    · omega
  have hc2 : ¬ max_length > 1024 := by omega
  constructor
  · intro hcr
    obtain ⟨r, hr⟩ := read_line_loop_total max_length input
      (fun i => if i = 0 then 0 else buffer i) 0 [] hcr
    unfold read_line
    rw [if_neg hc1]
    simp only [hc2, if_false, hr]
    exact ⟨_, rfl⟩
  · intro buffer2 echo rest hr
    unfold read_line at hr
    rw [if_neg hc1] at hr
    simp only [hc2, if_false] at hr
    cases hl : read_line_loop max_length input (fun i => if i = 0 then 0 else buffer i) 0 []
      with
    | none =>
      rw [hl] at hr
      simp at hr
    | some r =>
      obtain ⟨buffer1, pos, echo1, rest1⟩ := r
      rw [hl] at hr
      simp only [Option.some.injEq, Prod.mk.injEq] at hr
      obtain ⟨e1, -, -⟩ := hr
      have h0 : HoldsText (fun i => if i = 0 then 0 else buffer i) 0 [] :=
        ⟨rfl, fun i hi => absurd hi (by omega), fun c hc => absurd hc (by simp)⟩
      obtain ⟨ht, hp⟩ := read_line_loop_refines max_length input _ 0 [] [] buffer1 pos echo1
        rest1 h0 (by omega) hl
      obtain ⟨t1, t2, t3⟩ := ht
      have ht2 : HoldsText buffer2 pos (line_text_spec (max_length - 1).toNat input []) := by
        refine ⟨t1, ?_, t3⟩
        intro i hi
        rw [t2 i hi, ← e1]
        have : i ≠ pos := by omega
        simp [this]
      have hz : buffer2 pos = 0 := by
        rw [← e1]
        simp
      have hcs := c_string_of_holds buffer2 pos _ ht2 hz pos max_length.toNat 0 rfl
        (by omega) (by omega)
      rw [List.drop_zero] at hcs
      refine ⟨hcs, ?_, ?_, t3⟩
      · rw [← t1]
        exact hp
      · rw [← t1]
        exact hz

/-- The line `hi`, a backspace, `o` and CR read into a buffer of 5 bytes. -/
theorem read_line_refines_witness :
    (2 : Int) ≤ 5 ∧ (5 : Int) ≤ 1024 ∧
    ((∃ c, c ∈ [104, 105, 8, 111, 13] ∧ (c = 10 ∨ c = 13)) →
      ∃ r, read_line false (fun _ => 7) 5 [104, 105, 8, 111, 13] = some r) ∧
    ∀ (buffer2 : Nat → Nat) (echo rest : List Nat),
      read_line false (fun _ => 7) 5 [104, 105, 8, 111, 13] = some (buffer2, echo, rest) →
      c_string buffer2 (5 : Int).toNat 0
        = line_text_spec ((5 : Int) - 1).toNat [104, 105, 8, 111, 13] [] ∧
      ((line_text_spec ((5 : Int) - 1).toNat [104, 105, 8, 111, 13] []).length : Int)
        ≤ 5 - 1 ∧
      buffer2 (line_text_spec ((5 : Int) - 1).toNat [104, 105, 8, 111, 13] []).length = 0 ∧
      ∀ c, c ∈ line_text_spec ((5 : Int) - 1).toNat [104, 105, 8, 111, 13] [] →
        32 ≤ c ∧ c ≤ 126 :=
  ⟨by decide, by decide,
    read_line_refines (fun _ => 7) 5 [104, 105, 8, 111, 13] (by decide) (by decide)⟩

theorem read_line_example :
    (read_line false (fun _ => 7) 5 [104, 105, 8, 111, 13, 120]).map
        (fun r => (c_string r.1 5 0, r.2.1, r.2.2))
      = some ([104, 111], [104, 105, 8, 32, 8, 111, 10], [120]) ∧
    line_text_spec 4 [104, 105, 8, 111, 13, 120] [] = [104, 111] := by
  constructor <;> rfl


/-! ## The programmable interval timer -/

/-- C26, as amended: for every `hz >= 1` for which `d = 1193180 / hz` fits in
16 bits, `init_timer(hz)` makes the port writes `outb(0x43, 0x36)`,
`outb(0x40, d & 0xFF)`, `outb(0x40, (d >> 8) & 0xFF)`, in this order, and the
two bytes written to port `0x40` make up `d`. -/
theorem init_timer_port_writes (hz : Nat) (ports : List (Nat × Nat)) (h1 : 1 ≤ hz)
    (h16 : 1193180 / hz < 2 ^ 16) :
    init_timer hz ports
      = some (ports ++ [(0x43, 0x36), (0x40, (1193180 / hz) &&& 0xFF),
          (0x40, ((1193180 / hz) >>> 8) &&& 0xFF)]) ∧
    ((1193180 / hz) &&& 0xFF) + 256 * (((1193180 / hz) >>> 8) &&& 0xFF) = 1193180 / hz := by
  have hz0 : hz ≠ 0 := by omega
  have hmod : (1193180 / hz) % UINT32_RANGE = 1193180 / hz :=
    Nat.mod_eq_of_lt (lt_trans h16 (by decide))
  have ha : ∀ x : Nat, x &&& 0xFF = x % 256 := fun x =>
    Nat.and_pow_two_sub_one_eq_mod x 8
  have hs : (1193180 / hz) >>> 8 = (1193180 / hz) / 256 := Nat.shiftRight_eq_div_pow _ 8
  constructor
  · simp only [init_timer, hz0, if_false, outb, PIT_FREQUENCY, PIT_COMMAND, PIT_CHANNEL0,
      PIT_MODE_SQUARE_WAVE, MASK_LOW_BYTE, SHIFT_HIGH_BYTE, hmod, ha, hs, List.append_assoc,
      List.cons_append, List.nil_append]
    have e1 : (1193180 / hz) % 256 % 2 ^ 8 = (1193180 / hz) % 256 := by omega
    have e2 : (1193180 / hz) / 256 % 256 % 2 ^ 8 = (1193180 / hz) / 256 % 256 := by omega
    rw [e1, e2]
    rfl
  · rw [hs, ha, ha]
    omega

/-- The timer programmed for 100 Hz: the divisor is 11931. -/
theorem init_timer_port_writes_witness :
    1 ≤ 100 ∧ 1193180 / 100 < 2 ^ 16 ∧
    init_timer 100 []
      = some ([] ++ [(0x43, 0x36), (0x40, (1193180 / 100) &&& 0xFF),
          (0x40, ((1193180 / 100) >>> 8) &&& 0xFF)]) ∧
    ((1193180 / 100) &&& 0xFF) + 256 * (((1193180 / 100) >>> 8) &&& 0xFF) = 1193180 / 100 :=
  ⟨by decide, by decide, init_timer_port_writes 100 [] (by decide) (by decide)⟩

/-- C26, as stated, fails at `hz = 19`: `1193182 / 19 = 62799` fits in 16
bits, but `init_timer(19)` writes the low byte of `1193180 / 19 = 62798`. -/
theorem init_timer_uses_1193180 :
    1 ≤ 19 ∧ 1193182 / 19 < 2 ^ 16 ∧
    init_timer 19 [] = some [(0x43, 0x36), (0x40, 0x4E), (0x40, 0xF5)] ∧
    init_timer 19 []
      ≠ some [(0x43, 0x36), (0x40, (1193182 / 19) &&& 0xFF),
          (0x40, ((1193182 / 19) >>> 8) &&& 0xFF)] := by
  refine ⟨by decide, by decide, by decide, by decide⟩


/-! ## The time slice of day 10 -/

theorem day10_timer_handler_c_call (s : Day10.timer_t)
    (h : ((s.system_ticks + 1) % 2 ^ 32 + 2 ^ 32 - s.last_slice_tick) % 2 ^ 32
      ≥ s.slice_ticks) :
    Day10.timer_handler_c s =
      { system_ticks := (s.system_ticks + 1) % 2 ^ 32,
        last_slice_tick := (s.system_ticks + 1) % 2 ^ 32,
        slice_ticks := s.slice_ticks,
        timer_count := (s.timer_count + 1) % 2 ^ 32,
        schedule_calls := s.schedule_calls ++ [(s.system_ticks + 1) % 2 ^ 32] } := by
  unfold Day10.timer_handler_c
  exact if_pos h

theorem day10_timer_handler_c_skip (s : Day10.timer_t)
    (h : ¬ ((s.system_ticks + 1) % 2 ^ 32 + 2 ^ 32 - s.last_slice_tick) % 2 ^ 32
      ≥ s.slice_ticks) :
    Day10.timer_handler_c s =
      { system_ticks := (s.system_ticks + 1) % 2 ^ 32,
        last_slice_tick := s.last_slice_tick,
        slice_ticks := s.slice_ticks,
        timer_count := (s.timer_count + 1) % 2 ^ 32,
        schedule_calls := s.schedule_calls } := by
  unfold Day10.timer_handler_c
  exact if_neg h

/-- C24: one call of `timer_handler_c` of day 10 adds 1 to `system_ticks`
(modulo `2^32`); it calls `schedule` if and only if the new `system_ticks`
minus `last_slice_tick`, as a 32-bit unsigned difference, is at least
`slice_ticks`, and then sets `last_slice_tick` to `system_ticks`; from
`system_ticks = last_slice_tick = 0` with `slice_ticks = 10`, after 1000 calls
`system_ticks` is 1000 and `schedule` has been called 100 times, at ticks
10, 20, ..., 1000. -/
theorem timer_slice_schedule :
    (∀ s : Day10.timer_t,
      (Day10.timer_handler_c s).system_ticks = (s.system_ticks + 1) % 2 ^ 32 ∧
      (Day10.timer_handler_c s).slice_ticks = s.slice_ticks ∧
      (((s.system_ticks + 1) % 2 ^ 32 + 2 ^ 32 - s.last_slice_tick) % 2 ^ 32 ≥ s.slice_ticks →
        (Day10.timer_handler_c s).schedule_calls
          = s.schedule_calls ++ [(s.system_ticks + 1) % 2 ^ 32] ∧
        (Day10.timer_handler_c s).last_slice_tick = (s.system_ticks + 1) % 2 ^ 32) ∧
      (¬ ((s.system_ticks + 1) % 2 ^ 32 + 2 ^ 32 - s.last_slice_tick) % 2 ^ 32
          ≥ s.slice_ticks →
        (Day10.timer_handler_c s).schedule_calls = s.schedule_calls ∧
        (Day10.timer_handler_c s).last_slice_tick = s.last_slice_tick)) ∧
    Day10.timer_start.system_ticks = 0 ∧ Day10.timer_start.last_slice_tick = 0 ∧
    Day10.timer_start.slice_ticks = 10 ∧
    (Day10.timer_handler_c^[1000] Day10.timer_start).system_ticks = 1000 ∧
    (Day10.timer_handler_c^[1000] Day10.timer_start).schedule_calls
      = (List.range 100).map (fun i => 10 * (i + 1)) ∧
    (Day10.timer_handler_c^[1000] Day10.timer_start).schedule_calls.length = 100 := by
  have hinv : ∀ n : Nat, n ≤ 1000 →
      (Day10.timer_handler_c^[n] Day10.timer_start).system_ticks = n ∧
      (Day10.timer_handler_c^[n] Day10.timer_start).last_slice_tick = 10 * (n / 10) ∧
      (Day10.timer_handler_c^[n] Day10.timer_start).slice_ticks = 10 ∧
      (Day10.timer_handler_c^[n] Day10.timer_start).schedule_calls
        = (List.range (n / 10)).map (fun i => 10 * (i + 1)) := by
    intro n
    induction n with
    | zero =>
      intro _
      exact ⟨rfl, rfl, rfl, rfl⟩
    | succ n ih =>
      intro hn
      obtain ⟨h1, h2, h3, h4⟩ := ih (by omega)
      rw [Function.iterate_succ_apply']
      generalize Day10.timer_handler_c^[n] Day10.timer_start = s at h1 h2 h3 h4
      have e1 : (s.system_ticks + 1) % 2 ^ 32 = n + 1 := by
        rw [h1]
        exact Nat.mod_eq_of_lt (by omega)
      by_cases hd : (n + 1) % 10 = 0
      · have hq : (n + 1) / 10 = n / 10 + 1 := by omega
        have hc : ((s.system_ticks + 1) % 2 ^ 32 + 2 ^ 32 - s.last_slice_tick) % 2 ^ 32
            ≥ s.slice_ticks := by
          rw [e1, h2, h3]
          omega
        rw [day10_timer_handler_c_call s hc]
        refine ⟨e1, ?_, h3, ?_⟩
        · show (s.system_ticks + 1) % 2 ^ 32 = 10 * ((n + 1) / 10)
          rw [e1]
          omega
        · show s.schedule_calls ++ [(s.system_ticks + 1) % 2 ^ 32] = _
          rw [hq, List.range_succ, List.map_append, h4, e1]
          have : 10 * (n / 10 + 1) = n + 1 := by omega
          simp [this]
      · have hq : (n + 1) / 10 = n / 10 := by omega
        have hc : ¬ ((s.system_ticks + 1) % 2 ^ 32 + 2 ^ 32 - s.last_slice_tick) % 2 ^ 32
            ≥ s.slice_ticks := by
          rw [e1, h2, h3]
          omega
        rw [day10_timer_handler_c_skip s hc]
        refine ⟨e1, ?_, h3, ?_⟩
        · show s.last_slice_tick = 10 * ((n + 1) / 10)
          rw [h2, hq]
        · show s.schedule_calls = _
          rw [h4, hq]
  obtain ⟨h1, -, -, h4⟩ := hinv 1000 (le_refl _)
  refine ⟨?_, rfl, rfl, rfl, h1, h4, ?_⟩
  · intro s
    by_cases h : ((s.system_ticks + 1) % 2 ^ 32 + 2 ^ 32 - s.last_slice_tick) % 2 ^ 32
        ≥ s.slice_ticks
    · rw [day10_timer_handler_c_call s h]
      exact ⟨rfl, rfl, fun _ => ⟨rfl, rfl⟩, fun hn => absurd h hn⟩
    · rw [day10_timer_handler_c_skip s h]
      exact ⟨rfl, rfl, fun hp => absurd hp h, fun _ => ⟨rfl, rfl⟩⟩
  · rw [h4, List.length_map, List.length_range]


/-! ## The interrupt descriptor table of day 12 -/

theorem day12_clear_gates (n : Nat) :
    ∀ (i : Nat) (idt : Nat → Day12.idt_entry_t) (j : Nat),
      Day12.clear_gates n i idt j =
        if i ≤ j ∧ j < i + n then
          { lo := 0, sel := 0x08, zero := 0, flags := 0x8E, hi := 0 }
        else idt j := by
  induction n with
  | zero =>
    intro i idt j
    have : ¬ (i ≤ j ∧ j < i + 0) := by omega
    rw [if_neg this]
    rfl
  | succ n ih =>
    intro i idt j
    show Day12.clear_gates n (i + 1) (Day12.set_gate i 0 idt) j = _
    rw [ih]
    by_cases h1 : i + 1 ≤ j ∧ j < i + 1 + n
    · rw [if_pos h1, if_pos (by omega)]
    · rw [if_neg h1]
      by_cases h2 : j = i
      · subst h2
        rw [if_pos (by omega)]
        simp [Day12.set_gate]
      · rw [if_neg (by omega)]
        simp [Day12.set_gate, h2]

theorem day12_set_gate_same (n h : Nat) (idt : Nat → Day12.idt_entry_t) (hh : h < 2 ^ 32) :
    Day12.HoldsStub (Day12.set_gate n h idt n) h := by
  have e : (h >>> 16) &&& 0xFFFF = h >>> 16 := by
    have h1 : (h >>> 16) &&& 0xFFFF = (h >>> 16) % 2 ^ 16 :=
      Nat.and_pow_two_sub_one_eq_mod _ 16
    rw [h1, Nat.shiftRight_eq_div_pow]
    omega
  have hg : Day12.set_gate n h idt n
      = { lo := h &&& 0xFFFF, sel := 0x08, zero := 0, flags := 0x8E,
          hi := (h >>> 16) &&& 0xFFFF } := if_pos rfl
  unfold Day12.HoldsStub
  rw [hg]
  exact ⟨rfl, e, rfl, rfl, rfl⟩

theorem day12_set_gate_other (n h j : Nat) (idt : Nat → Day12.idt_entry_t) (hj : j ≠ n) :
    Day12.set_gate n h idt j = idt j := by
  simp [Day12.set_gate, hj]

/-- C25, as amended: after `idt_init`, gates 0, 3, 6, 13, 14, 32 and 33 hold
the address of their stub, split as `base_low = addr & 0xFFFF` and
`base_high = addr >> 16`, with selector `0x08` and flags `0x8E`; every one of
the other 249 gates holds the address 0 with selector `0x08` and flags `0x8E`,
so its present bit (bit 7 of the flags byte) is set too. -/
theorem idt_init_gates (a : Day12.stubs_t) (idt : Nat → Day12.idt_entry_t)
    (ha : ∀ x, x ∈ [a.isr0, a.isr3, a.isr6, a.isr13, a.isr14, a.timer_interrupt_handler,
      a.keyboard_interrupt_handler] → x < 2 ^ 32) :
    Day12.HoldsStub (Day12.idt_init a idt 0) a.isr0 ∧
    Day12.HoldsStub (Day12.idt_init a idt 3) a.isr3 ∧
    Day12.HoldsStub (Day12.idt_init a idt 6) a.isr6 ∧
    Day12.HoldsStub (Day12.idt_init a idt 13) a.isr13 ∧
    Day12.HoldsStub (Day12.idt_init a idt 14) a.isr14 ∧
    Day12.HoldsStub (Day12.idt_init a idt 32) a.timer_interrupt_handler ∧
    Day12.HoldsStub (Day12.idt_init a idt 33) a.keyboard_interrupt_handler ∧
    ∀ n, n < 256 → n ∉ [0, 3, 6, 13, 14, 32, 33] →
      Day12.HoldsStub (Day12.idt_init a idt n) 0 ∧
      (Day12.idt_init a idt n).flags &&& 0x80 = 0x80 := by
  have h0 := ha a.isr0 (by simp)
  have h3 := ha a.isr3 (by simp)
  have h6 := ha a.isr6 (by simp)
  have h13 := ha a.isr13 (by simp)
  have h14 := ha a.isr14 (by simp)
  have h32 := ha a.timer_interrupt_handler (by simp)
  have h33 := ha a.keyboard_interrupt_handler (by simp)
  unfold Day12.idt_init
  refine ⟨?_, ?_, ?_, ?_, ?_, ?_, ?_, ?_⟩
  · rw [day12_set_gate_other 33 _ 0 _ (by decide), day12_set_gate_other 32 _ 0 _ (by decide),
      day12_set_gate_other 14 _ 0 _ (by decide), day12_set_gate_other 13 _ 0 _ (by decide),
      day12_set_gate_other 6 _ 0 _ (by decide), day12_set_gate_other 3 _ 0 _ (by decide)]
    exact day12_set_gate_same 0 _ _ h0
  · rw [day12_set_gate_other 33 _ 3 _ (by decide), day12_set_gate_other 32 _ 3 _ (by decide),
      day12_set_gate_other 14 _ 3 _ (by decide), day12_set_gate_other 13 _ 3 _ (by decide),
      day12_set_gate_other 6 _ 3 _ (by decide)]
    exact day12_set_gate_same 3 _ _ h3
  · rw [day12_set_gate_other 33 _ 6 _ (by decide), day12_set_gate_other 32 _ 6 _ (by decide),
      day12_set_gate_other 14 _ 6 _ (by decide), day12_set_gate_other 13 _ 6 _ (by decide)]
    exact day12_set_gate_same 6 _ _ h6
  · rw [day12_set_gate_other 33 _ 13 _ (by decide), day12_set_gate_other 32 _ 13 _ (by decide),
      day12_set_gate_other 14 _ 13 _ (by decide)]
    exact day12_set_gate_same 13 _ _ h13
  · rw [day12_set_gate_other 33 _ 14 _ (by decide), day12_set_gate_other 32 _ 14 _ (by decide)]
    exact day12_set_gate_same 14 _ _ h14
  · rw [day12_set_gate_other 33 _ 32 _ (by decide)]
    exact day12_set_gate_same 32 _ _ h32
  · exact day12_set_gate_same 33 _ _ h33
  · intro n hn hnot
    simp only [List.mem_cons, List.mem_singleton, List.not_mem_nil, or_false, not_or] at hnot
    obtain ⟨n0, n3, n6, n13, n14, n32, n33⟩ := hnot
    rw [day12_set_gate_other 33 _ n _ n33, day12_set_gate_other 32 _ n _ n32,
      day12_set_gate_other 14 _ n _ n14, day12_set_gate_other 13 _ n _ n13,
      day12_set_gate_other 6 _ n _ n6, day12_set_gate_other 3 _ n _ n3,
      day12_set_gate_other 0 _ n _ n0, day12_clear_gates, if_pos (by omega)]
    exact ⟨⟨rfl, rfl, rfl, rfl, rfl⟩, rfl⟩

/-- The table for stubs placed from `0x100200` on. -/
theorem idt_init_gates_witness :
    (∀ x, x ∈ [Day12.example_stubs.isr0, Day12.example_stubs.isr3, Day12.example_stubs.isr6,
      Day12.example_stubs.isr13, Day12.example_stubs.isr14,
      Day12.example_stubs.timer_interrupt_handler,
      Day12.example_stubs.keyboard_interrupt_handler] → x < 2 ^ 32) ∧
    Day12.HoldsStub (Day12.idt_init Day12.example_stubs Day12.zero_idt 0)
      Day12.example_stubs.isr0 ∧
    Day12.HoldsStub (Day12.idt_init Day12.example_stubs Day12.zero_idt 3)
      Day12.example_stubs.isr3 ∧
    Day12.HoldsStub (Day12.idt_init Day12.example_stubs Day12.zero_idt 6)
      Day12.example_stubs.isr6 ∧
    Day12.HoldsStub (Day12.idt_init Day12.example_stubs Day12.zero_idt 13)
      Day12.example_stubs.isr13 ∧
    Day12.HoldsStub (Day12.idt_init Day12.example_stubs Day12.zero_idt 14)
      Day12.example_stubs.isr14 ∧
    Day12.HoldsStub (Day12.idt_init Day12.example_stubs Day12.zero_idt 32)
      Day12.example_stubs.timer_interrupt_handler ∧
    Day12.HoldsStub (Day12.idt_init Day12.example_stubs Day12.zero_idt 33)
      Day12.example_stubs.keyboard_interrupt_handler ∧
    ∀ n, n < 256 → n ∉ [0, 3, 6, 13, 14, 32, 33] →
      Day12.HoldsStub (Day12.idt_init Day12.example_stubs Day12.zero_idt n) 0 ∧
      (Day12.idt_init Day12.example_stubs Day12.zero_idt n).flags &&& 0x80 = 0x80 :=
  ⟨by decide, idt_init_gates Day12.example_stubs Day12.zero_idt (by decide)⟩

/-- C25, as stated, fails at gate 1: the loop of `idt_init` has stored the
flags `0x8E` there, so the present bit of a gate that is not one of the seven
is set. -/
theorem idt_init_unused_gate_present :
    (1 : Nat) ∉ [0, 3, 6, 13, 14, 32, 33] ∧
    (Day12.idt_init Day12.example_stubs Day12.zero_idt 1).flags = 0x8E ∧
    (Day12.idt_init Day12.example_stubs Day12.zero_idt 1).flags &&& 0x80 ≠ 0 ∧
    (Day12.idt_init Day12.example_stubs Day12.zero_idt 1).lo = 0 ∧
    (Day12.idt_init Day12.example_stubs Day12.zero_idt 1).hi = 0 := by
  have h : Day12.idt_init Day12.example_stubs Day12.zero_idt 1
      = { lo := 0, sel := 0x08, zero := 0, flags := 0x8E, hi := 0 } := by
    unfold Day12.idt_init
    rw [day12_set_gate_other 33 _ 1 _ (by decide), day12_set_gate_other 32 _ 1 _ (by decide),
      day12_set_gate_other 14 _ 1 _ (by decide), day12_set_gate_other 13 _ 1 _ (by decide),
      day12_set_gate_other 6 _ 1 _ (by decide), day12_set_gate_other 3 _ 1 _ (by decide),
      day12_set_gate_other 0 _ 1 _ (by decide), day12_clear_gates, if_pos (by omega)]
  rw [h]
  exact ⟨by decide, rfl, by decide, rfl, rfl⟩


/-! ## The interrupt-enable flag during bring-up -/

theorem add_thread_to_ready_list_stores_data (thread : tid) (m : Cpu) :
    (add_thread_to_ready_list_stores thread m).map (fun r => (r.1, r.2.k))
      = add_thread_to_ready_list thread m.k := by
  unfold add_thread_to_ready_list_stores add_thread_to_ready_list
  cases hr : m.k.k_context.ready_thread_list with
  | none => rfl
  | some head =>
    simp only
    cases find_last m.k.threads head MAX_THREADS head with
    | error e => rfl
    | ok p =>
      obtain ⟨last, r⟩ := p
      simp only
      split
      · rfl
      · simp [store_shared, Except.map, hr]

/-- C21: `kernel_main` on the machine as booted, whatever the flag then:
`init_interrupts` has executed `sti` before `init_thread_system` runs, and no
`cli` follows, so the stores of `create_thread` to `ready_thread_list` and to
the `next_ready` links are made with the interrupt-enable flag set. -/
theorem bringup_stores_with_interrupts_enabled :
    ∀ b : Bool, ∃ m,
      kernel_main 0x200000 example_funcs (boot_cpu b) = .ok m ∧
      m.interrupts = true ∧
      m.stores =
        [(shared_field.current_thread, b), (shared_field.ready_thread_list, b),
         (shared_field.blocked_thread_list, b),
         (shared_field.next_ready 0, true), (shared_field.ready_thread_list, true),
         (shared_field.next_ready 0, true),
         (shared_field.next_ready 1, true), (shared_field.next_ready 1, true),
         (shared_field.next_ready 0, true),
         (shared_field.next_ready 2, true), (shared_field.next_ready 2, true),
         (shared_field.next_ready 1, true),
         (shared_field.next_ready 3, true), (shared_field.next_ready 3, true),
         (shared_field.next_ready 2, true)] ∧
      (shared_field.ready_thread_list, true) ∈ m.stores ∧
      m.k.k_context.ready_thread_list = some 0 ∧
      m.k.k_context.current_thread = none ∧
      m.k.thread_count = 4 := by
  intro b
  cases b
  · exact ⟨_, rfl, rfl, rfl, by decide, rfl, rfl, rfl⟩
  · exact ⟨_, rfl, rfl, rfl, by decide, rfl, rfl, rfl⟩

theorem create_thread_tail_data (thread : tid) (M : Cpu) :
    Except.map (fun r => (r.1, r.2.1, r.2.2.k))
      ((match add_thread_to_ready_list_stores thread M with
        | .error e => .error e
        | .ok (r, m4) =>
          if r ≠ OS_SUCCESS then
            .ok (r, none, { m4 with k := { m4.k with thread_count := m4.k.thread_count - 1 } })
          else .ok (OS_SUCCESS, some thread, m4)) : Exec (os_result_t × Option tid × Cpu))
      = ((match add_thread_to_ready_list thread M.k with
        | .error e => .error e
        | .ok (r, k4) =>
          if r ≠ OS_SUCCESS then
            .ok (r, none, { k4 with thread_count := k4.thread_count - 1 })
          else .ok (OS_SUCCESS, some thread, k4)) : Exec (os_result_t × Option tid × Kernel)) := by
  rw [← add_thread_to_ready_list_stores_data]
  cases add_thread_to_ready_list_stores thread M with
  | error e => rfl
  | ok p =>
    obtain ⟨r, m4⟩ := p
    by_cases hr : r ≠ OS_SUCCESS
    · simp only [Except.map]
      rw [if_pos hr, if_pos hr]
    · simp only [Except.map]
      rw [if_neg hr, if_neg hr]

/-- The kernel data that `create_thread_stores` computes is that of
`create_thread`. -/
theorem create_thread_stores_data (threads_addr func delay_ticks : Nat) (display_row : Int)
    (out_thread : Bool) (m : Cpu) :
    (create_thread_stores threads_addr func delay_ticks display_row out_thread m).map
        (fun r => (r.1, r.2.1, r.2.2.k))
      = create_thread threads_addr func delay_ticks display_row out_thread m.k := by
  unfold create_thread_stores create_thread
  cases out_thread with
  | false => rfl
  | true =>
    simp only [Bool.true_eq_false, if_false]
    split
    · rfl
    · split
      · exact create_thread_tail_data _ _
      · rfl


/-! ## Blocking on the keyboard in day 12 -/

theorem day12_path_nil (nxt : Day12.tid → Option Day12.tid) (p q : Option Day12.tid) :
    Day12.Path nxt p [] q ↔ p = q := Iff.rfl

theorem day12_path_cons (nxt : Day12.tid → Option Day12.tid) (a : Day12.tid)
    (l : List Day12.tid) (p q : Option Day12.tid) :
    Day12.Path nxt p (a :: l) q ↔ p = some a ∧ Day12.Path nxt (nxt a) l q := Iff.rfl

theorem day12_path_append (nxt : Day12.tid → Option Day12.tid) (l1 l2 : List Day12.tid)
    (p q : Option Day12.tid) :
    Day12.Path nxt p (l1 ++ l2) q ↔ ∃ m, Day12.Path nxt p l1 m ∧ Day12.Path nxt m l2 q := by
  induction l1 generalizing p with
  | nil => simp [day12_path_nil]
  | cons a l ih =>
    rw [List.cons_append, day12_path_cons, ih]
    simp only [day12_path_cons]
    constructor
    · rintro ⟨h, m, h1, h2⟩
      exact ⟨m, ⟨h, h1⟩, h2⟩
    · rintro ⟨m, ⟨h, h1⟩, h2⟩
      exact ⟨h, m, h1, h2⟩

theorem day12_path_snoc (nxt : Day12.tid → Option Day12.tid) (l : List Day12.tid)
    (a : Day12.tid) (p q : Option Day12.tid) :
    Day12.Path nxt p (l ++ [a]) q ↔ Day12.Path nxt p l (some a) ∧ nxt a = q := by
  rw [day12_path_append]
  constructor
  · rintro ⟨m, h1, h2, h3⟩
    subst h2
    exact ⟨h1, h3⟩
  · rintro ⟨h1, h2⟩
    exact ⟨some a, h1, rfl, h2⟩

theorem day12_path_congr (nxt nxt2 : Day12.tid → Option Day12.tid) (l : List Day12.tid)
    (p q : Option Day12.tid) (h : ∀ a, a ∈ l → nxt2 a = nxt a) :
    Day12.Path nxt2 p l q ↔ Day12.Path nxt p l q := by
  induction l generalizing p with
  | nil => simp [day12_path_nil]
  | cons a l ih =>
    rw [day12_path_cons, day12_path_cons, h a (by simp),
      ih (nxt a) (fun b hb => h b (by simp [hb]))]

theorem day12_path_update (nxt : Day12.tid → Option Day12.tid) (l : List Day12.tid)
    (p q : Option Day12.tid) (a : Day12.tid) (x : Option Day12.tid) (h : a ∉ l) :
    Day12.Path (Function.update nxt a x) p l q ↔ Day12.Path nxt p l q := by
  apply day12_path_congr
  intro b hb
  have : b ≠ a := fun e => h (e ▸ hb)
  simp [Function.update_apply, this]

theorem day12_path_mem_next (nxt : Day12.tid → Option Day12.tid) (l : List Day12.tid)
    (p : Option Day12.tid) (h : Day12.tid) (hp : Day12.Path nxt p l (some h)) (a : Day12.tid)
    (ha : a ∈ l) : ∃ b, nxt a = some b ∧ (b ∈ l ∨ b = h) := by
  induction l generalizing p with
  | nil => simp at ha
  | cons c l ih =>
    obtain ⟨-, h2⟩ := hp
    rcases List.mem_cons.1 ha with e | ha2
    · subst e
      cases l with
      | nil => exact ⟨h, h2, Or.inr rfl⟩
      | cons d l2 => exact ⟨d, h2.1, Or.inl (by simp)⟩
    · obtain ⟨b, hb, hm⟩ := ih (nxt c) h2 ha2
      exact ⟨b, hb, hm.imp (fun x => List.mem_cons_of_mem _ x) id⟩

theorem day12_path_head_append (nxt : Day12.tid → Option Day12.tid) (l : List Day12.tid)
    (p : Option Day12.tid) (q : Day12.tid) (hp : Day12.Path nxt p l (some q)) :
    p = (l ++ [q]).head? := by
  cases l with
  | nil => simpa [day12_path_nil] using hp
  | cons a l => simpa using hp.1

theorem day12_path_next_head (nxt : Day12.tid → Option Day12.tid) (pre post : List Day12.tid)
    (c : Day12.tid) (p q : Option Day12.tid) (hp : Day12.Path nxt p (pre ++ c :: post) q) :
    Day12.Path nxt (nxt c) post q := by
  rw [day12_path_append] at hp
  obtain ⟨m, -, hb⟩ := hp
  exact hb.2

theorem day12_path_to_none_head (nxt : Day12.tid → Option Day12.tid) (l : List Day12.tid)
    (p : Option Day12.tid) (hp : Day12.Path nxt p l none) : p = l.head? := by
  cases l with
  | nil => simpa [day12_path_nil] using hp
  | cons a l => simpa using hp.1

theorem day12_ring_next_mem (nxt : Day12.tid → Option Day12.tid) (head : Option Day12.tid)
    (ring : List Day12.tid) (hr : Day12.Ring nxt head ring) (a : Day12.tid) (ha : a ∈ ring) :
    ∃ b, nxt a = some b ∧ b ∈ ring := by
  obtain ⟨hh, hp, -⟩ := hr
  cases ring with
  | nil => simp at ha
  | cons h r =>
    have h0 : head = some h := by simpa using hh
    rw [h0] at hp
    obtain ⟨b, hb, hm⟩ := day12_path_mem_next _ _ _ _ hp a ha
    refine ⟨b, hb, ?_⟩
    rcases hm with hm | hm
    · exact hm
    · simp [hm]

theorem day12_ring_head_mem (nxt : Day12.tid → Option Day12.tid) (head : Option Day12.tid)
    (ring : List Day12.tid) (hr : Day12.Ring nxt head ring) (a : Day12.tid)
    (ha : head = some a) : a ∈ ring := by
  have := hr.1
  rw [ha] at this
  cases ring with
  | nil => simp at this
  | cons h r =>
    have e : a = h := by simpa using this
    simp [e]

theorem day12_find_prev_succ (nxt : Day12.tid → Option Day12.tid) (thread : Day12.tid)
    (fuel : Nat) (prev : Day12.tid) :
    Day12.find_prev nxt thread (fuel + 1) (some prev) =
      if nxt prev = some thread then .ok prev
      else Day12.find_prev nxt thread fuel (nxt prev) := rfl

theorem day12_find_prev_spec (nxt : Day12.tid → Option Day12.tid) (head : Option Day12.tid)
    (ring : List Day12.tid) (hr : Day12.Ring nxt head ring) (t : Day12.tid) :
    ∀ (fuel : Nat) (p : Option Day12.tid) (prev : Day12.tid), (∀ a, p = some a → a ∈ ring) →
      Day12.find_prev nxt t fuel p = .ok prev → prev ∈ ring ∧ nxt prev = some t := by
  intro fuel
  induction fuel with
  | zero =>
    intro p prev _ h
    cases p <;> simp [Day12.find_prev] at h
  | succ n ih =>
    intro p prev hp h
    cases p with
    | none => simp [Day12.find_prev] at h
    | some a =>
      rw [day12_find_prev_succ] at h
      by_cases e : nxt a = some t
      · rw [if_pos e] at h
        have : a = prev := by simpa using h
        subst this
        exact ⟨hp a rfl, e⟩
      · rw [if_neg e] at h
        obtain ⟨b, hb, hm⟩ := day12_ring_next_mem nxt head ring hr a (hp a rfl)
        refine ih _ prev ?_ h
        intro c hc
        rw [hb] at hc
        have : b = c := by simpa using hc
        exact this ▸ hm

theorem day12_find_prev_total (nxt : Day12.tid → Option Day12.tid) (t : Day12.tid) :
    ∀ (seg : List Day12.tid) (a : Day12.tid) (q : Option Day12.tid) (fuel : Nat),
      Day12.Path nxt (some a) (a :: seg) q →
      nxt ((a :: seg).getLast (by simp)) = some t →
      (a :: seg).length ≤ fuel →
      ∃ prev, Day12.find_prev nxt t fuel (some a) = .ok prev := by
  intro seg
  induction seg with
  | nil =>
    intro a q fuel _ hl hf
    have hl2 : nxt a = some t := by simpa using hl
    cases fuel with
    | zero => simp at hf
    | succ n =>
      rw [day12_find_prev_succ, if_pos hl2]
      exact ⟨a, rfl⟩
  | cons b seg ih =>
    intro a q fuel hp hl hf
    cases fuel with
    | zero => simp at hf
    | succ n =>
      rw [day12_find_prev_succ]
      by_cases e : nxt a = some t
      · rw [if_pos e]
        exact ⟨a, rfl⟩
      · rw [if_neg e]
        have hab : nxt a = some b := hp.2.1
        rw [hab]
        have hp2 : Day12.Path nxt (some b) (b :: seg) q := ⟨rfl, hp.2.2⟩
        refine ih b q n hp2 ?_ (by simp at hf ⊢; omega)
        simpa using hl


/-- `remove_from_ready_list` of day 12, called for a ring member with fuel for
one round of the ring, returns. -/
theorem day12_remove_total (fuel : Nat) (k : Day12.Kernel) (ring : List Day12.tid)
    (t : Day12.tid) (hr : Day12.Ring k.next_ready k.ready_thread_list ring) (ht : t ∈ ring)
    (hf : ring.length ≤ fuel) :
    ∃ k2, Day12.remove_from_ready_list fuel t k = .ok k2 := by
  unfold Day12.remove_from_ready_list
  obtain ⟨hh, hp, hn⟩ := hr
  obtain ⟨l1, l2, hsplit⟩ := List.append_of_mem ht
  cases ring with
  | nil => simp at ht
  | cons hd r =>
    have h0 : k.ready_thread_list = some hd := by simpa using hh
    have hne : ¬ k.ready_thread_list = none := by rw [h0]; simp
    rw [if_neg hne]
    by_cases hc : k.ready_thread_list = some t ∧ k.next_ready t = some t
    · rw [if_pos hc]
      exact ⟨_, rfl⟩
    · rw [if_neg hc]
      have hfind : ∃ prev, Day12.find_prev k.next_ready t fuel k.ready_thread_list
          = .ok prev := by
        rw [h0] at hp ⊢
        cases l1 with
        | nil =>
          have e : hd = t := by
            have := congrArg List.head? hsplit
            simpa using this
          subst e
          refine day12_find_prev_total k.next_ready hd r hd (some hd) fuel hp ?_ hf
          have hsp := List.dropLast_append_getLast (l := hd :: r) (by simp)
          have hp2 := hp
          rw [← hsp, day12_path_snoc] at hp2
          exact hp2.2
        | cons c l1b =>
          have e : hd = c := by
            have := congrArg List.head? hsplit
            simpa using this
          subst e
          have hr2 : r = l1b ++ t :: l2 := by
            have := congrArg List.tail hsplit
            simpa using this
          have hp2 := hp
          rw [hsplit, day12_path_append] at hp2
          obtain ⟨m, hpa, hpb⟩ := hp2
          have hm : m = some t := hpb.1
          subst hm
          refine day12_find_prev_total k.next_ready t l1b hd (some t) fuel hpa ?_ ?_
          · have hsp := List.dropLast_append_getLast (l := hd :: l1b) (by simp)
            have hpa2 := hpa
            rw [← hsp, day12_path_snoc] at hpa2
            exact hpa2.2
          · rw [hr2] at hf
            simp at hf ⊢
            omega
      obtain ⟨prev, hprev⟩ := hfind
      rw [hprev]
      simp only
      split
      · exact ⟨_, rfl⟩
      · exact ⟨_, rfl⟩

/-- What `remove_from_ready_list` of day 12 writes: `next_ready` links and the
head of the ready list. -/
theorem day12_remove_frame (fuel : Nat) (k k2 : Day12.Kernel) (t : Day12.tid)
    (h : Day12.remove_from_ready_list fuel t k = .ok k2) :
    k2.current_thread = k.current_thread ∧ k2.blocked_thread_list = k.blocked_thread_list ∧
    k2.state = k.state ∧ k2.block_reason = k.block_reason ∧
    k2.wake_up_tick = k.wake_up_tick ∧ k2.next_blocked = k.next_blocked := by
  unfold Day12.remove_from_ready_list at h
  split at h
  · cases h
    exact ⟨rfl, rfl, rfl, rfl, rfl, rfl⟩
  · split at h
    · cases h
      exact ⟨rfl, rfl, rfl, rfl, rfl, rfl⟩
    · split at h
      · cases h
      · dsimp only at h
        split at h
        · cases h
          exact ⟨rfl, rfl, rfl, rfl, rfl, rfl⟩
        · cases h
          exact ⟨rfl, rfl, rfl, rfl, rfl, rfl⟩

/-- When `remove_from_ready_list` of day 12 returns for a ring member, the
thread has been taken out of the ring. -/
theorem day12_remove_spec (fuel : Nat) (k k2 : Day12.Kernel) (ring : List Day12.tid)
    (t : Day12.tid) (hr : Day12.Ring k.next_ready k.ready_thread_list ring) (ht : t ∈ ring)
    (h : Day12.remove_from_ready_list fuel t k = .ok k2) :
    ∃ l1 l2, ring = l1 ++ t :: l2 ∧
      Day12.Ring k2.next_ready k2.ready_thread_list (l1 ++ l2) := by
  unfold Day12.remove_from_ready_list at h
  have hne : ¬ k.ready_thread_list = none := by
    intro e
    have := hr.1
    rw [e] at this
    cases ring with
    | nil => simp at ht
    | cons a r => simp at this
  rw [if_neg hne] at h
  by_cases hc : k.ready_thread_list = some t ∧ k.next_ready t = some t
  · rw [if_pos hc] at h
    have hk := Except.ok.inj h
    subst hk
    obtain ⟨hh, hp, hn⟩ := hr
    rw [hc.1] at hp hh
    cases ring with
    | nil => simp at hh
    | cons a r =>
      have ea : t = a := by simpa using hh
      subst ea
      cases r with
      | nil =>
        exact ⟨[], [], rfl, ⟨rfl, rfl, by simp⟩⟩
      | cons b r2 =>
        exfalso
        have hb : k.next_ready t = some b := hp.2.1
        rw [hc.2] at hb
        have e : t = b := by simpa using hb
        rw [e] at hn
        simp at hn
  · rw [if_neg hc] at h
    cases hf : Day12.find_prev k.next_ready t fuel k.ready_thread_list with
    | error e => rw [hf] at h; simp at h
    | ok prev =>
      rw [hf] at h
      dsimp only at h
      obtain ⟨hpm, hpn⟩ := day12_find_prev_spec k.next_ready _ ring hr t fuel _ prev
        (fun a ha => day12_ring_head_mem _ _ ring hr a ha) hf
      obtain ⟨hh, hp, hn⟩ := hr
      obtain ⟨m1, m2, hsplit⟩ := List.append_of_mem hpm
      subst hsplit
      have hprev1 : prev ∉ m1 := fun hm => by
        have := List.nodup_append.1 hn
        exact this.2.2 hm (by simp)
      cases m2 with
      | cons b m3 =>
        rw [day12_path_append] at hp
        obtain ⟨m, hpa, hpb⟩ := hp
        have hm : m = some prev := hpb.1
        subst hm
        have hb : k.next_ready prev = some b := hpb.2.1
        have eb : t = b := by
          rw [hpn] at hb
          simpa using hb
        subst eb
        have hpc : Day12.Path k.next_ready (k.next_ready t) m3 k.ready_thread_list := hpb.2.2
        have hn2 : (prev :: t :: m3).Nodup := (List.nodup_append.1 hn).2.1
        have hprev3 : prev ∉ m3 := fun hm => by
          have := (List.nodup_cons.1 hn2).1
          exact this (by simp [hm])
        have htne : t ≠ prev := fun e => by
          have := (List.nodup_cons.1 hn2).1
          exact this (by simp [e])
        have hhead : k.ready_thread_list ≠ some t := by
          intro e
          rw [e] at hh
          cases m1 with
          | nil =>
            have : t = prev := by simpa using hh
            exact htne this
          | cons c m1b =>
            have : t = c := by simpa using hh
            subst this
            have := List.nodup_append.1 hn
            exact this.2.2 (List.mem_cons_self t m1b) (by simp)
        rw [if_neg hhead] at h
        have hk := Except.ok.inj h
        subst hk
        refine ⟨m1 ++ [prev], m3, by simp, ⟨?_, ?_, ?_⟩⟩
        · show k.ready_thread_list = _
          rw [hh]
          cases m1 <;> simp
        · show Day12.Path (Function.update k.next_ready prev (k.next_ready t))
            k.ready_thread_list (m1 ++ [prev] ++ m3) k.ready_thread_list
          rw [List.append_assoc, List.singleton_append, day12_path_append]
          refine ⟨some prev, ?_, ?_⟩
          · rw [day12_path_update _ _ _ _ _ _ hprev1]
            exact hpa
          · rw [day12_path_cons, day12_path_update _ _ _ _ _ _ hprev3]
            refine ⟨rfl, ?_⟩
            simpa [Function.update_apply] using hpc
        · have : (m1 ++ [prev] ++ m3).Sublist (m1 ++ prev :: t :: m3) := by
            rw [List.append_assoc]
            apply List.Sublist.append_left
            simp
          exact this.nodup hn
      | nil =>
        rw [day12_path_snoc] at hp
        obtain ⟨hpa, hpb⟩ := hp
        have hrt : k.ready_thread_list = some t := by
          rw [← hpb]
          exact hpn
        cases m1 with
        | nil =>
          exfalso
          rw [day12_path_nil] at hpa
          have : t = prev := by
            rw [hrt] at hpa
            simpa using hpa
          subst this
          exact hc ⟨hrt, hpn⟩
        | cons c m1b =>
          have ec : t = c := by
            have := hpa.1
            rw [hrt] at this
            simpa using this
          subst ec
          have htne : prev ≠ t := fun e => hprev1 (by simp [e])
          have hprev1b : prev ∉ m1b := fun hm => hprev1 (by simp [hm])
          have hpc : Day12.Path k.next_ready (k.next_ready t) m1b (some prev) := hpa.2
          rw [if_pos hrt] at h
          have hk := Except.ok.inj h
          subst hk
          refine ⟨[], m1b ++ [prev], by simp, ⟨?_, ?_, ?_⟩⟩
          · show Function.update k.next_ready prev (k.next_ready t) t = _
            rw [Function.update_noteq htne.symm, List.nil_append]
            exact day12_path_head_append _ _ _ _ hpc
          · show Day12.Path (Function.update k.next_ready prev (k.next_ready t))
              (Function.update k.next_ready prev (k.next_ready t) t) ([] ++ (m1b ++ [prev]))
              (Function.update k.next_ready prev (k.next_ready t) t)
            rw [Function.update_noteq htne.symm, List.nil_append, day12_path_snoc]
            refine ⟨?_, by simp⟩
            rw [day12_path_update _ _ _ _ _ _ hprev1b]
            exact hpc
          · have : ([] ++ (m1b ++ [prev])).Sublist (t :: m1b ++ [prev]) := by simp
            exact this.nodup hn


theorem day12_find_blocked_tail_succ (nxt : Day12.tid → Option Day12.tid) (fuel : Nat)
    (current : Day12.tid) :
    Day12.find_blocked_tail nxt (fuel + 1) current =
      match nxt current with
      | none => .ok current
      | some n => Day12.find_blocked_tail nxt fuel n := rfl

/-- The FIFO loop of `block_current_thread` stops at the last entry of the
blocked list. -/
theorem day12_find_blocked_tail (nxt : Day12.tid → Option Day12.tid) :
    ∀ (post : List Day12.tid) (c : Day12.tid) (fuel : Nat),
      Day12.Path nxt (some c) (c :: post) none → (c :: post).length ≤ fuel →
      Day12.find_blocked_tail nxt fuel c = .ok ((c :: post).getLast (by simp)) := by
  intro post
  induction post with
  | nil =>
    intro c fuel hp hf
    have hn : nxt c = none := hp.2
    cases fuel with
    | zero => simp at hf
    | succ n =>
      rw [day12_find_blocked_tail_succ, hn]
      rfl
  | cons b rest ih =>
    intro c fuel hp hf
    have hn : nxt c = some b := hp.2.1
    cases fuel with
    | zero => simp at hf
    | succ n =>
      rw [day12_find_blocked_tail_succ, hn]
      have hp2 : Day12.Path nxt (some b) (b :: rest) none := ⟨rfl, hp.2.2⟩
      have := ih b n hp2 (by simp at hf ⊢; omega)
      simp only [this, List.getLast_cons_cons]

/-- The FIFO insertion of `block_current_thread` of day 12 appends the thread
to the blocked list. -/
theorem day12_insert_fifo (fuel : Nat) (k : Day12.Kernel) (blocked : List Day12.tid)
    (t : Day12.tid) (reason : block_reason_t) (data : Nat)
    (hb : Day12.Chain k.next_blocked k.blocked_thread_list blocked) (ht : t ∉ blocked)
    (hnb : k.next_blocked t = none) (hr : reason ≠ BLOCK_REASON_TIMER)
    (hf : blocked.length ≤ fuel) :
    ∃ k2, Day12.insert_blocked fuel t reason data k = .ok k2 ∧
      Day12.Chain k2.next_blocked k2.blocked_thread_list (blocked ++ [t]) ∧
      k2.current_thread = k.current_thread ∧ k2.ready_thread_list = k.ready_thread_list ∧
      k2.next_ready = k.next_ready ∧ k2.state = k.state ∧
      k2.block_reason = k.block_reason := by
  have hhead := day12_path_to_none_head _ _ _ hb.1
  obtain ⟨hp, hn⟩ := hb
  unfold Day12.insert_blocked
  rw [if_neg hr]
  cases blocked with
  | nil =>
    have h0 : k.blocked_thread_list = none := by simpa using hhead
    rw [h0]
    refine ⟨_, rfl, ⟨?_, by simp⟩, rfl, rfl, rfl, rfl, rfl⟩
    exact ⟨rfl, hnb⟩
  | cons hd r =>
    have h0 : k.blocked_thread_list = some hd := by simpa using hhead
    rw [h0] at hp ⊢
    dsimp only
    rw [day12_find_blocked_tail k.next_blocked r hd fuel hp hf]
    dsimp only
    have hsp := List.dropLast_append_getLast (l := hd :: r) (by simp)
    have hlast_mem : (hd :: r).getLast (by simp) ∈ hd :: r := List.getLast_mem _
    generalize (hd :: r).getLast (by simp) = cur at hsp hlast_mem ⊢
    generalize (hd :: r).dropLast = pre at hsp
    have hcur_t : cur ≠ t := fun e => ht (e ▸ hlast_mem)
    rw [← hsp] at hp hn
    have hcur_pre : cur ∉ pre := fun hm => (List.nodup_append.1 hn).2.2 hm (by simp)
    rw [day12_path_snoc] at hp
    refine ⟨_, rfl, ⟨?_, ?_⟩, rfl, rfl, rfl, rfl, rfl⟩
    · show Day12.Path (Function.update k.next_blocked cur (some t)) (some hd)
        (hd :: r ++ [t]) none
      rw [← hsp, day12_path_snoc, day12_path_snoc]
      refine ⟨⟨?_, by simp⟩, ?_⟩
      · rw [day12_path_update _ _ _ _ _ _ hcur_pre]
        exact hp.1
      · rw [Function.update_noteq hcur_t.symm]
        exact hnb
    · rw [← hsp, List.nodup_append]
      refine ⟨hn, by simp, ?_⟩
      intro a ha hat
      have : a = t := by simpa using hat
      rw [hsp] at ha
      exact ht (this ▸ ha)


/-- C19: a round of `getchar_blocking` of day 12 that finds the keyboard ring
empty, called by the current thread `c`, a member of the ready ring `ring`,
with blocked list `blocked`. The statements executed are: the first
`kbuf_pop`, `cli`, the final `kbuf_pop`, and inside `block_current_thread`
`cli`, the removal from the ready ring, the stores to the thread control
block, the insertion into the blocked list and `sti`; then `sti` and the call
of `schedule`. After each statement from the first `cli` up to the insertion
the interrupt-enable flag is clear; at the insertion `c` is off the ready
ring, is the last entry of the blocked list and has state `BLOCKED` and reason
`KEYBOARD`; the first statement that sets the flag again is the `sti` that
follows the insertion. -/
theorem getchar_blocking_blocks_with_interrupts_off (fuel : Nat) (m : Day12.Machine)
    (ring blocked : List Day12.tid) (c : Day12.tid)
    (hring : Day12.Ring m.k.next_ready m.k.ready_thread_list ring)
    (hblocked : Day12.Chain m.k.next_blocked m.k.blocked_thread_list blocked)
    (hcur : m.k.current_thread = some c) (hc : c ∈ ring) (hcb : c ∉ blocked)
    (hempty : m.khead = m.ktail) (hf : Day12.MAX_THREADS ≤ fuel) :
    ∃ (tr : List (Day12.stmt × Day12.Machine)) (k4 k6 : Day12.Kernel) (l1 l2 : List Day12.tid),
      Day12.getchar_blocking_round fuel m = .ok (tr, none) ∧
      tr = [(Day12.stmt.kbuf_pop false, m), (Day12.stmt.cli, Day12.cli m),
        (Day12.stmt.kbuf_pop false, Day12.cli m), (Day12.stmt.cli, Day12.cli m),
        (Day12.stmt.remove_from_ready_list, { Day12.cli m with k := k4 }),
        (Day12.stmt.mark_blocked,
          { Day12.cli m with k := Day12.mark_blocked c BLOCK_REASON_KEYBOARD k4 }),
        (Day12.stmt.insert_blocked, { Day12.cli m with k := k6 }),
        (Day12.stmt.sti, Day12.sti { Day12.cli m with k := k6 }),
        (Day12.stmt.sti, Day12.sti { Day12.cli m with k := k6 }),
        (Day12.stmt.schedule, Day12.sti { Day12.cli m with k := k6 })] ∧
      (∀ i e, 1 ≤ i → i ≤ 6 → tr[i]? = some e → e.2.interrupts = false) ∧
      (∀ i e, 7 ≤ i → tr[i]? = some e → e.2.interrupts = true) ∧
      Day12.remove_from_ready_list fuel c m.k = .ok k4 ∧
      Day12.insert_blocked fuel c BLOCK_REASON_KEYBOARD 0
        (Day12.mark_blocked c BLOCK_REASON_KEYBOARD k4) = .ok k6 ∧
      ring = l1 ++ c :: l2 ∧
      Day12.Ring k6.next_ready k6.ready_thread_list (l1 ++ l2) ∧ c ∉ l1 ++ l2 ∧
      Day12.Chain k6.next_blocked k6.blocked_thread_list (blocked ++ [c]) ∧
      k6.state c = THREAD_BLOCKED ∧ k6.block_reason c = BLOCK_REASON_KEYBOARD := by
  have h5 : 5 ≤ fuel := hf
  have hl1 : ring.length ≤ 5 := by
    have := List.Nodup.length_le_card hring.2.2
    simpa using this
  have hl2 : blocked.length ≤ 5 := by
    have := List.Nodup.length_le_card hblocked.2
    simpa using this
  obtain ⟨k4, hrem⟩ := day12_remove_total fuel m.k ring c hring hc (by omega)
  obtain ⟨l1, l2, hsplit, hring4⟩ := day12_remove_spec fuel m.k k4 ring c hring hc hrem
  obtain ⟨f1, f2, f3, f4, f5, f6⟩ := day12_remove_frame fuel m.k k4 c hrem
  have hcnot : c ∉ l1 ++ l2 := by
    have hn := hring.2.2
    rw [hsplit] at hn
    intro hm
    rcases List.mem_append.1 hm with h | h
    · exact (List.nodup_append.1 hn).2.2 h (by simp)
    · exact (List.nodup_cons.1 (List.nodup_append.1 hn).2.1).1 h
  have hchain5 : Day12.Chain (Day12.mark_blocked c BLOCK_REASON_KEYBOARD k4).next_blocked
      (Day12.mark_blocked c BLOCK_REASON_KEYBOARD k4).blocked_thread_list blocked := by
    obtain ⟨hp, hn⟩ := hblocked
    refine ⟨?_, hn⟩
    show Day12.Path (Function.update k4.next_blocked c none) k4.blocked_thread_list blocked none
    rw [day12_path_update _ _ _ _ _ _ hcb, f2, f6]
    exact hp
  obtain ⟨k6, hins, hchain6, g1, g2, g3, g4, g5⟩ := day12_insert_fifo fuel
    (Day12.mark_blocked c BLOCK_REASON_KEYBOARD k4) blocked c BLOCK_REASON_KEYBOARD 0 hchain5
    hcb (by simp [Day12.mark_blocked]) (by decide) (by omega)
  have hpop1 : Day12.kbuf_pop m = (none, m) := by
    simp [Day12.kbuf_pop, hempty]
  have hpop2 : Day12.kbuf_pop (Day12.cli m) = (none, Day12.cli m) := by
    have : (Day12.cli m).khead = (Day12.cli m).ktail := hempty
    simp [Day12.kbuf_pop, this]
  have hblock : Day12.block_current_thread fuel BLOCK_REASON_KEYBOARD 0 (Day12.cli m)
      = .ok ([(Day12.stmt.cli, Day12.cli m),
          (Day12.stmt.remove_from_ready_list, { Day12.cli m with k := k4 }),
          (Day12.stmt.mark_blocked,
            { Day12.cli m with k := Day12.mark_blocked c BLOCK_REASON_KEYBOARD k4 }),
          (Day12.stmt.insert_blocked, { Day12.cli m with k := k6 }),
          (Day12.stmt.sti, Day12.sti { Day12.cli m with k := k6 })],
          Day12.sti { Day12.cli m with k := k6 }) := by
    unfold Day12.block_current_thread
    have e1 : (Day12.cli (Day12.cli m)).k.current_thread = some c := hcur
    have e2 : Day12.remove_from_ready_list fuel c (Day12.cli (Day12.cli m)).k = .ok k4 := hrem
    simp only [e1, e2]
    have e3 : Day12.insert_blocked fuel c BLOCK_REASON_KEYBOARD 0
        (Day12.mark_blocked c BLOCK_REASON_KEYBOARD k4) = .ok k6 := hins
    simp only [e3]
    rfl
  refine ⟨_, k4, k6, l1, l2, ?_, rfl, ?_, ?_, hrem, hins, hsplit, ?_, hcnot, hchain6, ?_, ?_⟩
  · unfold Day12.getchar_blocking_round
    simp only [hpop1, hpop2, hblock]
    rfl
  · intro i e h1 h6 he
    have : i = 1 ∨ i = 2 ∨ i = 3 ∨ i = 4 ∨ i = 5 ∨ i = 6 := by omega
    rcases this with h | h | h | h | h | h <;> subst h <;>
      simp only [List.getElem?_cons_succ, List.getElem?_cons_zero, Option.some.injEq] at he <;>
      subst he <;> rfl
  · intro i e h7 he
    have : i = 7 ∨ i = 8 ∨ i = 9 ∨ 10 ≤ i := by omega
    rcases this with h | h | h | h
    · subst h
      simp only [List.getElem?_cons_succ, List.getElem?_cons_zero, Option.some.injEq] at he
      subst he
      rfl
    · subst h
      simp only [List.getElem?_cons_succ, List.getElem?_cons_zero, Option.some.injEq] at he
      subst he
      rfl
    · subst h
      simp only [List.getElem?_cons_succ, List.getElem?_cons_zero, Option.some.injEq] at he
      subst he
      rfl
    · rw [List.getElem?_eq_none (by simpa using h)] at he
      exact absurd he (by simp)
  · rw [g2, g3]
    show Day12.Ring k4.next_ready k4.ready_thread_list (l1 ++ l2)
    exact hring4
  · rw [g4]
    simp [Day12.mark_blocked]
  · rw [g5]
    simp [Day12.mark_blocked]

/-- Thread 0 of two calls `getchar_blocking` with no key in the ring. -/
theorem getchar_blocking_blocks_with_interrupts_off_witness :
    Day12.Ring Day12.two_ready.k.next_ready Day12.two_ready.k.ready_thread_list [0, 1] ∧
    Day12.Chain Day12.two_ready.k.next_blocked Day12.two_ready.k.blocked_thread_list [] ∧
    ∃ (tr : List (Day12.stmt × Day12.Machine)) (k4 k6 : Day12.Kernel) (l1 l2 : List Day12.tid),
      Day12.getchar_blocking_round 8 Day12.two_ready = .ok (tr, none) ∧
      tr = [(Day12.stmt.kbuf_pop false, Day12.two_ready),
        (Day12.stmt.cli, Day12.cli Day12.two_ready),
        (Day12.stmt.kbuf_pop false, Day12.cli Day12.two_ready),
        (Day12.stmt.cli, Day12.cli Day12.two_ready),
        (Day12.stmt.remove_from_ready_list, { Day12.cli Day12.two_ready with k := k4 }),
        (Day12.stmt.mark_blocked,
          { Day12.cli Day12.two_ready with
            k := Day12.mark_blocked 0 BLOCK_REASON_KEYBOARD k4 }),
        (Day12.stmt.insert_blocked, { Day12.cli Day12.two_ready with k := k6 }),
        (Day12.stmt.sti, Day12.sti { Day12.cli Day12.two_ready with k := k6 }),
        (Day12.stmt.sti, Day12.sti { Day12.cli Day12.two_ready with k := k6 }),
        (Day12.stmt.schedule, Day12.sti { Day12.cli Day12.two_ready with k := k6 })] ∧
      (∀ i e, 1 ≤ i → i ≤ 6 → tr[i]? = some e → e.2.interrupts = false) ∧
      (∀ i e, 7 ≤ i → tr[i]? = some e → e.2.interrupts = true) ∧
      Day12.remove_from_ready_list 8 0 Day12.two_ready.k = .ok k4 ∧
      Day12.insert_blocked 8 0 BLOCK_REASON_KEYBOARD 0
        (Day12.mark_blocked 0 BLOCK_REASON_KEYBOARD k4) = .ok k6 ∧
      [0, 1] = l1 ++ (0 : Day12.tid) :: l2 ∧
      Day12.Ring k6.next_ready k6.ready_thread_list (l1 ++ l2) ∧ (0 : Day12.tid) ∉ l1 ++ l2 ∧
      Day12.Chain k6.next_blocked k6.blocked_thread_list ([] ++ [0]) ∧
      k6.state 0 = THREAD_BLOCKED ∧ k6.block_reason 0 = BLOCK_REASON_KEYBOARD :=
  ⟨⟨rfl, ⟨rfl, rfl, rfl⟩, by decide⟩, ⟨rfl, by decide⟩,
    getchar_blocking_blocks_with_interrupts_off 8 Day12.two_ready [0, 1] [] 0
      ⟨rfl, ⟨rfl, rfl, rfl⟩, by decide⟩ ⟨rfl, by decide⟩ rfl (by decide) (by decide) rfl
      (by decide)⟩

end MiniOS
